import Mathlib

/-!
# RiveQtPath: overlap resolution, flattening, stroking and the mesh caches

A shallow embedding of `src/RiveQtQuickItem/riveqtpath.cpp` and of the inline members of
`riveqtpath.h`.

Modelling conventions.

* `QVector2D` coordinates (`float`) and `qreal`/`double` values are rationals and the
  arithmetic of the main definitions is exact; the literals `0.001`, `0.001f`, `0.01f`
  denote their decimal values and `std::numeric_limits<float>::epsilon()` is `2⁻²³`.
* The overlap test and the point-in-polygon test compare a `float` result with a threshold
  that rounding can cross. The section on binary32 repeats `Det2D`, `crossProduct`,
  `doTrianglesOverlap` and `isInsidePolygon` in the namespace `Binary32` with every `float`
  operation rounded to the nearest `float` (ties to even, one operation at a time, no
  overflow); the theorems on rounding are stated on these.
* `QVector<T>` is `List T`; `QVector::at` / `operator[]` is `QVector.at` (the callers stay in
  range on lists of triangles), `std::set<size_t>` is a strictly ascending list.
* `Q_ASSERT` is a no-op, as in a release build.
* The two Qt routines whose results are not determined by the repository are parameters:
  `normalized` is `QVector2D::normalized`, `qTriangulate` is the polygon triangulator of
  `qtriangulator_p.h`.
* A `QPainterPath` is its element list and its fill rule. Its mutators (`QPainterPathOps`),
  the triangulator of a whole path (`qTriangulatePath`) and the C math library (`LibM`) are
  parameters as well; a member function maps the data members before the call to the data
  members after it.
* `concaveHull` recurses without a bound in the source; the embedding takes a bound on the
  number of calls and answers `none` when it is used up.
-/

/-- Qt's two-component vector, with exact coordinates. -/
structure QVector2D where
  x : ℚ
  y : ℚ
deriving DecidableEq, Repr

namespace QVector2D

instance : Inhabited QVector2D := ⟨⟨0, 0⟩⟩

/-- Componentwise difference (`operator-`). -/
def sub (a b : QVector2D) : QVector2D := ⟨a.x - b.x, a.y - b.y⟩

instance : Sub QVector2D := ⟨sub⟩

/-- The squared length (`QVector2D::lengthSquared`). -/
def lengthSquared (v : QVector2D) : ℚ := v.x * v.x + v.y * v.y

end QVector2D

/-- Read access into a `QVector` (`at`, `operator[]`). -/
def QVector.at {α : Type} [Inhabited α] (v : List α) (i : Nat) : α := v.getD i default

abbrev TriPoint := QVector2D

/-- A C array `TriPoint[3]`. -/
structure Tri where
  p0 : TriPoint
  p1 : TriPoint
  p2 : TriPoint
deriving DecidableEq, Repr

/-- Element `i` of a `TriPoint[3]`. -/
def Tri.get (t : Tri) (i : Nat) : TriPoint :=
  match i with
  | 0 => t.p0
  | 1 => t.p1
  | _ => t.p2

/-- Twice the signed area of `p1 p2 p3`; positive when counter-clockwise. Computed without
rounding; `Binary32.Det2D` is the value in `float` operations. -/
def Det2D (p1 p2 p3 : TriPoint) : ℚ :=
  p1.x * (p2.y - p3.y) + p2.x * (p3.y - p1.y) + p3.x * (p1.y - p2.y)

/-- Swaps the last two corners of a clockwise triangle (the source does it in place). -/
def CheckTriWinding (t : Tri) : Tri :=
  let detTri := Det2D t.p0 t.p1 t.p2
  if detTri < 0 then ⟨t.p0, t.p2, t.p1⟩ else t

def BoundaryCollideChk (p1 p2 p3 : TriPoint) (eps : ℚ) : Bool :=
  decide (Det2D p1 p2 p3 < eps)

def BoundaryDoesntCollideChk (p1 p2 p3 : TriPoint) (eps : ℚ) : Bool :=
  decide (Det2D p1 p2 p3 ≤ eps)

/-- The edge test of `TriTri2D`: some edge `i`, `(i + 1) % 3` of `s` has all three corners
of `o` on its outer side. -/
def TriTri2D.edgeLoop (chkEdge : TriPoint → TriPoint → TriPoint → ℚ → Bool) (s o : Tri)
    (eps : ℚ) : Bool :=
  (List.range 3).any fun i =>
    let j := (i + 1) % 3
    chkEdge (s.get i) (s.get j) (o.get 0) eps && chkEdge (s.get i) (s.get j) (o.get 1) eps
      && chkEdge (s.get i) (s.get j) (o.get 2) eps

/-- Triangle-triangle collision by edge separation. -/
def TriTri2D (t1 t2 : Tri) (eps : ℚ) (onBoundary : Bool) : Bool :=
  let t1 := CheckTriWinding t1
  let t2 := CheckTriWinding t2
  let chkEdge := if onBoundary then BoundaryCollideChk else BoundaryDoesntCollideChk
  if TriTri2D.edgeLoop chkEdge t1 t2 eps then false
  else if TriTri2D.edgeLoop chkEdge t2 t1 eps then false
  else true

namespace RiveQtPath

def doTrianglesOverlap (p1 p2 p3 p4 p5 p6 : QVector2D) : Bool :=
  TriTri2D ⟨p1, p2, p3⟩ ⟨p4, p5, p6⟩ 0.001 false

/-- The inner loop of `findOverlappingTriangles`: `j` runs from its start value in steps of 3
while `j < size`; the first argument bounds the number of iterations. -/
def findOverlappingTriangles.inner (t : List QVector2D) (i : Nat) :
    Nat → Nat → List (Nat × Nat) → List (Nat × Nat)
  | 0, _, result => result
  | n + 1, j, result =>
    if j < t.length then
      if !doTrianglesOverlap (QVector.at t i) (QVector.at t (i + 1)) (QVector.at t (i + 2))
          (QVector.at t j) (QVector.at t (j + 1)) (QVector.at t (j + 2)) then
        findOverlappingTriangles.inner t i n (j + 3) result
      else
        findOverlappingTriangles.inner t i n (j + 3) (result ++ [(i / 3, j / 3)])
    else result

/-- The outer loop of `findOverlappingTriangles`: `i` runs from its start value in steps of 3
while `i < size - 3`. -/
def findOverlappingTriangles.outer (t : List QVector2D) :
    Nat → Nat → List (Nat × Nat) → List (Nat × Nat)
  | 0, _, result => result
  | n + 1, i, result =>
    if i < t.length - 3 then
      findOverlappingTriangles.outer t n (i + 3)
        (findOverlappingTriangles.inner t i t.length (i + 3) result)
    else result

def findOverlappingTriangles (trianglePoints : List QVector2D) : List (Nat × Nat) :=
  if trianglePoints.length < 6 then []
  else findOverlappingTriangles.outer trianglePoints trianglePoints.length 0 []

/-- The quotient-free line-line intersection; no value when the lines are (nearly)
parallel. -/
def calculateIntersection (p1 p2 p3 p4 : QVector2D) : Option QVector2D :=
  let x1 := p1.x
  let y1 := p1.y
  let x2 := p2.x
  let y2 := p2.y
  let x3 := p3.x
  let y3 := p3.y
  let x4 := p4.x
  let y4 := p4.y
  let denominator := (x1 - x2) * (y3 - y4) - (y1 - y2) * (x3 - x4)
  if |denominator| < 0.01 then none
  else
    let factor1 := x1 * y2 - y1 * x2
    let factor2 := x3 * y4 - y3 * x4
    let intersectX := (factor1 * (x3 - x4) - (x1 - x2) * factor2) / denominator
    let intersectY := (factor1 * (y3 - y4) - (y1 - y2) * factor2) / denominator
    some ⟨intersectX, intersectY⟩

/-- The value of `std::numeric_limits<float>::epsilon()`. -/
def floatEpsilon : ℚ := 1 / 8388608

/-- The lambda `areCollinear` of `calculateLineIntersection`. -/
def calculateLineIntersection.areCollinear (p1 p2 p3 : QVector2D) : Bool :=
  decide (|(p2.x - p1.x) * (p3.y - p1.y) - (p2.y - p1.y) * (p3.x - p1.x)| < floatEpsilon)

def calculateLineIntersection (p1 p2 p3 p4 : QVector2D) : Option QVector2D :=
  if calculateLineIntersection.areCollinear p1 p2 p3
      || calculateLineIntersection.areCollinear p1 p2 p4
      || calculateLineIntersection.areCollinear p3 p4 p1
      || calculateLineIntersection.areCollinear p3 p4 p2 then none
  else
    match calculateIntersection p1 p2 p3 p4 with
    | none => none
    | some intersection =>
      let x := intersection.x
      let y := intersection.y
      if min p1.x p2.x ≤ x ∧ x ≤ max p1.x p2.x ∧ min p1.y p2.y ≤ y ∧ y ≤ max p1.y p2.y
          ∧ min p3.x p4.x ≤ x ∧ x ≤ max p3.x p4.x ∧ min p3.y p4.y ≤ y ∧ y ≤ max p3.y p4.y then
        some ⟨x, y⟩
      else none

def crossProduct (v1 v2 : QVector2D) : ℚ := v1.x * v2.y - v1.y * v2.x

/-- Qt's `qFuzzyCompare(double, double)`:
`qAbs(p1 - p2) * 1000000000000. <= qMin(qAbs(p1), qAbs(p2))`. -/
def qFuzzyCompare (p1 p2 : ℚ) : Bool :=
  decide (|p1 - p2| * 1000000000000 ≤ min |p1| |p2|)

/-- The loop of `isInsidePolygon` over the edges `i`, `(i + 1) % n`, from edge `i` on with
`intersectCount` crossings counted so far; the first argument bounds the iterations. -/
def isInsidePolygon.loop (polygon : List QVector2D) (p : QVector2D) : Nat → Nat → Nat → Bool
  | 0, _, intersectCount => intersectCount % 2 == 1
  | k + 1, i, intersectCount =>
    let n := polygon.length
    if i < n then
      let j := (i + 1) % n
      let edgeVector := QVector.at polygon j - QVector.at polygon i
      let pointVector := p - QVector.at polygon i
      let cp := crossProduct edgeVector pointVector
      if qFuzzyCompare cp 0 && decide (pointVector.lengthSquared ≤ edgeVector.lengthSquared) then
        false
      else if (decide ((QVector.at polygon i).y > p.y) != decide ((QVector.at polygon j).y > p.y))
          && decide (p.x < ((QVector.at polygon j).x - (QVector.at polygon i).x)
              * (p.y - (QVector.at polygon i).y)
              / ((QVector.at polygon j).y - (QVector.at polygon i).y)
            + (QVector.at polygon i).x) then
        isInsidePolygon.loop polygon p k (i + 1) (intersectCount + 1)
      else
        isInsidePolygon.loop polygon p k (i + 1) intersectCount
    else intersectCount % 2 == 1

/-- Even-odd ray crossing; a point found on an edge counts as outside. Computed without
rounding; `Binary32.isInsidePolygon` is the test in `float` operations. -/
def isInsidePolygon (polygon : List QVector2D) (p : QVector2D) : Bool :=
  isInsidePolygon.loop polygon p polygon.length 0 0

/-- The lambda `angle` of `concaveHull`: the sine of the turn at `p2`. -/
def concaveHull.angle (normalized : QVector2D → QVector2D) (p1 p2 p3 : QVector2D) : ℚ :=
  let v1 := normalized (p2 - p1)
  let v2 := normalized (p3 - p2)
  v1.x * v2.y - v2.x * v1.y

/-- The lambda `orientation` of `concaveHull` (used by its entry assertions only). -/
def concaveHull.orientation (p1 p2 p3 : QVector2D) : Nat :=
  let val := (p2.y - p1.y) * (p3.x - p2.x) - (p2.x - p1.x) * (p3.y - p2.y)
  if |val| < 0.001 then 0
  else if val > 0 then 1
  else 2

/-- The intersections of the edges of `t2` with the segment `current next`, in edge order. -/
def concaveHull.intersections (t2 : List QVector2D) (current next : QVector2D) :
    List QVector2D :=
  (List.range t2.length).filterMap fun j =>
    calculateLineIntersection (QVector.at t2 j) (QVector.at t2 ((j + 1) % t2.length))
      current next

/-- The search for the corner of `t2` outside `t1` with the smallest `angle`; the state is
`(minAngleIt, minAngle)`, where `none` stands for the initial `+infinity`. -/
def concaveHull.minAngleLoop (normalized : QVector2D → QVector2D) (t1 t2 : List QVector2D)
    (current next : QVector2D) : Int × Option ℚ :=
  (List.range t2.length).foldl
    (fun st i =>
      let p := QVector.at t2 i
      if isInsidePolygon t1 p then st
      else
        let a := concaveHull.angle normalized current next p
        match st.2 with
        | none => ((i : Int), some a)
        | some minAngle => if a < minAngle then ((i : Int), some a) else st)
    (-1, none)

/-- The directed hull walk. The source returns through its reference parameter `result`;
here the final `result` is the value, and `none` means that the bound on the number of calls
(first argument) was reached. -/
def concaveHull (normalized : QVector2D → QVector2D) :
    Nat → List QVector2D → List QVector2D → List QVector2D → Nat → Option (List QVector2D)
  | 0, _, _, _, _ => none
  | fuel + 1, t1, t2, result, i =>
    let i := i % t1.length
    let current := QVector.at t1 i
    if isInsidePolygon t2 current then
      if i + 1 = t1.length ∧ result.isEmpty then concaveHull normalized fuel t2 t1 result 0
      else concaveHull normalized fuel t1 t2 result (i + 1)
    else if !result.isEmpty && decide (|(QVector.at result 0).x - current.x| < 0.001)
        && decide (|(QVector.at result 0).y - current.y| < 0.001) then
      some result
    else
      let result := result ++ [current]
      let next := QVector.at t1 ((i + 1) % t1.length)
      let intersections := concaveHull.intersections t2 current next
      let clip : Option QVector2D :=
        if intersections.length = 2 then
          let d := QVector.at result (result.length - 1) - QVector.at intersections 0
          let d1 := d.x * d.x + d.y * d.y
          let d := QVector.at result (result.length - 1) - QVector.at intersections 1
          let d2 := d.x * d.x + d.y * d.y
          if d1 < d2 then some (QVector.at intersections 0) else some (QVector.at intersections 1)
        else if intersections.length = 1 then some (QVector.at intersections 0)
        else none
      match clip with
      | none => concaveHull normalized fuel t1 t2 result (i + 1)
      | some next =>
        if result.contains next then some result
        else
          let result := result ++ [next]
          let minAngleIt := (concaveHull.minAngleLoop normalized t1 t2 current next).1
          if minAngleIt = -1 then some result
          else concaveHull normalized fuel t2 t1 result minAngleIt.toNat

/-- Insertion into a `std::set<size_t>`. -/
def StdSet.insert (a : Nat) : List Nat → List Nat
  | [] => [a]
  | b :: s => if a < b then a :: b :: s else if a = b then b :: s else b :: StdSet.insert a s

/-- One pass over the overlapping pairs that grows `cluster` and records the absorbed
indices in `overlappingTrianglesIndizes`. -/
def removeOverlappingTriangles.absorb (overlappingTriangles : List (Nat × Nat))
    (cluster overlappingTrianglesIndizes : List Nat) : List Nat × List Nat :=
  overlappingTriangles.foldl
    (fun st p =>
      if st.1.contains p.1 || st.1.contains p.2 then
        (StdSet.insert p.2 (StdSet.insert p.1 st.1), StdSet.insert p.2 (StdSet.insert p.1 st.2))
      else st)
    (cluster, overlappingTrianglesIndizes)

/-- The clustering `while` loop; the state is the remaining pairs, the clusters and the
index set. The first argument bounds the iterations (each one erases at least its seed
pair). -/
def removeOverlappingTriangles.clusterLoop :
    Nat → List (Nat × Nat) → List (List Nat) → List Nat → List (List Nat) × List Nat
  | 0, _, clusters, overlappingTrianglesIndizes => (clusters, overlappingTrianglesIndizes)
  | _ + 1, [], clusters, overlappingTrianglesIndizes => (clusters, overlappingTrianglesIndizes)
  | n + 1, p0 :: rest, clusters, overlappingTrianglesIndizes =>
    let st := removeOverlappingTriangles.absorb (p0 :: rest)
      (StdSet.insert p0.2 (StdSet.insert p0.1 [])) overlappingTrianglesIndizes
    let cluster := st.1
    removeOverlappingTriangles.clusterLoop n
      ((p0 :: rest).filter fun e => !(cluster.contains e.1 || cluster.contains e.2))
      (clusters ++ [cluster]) st.2

/-- Triangle number `val` of the list, with its winding fixed. -/
def removeOverlappingTriangles.triangleAt (triangles : List QVector2D) (val : Nat) :
    List QVector2D :=
  let t := CheckTriWinding
    ⟨QVector.at triangles (val * 3), QVector.at triangles (val * 3 + 1),
      QVector.at triangles (val * 3 + 2)⟩
  [t.p0, t.p1, t.p2]

/-- The polygon of one cluster: its first triangle merged with each further member, in
ascending index order. -/
def removeOverlappingTriangles.clusterHull (normalized : QVector2D → QVector2D) (fuel : Nat)
    (triangles : List QVector2D) (cluster : List Nat) : Option (List QVector2D) :=
  cluster.tail.foldlM
    (fun poly val =>
      concaveHull normalized fuel poly (removeOverlappingTriangles.triangleAt triangles val) [] 0)
    (removeOverlappingTriangles.triangleAt triangles (cluster.headD 0))

/-- The result of Qt's triangulator: a vertex buffer and an index buffer over it. -/
structure QTriangleSet where
  vertices : List ℚ
  indices : List Nat

/-- The triangles obtained for the polygon `result` of one cluster: the closed coordinate
buffer goes to the triangulator and its index buffer is unpacked. -/
def removeOverlappingTriangles.retriangulate (qTriangulate : List ℚ → QTriangleSet)
    (result : List QVector2D) : List QVector2D :=
  let polygon := result.foldl (fun polygon p => polygon ++ [p.x, p.y]) []
  let polygon := polygon ++ [(QVector.at result 0).x, (QVector.at result 0).y]
  let triangleList := qTriangulate polygon
  triangleList.indices.map fun index =>
    ⟨QVector.at triangleList.vertices (2 * index), QVector.at triangleList.vertices (2 * index + 1)⟩

/-- The final loop: the triangles whose index is not in the index set are appended in
order; `i` runs in steps of 3 while `i < size`. -/
def removeOverlappingTriangles.passThrough (triangles : List QVector2D)
    (overlappingTrianglesIndizes : List Nat) : Nat → Nat → List QVector2D → List QVector2D
  | 0, _, nonOverlappingTriangles => nonOverlappingTriangles
  | n + 1, i, nonOverlappingTriangles =>
    if i < triangles.length then
      if overlappingTrianglesIndizes.contains (i / 3) then
        removeOverlappingTriangles.passThrough triangles overlappingTrianglesIndizes n (i + 3)
          nonOverlappingTriangles
      else
        removeOverlappingTriangles.passThrough triangles overlappingTrianglesIndizes n (i + 3)
          (nonOverlappingTriangles
            ++ [QVector.at triangles i, QVector.at triangles (i + 1), QVector.at triangles (i + 2)])
    else nonOverlappingTriangles

/-- The new value of `triangles`; `none` when a hull walk does not return within `fuel`
calls. -/
def removeOverlappingTriangles (qTriangulate : List ℚ → QTriangleSet)
    (normalized : QVector2D → QVector2D) (fuel : Nat) (triangles : List QVector2D) :
    Option (List QVector2D) :=
  let overlappingTriangles := findOverlappingTriangles triangles
  if overlappingTriangles.isEmpty then some triangles
  else
    let st := removeOverlappingTriangles.clusterLoop overlappingTriangles.length
      overlappingTriangles [] []
    let clusters := st.1
    let overlappingTrianglesIndizes := st.2
    match clusters.foldlM
        (fun nonOverlappingTriangles cluster =>
          (removeOverlappingTriangles.clusterHull normalized fuel triangles cluster).map
            fun result =>
              nonOverlappingTriangles
                ++ removeOverlappingTriangles.retriangulate qTriangulate result)
        [] with
    | none => none
    | some nonOverlappingTriangles =>
      some (removeOverlappingTriangles.passThrough triangles overlappingTrianglesIndizes
        triangles.length 0 nonOverlappingTriangles)

end RiveQtPath

/-! ## Path flattening, stroking and the cached meshes -/

namespace QVector2D

/-- Componentwise sum (`operator+`). -/
def add (a b : QVector2D) : QVector2D := ⟨a.x + b.x, a.y + b.y⟩

instance : Add QVector2D := ⟨add⟩

/-- Negation (unary `operator-`). -/
def neg (a : QVector2D) : QVector2D := ⟨-a.x, -a.y⟩

instance : Neg QVector2D := ⟨neg⟩

/-- Multiplication by a factor (`operator*`). -/
def mul (a : QVector2D) (f : ℚ) : QVector2D := ⟨a.x * f, a.y * f⟩

/-- Division by a divisor (`operator/`). -/
def div (a : QVector2D) (f : ℚ) : QVector2D := ⟨a.x / f, a.y / f⟩

/-- Qt's `QVector2D::isNull`: both coordinates are zero. -/
def isNull (a : QVector2D) : Bool := decide (a.x = 0) && decide (a.y = 0)

end QVector2D

/-- The element kinds of a `QPainterPath`. -/
inductive ElementType where
  | MoveToElement
  | LineToElement
  | CurveToElement
  | CurveToDataElement
deriving DecidableEq, Repr

/-- A `QPainterPath::Element`. -/
structure Element where
  x : ℚ
  y : ℚ
  type : ElementType
deriving DecidableEq, Repr

instance : Inhabited Element := ⟨⟨0, 0, ElementType.MoveToElement⟩⟩

/-- The fill rules of Qt. -/
inductive QtFillRule where
  | OddEvenFill
  | WindingFill
deriving DecidableEq, Repr

/-- A `QPainterPath`, as far as the repository reads it: its elements and its fill rule. -/
structure QPainterPath where
  elements : List Element
  fillRule : QtFillRule
deriving DecidableEq, Repr

namespace QPainterPath

def elementCount (p : QPainterPath) : Nat := p.elements.length

def elementAt (p : QPainterPath) (i : Nat) : Element := QVector.at p.elements i

/-- Qt's `QPainterPath::isEmpty`: there are no elements, or the only element is a
`MoveToElement`. -/
def isEmpty (p : QPainterPath) : Bool :=
  match p.elements with
  | [] => true
  | [e] => decide (e.type = ElementType.MoveToElement)
  | _ => false

end QPainterPath

/-- A `QTransform` built from six numbers. -/
structure QTransform where
  m11 : ℚ
  m12 : ℚ
  m21 : ℚ
  m22 : ℚ
  dx : ℚ
  dy : ℚ

/-- The mutators of `QPainterPath` that the repository calls; what they do to the element
list is Qt's business, so they are parameters. -/
structure QPainterPathOps where
  moveTo : QPainterPath → ℚ → ℚ → QPainterPath
  lineTo : QPainterPath → ℚ → ℚ → QPainterPath
  quadTo : QPainterPath → ℚ → ℚ → ℚ → ℚ → QPainterPath
  cubicTo : QPainterPath → ℚ → ℚ → ℚ → ℚ → ℚ → ℚ → QPainterPath
  closeSubpath : QPainterPath → QPainterPath
  clear : QPainterPath → QPainterPath
  setFillRule : QPainterPath → QtFillRule → QPainterPath
  addPath : QPainterPath → QPainterPath → QPainterPath
  transformed : QPainterPath → QTransform → QPainterPath

/-- The functions of the C math library used by the stroke generator, and `M_PI`. -/
structure LibM where
  M_PI : ℚ
  cos : ℚ → ℚ
  sin : ℚ → ℚ
  acos : ℚ → ℚ

/-- The join styles of `Qt::PenJoinStyle`. -/
inductive PenJoinStyle where
  | MiterJoin
  | BevelJoin
  | RoundJoin
  | SvgMiterJoin
  | MPenJoinStyle
deriving DecidableEq, Repr

/-- The cap styles of `Qt::PenCapStyle`. -/
inductive PenCapStyle where
  | FlatCap
  | SquareCap
  | RoundCap
  | MPenCapStyle
deriving DecidableEq, Repr

/-- A `QPen`, as far as the stroke generator reads it. -/
structure QPen where
  widthF : ℚ
  joinStyle : PenJoinStyle
  capStyle : PenCapStyle
deriving DecidableEq, Repr

/-- The path verbs of `rive::PathVerb`; `other` is any value outside the handled ones. -/
inductive PathVerb where
  | move
  | line
  | quad
  | cubic
  | close
  | other
deriving DecidableEq, Repr

/-- The fill rules of `rive::FillRule`. -/
inductive RiveFillRule where
  | nonZero
  | evenOdd
deriving DecidableEq, Repr

/-- The record `RiveQtPath::PathDataPoint`. -/
structure PathDataPoint where
  point : QVector2D
  tangent : QVector2D
  stepIndex : Nat
deriving DecidableEq, Repr

instance : Inhabited PathDataPoint := ⟨⟨default, default, 0⟩⟩

/-- The data members of a `RiveQtPath`. -/
structure RiveQtPath where
  m_qPainterPath : QPainterPath
  m_pathSegmentsOutlineData : List (List PathDataPoint)
  m_pathVertices : List (List QVector2D)
  m_pathOutlineVertices : List (List QVector2D)
  m_pathSegmentDataDirty : Bool
  m_pathSegmentOutlineDataDirty : Bool
  m_segmentCount : Nat
deriving DecidableEq

/-- The default-constructed `QPainterPath`. -/
def QPainterPath.defaultConstructed : QPainterPath := ⟨[], QtFillRule.OddEvenFill⟩

/-- Modelled from the spec: `RiveQtUtils::riveFillRuleToQt` (riveqtutils.h is not among the
sources); the fill rule is `nonZero` or `evenOdd`, mapped as `RiveQtPath::fillRule` maps
it. -/
def RiveQtUtils.riveFillRuleToQt (fillRule : RiveFillRule) : QtFillRule :=
  match fillRule with
  | RiveFillRule.evenOdd => QtFillRule.OddEvenFill
  | RiveFillRule.nonZero => QtFillRule.WindingFill

/-- The free function `cubicBezierTangent`. -/
def cubicBezierTangent (normalized : QVector2D → QVector2D) (p0 p1 p2 p3 : QVector2D)
    (t : ℚ) : QVector2D :=
  let r := QVector2D.add
    (QVector2D.add ((p1 - p0).mul (3 * (1 - t) * (1 - t))) ((p2 - p1).mul (6 * (1 - t) * t)))
    ((p3 - p2).mul (3 * t * t))
  normalized ⟨r.x, r.y⟩

namespace RiveQtPath

/-- The data members after `setSegmentCount`. -/
def setSegmentCount (s : RiveQtPath) (segmentCount : Nat) : RiveQtPath :=
  if segmentCount = 0 then { s with m_segmentCount := 1 }
  else if segmentCount > 100 then { s with m_segmentCount := 100 }
  else { s with m_segmentCount := segmentCount }

/-- The members before the body of a constructor runs: default-constructed containers, the
default member initializers for the flags and the segment count. -/
def initial : RiveQtPath :=
  { m_qPainterPath := QPainterPath.defaultConstructed
    m_pathSegmentsOutlineData := []
    m_pathVertices := []
    m_pathOutlineVertices := []
    m_pathSegmentDataDirty := true
    m_pathSegmentOutlineDataDirty := true
    m_segmentCount := 10 }

/-- The constructor `RiveQtPath(const unsigned segmentCount)`. -/
def new (ops : QPainterPathOps) (segmentCount : Nat) : RiveQtPath :=
  let s := { initial with
    m_qPainterPath := ops.setFillRule initial.m_qPainterPath QtFillRule.WindingFill }
  let s := setSegmentCount s segmentCount
  { s with m_pathSegmentOutlineDataDirty := true, m_pathSegmentDataDirty := true }

/-- The copy constructor: five members are copied, the flags keep their initializers. -/
def copy (other : RiveQtPath) : RiveQtPath :=
  { initial with
    m_qPainterPath := other.m_qPainterPath
    m_pathVertices := other.m_pathVertices
    m_pathSegmentsOutlineData := other.m_pathSegmentsOutlineData
    m_pathOutlineVertices := other.m_pathOutlineVertices
    m_segmentCount := other.m_segmentCount }

/-- One step of the constructor from a `rive::RawPath`: the verb with its points. -/
def fromRawPath.step (ops : QPainterPathOps) (path : QPainterPath)
    (vp : PathVerb × List QVector2D) : QPainterPath :=
  let pts := vp.2
  match vp.1 with
  | PathVerb.move => ops.moveTo path (QVector.at pts 0).x (QVector.at pts 0).y
  | PathVerb.line => ops.lineTo path (QVector.at pts 0).x (QVector.at pts 0).y
  | PathVerb.quad =>
    ops.quadTo path (QVector.at pts 0).x (QVector.at pts 0).y (QVector.at pts 1).x
      (QVector.at pts 1).y
  | PathVerb.cubic =>
    ops.cubicTo path (QVector.at pts 0).x (QVector.at pts 0).y (QVector.at pts 1).x
      (QVector.at pts 1).y (QVector.at pts 2).x (QVector.at pts 2).y
  | PathVerb.close =>
    ops.closeSubpath (ops.lineTo path (QVector.at pts 0).x (QVector.at pts 0).y)
  | PathVerb.other => path

/-- The constructor from a `rive::RawPath`, a fill rule and a segment count. -/
def fromRawPath (ops : QPainterPathOps) (rawPath : List (PathVerb × List QVector2D))
    (fillRule : RiveFillRule) (segmentCount : Nat) : RiveQtPath :=
  let path := ops.clear initial.m_qPainterPath
  let path := ops.setFillRule path (RiveQtUtils.riveFillRuleToQt fillRule)
  let s := setSegmentCount { initial with m_qPainterPath := path } segmentCount
  { s with
    m_qPainterPath := rawPath.foldl (fromRawPath.step ops) s.m_qPainterPath
    m_pathSegmentOutlineDataDirty := true
    m_pathSegmentDataDirty := true }

def rewind (ops : QPainterPathOps) (s : RiveQtPath) : RiveQtPath :=
  { s with
    m_pathVertices := []
    m_pathSegmentsOutlineData := []
    m_qPainterPath := ops.clear s.m_qPainterPath
    m_pathSegmentOutlineDataDirty := true
    m_pathSegmentDataDirty := true }

def moveTo (ops : QPainterPathOps) (s : RiveQtPath) (x y : ℚ) : RiveQtPath :=
  { s with m_qPainterPath := ops.moveTo s.m_qPainterPath x y }

def lineTo (ops : QPainterPathOps) (s : RiveQtPath) (x y : ℚ) : RiveQtPath :=
  { s with m_qPainterPath := ops.lineTo s.m_qPainterPath x y }

def cubicTo (ops : QPainterPathOps) (s : RiveQtPath) (ox oy ix iy x y : ℚ) : RiveQtPath :=
  { s with m_qPainterPath := ops.cubicTo s.m_qPainterPath ox oy ix iy x y }

def close (ops : QPainterPathOps) (s : RiveQtPath) : RiveQtPath :=
  { s with m_qPainterPath := ops.closeSubpath s.m_qPainterPath }

def fillRule (ops : QPainterPathOps) (s : RiveQtPath) (value : RiveFillRule) : RiveQtPath :=
  match value with
  | RiveFillRule.evenOdd =>
    { s with m_qPainterPath := ops.setFillRule s.m_qPainterPath QtFillRule.OddEvenFill }
  | RiveFillRule.nonZero =>
    { s with m_qPainterPath := ops.setFillRule s.m_qPainterPath QtFillRule.WindingFill }

/-- The member `addRenderPath`; `none` is the null pointer. -/
def addRenderPath (ops : QPainterPathOps) (s : RiveQtPath) (path : Option RiveQtPath)
    (transform : List ℚ) : RiveQtPath :=
  match path with
  | none => s
  | some qtPath =>
    let qTransform : QTransform :=
      ⟨QVector.at transform 0, QVector.at transform 1, QVector.at transform 2,
        QVector.at transform 3, QVector.at transform 4, QVector.at transform 5⟩
    let qPath := ops.transformed qtPath.m_qPainterPath qTransform
    { s with
      m_qPainterPath := ops.addPath s.m_qPainterPath qPath
      m_pathSegmentOutlineDataDirty := true
      m_pathSegmentDataDirty := true }

def setQPainterPath (s : RiveQtPath) (path : QPainterPath) : RiveQtPath :=
  { s with m_qPainterPath := path }

def cubicBezier (startPoint controlPoint1 controlPoint2 endPoint : QVector2D) (t : ℚ) :
    QVector2D :=
  let oneMinusT := 1 - t
  let oneMinusTSquared := oneMinusT * oneMinusT
  let oneMinusTCubed := oneMinusTSquared * oneMinusT
  let tSquared := t * t
  let tCubed := tSquared * t
  QVector2D.add
    (QVector2D.add
      (QVector2D.add (startPoint.mul oneMinusTCubed)
        (controlPoint1.mul (3 * oneMinusTSquared * t)))
      (controlPoint2.mul (3 * oneMinusT * tSquared)))
    (endPoint.mul tCubed)

/-- The samples appended for one cubic: `j` runs from its start value up to
`m_segmentCount`; the first argument is the number of iterations left. -/
def updatePathSegmentsOutlineData.samples (normalized : QVector2D → QVector2D)
    (startPoint controlPoint1 controlPoint2 endPoint : QVector2D) (m_segmentCount : Nat)
    (currentStepIndex : Nat) : Nat → Nat → List PathDataPoint
  | 0, _ => []
  | k + 1, j =>
    let t : ℚ := (j : ℚ) / (m_segmentCount : ℚ)
    let point := cubicBezier startPoint controlPoint1 controlPoint2 endPoint t
    ⟨⟨point.x, point.y⟩,
        cubicBezierTangent normalized startPoint controlPoint1 controlPoint2 endPoint t,
        currentStepIndex⟩
      :: updatePathSegmentsOutlineData.samples normalized startPoint controlPoint1
          controlPoint2 endPoint m_segmentCount currentStepIndex k (j + 1)

/-- The record list with the tangent of its last record replaced. -/
def updatePathSegmentsOutlineData.setLastTangent (pathDataEnhanced : List PathDataPoint)
    (tangent : QVector2D) : List PathDataPoint :=
  pathDataEnhanced.set (pathDataEnhanced.length - 1)
    { QVector.at pathDataEnhanced (pathDataEnhanced.length - 1) with tangent := tangent }

/-- The loop of `updatePathSegmentsOutlineData` over the elements from index `i` on. The
state is the outline data, the records of the current subpath and the step index; the first
argument bounds the iterations. The value is the outline data and the current records when
the loop ends. -/
def updatePathSegmentsOutlineData.loop (normalized : QVector2D → QVector2D)
    (path : QPainterPath) (m_segmentCount : Nat) :
    Nat → Nat → List (List PathDataPoint) → List PathDataPoint → Nat →
      List (List PathDataPoint) × List PathDataPoint
  | 0, _, outline, pathDataEnhanced, _ => (outline, pathDataEnhanced)
  | fuel + 1, i, outline, pathDataEnhanced, currentStepIndex =>
    if i < path.elementCount then
      let element := path.elementAt i
      match element.type with
      | ElementType.MoveToElement =>
        let outline := if pathDataEnhanced.length > 1 then outline ++ [pathDataEnhanced]
          else outline
        updatePathSegmentsOutlineData.loop normalized path m_segmentCount fuel (i + 1) outline
          [⟨⟨element.x, element.y⟩, ⟨0, 0⟩, 0⟩] 1
      | ElementType.LineToElement =>
        updatePathSegmentsOutlineData.loop normalized path m_segmentCount fuel (i + 1) outline
          (pathDataEnhanced ++ [⟨⟨element.x, element.y⟩, ⟨0, 0⟩, currentStepIndex⟩])
          (currentStepIndex + 1)
      | ElementType.CurveToElement =>
        let startPoint := (QVector.at pathDataEnhanced (pathDataEnhanced.length - 1)).point
        let controlPoint1 : QVector2D := ⟨element.x, element.y⟩
        let controlPoint2 : QVector2D := ⟨(path.elementAt (i + 1)).x, (path.elementAt (i + 1)).y⟩
        let endPoint : QVector2D := ⟨(path.elementAt (i + 2)).x, (path.elementAt (i + 2)).y⟩
        let pathDataEnhanced := updatePathSegmentsOutlineData.setLastTangent pathDataEnhanced
          (cubicBezierTangent normalized startPoint controlPoint1 controlPoint2 endPoint 0)
        updatePathSegmentsOutlineData.loop normalized path m_segmentCount fuel (i + 2 + 1)
          outline
          (pathDataEnhanced ++ updatePathSegmentsOutlineData.samples normalized startPoint
            controlPoint1 controlPoint2 endPoint m_segmentCount currentStepIndex
            m_segmentCount 1)
          (currentStepIndex + 1)
      | ElementType.CurveToDataElement =>
        updatePathSegmentsOutlineData.loop normalized path m_segmentCount fuel (i + 1) outline
          pathDataEnhanced currentStepIndex
    else (outline, pathDataEnhanced)

/-- The data members after `updatePathSegmentsOutlineData`. -/
def updatePathSegmentsOutlineData (normalized : QVector2D → QVector2D) (s : RiveQtPath) :
    RiveQtPath :=
  if s.m_qPainterPath.isEmpty then
    { s with m_pathSegmentsOutlineData := [], m_pathSegmentOutlineDataDirty := false }
  else
    let point := s.m_qPainterPath.elementAt 0
    let centerPoint : QVector2D := ⟨point.x, point.y⟩
    let st := updatePathSegmentsOutlineData.loop normalized s.m_qPainterPath s.m_segmentCount
      s.m_qPainterPath.elementCount 1 [] [⟨centerPoint, ⟨0, 0⟩, 0⟩] 0
    { s with
      m_pathSegmentsOutlineData := st.1 ++ [st.2]
      m_pathSegmentOutlineDataDirty := false }

end RiveQtPath

namespace RiveQtPath

/-- The lambda `appendTriangle` of `updatePathOutlineVertices`, as a function of the list
it appends to. -/
def updatePathOutlineVertices.appendTriangle (lineDataSegment : List QVector2D)
    (p1 p2 p3 : QVector2D) : List QVector2D :=
  if p1 = p2 ∨ p1 = p3 ∨ p2 = p3 then lineDataSegment
  else lineDataSegment ++ [p1, p2, p3]

/-- The fan loop of the round cap and the round join: each of the given number of
iterations appends a triangle and rotates `currentOffset` by the matrix
`{cPhi, -sPhi, sPhi, cPhi}`. -/
def updatePathOutlineVertices.fan (centerPoint : QVector2D) (cPhi sPhi : ℚ) :
    Nat → QVector2D → List QVector2D
  | 0, _ => []
  | k + 1, currentOffset =>
    let tmp := cPhi * currentOffset.x + -sPhi * currentOffset.y
    let rotated : QVector2D := ⟨tmp, sPhi * currentOffset.x + cPhi * currentOffset.y⟩
    [centerPoint + currentOffset, centerPoint, centerPoint + rotated]
      ++ updatePathOutlineVertices.fan centerPoint cPhi sPhi k rotated

/-- The cap part of one iteration of the segment loop (the `switch (capStyle)`). -/
def updatePathOutlineVertices.cap (libm : LibM) (pen : QPen) (m_segmentCount : Nat)
    (pathData : List PathDataPoint) (i nextI : Nat) (p1 p2 offset offset2 : QVector2D)
    (lineDataSegment : List QVector2D) : List QVector2D :=
  let lineWidth := pen.widthF
  match pen.capStyle with
  | PenCapStyle.FlatCap => lineDataSegment
  | PenCapStyle.RoundCap =>
    let numSegments := m_segmentCount
    let phi : ℚ := if i = 0 then libm.M_PI / numSegments else -libm.M_PI / numSegments
    let cPhi := libm.cos phi
    let sPhi := libm.sin phi
    let currentOffset := if i = 0 then offset else offset2
    let centerPoint := if i = 0 then p1 else p2
    let capVertices := updatePathOutlineVertices.fan centerPoint cPhi sPhi numSegments
      currentOffset
    if i = 0 then capVertices ++ lineDataSegment else lineDataSegment ++ capVertices
  | PenCapStyle.SquareCap =>
    if lineDataSegment.length < 6 then lineDataSegment
    else
      let direction := if i = 0 then (QVector.at pathData i).tangent
        else (QVector.at pathData nextI).tangent
      let shift := (direction.mul lineWidth).div 2
      if i = 0 then
        let l := lineDataSegment.set 0 (QVector.at lineDataSegment 0 - shift)
        let l := l.set 1 (QVector.at l 1 - shift)
        l.set 5 (QVector.at l 5 - shift)
      else
        let e := lineDataSegment.length
        let l := lineDataSegment.set (e - 2) (QVector.at lineDataSegment (e - 2) + shift)
        let l := l.set (e - 3) (QVector.at l (e - 3) + shift)
        l.set (e - 4) (QVector.at l (e - 4) + shift)
  | PenCapStyle.MPenCapStyle => lineDataSegment

/-- The join part of one iteration of the segment loop (the `switch (joinType)`), for a
corner that needs a join. -/
def updatePathOutlineVertices.join (normalized : QVector2D → QVector2D) (libm : LibM)
    (pen : QPen) (m_segmentCount : Nat) (p1 p2 p3 normal offset : QVector2D)
    (lineDataSegment : List QVector2D) : List QVector2D :=
  let lineWidth := pen.widthF
  let diff2 := p3 - p2
  let normal2 := normalized ⟨-diff2.y, diff2.x⟩
  let offset2 := (normal2.mul lineWidth).div 2
  let turnLeft : Bool := decide (normal.x * normal2.y - normal.y * normal2.x > 0)
  let bevel := fun (l : List QVector2D) =>
    if turnLeft then updatePathOutlineVertices.appendTriangle l (p1 - offset) p2 (p2 - offset2)
    else updatePathOutlineVertices.appendTriangle l (p1 + offset) p2 (p2 + offset2)
  let round := fun (l : List QVector2D) =>
    let phi := libm.acos (normal.x * normal2.x + normal.y * normal2.y) / m_segmentCount
    let phi := if turnLeft then phi else -phi
    let currentOffset := if turnLeft then -offset else offset
    let cPhi := libm.cos phi
    let sPhi := libm.sin phi
    l ++ updatePathOutlineVertices.fan p2 cPhi sPhi m_segmentCount currentOffset
  match pen.joinStyle with
  | PenJoinStyle.RoundJoin => round lineDataSegment
  | PenJoinStyle.MiterJoin =>
    let l :=
      if !offset.isNull && !offset2.isNull then
        if turnLeft then
          match calculateIntersection (p1 - offset) (p2 - offset) (p3 - offset2)
              (p2 - offset2) with
          | some pM =>
            updatePathOutlineVertices.appendTriangle lineDataSegment (p1 - offset) pM
              (p2 - offset2)
          | none => lineDataSegment
        else
          match calculateIntersection (p1 + offset) (p2 + offset) (p3 + offset2)
              (p2 + offset2) with
          | some pM =>
            updatePathOutlineVertices.appendTriangle lineDataSegment (p1 + offset) pM
              (p2 + offset2)
          | none => lineDataSegment
      else lineDataSegment
    bevel l
  | PenJoinStyle.BevelJoin => bevel lineDataSegment
  | PenJoinStyle.SvgMiterJoin => round lineDataSegment
  | PenJoinStyle.MPenJoinStyle => round lineDataSegment

/-- The body of the segment loop of `updatePathOutlineVertices` for index `i`. -/
def updatePathOutlineVertices.segment (normalized : QVector2D → QVector2D) (libm : LibM)
    (pen : QPen) (m_segmentCount : Nat) (pathData : List PathDataPoint) (closed : Bool)
    (endIndex : Nat) (lineDataSegment : List QVector2D) (i : Nat) : List QVector2D :=
  let lineWidth := pen.widthF
  let nextI := (i + 1) % pathData.length
  let p1 := (QVector.at pathData i).point
  let p2 := (QVector.at pathData nextI).point
  let diff := p2 - p1
  let normal :=
    if (QVector.at pathData i).tangent.isNull then normalized ⟨-diff.y, diff.x⟩
    else normalized ⟨-(QVector.at pathData i).tangent.y, (QVector.at pathData i).tangent.x⟩
  let normal2 :=
    if (QVector.at pathData nextI).tangent.isNull then normal
    else normalized
      ⟨-(QVector.at pathData nextI).tangent.y, (QVector.at pathData nextI).tangent.x⟩
  let offset := normal.mul (lineWidth / 2)
  let offset2 := normal2.mul (lineWidth / 2)
  let l := updatePathOutlineVertices.appendTriangle lineDataSegment (p1 + offset) (p1 - offset)
    (p2 + offset2)
  let l := updatePathOutlineVertices.appendTriangle l (p2 + offset2) (p2 - offset2)
    (p1 - offset)
  let l :=
    if !closed && (decide (i = 0) || decide (i = endIndex - 1)) then
      updatePathOutlineVertices.cap libm pen m_segmentCount pathData i nextI p1 p2 offset offset2
        l
    else l
  if i < endIndex - 1 then
    let k := if closed && decide (i + 2 = pathData.length) then (i + 3) % pathData.length
      else (i + 2) % pathData.length
    let p3 := (QVector.at pathData k).point
    let needsJoin : Bool :=
      decide ((QVector.at pathData nextI).stepIndex ≠ (QVector.at pathData k).stepIndex)
    if !needsJoin then l
    else updatePathOutlineVertices.join normalized libm pen m_segmentCount p1 p2 p3 normal
      offset l
  else l

/-- The list `lineDataSegment` built for one subpath record of at least two points, before
`removeOverlappingTriangles` is applied to it. -/
def updatePathOutlineVertices.lineDataSegment (normalized : QVector2D → QVector2D)
    (libm : LibM) (pen : QPen) (m_segmentCount : Nat) (pathData : List PathDataPoint) :
    List QVector2D :=
  let closed : Bool :=
    decide ((QVector.at pathData 0).point = (QVector.at pathData (pathData.length - 1)).point)
  let endIndex := if closed then pathData.length else pathData.length - 1
  (List.range endIndex).foldl
    (updatePathOutlineVertices.segment normalized libm pen m_segmentCount pathData closed
      endIndex)
    []

/-- The value of `m_pathOutlineVertices` after `updatePathOutlineVertices`, starting from the
given value; `none` when a hull walk does not return within `fuel` calls. -/
def updatePathOutlineVertices (qTriangulate : List ℚ → QTriangleSet)
    (normalized : QVector2D → QVector2D) (libm : LibM) (fuel : Nat) (pen : QPen)
    (m_segmentCount : Nat) (m_pathSegmentsOutlineData : List (List PathDataPoint))
    (m_pathOutlineVertices : List (List QVector2D)) : Option (List (List QVector2D)) :=
  m_pathSegmentsOutlineData.foldlM
    (fun vertices pathData =>
      if pathData.length ≤ 1 then some vertices
      else
        (removeOverlappingTriangles qTriangulate normalized fuel
          (updatePathOutlineVertices.lineDataSegment normalized libm pen m_segmentCount
            pathData)).map
          fun lineDataSegment => vertices ++ [lineDataSegment])
    m_pathOutlineVertices

/-- The data members after `updatePathSegmentsData`; `qTriangulatePath` is Qt's triangulator
for a whole `QPainterPath`. -/
def updatePathSegmentsData (qTriangulatePath : QPainterPath → QTriangleSet) (s : RiveQtPath) :
    RiveQtPath :=
  if s.m_qPainterPath.isEmpty then
    { s with m_pathVertices := [], m_pathSegmentDataDirty := false }
  else
    let triangles := qTriangulatePath s.m_qPainterPath
    let pathData : List QVector2D := triangles.indices.map fun index =>
      ⟨QVector.at triangles.vertices (2 * index), QVector.at triangles.vertices (2 * index + 1)⟩
    { s with m_pathVertices := [] ++ [pathData], m_pathSegmentDataDirty := false }

/-- The member `toVertices`: the returned list and the data members afterwards. -/
def toVertices (qTriangulatePath : QPainterPath → QTriangleSet) (s : RiveQtPath) :
    List (List QVector2D) × RiveQtPath :=
  let s := if s.m_pathSegmentDataDirty then updatePathSegmentsData qTriangulatePath s else s
  (s.m_pathVertices, s)

/-- The member `toVerticesLine`: the returned list and the data members afterwards; `none`
when a hull walk does not return within `fuel` calls. -/
def toVerticesLine (qTriangulate : List ℚ → QTriangleSet) (normalized : QVector2D → QVector2D)
    (libm : LibM) (fuel : Nat) (s : RiveQtPath) (pen : QPen) :
    Option (List (List QVector2D) × RiveQtPath) :=
  if !s.m_pathSegmentOutlineDataDirty then some (s.m_pathOutlineVertices, s)
  else
    let s := updatePathSegmentsOutlineData normalized s
    let s := { s with m_pathOutlineVertices := [] }
    if s.m_pathSegmentsOutlineData.isEmpty then some (s.m_pathOutlineVertices, s)
    else
      (updatePathOutlineVertices qTriangulate normalized libm fuel pen s.m_segmentCount
        s.m_pathSegmentsOutlineData s.m_pathOutlineVertices).map
        fun vertices =>
          (vertices,
            { s with m_pathOutlineVertices := vertices, m_pathSegmentOutlineDataDirty := false })

end RiveQtPath

/-! ## Reference instances of the Qt parameters -/

/-- A reference triangulator for a closed polygon buffer: a fan around the first corner. -/
def fanTriangulate (polygon : List ℚ) : RiveQtPath.QTriangleSet :=
  let n := polygon.length / 2 - 1
  ⟨polygon, (List.range (n - 2)).foldl (fun ix k => ix ++ [0, k + 1, k + 2]) []⟩

/-- A reference implementation of the path mutators, after the documented behaviour of
`QPainterPath`: commands append elements, `closeSubpath` adds the line back to the start of
the current subpath, `clear` removes all elements. -/
def referenceOps : QPainterPathOps where
  moveTo p x y :=
    match p.elements.getLast? with
    | some ⟨_, _, ElementType.MoveToElement⟩ =>
      { p with elements := p.elements.dropLast ++ [⟨x, y, ElementType.MoveToElement⟩] }
    | _ => { p with elements := p.elements ++ [⟨x, y, ElementType.MoveToElement⟩] }
  lineTo p x y :=
    let es := if p.elements.isEmpty then [⟨0, 0, ElementType.MoveToElement⟩] else p.elements
    { p with elements := es ++ [⟨x, y, ElementType.LineToElement⟩] }
  quadTo p cx cy x y :=
    let es := if p.elements.isEmpty then [⟨0, 0, ElementType.MoveToElement⟩] else p.elements
    let prev := QVector.at es (es.length - 1)
    { p with elements := es ++
        [⟨prev.x + 2 * (cx - prev.x) / 3, prev.y + 2 * (cy - prev.y) / 3,
            ElementType.CurveToElement⟩,
          ⟨x + 2 * (cx - x) / 3, y + 2 * (cy - y) / 3, ElementType.CurveToDataElement⟩,
          ⟨x, y, ElementType.CurveToDataElement⟩] }
  cubicTo p c1x c1y c2x c2y x y :=
    let es := if p.elements.isEmpty then [⟨0, 0, ElementType.MoveToElement⟩] else p.elements
    { p with elements := es ++
        [⟨c1x, c1y, ElementType.CurveToElement⟩, ⟨c2x, c2y, ElementType.CurveToDataElement⟩,
          ⟨x, y, ElementType.CurveToDataElement⟩] }
  closeSubpath p :=
    match (p.elements.filter fun e => decide (e.type = ElementType.MoveToElement)).getLast?,
        p.elements.getLast? with
    | some first, some last =>
      if first.x = last.x ∧ first.y = last.y then p
      else { p with elements := p.elements ++ [⟨first.x, first.y, ElementType.LineToElement⟩] }
    | _, _ => p
  clear p := { p with elements := [] }
  setFillRule p r := { p with fillRule := r }
  addPath p q := { p with elements := p.elements ++ q.elements }
  transformed p t :=
    { p with elements := p.elements.map fun e =>
        ⟨t.m11 * e.x + t.m21 * e.y + t.dx, t.m12 * e.x + t.m22 * e.y + t.dy, e.type⟩ }

/-- A stand-in for the math library in examples whose result does not depend on it. -/
def referenceLibM : LibM := ⟨355 / 113, fun _ => 1, fun _ => 0, fun _ => 0⟩

/-- The sign of a number, as a number. -/
def signOf (a : ℚ) : ℚ := if 0 < a then 1 else if a < 0 then -1 else 0

/-- A stand-in for `QVector2D::normalized` that is exact on the vectors parallel to an
axis. -/
def referenceNormalized (v : QVector2D) : QVector2D :=
  if v.x = 0 then ⟨0, signOf v.y⟩
  else if v.y = 0 then ⟨signOf v.x, 0⟩
  else v

/-- A stand-in for the triangulator of a whole path: a fan over the points of its
elements. -/
def referencePathTriangulate (p : QPainterPath) : RiveQtPath.QTriangleSet :=
  ⟨p.elements.foldl (fun buf e => buf ++ [e.x, e.y]) [],
    (List.range (p.elements.length - 2)).foldl (fun ix k => ix ++ [0, k + 1, k + 2]) []⟩

/-- A triangulator for the outline of a six-pointed star given as a closed buffer of twelve
corners that starts at a tip: the triangle of every second tip and the three other tips. -/
def starTriangulate (polygon : List ℚ) : RiveQtPath.QTriangleSet :=
  ⟨polygon, [0, 4, 8, 1, 2, 3, 5, 6, 7, 9, 10, 11]⟩

/-! ## Notions used to state the properties -/

/-- The point `p` lies inside the triangle `a b c` by more than the margin `m`: the
determinant of `p` against every edge exceeds `m`, with the sign of the triangle's
winding. -/
def insideBy (m : ℚ) (a b c p : QVector2D) : Prop :=
  (m < Det2D a b p ∧ m < Det2D b c p ∧ m < Det2D c a p)
    ∨ (Det2D a b p < -m ∧ Det2D b c p < -m ∧ Det2D c a p < -m)

/-- The point `p` is an interior point of the triangle `a b c`. -/
def strictlyInside (a b c p : QVector2D) : Prop := insideBy 0 a b c p

/-- The centroid of a triangle. -/
def centroid (a1 a2 a3 : QVector2D) : QVector2D :=
  ⟨(a1.x + a2.x + a3.x) / 3, (a1.y + a2.y + a3.y) / 3⟩

/-- The open half-plane on the inner side of edge `i` of a triangle, as a set of
coordinate pairs. -/
def innerSide (t : Tri) (i : Fin 3) : Set (ℚ × ℚ) :=
  {q | 0 < Det2D (t.get i) (t.get ((i + 1) % 3)) ⟨q.1, q.2⟩}

/-- The corners `p1 p2 p3` are the corners `a b c` in some order. -/
def sameCorners (p1 p2 p3 a b c : QVector2D) : Prop :=
  (p1 = a ∧ p2 = b ∧ p3 = c) ∨ (p1 = b ∧ p2 = c ∧ p3 = a) ∨ (p1 = c ∧ p2 = a ∧ p3 = b)
    ∨ (p1 = a ∧ p2 = c ∧ p3 = b) ∨ (p1 = c ∧ p2 = b ∧ p3 = a) ∨ (p1 = b ∧ p2 = a ∧ p3 = c)

namespace RiveQtPath

/-- Whether triangles number `i` and `j` of the point list overlap. -/
def overlapAt (t : List QVector2D) (i j : Nat) : Bool :=
  doTrianglesOverlap (QVector.at t (3 * i)) (QVector.at t (3 * i + 1)) (QVector.at t (3 * i + 2))
    (QVector.at t (3 * j)) (QVector.at t (3 * j + 1)) (QVector.at t (3 * j + 2))

/-- The overlapping pairs `(i, j)` with `j` among the `k` indices from `b` on. -/
def overlapRow (t : List QVector2D) (i b k : Nat) : List (Nat × Nat) :=
  ((List.range' b k).filter (overlapAt t i)).map (Prod.mk i)

/-- The clusters that `removeOverlappingTriangles` builds for a triangle list. -/
def clustersOf (triangles : List QVector2D) : List (List Nat) :=
  (removeOverlappingTriangles.clusterLoop (findOverlappingTriangles triangles).length
    (findOverlappingTriangles triangles) [] []).1

/-- The triangles whose index is in no cluster, in their original order. -/
def untouchedTriangles (triangles : List QVector2D) : List QVector2D :=
  (List.range (triangles.length / 3)).flatMap fun k =>
    if (clustersOf triangles).any (fun c => c.contains k) then []
    else [QVector.at triangles (3 * k), QVector.at triangles (3 * k + 1),
      QVector.at triangles (3 * k + 2)]

/-- First triangle of the non-terminating walk. -/
def loopA : List QVector2D := [⟨0, 3⟩, ⟨5, 3⟩, ⟨5, 5⟩]

/-- Second triangle of the non-terminating walk. -/
def loopB : List QVector2D := [⟨3, 4⟩, ⟨0, 2⟩, ⟨4, 3⟩]

/-- The six points of the two triangles `loopA`, `loopB`. -/
def loopInput : List QVector2D := [⟨0, 3⟩, ⟨5, 3⟩, ⟨5, 5⟩, ⟨3, 4⟩, ⟨0, 2⟩, ⟨4, 3⟩]

end RiveQtPath

/-- The point `p` lies in the closed triangle `a b c`. -/
def pointInTriangle (a b c p : QVector2D) : Prop :=
  (0 ≤ Det2D a b p ∧ 0 ≤ Det2D b c p ∧ 0 ≤ Det2D c a p)
    ∨ (Det2D a b p ≤ 0 ∧ Det2D b c p ≤ 0 ∧ Det2D c a p ≤ 0)

/-- The point `p` lies in one of the triangles of the point list `ts`. -/
def coveredBy (ts : List QVector2D) (p : QVector2D) : Prop :=
  ∃ k, 3 * k + 2 < ts.length
    ∧ pointInTriangle (QVector.at ts (3 * k)) (QVector.at ts (3 * k + 1))
        (QVector.at ts (3 * k + 2)) p

namespace RiveQtPath

/-- The triangulator covers exactly the polygon it is given, for polygons that are
triangles of non-zero area. -/
def ExactOnTriangles (qTriangulate : List ℚ → QTriangleSet) : Prop :=
  ∀ a b c p : QVector2D, Det2D a b c ≠ 0 →
    (coveredBy (removeOverlappingTriangles.retriangulate qTriangulate [a, b, c]) p
      ↔ pointInTriangle a b c p)

/-- Three triangles: the first inside the third, the second across an edge of the third and
apart from the first. -/
def lostInput : List QVector2D :=
  [⟨1, 1⟩, ⟨3, 1⟩, ⟨1, 3⟩, ⟨6, -2⟩, ⟨9, -2⟩, ⟨7, 3⟩, ⟨0, 0⟩, ⟨10, 0⟩, ⟨0, 10⟩]

/-- Nine points: a triangle, a second one around it, and a third one far from both. -/
def frameInput : List QVector2D :=
  [⟨1, 1⟩, ⟨3, 1⟩, ⟨1, 3⟩, ⟨0, 0⟩, ⟨10, 0⟩, ⟨0, 10⟩, ⟨20, 20⟩, ⟨30, 20⟩, ⟨20, 30⟩]

/-- The nine points of the repository's test of `findOverlappingTriangles`. -/
def testInput : List QVector2D :=
  [⟨1, 1⟩, ⟨10, 1⟩, ⟨5, 10⟩, ⟨5, 5⟩, ⟨15, 5⟩, ⟨10, 15⟩, ⟨15, 15⟩, ⟨20, 25⟩, ⟨25, 15⟩]

end RiveQtPath

namespace RiveQtPath

/-- The segment count is in `[1, 100]`. -/
def segmentCountValid (s : RiveQtPath) : Prop := 1 ≤ s.m_segmentCount ∧ s.m_segmentCount ≤ 100

/-- The open path of the single segment from `(0, 0)` to `(10, 0)`, with both caches to
be computed. -/
def segmentPath (m_segmentCount : Nat) : RiveQtPath :=
  { initial with
    m_qPainterPath :=
      ⟨[⟨0, 0, ElementType.MoveToElement⟩, ⟨10, 0, ElementType.LineToElement⟩],
        QtFillRule.WindingFill⟩
    m_segmentCount := m_segmentCount }

/-- The mesh of the segment from `(0, 0)` to `(10, 0)` for a flat-capped pen of width 2. -/
def segmentMesh2 : List (List QVector2D) :=
  [[⟨0, 1⟩, ⟨0, -1⟩, ⟨10, 1⟩, ⟨10, 1⟩, ⟨10, -1⟩, ⟨0, -1⟩]]

/-- The mesh of the segment from `(0, 0)` to `(10, 0)` for a flat-capped pen of width 4. -/
def segmentMesh4 : List (List QVector2D) :=
  [[⟨0, 2⟩, ⟨0, -2⟩, ⟨10, 2⟩, ⟨10, 2⟩, ⟨10, -2⟩, ⟨0, -2⟩]]

/-- The object built by `RiveQtPath(10)` after `toVertices()` and `toVerticesLine(pen)` with
a flat-capped pen of width 2, followed by `moveTo(0, 0)` and `lineTo(10, 0)`. -/
def mutatedAfterCaching : Option RiveQtPath :=
  (toVerticesLine fanTriangulate referenceNormalized referenceLibM 0
      (toVertices referencePathTriangulate (new referenceOps 10)).2
      ⟨2, PenJoinStyle.BevelJoin, PenCapStyle.FlatCap⟩).map
    fun rs => lineTo referenceOps (moveTo referenceOps rs.2 0 0) 10 0

/-- The records of the flattened segment from `(0, 0)` to `(10, 0)`. -/
def segmentRecords : List PathDataPoint :=
  [⟨⟨0, 0⟩, ⟨0, 0⟩, 0⟩, ⟨⟨10, 0⟩, ⟨0, 0⟩, 0⟩]

/-- The elements of the closed rectangle `(0, 0)`, `(10, 0)`, `(10, 10)`, `(0, 10)`: the
start, three lines and the closing line back to the start. -/
def rectangleElements : List Element :=
  [⟨0, 0, ElementType.MoveToElement⟩, ⟨10, 0, ElementType.LineToElement⟩,
    ⟨10, 10, ElementType.LineToElement⟩, ⟨0, 10, ElementType.LineToElement⟩,
    ⟨0, 0, ElementType.LineToElement⟩]

/-- The records of the flattened rectangle. -/
def rectangleRecords : List PathDataPoint :=
  [⟨⟨0, 0⟩, ⟨0, 0⟩, 0⟩, ⟨⟨10, 0⟩, ⟨0, 0⟩, 0⟩, ⟨⟨10, 10⟩, ⟨0, 0⟩, 1⟩, ⟨⟨0, 10⟩, ⟨0, 0⟩, 2⟩,
    ⟨⟨0, 0⟩, ⟨0, 0⟩, 3⟩]

/-- The two triangles of the quad strip along each of the four sides of the rectangle,
for width 2. -/
def rectangleQuads : List (List QVector2D) :=
  [[⟨0, 1⟩, ⟨0, -1⟩, ⟨10, 1⟩, ⟨10, 1⟩, ⟨10, -1⟩, ⟨0, -1⟩],
    [⟨9, 0⟩, ⟨11, 0⟩, ⟨9, 10⟩, ⟨9, 10⟩, ⟨11, 10⟩, ⟨11, 0⟩],
    [⟨10, 9⟩, ⟨10, 11⟩, ⟨0, 9⟩, ⟨0, 9⟩, ⟨0, 11⟩, ⟨10, 11⟩],
    [⟨1, 10⟩, ⟨-1, 10⟩, ⟨1, 0⟩, ⟨1, 0⟩, ⟨-1, 0⟩, ⟨-1, 10⟩]]

/-- The bevel triangle at each of the four corners of the rectangle, for width 2. -/
def rectangleBevels : List (List QVector2D) :=
  [[⟨0, -1⟩, ⟨10, 0⟩, ⟨11, 0⟩], [⟨11, 0⟩, ⟨10, 10⟩, ⟨10, 11⟩],
    [⟨10, 11⟩, ⟨0, 10⟩, ⟨-1, 10⟩], [⟨-1, 10⟩, ⟨0, 0⟩, ⟨0, -1⟩]]

/-- The path built by the commands of the rectangle on a new path. -/
def rectanglePath (ops : QPainterPathOps) (segmentCount : Nat) : RiveQtPath :=
  close ops (lineTo ops (lineTo ops (lineTo ops (moveTo ops (new ops segmentCount) 0 0) 10 0)
    10 10) 0 10)

/-- The six points of the two overlapping triangles `(1,1) (10,1) (5,10)` and
`(5,0) (1,9) (9,9)`. -/
def starInput : List QVector2D := [⟨1, 1⟩, ⟨10, 1⟩, ⟨5, 10⟩, ⟨5, 0⟩, ⟨1, 9⟩, ⟨9, 9⟩]

/-- The first triangle of `starInput`. -/
def starA : List QVector2D := [⟨1, 1⟩, ⟨10, 1⟩, ⟨5, 10⟩]

/-- The second triangle of `starInput`, with its winding fixed. -/
def starB : List QVector2D := [⟨5, 0⟩, ⟨9, 9⟩, ⟨1, 9⟩]

/-- The outline of the union of `starA` and `starB`: the corners of both triangles and, in
between, the six points where their edges cross. -/
def starHull : List QVector2D :=
  [⟨1, 1⟩, ⟨41 / 9, 1⟩, ⟨5, 0⟩, ⟨49 / 9, 1⟩, ⟨10, 1⟩, ⟨605 / 81, 50 / 9⟩, ⟨9, 9⟩, ⟨50 / 9, 9⟩,
    ⟨5, 10⟩, ⟨41 / 9, 9⟩, ⟨1, 9⟩, ⟨25 / 9, 5⟩]

/-- The vector returned by `normalized` for a vector of length at least 1 is a positive
multiple of it. -/
def KeepsDirection (normalized : QVector2D → QVector2D) : Prop :=
  ∀ v : QVector2D, 1 ≤ v.lengthSquared → ∃ k : ℚ, 0 < k ∧ normalized v = ⟨k * v.x, k * v.y⟩

/-- The point list `out` is a triangulation of the polygon with the given corners, as far
as the properties need it: it consists of whole triangles of non-zero area, no two of which
have an interior point in common, and every corner of the polygon is a corner of one of
them. -/
def IsTriangulationOf (polygon out : List QVector2D) : Prop :=
  out.length % 3 = 0
    ∧ (∀ p ∈ polygon, p ∈ out)
    ∧ (∀ i, 3 * i + 2 < out.length →
        Det2D (QVector.at out (3 * i)) (QVector.at out (3 * i + 1)) (QVector.at out (3 * i + 2))
          ≠ 0)
    ∧ ∀ i j, i < j → 3 * j + 2 < out.length →
        ¬ ∃ p, strictlyInside (QVector.at out (3 * i)) (QVector.at out (3 * i + 1))
              (QVector.at out (3 * i + 2)) p
            ∧ strictlyInside (QVector.at out (3 * j)) (QVector.at out (3 * j + 1))
              (QVector.at out (3 * j + 2)) p

/-- A path of one cubic from `(0, 0)` to `(4, 0)` with control points `(1, 2)`, `(3, 2)`. -/
def cubicPath : QPainterPath :=
  ⟨[⟨0, 0, ElementType.MoveToElement⟩, ⟨1, 2, ElementType.CurveToElement⟩,
      ⟨3, 2, ElementType.CurveToDataElement⟩, ⟨4, 0, ElementType.CurveToDataElement⟩],
    QtFillRule.WindingFill⟩

end RiveQtPath

/-! ## The segment loop in parts -/

namespace RiveQtPath

/-- The vectors `normal` and `normal2` of iteration `i` of the segment loop of
`updatePathOutlineVertices`. -/
def updatePathOutlineVertices.normals (normalized : QVector2D → QVector2D)
    (pathData : List PathDataPoint) (i : Nat) : QVector2D × QVector2D :=
  let nextI := (i + 1) % pathData.length
  let p1 := (QVector.at pathData i).point
  let p2 := (QVector.at pathData nextI).point
  let diff := p2 - p1
  let normal :=
    if (QVector.at pathData i).tangent.isNull then normalized ⟨-diff.y, diff.x⟩
    else normalized ⟨-(QVector.at pathData i).tangent.y, (QVector.at pathData i).tangent.x⟩
  let normal2 :=
    if (QVector.at pathData nextI).tangent.isNull then normal
    else normalized
      ⟨-(QVector.at pathData nextI).tangent.y, (QVector.at pathData nextI).tangent.x⟩
  (normal, normal2)

/-- The vectors `offset` and `offset2` of iteration `i` of the segment loop. -/
def updatePathOutlineVertices.offsets (normalized : QVector2D → QVector2D) (pen : QPen)
    (pathData : List PathDataPoint) (i : Nat) : QVector2D × QVector2D :=
  let lineWidth := pen.widthF
  let normals := updatePathOutlineVertices.normals normalized pathData i
  (normals.1.mul (lineWidth / 2), normals.2.mul (lineWidth / 2))

/-- The list after the quad and the cap of iteration `i`: the body of the segment loop up to
the join. -/
def updatePathOutlineVertices.quadAndCap (normalized : QVector2D → QVector2D) (libm : LibM)
    (pen : QPen) (m_segmentCount : Nat) (pathData : List PathDataPoint) (closed : Bool)
    (endIndex : Nat) (lineDataSegment : List QVector2D) (i : Nat) : List QVector2D :=
  let nextI := (i + 1) % pathData.length
  let p1 := (QVector.at pathData i).point
  let p2 := (QVector.at pathData nextI).point
  let offset := (updatePathOutlineVertices.offsets normalized pen pathData i).1
  let offset2 := (updatePathOutlineVertices.offsets normalized pen pathData i).2
  let l := updatePathOutlineVertices.appendTriangle lineDataSegment (p1 + offset) (p1 - offset)
    (p2 + offset2)
  let l := updatePathOutlineVertices.appendTriangle l (p2 + offset2) (p2 - offset2)
    (p1 - offset)
  if !closed && (decide (i = 0) || decide (i = endIndex - 1)) then
    updatePathOutlineVertices.cap libm pen m_segmentCount pathData i nextI p1 p2 offset offset2
      l
  else l

/-- The index of the record that supplies `p3` in iteration `i` of the segment loop. -/
def updatePathOutlineVertices.thirdIndex (pathData : List PathDataPoint) (closed : Bool)
    (i : Nat) : Nat :=
  if closed && decide (i + 2 = pathData.length) then (i + 3) % pathData.length
  else (i + 2) % pathData.length

end RiveQtPath

/-! ## Further inputs and notions -/

namespace RiveQtPath

/-- The elements of two disjoint closed rectangles, `(0,0)-(1,1)` and `(5,5)-(6,6)`. -/
def twoRectanglesElements : List Element :=
  [⟨0, 0, ElementType.MoveToElement⟩, ⟨1, 0, ElementType.LineToElement⟩,
    ⟨1, 1, ElementType.LineToElement⟩, ⟨0, 1, ElementType.LineToElement⟩,
    ⟨0, 0, ElementType.LineToElement⟩, ⟨5, 5, ElementType.MoveToElement⟩,
    ⟨6, 5, ElementType.LineToElement⟩, ⟨6, 6, ElementType.LineToElement⟩,
    ⟨5, 6, ElementType.LineToElement⟩, ⟨5, 5, ElementType.LineToElement⟩]

/-- A path object with the given elements and both caches to be computed. -/
def pathOf (elements : List Element) : RiveQtPath :=
  { initial with m_qPainterPath := ⟨elements, QtFillRule.WindingFill⟩ }

/-- Four triangles in a chain: triangle 0 overlaps triangle 3, triangle 3 overlaps
triangle 2, triangle 2 overlaps triangle 1, and no other two overlap. -/
def chainInput : List QVector2D :=
  [⟨0, 0⟩, ⟨4, 0⟩, ⟨0, 4⟩, ⟨10, -1⟩, ⟨14, -1⟩, ⟨10, 3⟩, ⟨7, 0⟩, ⟨11, 0⟩, ⟨7, 4⟩, ⟨1, 1⟩, ⟨9, 1⟩,
    ⟨1, 3⟩]

/-- Every member of the index list `c` occurs in one of the pairs together with another
member of `c`. -/
def LinkedBy (pairs : List (Nat × Nat)) (c : List Nat) : Prop :=
  ∀ i ∈ c, ∃ j ∈ c, (i, j) ∈ pairs ∨ (j, i) ∈ pairs

/-- First triangle of the walk that records a corner twice. -/
def twiceA : List QVector2D := [⟨5, 4⟩, ⟨1, 2⟩, ⟨2, 1⟩]

/-- Second triangle of the walk that records a corner twice; it shares the corner `(1, 2)`
with `twiceA`. -/
def twiceB : List QVector2D := [⟨5, 2⟩, ⟨5, 6⟩, ⟨1, 2⟩]

/-- The records of the flattened open polyline `(0, 0)`, `(10, 0)`, `(10, 10)`. -/
def cornerRecords : List PathDataPoint :=
  [⟨⟨0, 0⟩, ⟨0, 0⟩, 0⟩, ⟨⟨10, 0⟩, ⟨0, 0⟩, 0⟩, ⟨⟨10, 10⟩, ⟨0, 0⟩, 1⟩]

/-- The elements of the open polyline `(0, 0)`, `(10, 0)`, `(10, 10)`. -/
def cornerElements : List Element :=
  [⟨0, 0, ElementType.MoveToElement⟩, ⟨10, 0, ElementType.LineToElement⟩,
    ⟨10, 10, ElementType.LineToElement⟩]

/-- The elements of a cubic from `(0, 0)` to `(3, 0)` along the x axis followed by the line
to `(3, 4)`. -/
def curveThenLineElements : List Element :=
  [⟨0, 0, ElementType.MoveToElement⟩, ⟨1, 0, ElementType.CurveToElement⟩,
    ⟨2, 0, ElementType.CurveToDataElement⟩, ⟨3, 0, ElementType.CurveToDataElement⟩,
    ⟨3, 4, ElementType.LineToElement⟩]

/-- The records of `curveThenLineElements` flattened with segment count 1 and an exact
`normalized`. -/
def curveThenLineRecords : List PathDataPoint :=
  [⟨⟨0, 0⟩, ⟨1, 0⟩, 0⟩, ⟨⟨3, 0⟩, ⟨1, 0⟩, 0⟩, ⟨⟨3, 4⟩, ⟨0, 0⟩, 1⟩]

end RiveQtPath

/-! ## Notions and inputs for joins, tangents, hull walks, clusters and point tests -/

namespace RiveQtPath

/-- The vector `v` turned `k` times by the matrix `{c, -s, s, c}` of the fan loop. -/
def turnedBy (c s : ℚ) : Nat → QVector2D → QVector2D
  | 0, v => v
  | k + 1, v => turnedBy c s k ⟨c * v.x + -s * v.y, s * v.x + c * v.y⟩

/-- A math library whose `cos` and `sin` return `3/5` and `4/5`: the exact values for half
of the angle whose cosine is `-7/25`. -/
def halfAngleLibM : LibM := ⟨355 / 113, fun _ => 3 / 5, fun _ => 4 / 5, fun _ => 2⟩

/-- A stand-in for `QVector2D::normalized` that is exact on the vectors of length 25. -/
def normalizedOfLength25 (v : QVector2D) : QVector2D := ⟨v.x / 25, v.y / 25⟩

/-- The first derivative of the cubic with control points `p0`, `c1`, `c2`, `p3` with
respect to the parameter, at `t`: `3(1-t)²(c1-p0) + 6(1-t)t(c2-c1) + 3t²(p3-c2)`. -/
def cubicBezierDerivative (p0 c1 c2 p3 : QVector2D) (t : ℚ) : QVector2D :=
  ⟨3 * (1 - t) ^ 2 * (c1.x - p0.x) + 6 * (1 - t) * t * (c2.x - c1.x)
      + 3 * t ^ 2 * (p3.x - c2.x),
    3 * (1 - t) ^ 2 * (c1.y - p0.y) + 6 * (1 - t) * t * (c2.y - c1.y)
      + 3 * t ^ 2 * (p3.y - c2.y)⟩

/-- The contract of `QVector2D::normalized` at the vector `v`, for the result `r`: the zero
vector when `v` is zero, else the vector of length one in the direction of `v`. -/
def IsUnitVectorOf (v r : QVector2D) : Prop :=
  (v = ⟨0, 0⟩ → r = ⟨0, 0⟩)
    ∧ (v ≠ ⟨0, 0⟩ → r.lengthSquared = 1 ∧ ∃ k : ℚ, 0 < k ∧ r = ⟨k * v.x, k * v.y⟩)

/-- The elements of a path that ends with a `moveTo`: a line from `(0, 0)` to `(1, 1)`, then
a move to `(5, 5)`. -/
def trailingMoveElements : List Element :=
  [⟨0, 0, ElementType.MoveToElement⟩, ⟨1, 1, ElementType.LineToElement⟩,
    ⟨5, 5, ElementType.MoveToElement⟩]

/-- The two `Q_ASSERT`s at the entry of `concaveHull`: the first three corners of `t1` and
of `t2` have orientation 2 (counter-clockwise). -/
def concaveHull.entryAssertions (t1 t2 : List QVector2D) : Bool :=
  concaveHull.orientation (QVector.at t1 0) (QVector.at t1 1) (QVector.at t1 2) == 2
    && concaveHull.orientation (QVector.at t2 0) (QVector.at t2 1) (QVector.at t2 2) == 2

/-- A triangle of area `1/4000` crossed by the triangle `(5,-5) (6,5) (4,5)`. -/
def sliverInput : List QVector2D :=
  [⟨0, 0⟩, ⟨10, 0⟩, ⟨5, 1 / 20000⟩, ⟨5, -5⟩, ⟨6, 5⟩, ⟨4, 5⟩]

/-- The two triangles of `starInput` and the triangle `(4,4) (6,4) (5,6)` inside both. -/
def threeInput : List QVector2D := starInput ++ [⟨4, 4⟩, ⟨6, 4⟩, ⟨5, 6⟩]

/-- A counter-clockwise triangle whose second corner is within `0.001` of its first. -/
def thinTriangle : List QVector2D := [⟨0, 0⟩, ⟨1 / 2000, 0⟩, ⟨0, 10⟩]

/-- A triangle far from `thinTriangle` and from the square `[1, 3] × [1, 3]`. -/
def farTriangle : List QVector2D := [⟨20, 20⟩, ⟨30, 20⟩, ⟨20, 30⟩]

/-- The indices `a` and `b` are joined by a chain of steps inside `c`, each step between
the two indices of a listed pair, in either order. -/
def ChainedIn (pairs : List (Nat × Nat)) (c : List Nat) (a b : Nat) : Prop :=
  Relation.ReflTransGen (fun u v => u ∈ c ∧ v ∈ c ∧ ((u, v) ∈ pairs ∨ (v, u) ∈ pairs)) a b

/-- The on-edge test of `isInsidePolygon` for the edge from `u` to `v`. -/
def isInsidePolygon.onEdge (u v p : QVector2D) : Bool :=
  qFuzzyCompare (crossProduct (v - u) (p - u)) 0
    && decide ((p - u).lengthSquared ≤ (v - u).lengthSquared)

/-- The ray-crossing test of `isInsidePolygon` for the edge from `u` to `v`. -/
def isInsidePolygon.crosses (u v p : QVector2D) : Bool :=
  (decide (u.y > p.y) != decide (v.y > p.y))
    && decide (p.x < (v.x - u.x) * (p.y - u.y) / (v.y - u.y) + u.x)

/-- For an edge from `(u1, u2)` to `(v1, v2)`, relative to the tested point: the point is
on the line of the edge and not farther from the start than the edge is long. -/
def hitsEdge (u1 u2 v1 v2 : ℚ) : Prop :=
  u1 * v2 - u2 * v1 = 0 ∧ u1 * u1 + u2 * u2 ≤ (v1 - u1) * (v1 - u1) + (v2 - u2) * (v2 - u2)

/-- For an edge from `(u1, u2)` to `(v1, v2)`, relative to the tested point: the ray to the
right of the point crosses the edge, the upper end point not counting. -/
def crossesEdge (u1 u2 v1 v2 : ℚ) : Prop :=
  (u2 ≤ 0 ∧ 0 < v2 ∧ 0 < u1 * v2 - u2 * v1) ∨ (v2 ≤ 0 ∧ 0 < u2 ∧ u1 * v2 - u2 * v1 < 0)

/-- An odd number of the three propositions holds. -/
def oddOfThree (P Q R : Prop) : Prop :=
  (P ∧ ¬ Q ∧ ¬ R) ∨ (¬ P ∧ Q ∧ ¬ R) ∨ (¬ P ∧ ¬ Q ∧ R) ∨ (P ∧ Q ∧ R)

/-- For the triangle with corners `(a1, a2)`, `(b1, b2)`, `(c1, c2)` relative to the tested
point: no edge is hit and an odd number of edges is crossed exactly when the point is on the
same strict side of the three edges. -/
def rayTestAgrees (a1 a2 b1 b2 c1 c2 : ℚ) : Prop :=
  (¬ hitsEdge a1 a2 b1 b2 ∧ ¬ hitsEdge b1 b2 c1 c2 ∧ ¬ hitsEdge c1 c2 a1 a2
      ∧ oddOfThree (crossesEdge a1 a2 b1 b2) (crossesEdge b1 b2 c1 c2)
          (crossesEdge c1 c2 a1 a2))
    ↔ ((0 < a1 * b2 - a2 * b1 ∧ 0 < b1 * c2 - b2 * c1 ∧ 0 < c1 * a2 - c2 * a1)
      ∨ (a1 * b2 - a2 * b1 < 0 ∧ b1 * c2 - b2 * c1 < 0 ∧ c1 * a2 - c2 * a1 < 0))

end RiveQtPath

/-- The point `q` lies on the closed segment from `u` to `v`. -/
def onClosedSegment (u v q : QVector2D) : Prop :=
  ∃ t : ℚ, 0 ≤ t ∧ t ≤ 1 ∧ q = ⟨u.x + t * (v.x - u.x), u.y + t * (v.y - u.y)⟩

/-- The triangle `t` lists the corners of `u` in the same cyclic order. -/
def sameCyclicOrder (t u : Tri) : Prop :=
  t = u ∨ t = ⟨u.p1, u.p2, u.p0⟩ ∨ t = ⟨u.p2, u.p0, u.p1⟩

/-! ## The overlap and point-in-polygon tests in binary32

The coordinates of a `QVector2D` are `float`s and the source computes `Det2D`,
`crossProduct`, the vector differences and the ray test in `float` operations. The
definitions of this section repeat these functions with every such operation rounded to
binary32, one operation at a time. -/

namespace Binary32

/-- The power `2 ^ e` for an integer exponent. -/
def twoPow (e : ℤ) : ℚ :=
  if 0 ≤ e then ((2 ^ e.toNat : ℕ) : ℚ) else 1 / ((2 ^ (-e).toNat : ℕ) : ℚ)

/-- The number of halvings that bring `n` below 2 (the integer logarithm to base 2); the
first argument bounds the number of steps. -/
def log2 : Nat → Nat → Nat
  | 0, _ => 0
  | k + 1, n => if n < 2 then 0 else log2 k (n / 2) + 1

/-- The exponent `e` with `2 ^ e ≤ a < 2 ^ (e + 1)`, for a positive `a`. -/
def exponent (a : ℚ) : ℤ :=
  let e : ℤ := (log2 a.num.natAbs a.num.natAbs : ℤ) - (log2 a.den a.den : ℤ)
  if a < twoPow e then e - 1 else e

/-- The integer nearest to `m`, the even one when two are nearest. -/
def nearestEven (m : ℚ) : ℤ :=
  let f := Rat.floor m
  let r := m - f
  if r < 1 / 2 then f else if 1 / 2 < r then f + 1 else if f % 2 = 0 then f else f + 1

/-- The `float` nearest to `q`: IEEE 754 binary32 with 24 significant bits, least exponent
`-126`, rounding to nearest with ties to even. The overflow of the format to infinity
(magnitudes of `2 ^ 128` and more) is not represented. -/
def round (q : ℚ) : ℚ :=
  if q = 0 then 0
  else
    let a := |q|
    let quantum := twoPow (max (exponent a) (-126) - 23)
    let r := (nearestEven (a / quantum) : ℚ) * quantum
    if 0 < q then r else -r

/-- The function `Det2D` as the source computes it: the three differences, the three
products and the two sums are `float` operations; the `double` returned holds the `float`
result. -/
def Det2D (p1 p2 p3 : TriPoint) : ℚ :=
  round
    (round (round (p1.x * round (p2.y - p3.y)) + round (p2.x * round (p3.y - p1.y)))
      + round (p3.x * round (p1.y - p2.y)))

/-- The function `CheckTriWinding` on the rounded determinant. -/
def CheckTriWinding (t : Tri) : Tri :=
  let detTri := Det2D t.p0 t.p1 t.p2
  if detTri < 0 then ⟨t.p0, t.p2, t.p1⟩ else t

def BoundaryCollideChk (p1 p2 p3 : TriPoint) (eps : ℚ) : Bool :=
  decide (Det2D p1 p2 p3 < eps)

def BoundaryDoesntCollideChk (p1 p2 p3 : TriPoint) (eps : ℚ) : Bool :=
  decide (Det2D p1 p2 p3 ≤ eps)

/-- The function `TriTri2D` on the rounded determinant. -/
def TriTri2D (t1 t2 : Tri) (eps : ℚ) (onBoundary : Bool) : Bool :=
  let t1 := CheckTriWinding t1
  let t2 := CheckTriWinding t2
  let chkEdge := if onBoundary then BoundaryCollideChk else BoundaryDoesntCollideChk
  if TriTri2D.edgeLoop chkEdge t1 t2 eps then false
  else if TriTri2D.edgeLoop chkEdge t2 t1 eps then false
  else true

/-- The member `doTrianglesOverlap` on the rounded determinant. The threshold is the
`double` literal `0.001`; no `float` lies between it and the decimal value, so comparing a
`float` with the decimal value gives the same answer. -/
def doTrianglesOverlap (p1 p2 p3 p4 p5 p6 : QVector2D) : Bool :=
  TriTri2D ⟨p1, p2, p3⟩ ⟨p4, p5, p6⟩ 0.001 false

/-- The difference of two vectors (`operator-` of `QVector2D`), in `float` operations. -/
def sub (a b : QVector2D) : QVector2D := ⟨round (a.x - b.x), round (a.y - b.y)⟩

/-- The squared length of a vector (`QVector2D::lengthSquared`), in `float` operations. -/
def lengthSquared (v : QVector2D) : ℚ := round (round (v.x * v.x) + round (v.y * v.y))

/-- The free function `crossProduct`, which returns a `float`. -/
def crossProduct (v1 v2 : QVector2D) : ℚ := round (round (v1.x * v2.y) - round (v1.y * v2.x))

/-- The loop of the member `isInsidePolygon` in `float` operations; the arguments are those
of `RiveQtPath.isInsidePolygon.loop`. -/
def isInsidePolygon.loop (polygon : List QVector2D) (p : QVector2D) : Nat → Nat → Nat → Bool
  | 0, _, intersectCount => intersectCount % 2 == 1
  | k + 1, i, intersectCount =>
    let n := polygon.length
    if i < n then
      let j := (i + 1) % n
      let edgeVector := sub (QVector.at polygon j) (QVector.at polygon i)
      let pointVector := sub p (QVector.at polygon i)
      let cp := crossProduct edgeVector pointVector
      if RiveQtPath.qFuzzyCompare cp 0
          && decide (lengthSquared pointVector ≤ lengthSquared edgeVector) then false
      else if (decide ((QVector.at polygon i).y > p.y) != decide ((QVector.at polygon j).y > p.y))
          && decide (p.x
            < round (round (round (round ((QVector.at polygon j).x - (QVector.at polygon i).x)
                  * round (p.y - (QVector.at polygon i).y))
                / round ((QVector.at polygon j).y - (QVector.at polygon i).y))
              + (QVector.at polygon i).x)) then
        isInsidePolygon.loop polygon p k (i + 1) (intersectCount + 1)
      else isInsidePolygon.loop polygon p k (i + 1) intersectCount
    else intersectCount % 2 == 1

/-- The member `isInsidePolygon` in `float` operations. -/
def isInsidePolygon (polygon : List QVector2D) (p : QVector2D) : Bool :=
  isInsidePolygon.loop polygon p polygon.length 0 0

end Binary32

/-- Every determinant of three of the listed points is computed without rounding error. -/
def DetExact32 (points : List QVector2D) : Prop :=
  ∀ u ∈ points, ∀ v ∈ points, ∀ w ∈ points, Binary32.Det2D u v w = Det2D u v w

instance (points : List QVector2D) : Decidable (DetExact32 points) := by
  unfold DetExact32; infer_instance

/-- Both coordinates of every listed point are `float`s. -/
def AreFloats32 (points : List QVector2D) : Prop :=
  ∀ q ∈ points, Binary32.round q.x = q.x ∧ Binary32.round q.y = q.y

instance (points : List QVector2D) : Decidable (AreFloats32 points) := by
  unfold AreFloats32; infer_instance

/-! ## Notions for the parts of a join and the passes of the flattening loop -/

namespace RiveQtPath

/-- The triangle `a b c` as a vertex list, or nothing when two of its corners coincide. -/
def triangleUnlessDegenerate (a b c : QVector2D) : List QVector2D :=
  if a = b ∨ a = c ∨ b = c then [] else [a, b, c]

/-- The vertices that the `BevelJoin` case appends: the triangle from `p1` moved by the
offset of the incoming segment over the corner point `p2` to `p2` moved by the offset of the
outgoing segment, on the outer side of the turn; nothing when two of these coincide. -/
def updatePathOutlineVertices.bevelPart (p1 p2 offset offset2 : QVector2D) (turnLeft : Bool) :
    List QVector2D :=
  if turnLeft then triangleUnlessDegenerate (p1 - offset) p2 (p2 - offset2)
  else triangleUnlessDegenerate (p1 + offset) p2 (p2 + offset2)

/-- The vertices that the `MiterJoin` case appends before it falls through to the bevel
case: when neither offset is zero and `calculateIntersection` finds the meeting point `pM`
of the two outer offset lines, the triangle between the two outer corners and `pM`. -/
def updatePathOutlineVertices.miterApexPart (p1 p2 p3 offset offset2 : QVector2D)
    (turnLeft : Bool) : List QVector2D :=
  if offset.isNull || offset2.isNull then []
  else if turnLeft then
    match calculateIntersection (p1 - offset) (p2 - offset) (p3 - offset2) (p2 - offset2) with
    | some pM => triangleUnlessDegenerate (p1 - offset) pM (p2 - offset2)
    | none => []
  else
    match calculateIntersection (p1 + offset) (p2 + offset) (p3 + offset2) (p2 + offset2) with
    | some pM => triangleUnlessDegenerate (p1 + offset) pM (p2 + offset2)
    | none => []

end RiveQtPath

namespace RiveQtPath

/-- One pass through the body of the element loop of `updatePathSegmentsOutlineData`, on the
state made of the element index, the outline data, the records of the current subpath and
the step index; past the last element the state stays as it is. -/
def updatePathSegmentsOutlineData.iteration (normalized : QVector2D → QVector2D)
    (path : QPainterPath) (m_segmentCount : Nat)
    (st : Nat × List (List PathDataPoint) × List PathDataPoint × Nat) :
    Nat × List (List PathDataPoint) × List PathDataPoint × Nat :=
  if st.1 < path.elementCount then
    let element := path.elementAt st.1
    match element.type with
    | ElementType.MoveToElement =>
      (st.1 + 1, (if st.2.2.1.length > 1 then st.2.1 ++ [st.2.2.1] else st.2.1),
        [⟨⟨element.x, element.y⟩, ⟨0, 0⟩, 0⟩], 1)
    | ElementType.LineToElement =>
      (st.1 + 1, st.2.1, st.2.2.1 ++ [⟨⟨element.x, element.y⟩, ⟨0, 0⟩, st.2.2.2⟩],
        st.2.2.2 + 1)
    | ElementType.CurveToElement =>
      let startPoint := (QVector.at st.2.2.1 (st.2.2.1.length - 1)).point
      let controlPoint1 : QVector2D := ⟨element.x, element.y⟩
      let controlPoint2 : QVector2D :=
        ⟨(path.elementAt (st.1 + 1)).x, (path.elementAt (st.1 + 1)).y⟩
      let endPoint : QVector2D := ⟨(path.elementAt (st.1 + 2)).x, (path.elementAt (st.1 + 2)).y⟩
      (st.1 + 2 + 1, st.2.1,
        updatePathSegmentsOutlineData.setLastTangent st.2.2.1
            (cubicBezierTangent normalized startPoint controlPoint1 controlPoint2 endPoint 0)
          ++ updatePathSegmentsOutlineData.samples normalized startPoint controlPoint1
            controlPoint2 endPoint m_segmentCount st.2.2.2 m_segmentCount 1,
        st.2.2.2 + 1)
    | ElementType.CurveToDataElement => (st.1 + 1, st.2.1, st.2.2.1, st.2.2.2)
  else st

/-- The state of the element loop of `updatePathSegmentsOutlineData` after `k` passes,
started as the function starts it: at element 1, with no outline data and the record of
element 0. -/
def updatePathSegmentsOutlineData.stateAfter (normalized : QVector2D → QVector2D)
    (path : QPainterPath) (m_segmentCount : Nat) :
    Nat → Nat × List (List PathDataPoint) × List PathDataPoint × Nat
  | 0 => (1, [], [⟨⟨(path.elementAt 0).x, (path.elementAt 0).y⟩, ⟨0, 0⟩, 0⟩], 0)
  | k + 1 => updatePathSegmentsOutlineData.iteration normalized path m_segmentCount
      (updatePathSegmentsOutlineData.stateAfter normalized path m_segmentCount k)

/-- A path of two cubics with a corner between them: from `(0, 0)` over `(0, 2)`, `(2, 4)`
to `(4, 4)`, which it reaches heading right, and on over `(4, 2)`, `(6, 0)` to `(8, 0)`,
leaving `(4, 4)` heading down. -/
def twoCubicsPath : QPainterPath :=
  ⟨[⟨0, 0, ElementType.MoveToElement⟩, ⟨0, 2, ElementType.CurveToElement⟩,
      ⟨2, 4, ElementType.CurveToDataElement⟩, ⟨4, 4, ElementType.CurveToDataElement⟩,
      ⟨4, 2, ElementType.CurveToElement⟩, ⟨6, 0, ElementType.CurveToDataElement⟩,
      ⟨8, 0, ElementType.CurveToDataElement⟩],
    QtFillRule.WindingFill⟩

end RiveQtPath

/-! ## Theorems -/

namespace RiveQtPath

theorem TriTri2D_comm (t1 t2 : Tri) (eps : ℚ) (b : Bool) :
    TriTri2D t1 t2 eps b = TriTri2D t2 t1 eps b := by
  simp only [TriTri2D]
  cases TriTri2D.edgeLoop (if b then BoundaryCollideChk else BoundaryDoesntCollideChk)
      (CheckTriWinding t1) (CheckTriWinding t2) eps <;>
    cases TriTri2D.edgeLoop (if b then BoundaryCollideChk else BoundaryDoesntCollideChk)
      (CheckTriWinding t2) (CheckTriWinding t1) eps <;> rfl

/-- C7: `doTrianglesOverlap` is symmetric in its two triangles: for all points
`a b c d e f`, `doTrianglesOverlap a b c d e f = doTrianglesOverlap d e f a b c`. -/
theorem doTrianglesOverlap_symmetric (a b c d e f : QVector2D) :
    doTrianglesOverlap a b c d e f = doTrianglesOverlap d e f a b c := by
  unfold doTrianglesOverlap
  exact TriTri2D_comm _ _ _ _

/-- C9: when `findOverlappingTriangles` finds no overlapping pair in a triangle list,
`removeOverlappingTriangles` returns (whatever the bound on the hull walk) and leaves the
list exactly unchanged: same points, same order. -/
theorem removeOverlappingTriangles_unchanged (qTriangulate : List ℚ → QTriangleSet)
    (normalized : QVector2D → QVector2D) (fuel : Nat) (triangles : List QVector2D)
    (h : findOverlappingTriangles triangles = []) :
    removeOverlappingTriangles qTriangulate normalized fuel triangles = some triangles := by
  simp [removeOverlappingTriangles, h]

end RiveQtPath

theorem Det2D_split (a b c p : QVector2D) :
    Det2D a b p + Det2D b c p + Det2D c a p = Det2D a b c := by
  simp only [Det2D]; ring

theorem Det2D_swap (a b c : QVector2D) : Det2D a c b = -Det2D a b c := by
  simp only [Det2D]; ring

theorem Det2D_rotate (a b c : QVector2D) : Det2D b c a = Det2D a b c := by
  simp only [Det2D]; ring

/-- Barycentric expansion of the determinant against the edge `u v`. -/
theorem Det2D_barycentric (u v d e f p : QVector2D) :
    Det2D d e f * Det2D u v p
      = Det2D e f p * Det2D u v d + Det2D f d p * Det2D u v e + Det2D d e p * Det2D u v f := by
  simp only [Det2D]; ring

/-- An edge `u v` that has `p` more than `m` on its inner side cannot have all corners of a
counter-clockwise triangle containing `p` within `m` of its outer side. -/
theorem not_all_outside (m : ℚ) (u v d e f p : QVector2D) (hm : 0 ≤ m)
    (h1 : m < Det2D d e p) (h2 : m < Det2D e f p) (h3 : m < Det2D f d p)
    (hp : m < Det2D u v p) :
    ¬ (Det2D u v d ≤ m ∧ Det2D u v e ≤ m ∧ Det2D u v f ≤ m) := by
  rintro ⟨hd, he, hf⟩
  have hb := Det2D_barycentric u v d e f p
  have hs := Det2D_split d e f p
  have k1 : 0 ≤ Det2D e f p * (m - Det2D u v d) :=
    mul_nonneg (by linarith) (by linarith)
  have k2 : 0 ≤ Det2D f d p * (m - Det2D u v e) :=
    mul_nonneg (by linarith) (by linarith)
  have k3 : 0 ≤ Det2D d e p * (m - Det2D u v f) :=
    mul_nonneg (by linarith) (by linarith)
  have hD : 0 < Det2D d e f := by linarith
  have k4 : 0 < Det2D d e f * (Det2D u v p - m) := mul_pos hD (by linarith)
  nlinarith

/-- After `CheckTriWinding`, a point inside by `m` is beyond `m` on the inner side of each
of the three edges in the order used by `TriTri2D`. -/
theorem insideBy_checkTriWinding (m : ℚ) (a b c p : QVector2D) (hm : 0 ≤ m)
    (h : insideBy m a b c p) :
    m < Det2D (CheckTriWinding ⟨a, b, c⟩).p0 (CheckTriWinding ⟨a, b, c⟩).p1 p
      ∧ m < Det2D (CheckTriWinding ⟨a, b, c⟩).p1 (CheckTriWinding ⟨a, b, c⟩).p2 p
      ∧ m < Det2D (CheckTriWinding ⟨a, b, c⟩).p2 (CheckTriWinding ⟨a, b, c⟩).p0 p := by
  have hs := Det2D_split a b c p
  rcases h with ⟨h1, h2, h3⟩ | ⟨h1, h2, h3⟩
  · have : ¬ Det2D a b c < 0 := by linarith
    simp only [CheckTriWinding, this, if_false]
    exact ⟨h1, h2, h3⟩
  · have : Det2D a b c < 0 := by linarith
    simp only [CheckTriWinding, this, if_true]
    have e1 : Det2D a c p = -Det2D c a p := by simp only [Det2D]; ring
    have e2 : Det2D c b p = -Det2D b c p := by simp only [Det2D]; ring
    have e3 : Det2D b a p = -Det2D a b p := by simp only [Det2D]; ring
    refine ⟨by linarith, by linarith, by linarith⟩

/-- No edge of `s` separates when some point is beyond `eps` inside both triangles. -/
theorem edgeLoop_false_of_common (eps : ℚ) (s o : Tri) (p : QVector2D) (hm : 0 ≤ eps)
    (hs : eps < Det2D s.p0 s.p1 p ∧ eps < Det2D s.p1 s.p2 p ∧ eps < Det2D s.p2 s.p0 p)
    (ho : eps < Det2D o.p0 o.p1 p ∧ eps < Det2D o.p1 o.p2 p ∧ eps < Det2D o.p2 o.p0 p) :
    TriTri2D.edgeLoop BoundaryDoesntCollideChk s o eps = false := by
  have n0 := not_all_outside eps s.p0 s.p1 o.p0 o.p1 o.p2 p hm ho.1 ho.2.1 ho.2.2 hs.1
  have n1 := not_all_outside eps s.p1 s.p2 o.p0 o.p1 o.p2 p hm ho.1 ho.2.1 ho.2.2 hs.2.1
  have n2 := not_all_outside eps s.p2 s.p0 o.p0 o.p1 o.p2 p hm ho.1 ho.2.1 ho.2.2 hs.2.2
  simp only [TriTri2D.edgeLoop, BoundaryDoesntCollideChk, List.range, List.range.loop,
    List.any, Tri.get, Bool.or_false, Bool.or_eq_false_iff, Bool.and_eq_false_iff,
    decide_eq_false_iff_not]
  norm_num
  refine ⟨?_, ?_, ?_⟩
  · by_contra hc; push_neg at hc; exact n0 ⟨hc.1.1, hc.1.2, hc.2⟩
  · by_contra hc; push_neg at hc; exact n1 ⟨hc.1.1, hc.1.2, hc.2⟩
  · by_contra hc; push_neg at hc; exact n2 ⟨hc.1.1, hc.1.2, hc.2⟩

namespace RiveQtPath

/-- In exact arithmetic, two triangles that have a common point lying more than `0.001`
inside every edge of both (the determinant of the point against each edge, taken with the
triangle's winding, exceeds `0.001`) are reported as overlapping. -/
theorem doTrianglesOverlap_of_common_deep_point (a b c d e f p : QVector2D)
    (h1 : insideBy 0.001 a b c p) (h2 : insideBy 0.001 d e f p) :
    doTrianglesOverlap a b c d e f = true := by
  have hm : (0 : ℚ) ≤ 0.001 := by norm_num
  have w1 := insideBy_checkTriWinding 0.001 a b c p hm h1
  have w2 := insideBy_checkTriWinding 0.001 d e f p hm h2
  simp only [doTrianglesOverlap, TriTri2D, Bool.false_eq_true, if_false,
    edgeLoop_false_of_common 0.001 _ _ p hm w1 w2,
    edgeLoop_false_of_common 0.001 _ _ p hm w2 w1]

theorem doTrianglesOverlap_of_common_deep_point_witness :
    insideBy 0.001 ⟨1, 1⟩ ⟨10, 1⟩ ⟨5, 10⟩ ⟨5, 4⟩ ∧ insideBy 0.001 ⟨5, 0⟩ ⟨10, 9⟩ ⟨1, 9⟩ ⟨5, 4⟩
      ∧ doTrianglesOverlap ⟨1, 1⟩ ⟨10, 1⟩ ⟨5, 10⟩ ⟨5, 0⟩ ⟨10, 9⟩ ⟨1, 9⟩ = true :=
  have h1 : insideBy 0.001 ⟨1, 1⟩ ⟨10, 1⟩ ⟨5, 10⟩ ⟨5, 4⟩ := by
    left; simp only [Det2D]; norm_num
  have h2 : insideBy 0.001 ⟨5, 0⟩ ⟨10, 9⟩ ⟨1, 9⟩ ⟨5, 4⟩ := by
    left; simp only [Det2D]; norm_num
  ⟨h1, h2, doTrianglesOverlap_of_common_deep_point _ _ _ _ _ _ _ h1 h2⟩

/-- In exact arithmetic: the triangles `(0,0) (1,0) (0,1)` and `(1/4,1/1024) (0,-1) (1,-1)`
have the common interior point `(1/4, 1/2048)`, yet `doTrianglesOverlap` returns false: the
second triangle reaches less than `0.001` (in determinant) across the edge `(0,0) (1,0)`. -/
theorem doTrianglesOverlap_misses_thin_overlap :
    strictlyInside ⟨0, 0⟩ ⟨1, 0⟩ ⟨0, 1⟩ ⟨1 / 4, 1 / 2048⟩
      ∧ strictlyInside ⟨1 / 4, 1 / 1024⟩ ⟨0, -1⟩ ⟨1, -1⟩ ⟨1 / 4, 1 / 2048⟩
      ∧ doTrianglesOverlap ⟨0, 0⟩ ⟨1, 0⟩ ⟨0, 1⟩ ⟨1 / 4, 1 / 1024⟩ ⟨0, -1⟩ ⟨1, -1⟩ = false := by
  refine ⟨?_, ?_, by decide!⟩
  · left; simp only [Det2D]; norm_num
  · left; simp only [Det2D]; norm_num

end RiveQtPath

/-- The determinant against an edge is affine in the point. -/
theorem Det2D_affine (u v P C : QVector2D) (s t : ℚ) (hst : s + t = 1) :
    Det2D u v ⟨s * P.x + t * C.x, s * P.y + t * C.y⟩ = s * Det2D u v P + t * Det2D u v C := by
  have hs : s = 1 - t := by linarith
  subst hs
  simp only [Det2D]; ring

/-- From a point `P` of a closed counter-clockwise triangle that is strictly on the inner
side of a further edge `u v`, a small step towards an interior point `C` of the triangle
gives an interior point of the triangle that is still on the inner side of `u v`. -/
theorem exists_interior_near (a1 a2 a3 u v P C : QVector2D)
    (hP : 0 ≤ Det2D a1 a2 P ∧ 0 ≤ Det2D a2 a3 P ∧ 0 ≤ Det2D a3 a1 P)
    (hC : 0 < Det2D a1 a2 C ∧ 0 < Det2D a2 a3 C ∧ 0 < Det2D a3 a1 C)
    (hg : 0 < Det2D u v P) :
    ∃ q : QVector2D, 0 < Det2D a1 a2 q ∧ 0 < Det2D a2 a3 q ∧ 0 < Det2D a3 a1 q
      ∧ 0 < Det2D u v q := by
  set G := Det2D u v P with hG
  set K := Det2D u v C with hK
  have hden : 0 < 2 * (G + |K|) := by
    have := abs_nonneg K
    linarith
  set t : ℚ := G / (2 * (G + |K|)) with ht
  have ht0 : 0 < t := div_pos hg hden
  have ht1 : t ≤ 1 / 2 := by
    rw [ht, div_le_iff₀ hden]
    have := abs_nonneg K
    linarith
  have htmul : t * (2 * (G + |K|)) = G := by
    rw [ht]; field_simp
  refine ⟨⟨(1 - t) * P.x + t * C.x, (1 - t) * P.y + t * C.y⟩, ?_, ?_, ?_, ?_⟩
  · rw [Det2D_affine _ _ _ _ _ _ (by ring)]
    have := mul_nonneg (by linarith : (0 : ℚ) ≤ 1 - t) hP.1
    have := mul_pos ht0 hC.1
    linarith
  · rw [Det2D_affine _ _ _ _ _ _ (by ring)]
    have := mul_nonneg (by linarith : (0 : ℚ) ≤ 1 - t) hP.2.1
    have := mul_pos ht0 hC.2.1
    linarith
  · rw [Det2D_affine _ _ _ _ _ _ (by ring)]
    have := mul_nonneg (by linarith : (0 : ℚ) ≤ 1 - t) hP.2.2
    have := mul_pos ht0 hC.2.2
    linarith
  · rw [Det2D_affine _ _ _ _ _ _ (by ring)]
    have hKabs : -|K| ≤ K := neg_abs_le K
    have h1 : t * K ≥ -(t * |K|) := by nlinarith
    nlinarith

theorem Det2D_centroid (a1 a2 a3 : QVector2D) :
    Det2D a1 a2 (centroid a1 a2 a3) = Det2D a1 a2 a3 / 3
      ∧ Det2D a2 a3 (centroid a1 a2 a3) = Det2D a1 a2 a3 / 3
      ∧ Det2D a3 a1 (centroid a1 a2 a3) = Det2D a1 a2 a3 / 3 := by
  refine ⟨?_, ?_, ?_⟩ <;> simp only [Det2D, centroid] <;> ring

/-- For a counter-clockwise triangle and an edge `u v` that has some corner of the triangle
strictly on its inner side, some interior point of the triangle is on the inner side of
`u v`. -/
theorem exists_interior_on_side (a1 a2 a3 u v : QVector2D) (hD : 0 < Det2D a1 a2 a3)
    (hv : 0 < Det2D u v a1 ∨ 0 < Det2D u v a2 ∨ 0 < Det2D u v a3) :
    ∃ q : QVector2D, 0 < Det2D a1 a2 q ∧ 0 < Det2D a2 a3 q ∧ 0 < Det2D a3 a1 q
      ∧ 0 < Det2D u v q := by
  obtain ⟨c1, c2, c3⟩ := Det2D_centroid a1 a2 a3
  have hC : 0 < Det2D a1 a2 (centroid a1 a2 a3) ∧ 0 < Det2D a2 a3 (centroid a1 a2 a3)
      ∧ 0 < Det2D a3 a1 (centroid a1 a2 a3) := by
    rw [c1, c2, c3]; exact ⟨by positivity, by positivity, by positivity⟩
  have z1 : Det2D a1 a2 a1 = 0 := by simp only [Det2D]; ring
  have z2 : Det2D a1 a2 a2 = 0 := by simp only [Det2D]; ring
  have z3 : Det2D a2 a3 a2 = 0 := by simp only [Det2D]; ring
  have z4 : Det2D a2 a3 a3 = 0 := by simp only [Det2D]; ring
  have z5 : Det2D a3 a1 a3 = 0 := by simp only [Det2D]; ring
  have z6 : Det2D a3 a1 a1 = 0 := by simp only [Det2D]; ring
  have r1 : Det2D a2 a3 a1 = Det2D a1 a2 a3 := Det2D_rotate a1 a2 a3
  have r2 : Det2D a3 a1 a2 = Det2D a1 a2 a3 := by simp only [Det2D]; ring
  rcases hv with h | h | h
  · exact exists_interior_near a1 a2 a3 u v a1 _ ⟨by linarith, by linarith, by linarith⟩ hC h
  · exact exists_interior_near a1 a2 a3 u v a2 _ ⟨by linarith, by linarith, by linarith⟩ hC h
  · exact exists_interior_near a1 a2 a3 u v a3 _ ⟨by linarith, by linarith, by linarith⟩ hC h

theorem innerSide_convex (t : Tri) (i : Fin 3) : Convex ℚ (innerSide t i) := by
  intro x hx y hy a b ha hb hab
  simp only [innerSide, Set.mem_setOf_eq] at hx hy ⊢
  have e : (⟨(a • x + b • y).1, (a • x + b • y).2⟩ : QVector2D)
      = ⟨a * (⟨x.1, x.2⟩ : QVector2D).x + b * (⟨y.1, y.2⟩ : QVector2D).x,
         a * (⟨x.1, x.2⟩ : QVector2D).y + b * (⟨y.1, y.2⟩ : QVector2D).y⟩ := by
    simp
  rw [e, Det2D_affine _ _ _ _ _ _ hab]
  rcases ha.eq_or_lt with h0 | h0
  · have hb1 : b = 1 := by linarith
    rw [← h0, hb1]; simpa using hy
  · have := mul_pos h0 hx
    have := mul_nonneg hb hy.le
    linarith

/-- Two counter-clockwise triangles none of whose edges has all corners of the other
triangle on its closed outer side have a common interior point (Helly's theorem for the six
inner half-planes). -/
theorem exists_common_interior (s o : Tri) (hs : 0 < Det2D s.p0 s.p1 s.p2)
    (ho : 0 < Det2D o.p0 o.p1 o.p2)
    (hso : ∀ i : Fin 3, 0 < Det2D (s.get i) (s.get ((i + 1) % 3)) o.p0
      ∨ 0 < Det2D (s.get i) (s.get ((i + 1) % 3)) o.p1
      ∨ 0 < Det2D (s.get i) (s.get ((i + 1) % 3)) o.p2)
    (hos : ∀ i : Fin 3, 0 < Det2D (o.get i) (o.get ((i + 1) % 3)) s.p0
      ∨ 0 < Det2D (o.get i) (o.get ((i + 1) % 3)) s.p1
      ∨ 0 < Det2D (o.get i) (o.get ((i + 1) % 3)) s.p2) :
    ∃ p : QVector2D,
      (0 < Det2D s.p0 s.p1 p ∧ 0 < Det2D s.p1 s.p2 p ∧ 0 < Det2D s.p2 s.p0 p)
        ∧ (0 < Det2D o.p0 o.p1 p ∧ 0 < Det2D o.p1 o.p2 p ∧ 0 < Det2D o.p2 o.p0 p) := by
  classical
  let F : Bool × Fin 3 → Set (ℚ × ℚ) := fun k => innerSide (if k.1 then s else o) k.2
  have hall : ∀ (t : Tri) (q : QVector2D),
      (0 < Det2D t.p0 t.p1 q ∧ 0 < Det2D t.p1 t.p2 q ∧ 0 < Det2D t.p2 t.p0 q) →
      ∀ i : Fin 3, ((q.x, q.y) : ℚ × ℚ) ∈ innerSide t i := by
    intro t q h i
    fin_cases i
    · exact h.1
    · exact h.2.1
    · exact h.2.2
  have hconv : ∀ i ∈ (Finset.univ : Finset (Bool × Fin 3)), Convex ℚ (F i) :=
    fun i _ => innerSide_convex _ _
  have hinter : ∀ I ⊆ (Finset.univ : Finset (Bool × Fin 3)),
      I.card ≤ Module.finrank ℚ (ℚ × ℚ) + 1 → (⋂ i ∈ I, F i).Nonempty := by
    intro I _ hI
    have hrank : Module.finrank ℚ (ℚ × ℚ) = 2 := by simp
    rw [hrank] at hI
    have hsplit : (I.filter fun k => k.1 = true).card + (I.filter fun k => ¬ k.1 = true).card
        = I.card := Finset.filter_card_add_filter_neg_card_eq_card _
    have hcase : (I.filter fun k => ¬ k.1 = true).card ≤ 1
        ∨ (I.filter fun k => k.1 = true).card ≤ 1 := by omega
    rcases hcase with h1 | h1
    · -- at most one half-plane of `o`
      have huniq := Finset.card_le_one.mp h1
      obtain ⟨j, hj⟩ : ∃ j : Fin 3, ∀ k ∈ I, k.1 = false → k.2 = j := by
        by_cases hex : ∃ k ∈ I, k.1 = false
        · obtain ⟨k0, hk0, hk0f⟩ := hex
          refine ⟨k0.2, fun k hk hkf => ?_⟩
          have := huniq k (by simp [hk, hkf]) k0 (by simp [hk0, hk0f])
          rw [this]
        · exact ⟨0, fun k hk hkf => absurd ⟨k, hk, hkf⟩ hex⟩
      obtain ⟨q, q1, q2, q3, q4⟩ := exists_interior_on_side s.p0 s.p1 s.p2 (o.get j)
        (o.get ((j + 1) % 3)) hs (hos j)
      refine ⟨(q.x, q.y), ?_⟩
      simp only [Set.mem_iInter]
      intro k hk
      rcases k with ⟨b, i⟩
      cases b
      · have := hj _ hk rfl
        simp only at this
        subst this
        exact q4
      · exact hall s q ⟨q1, q2, q3⟩ i
    · have huniq := Finset.card_le_one.mp h1
      obtain ⟨j, hj⟩ : ∃ j : Fin 3, ∀ k ∈ I, k.1 = true → k.2 = j := by
        by_cases hex : ∃ k ∈ I, k.1 = true
        · obtain ⟨k0, hk0, hk0f⟩ := hex
          refine ⟨k0.2, fun k hk hkf => ?_⟩
          have := huniq k (by simp [hk, hkf]) k0 (by simp [hk0, hk0f])
          rw [this]
        · exact ⟨0, fun k hk hkf => absurd ⟨k, hk, hkf⟩ hex⟩
      obtain ⟨q, q1, q2, q3, q4⟩ := exists_interior_on_side o.p0 o.p1 o.p2 (s.get j)
        (s.get ((j + 1) % 3)) ho (hso j)
      refine ⟨(q.x, q.y), ?_⟩
      simp only [Set.mem_iInter]
      intro k hk
      rcases k with ⟨b, i⟩
      cases b
      · exact hall o q ⟨q1, q2, q3⟩ i
      · have := hj _ hk rfl
        simp only at this
        subst this
        exact q4
  obtain ⟨q, hq⟩ := Convex.helly_theorem' hconv hinter
  simp only [Set.mem_iInter] at hq
  refine ⟨⟨q.1, q.2⟩, ⟨?_, ?_, ?_⟩, ⟨?_, ?_, ?_⟩⟩
  · exact hq (true, 0) (Finset.mem_univ _)
  · exact hq (true, 1) (Finset.mem_univ _)
  · exact hq (true, 2) (Finset.mem_univ _)
  · exact hq (false, 0) (Finset.mem_univ _)
  · exact hq (false, 1) (Finset.mem_univ _)
  · exact hq (false, 2) (Finset.mem_univ _)

/-- After `CheckTriWinding` a triangle of non-zero area is counter-clockwise. -/
theorem checkTriWinding_pos (a b c : QVector2D) (h : Det2D a b c ≠ 0) :
    0 < Det2D (CheckTriWinding ⟨a, b, c⟩).p0 (CheckTriWinding ⟨a, b, c⟩).p1
      (CheckTriWinding ⟨a, b, c⟩).p2 := by
  by_cases hneg : Det2D a b c < 0
  · simp only [CheckTriWinding, hneg, if_true]
    rw [Det2D_swap]; linarith
  · simp only [CheckTriWinding, hneg, if_false]
    exact lt_of_le_of_ne (not_lt.mp hneg) (Ne.symm h)

/-- A point on the inner side of the three edges of the re-wound triangle is an interior
point of the triangle as given. -/
theorem strictlyInside_of_checkTriWinding (a b c p : QVector2D)
    (h : 0 < Det2D (CheckTriWinding ⟨a, b, c⟩).p0 (CheckTriWinding ⟨a, b, c⟩).p1 p
      ∧ 0 < Det2D (CheckTriWinding ⟨a, b, c⟩).p1 (CheckTriWinding ⟨a, b, c⟩).p2 p
      ∧ 0 < Det2D (CheckTriWinding ⟨a, b, c⟩).p2 (CheckTriWinding ⟨a, b, c⟩).p0 p) :
    strictlyInside a b c p := by
  by_cases hneg : Det2D a b c < 0
  · simp only [CheckTriWinding, hneg, if_true] at h
    have e1 : Det2D a c p = -Det2D c a p := by simp only [Det2D]; ring
    have e2 : Det2D c b p = -Det2D b c p := by simp only [Det2D]; ring
    have e3 : Det2D b a p = -Det2D a b p := by simp only [Det2D]; ring
    right
    refine ⟨by linarith [h.2.2], by linarith [h.2.1], by linarith [h.1]⟩
  · simp only [CheckTriWinding, hneg, if_false] at h
    left
    simpa using h

/-- When the edge test of `TriTri2D` fails for a non-negative `eps`, every edge of `s` has a
corner of `o` strictly on its inner side. -/
theorem inner_corner_of_edgeLoop_false (eps : ℚ) (heps : 0 ≤ eps) (s o : Tri)
    (h : TriTri2D.edgeLoop BoundaryDoesntCollideChk s o eps = false) (i : Fin 3) :
    0 < Det2D (s.get i) (s.get ((i + 1) % 3)) o.p0
      ∨ 0 < Det2D (s.get i) (s.get ((i + 1) % 3)) o.p1
      ∨ 0 < Det2D (s.get i) (s.get ((i + 1) % 3)) o.p2 := by
  simp only [TriTri2D.edgeLoop, BoundaryDoesntCollideChk, List.range, List.range.loop,
    List.any, Tri.get, Bool.or_false, Bool.or_eq_false_iff, Bool.and_eq_false_iff,
    decide_eq_false_iff_not, not_le] at h
  obtain ⟨h0, h1, h2⟩ := h
  fin_cases i
  · rcases h0 with (h | h) | h
    · exact Or.inl (lt_of_le_of_lt heps h)
    · exact Or.inr (Or.inl (lt_of_le_of_lt heps h))
    · exact Or.inr (Or.inr (lt_of_le_of_lt heps h))
  · rcases h1 with (h | h) | h
    · exact Or.inl (lt_of_le_of_lt heps h)
    · exact Or.inr (Or.inl (lt_of_le_of_lt heps h))
    · exact Or.inr (Or.inr (lt_of_le_of_lt heps h))
  · rcases h2 with (h | h) | h
    · exact Or.inl (lt_of_le_of_lt heps h)
    · exact Or.inr (Or.inl (lt_of_le_of_lt heps h))
    · exact Or.inr (Or.inr (lt_of_le_of_lt heps h))

/-- An interior point lies on the same side of the line `a b` as the corner `c`. -/
theorem strictlyInside_side (a b c p : QVector2D) (h : strictlyInside a b c p) :
    0 < Det2D a b p * Det2D a b c := by
  have hs := Det2D_split a b c p
  rcases h with ⟨h1, h2, h3⟩ | ⟨h1, h2, h3⟩
  · exact mul_pos h1 (by linarith)
  · exact mul_pos_of_neg_of_neg (by linarith) (by linarith)

theorem strictlyInside_of_sameCorners (p1 p2 p3 a b c p : QVector2D)
    (hc : sameCorners p1 p2 p3 a b c) (h : strictlyInside p1 p2 p3 p) :
    strictlyInside a b c p := by
  have e1 : Det2D b a p = -Det2D a b p := by simp only [Det2D]; ring
  have e2 : Det2D c b p = -Det2D b c p := by simp only [Det2D]; ring
  have e3 : Det2D a c p = -Det2D c a p := by simp only [Det2D]; ring
  unfold strictlyInside insideBy at *
  obtain hc | hc | hc | hc | hc | hc := hc <;> obtain ⟨rfl, rfl, rfl⟩ := hc <;>
  rcases h with ⟨h1, h2, h3⟩ | ⟨h1, h2, h3⟩ <;>
  first
  | (left; exact ⟨by linarith, by linarith, by linarith⟩)
  | (right; exact ⟨by linarith, by linarith, by linarith⟩)

theorem Det2D_ne_zero_of_sameCorners (p1 p2 p3 a b c : QVector2D)
    (hc : sameCorners p1 p2 p3 a b c) (h : Det2D a b c ≠ 0) : Det2D p1 p2 p3 ≠ 0 := by
  have e1 : Det2D b c a = Det2D a b c := by simp only [Det2D]; ring
  have e2 : Det2D c a b = Det2D a b c := by simp only [Det2D]; ring
  have e3 : Det2D a c b = -Det2D a b c := by simp only [Det2D]; ring
  have e4 : Det2D c b a = -Det2D a b c := by simp only [Det2D]; ring
  have e5 : Det2D b a c = -Det2D a b c := by simp only [Det2D]; ring
  obtain hc | hc | hc | hc | hc | hc := hc <;> obtain ⟨rfl, rfl, rfl⟩ := hc
  · exact h
  · rw [e1]; exact h
  · rw [e2]; exact h
  · rw [e3]; exact neg_ne_zero.mpr h
  · rw [e4]; exact neg_ne_zero.mpr h
  · rw [e5]; exact neg_ne_zero.mpr h

namespace RiveQtPath

/-- Two triangles of non-zero area that are reported as overlapping have a common interior
point. -/
theorem common_interior_of_doTrianglesOverlap (a b c d e f : QVector2D)
    (h1 : Det2D a b c ≠ 0) (h2 : Det2D d e f ≠ 0)
    (h : doTrianglesOverlap a b c d e f = true) :
    ∃ p, strictlyInside a b c p ∧ strictlyInside d e f p := by
  have heps : (0 : ℚ) ≤ 0.001 := by norm_num
  unfold doTrianglesOverlap TriTri2D at h
  simp only [Bool.false_eq_true, if_false] at h
  have hA : TriTri2D.edgeLoop BoundaryDoesntCollideChk (CheckTriWinding ⟨a, b, c⟩)
      (CheckTriWinding ⟨d, e, f⟩) 0.001 = false := by
    cases hv : TriTri2D.edgeLoop BoundaryDoesntCollideChk (CheckTriWinding ⟨a, b, c⟩)
      (CheckTriWinding ⟨d, e, f⟩) 0.001
    · rfl
    · rw [hv] at h; simp at h
  have hB : TriTri2D.edgeLoop BoundaryDoesntCollideChk (CheckTriWinding ⟨d, e, f⟩)
      (CheckTriWinding ⟨a, b, c⟩) 0.001 = false := by
    cases hv : TriTri2D.edgeLoop BoundaryDoesntCollideChk (CheckTriWinding ⟨d, e, f⟩)
      (CheckTriWinding ⟨a, b, c⟩) 0.001
    · rfl
    · rw [hv] at h; simp at h
  obtain ⟨p, hp1, hp2⟩ := exists_common_interior (CheckTriWinding ⟨a, b, c⟩)
    (CheckTriWinding ⟨d, e, f⟩) (checkTriWinding_pos a b c h1) (checkTriWinding_pos d e f h2)
    (inner_corner_of_edgeLoop_false 0.001 heps _ _ hA)
    (inner_corner_of_edgeLoop_false 0.001 heps _ _ hB)
  exact ⟨p, strictlyInside_of_checkTriWinding a b c p hp1,
    strictlyInside_of_checkTriWinding d e f p hp2⟩

/-- In exact arithmetic, for two triangles of non-zero area without a common interior point
(disjoint, or touching only along their boundaries), `doTrianglesOverlap` returns false. -/
theorem doTrianglesOverlap_false_of_disjoint_interiors (a b c d e f : QVector2D)
    (h1 : Det2D a b c ≠ 0) (h2 : Det2D d e f ≠ 0)
    (hno : ¬ ∃ p, strictlyInside a b c p ∧ strictlyInside d e f p) :
    doTrianglesOverlap a b c d e f = false := by
  by_contra h
  exact hno (common_interior_of_doTrianglesOverlap a b c d e f h1 h2 (by simpa using h))

theorem doTrianglesOverlap_false_of_disjoint_interiors_witness :
    Det2D ⟨1, 1⟩ ⟨10, 1⟩ ⟨5, 10⟩ ≠ 0 ∧ Det2D ⟨15, 15⟩ ⟨20, 25⟩ ⟨25, 15⟩ ≠ 0
      ∧ (¬ ∃ p, strictlyInside ⟨1, 1⟩ ⟨10, 1⟩ ⟨5, 10⟩ p
          ∧ strictlyInside ⟨15, 15⟩ ⟨20, 25⟩ ⟨25, 15⟩ p)
      ∧ doTrianglesOverlap ⟨1, 1⟩ ⟨10, 1⟩ ⟨5, 10⟩ ⟨15, 15⟩ ⟨20, 25⟩ ⟨25, 15⟩ = false :=
  have h1 : Det2D ⟨1, 1⟩ ⟨10, 1⟩ ⟨5, 10⟩ ≠ 0 := by simp only [Det2D]; norm_num
  have h2 : Det2D ⟨15, 15⟩ ⟨20, 25⟩ ⟨25, 15⟩ ≠ 0 := by simp only [Det2D]; norm_num
  have h3 : ¬ ∃ p, strictlyInside ⟨1, 1⟩ ⟨10, 1⟩ ⟨5, 10⟩ p
      ∧ strictlyInside ⟨15, 15⟩ ⟨20, 25⟩ ⟨25, 15⟩ p := by
    rintro ⟨p, hp, hq⟩
    unfold strictlyInside insideBy at hp hq
    simp only [Det2D] at hp hq
    rcases hp with ⟨a1, a2, a3⟩ | ⟨a1, a2, a3⟩ <;> rcases hq with ⟨b1, b2, b3⟩ | ⟨b1, b2, b3⟩ <;>
      linarith
  ⟨h1, h2, h3, doTrianglesOverlap_false_of_disjoint_interiors _ _ _ _ _ _ h1 h2 h3⟩

/-- In exact arithmetic, two triangles that share the edge `a b` (corners `a b c`, `a b d` in any
order) with `c` and `d` strictly on opposite sides of it are not reported as overlapping:
`doTrianglesOverlap` returns false. -/
theorem doTrianglesOverlap_false_of_shared_edge (a b c d p1 p2 p3 p4 p5 p6 : QVector2D)
    (hc1 : sameCorners p1 p2 p3 a b c) (hc2 : sameCorners p4 p5 p6 a b d)
    (hopp : Det2D a b c * Det2D a b d < 0) :
    doTrianglesOverlap p1 p2 p3 p4 p5 p6 = false := by
  have hc : Det2D a b c ≠ 0 := by
    intro h0; rw [h0, zero_mul] at hopp; exact lt_irrefl _ hopp
  have hd : Det2D a b d ≠ 0 := by
    intro h0; rw [h0, mul_zero] at hopp; exact lt_irrefl _ hopp
  by_contra h
  obtain ⟨p, hp, hq⟩ := common_interior_of_doTrianglesOverlap p1 p2 p3 p4 p5 p6
    (Det2D_ne_zero_of_sameCorners _ _ _ _ _ _ hc1 hc) (Det2D_ne_zero_of_sameCorners _ _ _ _ _ _ hc2 hd)
    (by simpa using h)
  have s1 := strictlyInside_side a b c p (strictlyInside_of_sameCorners _ _ _ _ _ _ p hc1 hp)
  have s2 := strictlyInside_side a b d p (strictlyInside_of_sameCorners _ _ _ _ _ _ p hc2 hq)
  have hsq : 0 ≤ Det2D a b p * Det2D a b p := mul_self_nonneg _
  nlinarith [mul_pos s1 s2]

theorem doTrianglesOverlap_false_of_shared_edge_witness :
    sameCorners ⟨1, 1⟩ ⟨10, 1⟩ ⟨5, 10⟩ ⟨10, 1⟩ ⟨5, 10⟩ ⟨1, 1⟩
      ∧ sameCorners ⟨10, 1⟩ ⟨5, 10⟩ ⟨15, 15⟩ ⟨10, 1⟩ ⟨5, 10⟩ ⟨15, 15⟩
      ∧ Det2D ⟨10, 1⟩ ⟨5, 10⟩ ⟨1, 1⟩ * Det2D ⟨10, 1⟩ ⟨5, 10⟩ ⟨15, 15⟩ < 0
      ∧ doTrianglesOverlap ⟨1, 1⟩ ⟨10, 1⟩ ⟨5, 10⟩ ⟨10, 1⟩ ⟨5, 10⟩ ⟨15, 15⟩ = false :=
  have h1 : sameCorners ⟨1, 1⟩ ⟨10, 1⟩ ⟨5, 10⟩ ⟨10, 1⟩ ⟨5, 10⟩ ⟨1, 1⟩ :=
    Or.inr (Or.inr (Or.inl ⟨rfl, rfl, rfl⟩))
  have h2 : sameCorners ⟨10, 1⟩ ⟨5, 10⟩ ⟨15, 15⟩ ⟨10, 1⟩ ⟨5, 10⟩ ⟨15, 15⟩ :=
    Or.inl ⟨rfl, rfl, rfl⟩
  have h3 : Det2D ⟨10, 1⟩ ⟨5, 10⟩ ⟨1, 1⟩ * Det2D ⟨10, 1⟩ ⟨5, 10⟩ ⟨15, 15⟩ < 0 := by
    simp only [Det2D]; norm_num
  ⟨h1, h2, h3, doTrianglesOverlap_false_of_shared_edge _ _ _ _ _ _ _ _ _ _ h1 h2 h3⟩

theorem findOverlappingTriangles_inner_step (t : List QVector2D) (a b fuel : Nat)
    (result : List (Nat × Nat)) (h1 : 3 * b < t.length) :
    findOverlappingTriangles.inner t (3 * a) (fuel + 1) (3 * b) result
      = findOverlappingTriangles.inner t (3 * a) fuel (3 * (b + 1))
          (if overlapAt t a b then result ++ [(a, b)] else result) := by
  have h4 : 3 * a / 3 = a := by omega
  have h5 : 3 * b / 3 = b := by omega
  have h3 : 3 * b + 3 = 3 * (b + 1) := by ring
  unfold overlapAt
  conv_lhs => unfold findOverlappingTriangles.inner
  rw [if_pos h1, h3, h4, h5]
  cases doTrianglesOverlap (QVector.at t (3 * a)) (QVector.at t (3 * a + 1))
        (QVector.at t (3 * a + 2)) (QVector.at t (3 * b)) (QVector.at t (3 * b + 1))
        (QVector.at t (3 * b + 2)) <;> simp

theorem findOverlappingTriangles_inner_eq (t : List QVector2D) (n a : Nat)
    (h : t.length = 3 * n) :
    ∀ (fuel b : Nat) (result : List (Nat × Nat)), n - b ≤ fuel →
      findOverlappingTriangles.inner t (3 * a) fuel (3 * b) result
        = result ++ overlapRow t a b (n - b) := by
  intro fuel
  induction fuel with
  | zero =>
    intro b result hb
    have : n - b = 0 := by omega
    simp [findOverlappingTriangles.inner, overlapRow, this]
  | succ fuel ih =>
    intro b result hb
    by_cases hlt : b < n
    · have h1 : 3 * b < t.length := by omega
      have h2 : n - b = (n - (b + 1)) + 1 := by omega
      rw [findOverlappingTriangles_inner_step t a b fuel result h1, ih (b + 1) _ (by omega), h2]
      simp only [overlapRow, List.range'_succ, List.filter_cons]
      cases overlapAt t a b <;> simp
    · have h1 : ¬ 3 * b < t.length := by omega
      have h2 : n - b = 0 := by omega
      rw [findOverlappingTriangles.inner, if_neg h1, h2]
      simp [overlapRow]

theorem findOverlappingTriangles_outer_eq (t : List QVector2D) (n : Nat)
    (h : t.length = 3 * n) :
    ∀ (fuel a : Nat) (result : List (Nat × Nat)), n - 1 - a ≤ fuel →
      findOverlappingTriangles.outer t fuel (3 * a) result
        = result ++ (List.range' a (n - 1 - a)).flatMap
            fun i => overlapRow t i (i + 1) (n - (i + 1)) := by
  intro fuel
  induction fuel with
  | zero =>
    intro a result ha
    have : n - 1 - a = 0 := by omega
    simp [findOverlappingTriangles.outer, this]
  | succ fuel ih =>
    intro a result ha
    by_cases hlt : a + 1 < n
    · have h1 : 3 * a < t.length - 3 := by omega
      have h2 : n - 1 - a = (n - 1 - (a + 1)) + 1 := by omega
      have h3 : 3 * a + 3 = 3 * (a + 1) := by ring
      conv_lhs => unfold findOverlappingTriangles.outer
      rw [if_pos h1, h3,
        findOverlappingTriangles_inner_eq t n a h t.length (a + 1) result (by omega),
        ih (a + 1) _ (by omega), h2, List.range'_succ, List.flatMap_cons, List.append_assoc]
    · have h1 : ¬ 3 * a < t.length - 3 := by omega
      have h2 : n - 1 - a = 0 := by omega
      conv_lhs => unfold findOverlappingTriangles.outer
      rw [if_neg h1, h2]
      simp

/-- Filtering row `i` of the index square for `i < j` leaves the indices after `i`. -/
theorem filter_row_eq (t : List QVector2D) (n i : Nat) (hi : i < n) :
    (List.range n).filter (fun j => decide (i < j) && overlapAt t i j)
      = (List.range' (i + 1) (n - (i + 1))).filter (overlapAt t i) := by
  have hsplit : List.range n = List.range' 0 (i + 1) ++ List.range' (i + 1) (n - (i + 1)) := by
    have := List.range'_append_1 0 (i + 1) (n - (i + 1))
    rw [List.range_eq_range']
    rw [Nat.zero_add] at this
    rw [this]
    congr 1; omega
  rw [hsplit, List.filter_append]
  have hnil : (List.range' 0 (i + 1)).filter (fun j => decide (i < j) && overlapAt t i j)
      = [] := by
    rw [List.filter_eq_nil_iff]
    intro j hj
    have : ¬ i < j := by
      have := (List.mem_range'_1.mp hj).2
      omega
    simp [this]
  rw [hnil, List.nil_append]
  apply List.filter_congr
  intro j hj
  have : i < j := by
    have := (List.mem_range'_1.mp hj).1
    omega
  simp [this]

theorem findOverlappingTriangles_eq (t : List QVector2D) (n : Nat) (h : t.length = 3 * n) :
    findOverlappingTriangles t
      = (List.product (List.range n) (List.range n)).filter
          fun ij => decide (ij.1 < ij.2) && overlapAt t ij.1 ij.2 := by
  have hrow : ∀ i ∈ List.range n,
      ((List.range n).map (Prod.mk i)).filter
          (fun ij => decide (ij.1 < ij.2) && overlapAt t ij.1 ij.2)
        = overlapRow t i (i + 1) (n - (i + 1)) := by
    intro i hi
    rw [List.filter_map]
    have := filter_row_eq t n i (List.mem_range.mp hi)
    simp only [overlapRow, ← this]
    rfl
  have hprod : (List.product (List.range n) (List.range n)).filter
        (fun ij => decide (ij.1 < ij.2) && overlapAt t ij.1 ij.2)
      = (List.range n).flatMap fun i => overlapRow t i (i + 1) (n - (i + 1)) := by
    unfold List.product
    rw [List.filter_flatMap]
    exact List.flatMap_congr hrow
  rw [hprod]
  unfold findOverlappingTriangles
  by_cases h6 : t.length < 6
  · rw [if_pos h6]
    have hn : n = 0 ∨ n = 1 := by omega
    rcases hn with rfl | rfl <;> simp [overlapRow, List.range]
  · rw [if_neg h6]
    have h0 := findOverlappingTriangles_outer_eq t n h t.length 0 [] (by omega)
    simp only [Nat.mul_zero, List.nil_append, Nat.sub_zero] at h0
    rw [h0]
    obtain ⟨m, rfl⟩ : ∃ m, n = m + 1 := ⟨n - 1, by omega⟩
    rw [List.range_succ, List.flatMap_append]
    simp [overlapRow, List.range_eq_range']

theorem StdSet.mem_insert (a k : Nat) (s : List Nat) :
    k ∈ StdSet.insert a s ↔ k = a ∨ k ∈ s := by
  induction s with
  | nil => simp [StdSet.insert]
  | cons b s ih =>
    unfold StdSet.insert
    split
    · simp
    · split
      · rename_i h; subst h; simp
      · simp only [List.mem_cons, ih]; tauto

/-- The pass over the pairs inserts the same indices into the cluster and into the index
set. -/
theorem absorb_mem (pairs : List (Nat × Nat)) :
    ∀ (cluster ix ix0 : List Nat), (∀ k, k ∈ ix ↔ k ∈ ix0 ∨ k ∈ cluster) →
      ∀ k, k ∈ (removeOverlappingTriangles.absorb pairs cluster ix).2
        ↔ k ∈ ix0 ∨ k ∈ (removeOverlappingTriangles.absorb pairs cluster ix).1 := by
  induction pairs with
  | nil => intro cluster ix ix0 h k; simpa [removeOverlappingTriangles.absorb] using h k
  | cons p pairs ih =>
    intro cluster ix ix0 h
    simp only [removeOverlappingTriangles.absorb, List.foldl_cons]
    split
    · apply ih
      intro k
      simp only [StdSet.mem_insert, h k]
      tauto
    · exact ih cluster ix ix0 h

/-- The seed pair is visited first, so the seed indices are recorded as well. -/
theorem absorb_seed_mem (p0 : Nat × Nat) (rest : List (Nat × Nat)) (ix : List Nat) :
    ∀ k, k ∈ (removeOverlappingTriangles.absorb (p0 :: rest)
          (StdSet.insert p0.2 (StdSet.insert p0.1 [])) ix).2
      ↔ k ∈ ix ∨ k ∈ (removeOverlappingTriangles.absorb (p0 :: rest)
          (StdSet.insert p0.2 (StdSet.insert p0.1 [])) ix).1 := by
  have hc : (StdSet.insert p0.2 (StdSet.insert p0.1 [])).contains p0.1 = true := by
    simp [StdSet.mem_insert]
  simp only [removeOverlappingTriangles.absorb, List.foldl_cons, hc, Bool.true_or, if_true]
  apply absorb_mem
  intro k
  simp only [StdSet.mem_insert]
  simp only [List.not_mem_nil, or_false]
  tauto

/-- The index set of the clustering loop is the union of its clusters. -/
theorem clusterLoop_mem :
    ∀ (fuel : Nat) (pairs : List (Nat × Nat)) (clusters : List (List Nat)) (ix : List Nat),
      (∀ k, k ∈ ix ↔ ∃ c ∈ clusters, k ∈ c) →
      ∀ k, k ∈ (removeOverlappingTriangles.clusterLoop fuel pairs clusters ix).2
        ↔ ∃ c ∈ (removeOverlappingTriangles.clusterLoop fuel pairs clusters ix).1, k ∈ c := by
  intro fuel
  induction fuel with
  | zero => intro pairs clusters ix h; simpa [removeOverlappingTriangles.clusterLoop] using h
  | succ fuel ih =>
    intro pairs clusters ix h
    cases pairs with
    | nil => simpa [removeOverlappingTriangles.clusterLoop] using h
    | cons p0 rest =>
      simp only [removeOverlappingTriangles.clusterLoop]
      apply ih
      intro k
      rw [absorb_seed_mem p0 rest ix k, h k]
      simp only [List.mem_append, List.mem_singleton]
      constructor
      · rintro (⟨c, hc, hk⟩ | hk)
        · exact ⟨c, Or.inl hc, hk⟩
        · exact ⟨_, Or.inr rfl, hk⟩
      · rintro ⟨c, hc | hc, hk⟩
        · exact Or.inl ⟨c, hc, hk⟩
        · subst hc; exact Or.inr hk

theorem passThrough_eq (triangles : List QVector2D) (ix : List Nat) (n : Nat)
    (h : triangles.length = 3 * n) :
    ∀ (fuel a : Nat) (acc : List QVector2D), n - a ≤ fuel →
      removeOverlappingTriangles.passThrough triangles ix fuel (3 * a) acc
        = acc ++ (List.range' a (n - a)).flatMap fun k =>
            if ix.contains k then []
            else [QVector.at triangles (3 * k), QVector.at triangles (3 * k + 1),
              QVector.at triangles (3 * k + 2)] := by
  intro fuel
  induction fuel with
  | zero =>
    intro a acc ha
    have : n - a = 0 := by omega
    simp [removeOverlappingTriangles.passThrough, this]
  | succ fuel ih =>
    intro a acc ha
    by_cases hlt : a < n
    · have h1 : 3 * a < triangles.length := by omega
      have h2 : n - a = (n - (a + 1)) + 1 := by omega
      have h3 : 3 * a + 3 = 3 * (a + 1) := by ring
      have h4 : 3 * a / 3 = a := by omega
      conv_lhs => unfold removeOverlappingTriangles.passThrough
      rw [if_pos h1, h3, h4, ih (a + 1) _ (by omega), ih (a + 1) _ (by omega), h2,
        List.range'_succ, List.flatMap_cons]
      cases ix.contains a <;> simp
    · have h1 : ¬ 3 * a < triangles.length := by omega
      have h2 : n - a = 0 := by omega
      conv_lhs => unfold removeOverlappingTriangles.passThrough
      rw [if_neg h1, h2]
      simp

/-- A list of `3 * n` points is the concatenation of its `n` triangles. -/
theorem flatMap_triangles_eq (n : Nat) : ∀ (t : List QVector2D), t.length = 3 * n →
    ((List.range' 0 n).flatMap fun k =>
      [QVector.at t (3 * k), QVector.at t (3 * k + 1), QVector.at t (3 * k + 2)]) = t := by
  induction n with
  | zero => intro t h; simp at h; simp [h]
  | succ n ih =>
    intro t h
    match t, h with
    | a :: b :: c :: t', h =>
      have h' : t'.length = 3 * n := by simp at h; omega
      have := ih t' h'
      rw [List.range'_succ, List.flatMap_cons]
      have hshift : (List.range' (0 + 1) n).flatMap (fun k =>
            [QVector.at (a :: b :: c :: t') (3 * k), QVector.at (a :: b :: c :: t') (3 * k + 1),
              QVector.at (a :: b :: c :: t') (3 * k + 2)])
          = (List.range' 0 n).flatMap (fun k =>
            [QVector.at t' (3 * k), QVector.at t' (3 * k + 1), QVector.at t' (3 * k + 2)]) := by
        rw [show (0 + 1) = 1 from rfl, List.range'_eq_map_range, List.range'_eq_map_range]
        simp only [List.flatMap_map]
        apply List.flatMap_congr
        intro k _
        have e1 : 3 * (1 + k) = 3 * k + 3 := by ring
        have e2 : 3 * (1 + k) + 1 = (3 * k + 1) + 3 := by ring
        have e3 : 3 * (1 + k) + 2 = (3 * k + 2) + 3 := by ring
        simp only [Function.comp, e1, e2, e3, QVector.at, Nat.zero_add]
        rfl
      rw [hshift, this]
      simp [QVector.at]

/-- C10: whenever `removeOverlappingTriangles` returns a list for a triangle list (length
divisible by 3), that list ends with the input triangles whose index is in no cluster, with
identical vertices and in their original order; everything before them is the
re-triangulated cluster part. -/
theorem removeOverlappingTriangles_keeps_untouched (qTriangulate : List ℚ → QTriangleSet)
    (normalized : QVector2D → QVector2D) (fuel : Nat) (triangles out : List QVector2D)
    (hlen : triangles.length % 3 = 0)
    (h : removeOverlappingTriangles qTriangulate normalized fuel triangles = some out) :
    ∃ newTriangles, out = newTriangles ++ untouchedTriangles triangles := by
  obtain ⟨n, hn⟩ : ∃ n, triangles.length = 3 * n := ⟨triangles.length / 3, by omega⟩
  have hdiv : triangles.length / 3 = n := by omega
  unfold removeOverlappingTriangles at h
  by_cases he : (findOverlappingTriangles triangles).isEmpty = true
  · simp only [he, if_true, Option.some.injEq] at h
    refine ⟨[], ?_⟩
    have hnil : findOverlappingTriangles triangles = [] := List.isEmpty_iff.mp he
    have hc : clustersOf triangles = [] := by
      simp [clustersOf, hnil, removeOverlappingTriangles.clusterLoop]
    simp only [untouchedTriangles, hc, List.any_nil, Bool.false_eq_true, if_false, hdiv,
      List.nil_append, List.range_eq_range']
    rw [flatMap_triangles_eq n triangles hn, h]
  · simp only [he, Bool.false_eq_true, if_false] at h
    split at h
    · exact absurd h (by simp)
    · rename_i newTriangles _
      simp only [Option.some.injEq] at h
      refine ⟨newTriangles, ?_⟩
      rw [← h]
      have hp := passThrough_eq triangles
        (removeOverlappingTriangles.clusterLoop (findOverlappingTriangles triangles).length
          (findOverlappingTriangles triangles) [] []).2 n hn triangles.length 0 newTriangles
        (by omega)
      simp only [Nat.mul_zero, Nat.sub_zero] at hp
      rw [hp]
      congr 1
      simp only [untouchedTriangles, hdiv, List.range_eq_range']
      apply List.flatMap_congr
      intro k _
      have hmem := clusterLoop_mem (findOverlappingTriangles triangles).length
        (findOverlappingTriangles triangles) [] [] (by simp) k
      have hb : (removeOverlappingTriangles.clusterLoop
            (findOverlappingTriangles triangles).length
            (findOverlappingTriangles triangles) [] []).2.contains k
          = (clustersOf triangles).any (fun c => c.contains k) := by
        rw [Bool.eq_iff_iff]
        simp only [List.any_eq_true, clustersOf, List.contains_eq_any_beq, beq_iff_eq]
        simpa using hmem
      rw [hb]

/-- A call whose current corner is inside the other polygon moves on to the next corner
(when it is not the last corner with an empty result). -/
theorem concaveHull_skip_inside (normalized : QVector2D → QVector2D) (fuel : Nat)
    (t1 t2 result : List QVector2D) (i : Nat)
    (hin : isInsidePolygon t2 (QVector.at t1 (i % t1.length)) = true)
    (hns : ¬ (i % t1.length + 1 = t1.length ∧ result.isEmpty = true)) :
    concaveHull normalized (fuel + 1) t1 t2 result i
      = concaveHull normalized fuel t1 t2 result (i % t1.length + 1) := by
  conv_lhs => unfold concaveHull
  simp only [hin, if_true, hns, if_false]

/-- A call whose corners so far were all inside the other polygon, at the last corner,
restarts the walk on the other polygon. -/
theorem concaveHull_swap_inside (normalized : QVector2D → QVector2D) (fuel : Nat)
    (t1 t2 : List QVector2D) (i : Nat)
    (hin : isInsidePolygon t2 (QVector.at t1 (i % t1.length)) = true)
    (hlast : i % t1.length + 1 = t1.length) :
    concaveHull normalized (fuel + 1) t1 t2 [] i = concaveHull normalized fuel t2 t1 [] 0 := by
  conv_lhs => unfold concaveHull
  simp [hin, hlast]

/-- A call whose current corner is outside the other polygon and equals the first recorded
point up to `0.001` returns the result. -/
theorem concaveHull_closes (normalized : QVector2D → QVector2D) (fuel : Nat)
    (t1 t2 result : List QVector2D) (i : Nat)
    (hin : isInsidePolygon t2 (QVector.at t1 (i % t1.length)) = false)
    (hg : (!result.isEmpty
        && decide (|(QVector.at result 0).x - (QVector.at t1 (i % t1.length)).x| < 0.001)
        && decide (|(QVector.at result 0).y - (QVector.at t1 (i % t1.length)).y| < 0.001))
      = true) :
    concaveHull normalized (fuel + 1) t1 t2 result i = some result := by
  conv_lhs => unfold concaveHull
  simp only [hin, Bool.false_eq_true, if_false, hg, if_true]

/-- A call whose current corner is outside the other polygon, is not the first recorded
point, and whose edge to the next corner meets no edge of the other polygon records the
corner and moves on. -/
theorem concaveHull_no_clip (normalized : QVector2D → QVector2D) (fuel : Nat)
    (t1 t2 result : List QVector2D) (i : Nat)
    (hin : isInsidePolygon t2 (QVector.at t1 (i % t1.length)) = false)
    (hg : (!result.isEmpty
        && decide (|(QVector.at result 0).x - (QVector.at t1 (i % t1.length)).x| < 0.001)
        && decide (|(QVector.at result 0).y - (QVector.at t1 (i % t1.length)).y| < 0.001))
      = false)
    (hx : concaveHull.intersections t2 (QVector.at t1 (i % t1.length))
        (QVector.at t1 ((i % t1.length + 1) % t1.length)) = []) :
    concaveHull normalized (fuel + 1) t1 t2 result i
      = concaveHull normalized fuel t1 t2 (result ++ [QVector.at t1 (i % t1.length)])
          (i % t1.length + 1) := by
  conv_lhs => unfold concaveHull
  simp only [hin, Bool.false_eq_true, if_false, hg, hx, List.length_nil]
  simp

/-- A call whose current corner is outside the other polygon, is not the first recorded
point, and whose edge to the next corner meets exactly one edge of the other polygon, at a
point `q` not recorded yet, records the corner and `q` and continues on the other polygon at
the corner found by the angle search (or returns when there is none). -/
theorem concaveHull_clip_one (normalized : QVector2D → QVector2D) (fuel : Nat)
    (t1 t2 result : List QVector2D) (i : Nat) (q : QVector2D)
    (hin : isInsidePolygon t2 (QVector.at t1 (i % t1.length)) = false)
    (hg : (!result.isEmpty
        && decide (|(QVector.at result 0).x - (QVector.at t1 (i % t1.length)).x| < 0.001)
        && decide (|(QVector.at result 0).y - (QVector.at t1 (i % t1.length)).y| < 0.001))
      = false)
    (hx : concaveHull.intersections t2 (QVector.at t1 (i % t1.length))
        (QVector.at t1 ((i % t1.length + 1) % t1.length)) = [q])
    (hq : (result ++ [QVector.at t1 (i % t1.length)]).contains q = false) :
    concaveHull normalized (fuel + 1) t1 t2 result i
      = if (concaveHull.minAngleLoop normalized t1 t2 (QVector.at t1 (i % t1.length)) q).1 = -1
        then some (result ++ [QVector.at t1 (i % t1.length)] ++ [q])
        else concaveHull normalized fuel t2 t1 (result ++ [QVector.at t1 (i % t1.length)] ++ [q])
          (concaveHull.minAngleLoop normalized t1 t2 (QVector.at t1 (i % t1.length)) q).1.toNat
    := by
  conv_lhs => unfold concaveHull
  simp only [hin, Bool.false_eq_true, if_false, hg, hx, List.length_singleton]
  simp only [show ((1 : ℕ) = 2) = False from by simp, if_false, if_true]
  have hq0 : QVector.at [q] 0 = q := rfl
  simp only [hq0, hq, Bool.false_eq_true, if_false]

/-- The closing test fails as soon as the first recorded point differs from the corner by
`0.001` or more in `x`. -/
theorem closing_test_false_of_x (r0 : QVector2D) (rs : List QVector2D) (c : QVector2D)
    (h : ¬ |r0.x - c.x| < 0.001) :
    (!(r0 :: rs).isEmpty && decide (|(QVector.at (r0 :: rs) 0).x - c.x| < 0.001)
      && decide (|(QVector.at (r0 :: rs) 0).y - c.y| < 0.001)) = false := by
  simp [QVector.at, h]

/-- The closing test fails as soon as the first recorded point differs from the corner by
`0.001` or more in `y`. -/
theorem closing_test_false_of_y (r0 : QVector2D) (rs : List QVector2D) (c : QVector2D)
    (h : ¬ |r0.y - c.y| < 0.001) :
    (!(r0 :: rs).isEmpty && decide (|(QVector.at (r0 :: rs) 0).x - c.x| < 0.001)
      && decide (|(QVector.at (r0 :: rs) 0).y - c.y| < 0.001)) = false := by
  simp [QVector.at, h]

/-- Once the walk is on `loopB` with `(0, 3)` as first recorded point it never returns:
corner `(3, 4)` is inside `loopA` and is skipped, the edges leaving `(0, 2)` and `(4, 3)`
meet no edge of `loopA`, and no corner of `loopB` is the first recorded point. -/
theorem concaveHull_loopB_none (normalized : QVector2D → QVector2D) :
    ∀ (fuel : Nat) (rs : List QVector2D) (i : Nat),
      concaveHull normalized fuel loopB loopA (⟨0, 3⟩ :: rs) i = none := by
  intro fuel
  induction fuel with
  | zero => intro rs i; rfl
  | succ fuel ih =>
    intro rs i
    have hlen : loopB.length = 3 := rfl
    have hi : i % 3 = 0 ∨ i % 3 = 1 ∨ i % 3 = 2 := by omega
    rcases hi with h | h | h
    · rw [concaveHull_skip_inside normalized fuel loopB loopA _ i
        (by rw [hlen, h]; decide!) (by rw [hlen, h]; simp)]
      exact ih _ _
    · rw [concaveHull_no_clip normalized fuel loopB loopA _ i
        (by rw [hlen, h]; decide!)
        (by rw [hlen, h]; exact closing_test_false_of_y _ _ _ (by decide!))
        (by rw [hlen, h]; decide!)]
      exact ih _ _
    · rw [concaveHull_no_clip normalized fuel loopB loopA _ i
        (by rw [hlen, h]; decide!)
        (by rw [hlen, h]; exact closing_test_false_of_x _ _ _ (by decide!))
        (by rw [hlen, h]; decide!)]
      exact ih _ _

/-- The corner search after the first clip of the walk on `loopA` finds a corner. -/
theorem minAngleLoop_loopA_loopB (normalized : QVector2D → QVector2D) :
    (concaveHull.minAngleLoop normalized loopA loopB ⟨0, 3⟩ ⟨3 / 2, 3⟩).1 ≠ -1 := by
  have h0 : isInsidePolygon loopA (QVector.at loopB 0) = true := by decide!
  have h1 : isInsidePolygon loopA (QVector.at loopB 1) = false := by decide!
  have h2 : isInsidePolygon loopA (QVector.at loopB 2) = false := by decide!
  have hlen : loopB.length = 3 := rfl
  simp only [concaveHull.minAngleLoop, hlen, List.range, List.range.loop, List.foldl, h0, h1,
    h2, if_true, Bool.false_eq_true, if_false]
  split <;> simp

theorem concaveHull_loopA_loopB_none (normalized : QVector2D → QVector2D) (fuel : Nat) :
    concaveHull normalized fuel loopA loopB [] 0 = none := by
  cases fuel with
  | zero => rfl
  | succ fuel =>
    rw [concaveHull_clip_one normalized fuel loopA loopB [] 0 ⟨3 / 2, 3⟩ (by decide!)
      (by simp) (by decide!) (by decide!)]
    have hc : QVector.at loopA (0 % loopA.length) = ⟨0, 3⟩ := rfl
    rw [hc, if_neg (minAngleLoop_loopA_loopB normalized)]
    exact concaveHull_loopB_none normalized fuel _ _

/-- C1 (no overlap-free list is produced): on the two overlapping triangles
`(0,3) (5,3) (5,5)` and `(3,4) (0,2) (4,3)`, for every triangulator, every `normalized` and
every bound on the number of calls, `removeOverlappingTriangles` does not return: its hull
walk never ends. -/
theorem removeOverlappingTriangles_loopInput_none (qTriangulate : List ℚ → QTriangleSet)
    (normalized : QVector2D → QVector2D) (fuel : Nat) :
    removeOverlappingTriangles qTriangulate normalized fuel loopInput = none := by
  have hov : findOverlappingTriangles loopInput = [(0, 1)] := by decide!
  have hcl : removeOverlappingTriangles.clusterLoop 1 [(0, 1)] [] [] = ([[0, 1]], [0, 1]) := by
    decide!
  have hA : removeOverlappingTriangles.triangleAt loopInput 0 = loopA := by decide!
  have hB : removeOverlappingTriangles.triangleAt loopInput 1 = loopB := by decide!
  have hh : removeOverlappingTriangles.clusterHull normalized fuel loopInput [0, 1] = none := by
    simp only [removeOverlappingTriangles.clusterHull, List.tail_cons, List.headD_cons,
      List.foldlM_cons, List.foldlM_nil, hA, hB, concaveHull_loopA_loopB_none]
    rfl
  simp only [removeOverlappingTriangles, hov, List.isEmpty_cons, Bool.false_eq_true, if_false,
    List.length_singleton, hcl, List.foldlM_cons, hh]
  rfl

/-- A walk around a triangle none of whose corners is inside the other polygon and whose
edges meet none of its edges returns the triangle, provided its second and third corner are
not within `0.001` of the first. -/
theorem concaveHull_first_alone (normalized : QVector2D → QVector2D) (fuel : Nat)
    (a b c : QVector2D) (t2 : List QVector2D)
    (ha : isInsidePolygon t2 a = false) (hb : isInsidePolygon t2 b = false)
    (hc : isInsidePolygon t2 c = false)
    (hab : concaveHull.intersections t2 a b = []) (hbc : concaveHull.intersections t2 b c = [])
    (hca : concaveHull.intersections t2 c a = [])
    (hb0 : ¬ (|a.x - b.x| < 0.001 ∧ |a.y - b.y| < 0.001))
    (hc0 : ¬ (|a.x - c.x| < 0.001 ∧ |a.y - c.y| < 0.001)) :
    concaveHull normalized (fuel + 4) [a, b, c] t2 [] 0 = some [a, b, c] := by
  have e1 : concaveHull normalized (fuel + 4) [a, b, c] t2 [] 0
      = concaveHull normalized (fuel + 3) [a, b, c] t2 [a] 1 :=
    concaveHull_no_clip normalized (fuel + 3) [a, b, c] t2 [] 0 ha (by simp) hab
  have e2 : concaveHull normalized (fuel + 3) [a, b, c] t2 [a] 1
      = concaveHull normalized (fuel + 2) [a, b, c] t2 [a, b] 2 :=
    concaveHull_no_clip normalized (fuel + 2) [a, b, c] t2 [a] 1 hb
      (by
        have : QVector.at [a, b, c] (1 % [a, b, c].length) = b := rfl
        rw [this]
        simp only [QVector.at, List.getD_cons_zero, List.isEmpty_cons, Bool.not_false,
          Bool.true_and, Bool.and_eq_false_iff, decide_eq_false_iff_not]
        tauto)
      hbc
  have i2 : QVector.at [a, b, c] (2 % [a, b, c].length) = c := by simp [QVector.at]
  have i20 : QVector.at [a, b, c] ((2 % [a, b, c].length + 1) % [a, b, c].length) = a := by
    simp [QVector.at]
  have i3 : QVector.at [a, b, c] (3 % [a, b, c].length) = a := by simp [QVector.at]
  have e3 : concaveHull normalized (fuel + 2) [a, b, c] t2 [a, b] 2
      = concaveHull normalized (fuel + 1) [a, b, c] t2 [a, b, c] 3 := by
    have := concaveHull_no_clip normalized (fuel + 1) [a, b, c] t2 [a, b] 2 (by rw [i2]; exact hc)
      (by
        rw [i2]
        simp only [QVector.at, List.getD_cons_zero, List.isEmpty_cons, Bool.not_false,
          Bool.true_and, Bool.and_eq_false_iff, decide_eq_false_iff_not]
        tauto)
      (by rw [i2, i20]; exact hca)
    rw [i2] at this
    exact this
  have e4 : concaveHull normalized (fuel + 1) [a, b, c] t2 [a, b, c] 3 = some [a, b, c] :=
    concaveHull_closes normalized fuel [a, b, c] t2 [a, b, c] 3 (by rw [i3]; exact ha)
      (by
        rw [i3]
        simp only [QVector.at, List.getD_cons_zero, List.isEmpty_cons, Bool.not_false,
          Bool.true_and, sub_self, abs_zero]
        norm_num)
  rw [e1, e2, e3, e4]

/-- A walk that starts on a triangle whose corners are all inside the second triangle, while
no corner of the second is inside the first and no edges meet, returns the second
triangle. -/
theorem concaveHull_second_alone (normalized : QVector2D → QVector2D) (fuel : Nat)
    (a b c d e f : QVector2D)
    (ha : isInsidePolygon [d, e, f] a = true) (hb : isInsidePolygon [d, e, f] b = true)
    (hc : isInsidePolygon [d, e, f] c = true)
    (hd : isInsidePolygon [a, b, c] d = false) (he : isInsidePolygon [a, b, c] e = false)
    (hf : isInsidePolygon [a, b, c] f = false)
    (hde : concaveHull.intersections [a, b, c] d e = [])
    (hef : concaveHull.intersections [a, b, c] e f = [])
    (hfd : concaveHull.intersections [a, b, c] f d = [])
    (he0 : ¬ (|d.x - e.x| < 0.001 ∧ |d.y - e.y| < 0.001))
    (hf0 : ¬ (|d.x - f.x| < 0.001 ∧ |d.y - f.y| < 0.001)) :
    concaveHull normalized (fuel + 7) [a, b, c] [d, e, f] [] 0 = some [d, e, f] := by
  have e1 : concaveHull normalized (fuel + 7) [a, b, c] [d, e, f] [] 0
      = concaveHull normalized (fuel + 6) [a, b, c] [d, e, f] [] 1 :=
    concaveHull_skip_inside normalized (fuel + 6) [a, b, c] [d, e, f] [] 0 ha (by simp)
  have e2 : concaveHull normalized (fuel + 6) [a, b, c] [d, e, f] [] 1
      = concaveHull normalized (fuel + 5) [a, b, c] [d, e, f] [] 2 :=
    concaveHull_skip_inside normalized (fuel + 5) [a, b, c] [d, e, f] [] 1 hb (by simp)
  have e3 : concaveHull normalized (fuel + 5) [a, b, c] [d, e, f] [] 2
      = concaveHull normalized (fuel + 4) [d, e, f] [a, b, c] [] 0 :=
    concaveHull_swap_inside normalized (fuel + 4) [a, b, c] [d, e, f] 2 hc rfl
  rw [e1, e2, e3]
  exact concaveHull_first_alone normalized fuel d e f [a, b, c] hd he hf hde hef hfd he0 hf0

theorem removeOverlappingTriangles_lostInput (qTriangulate : List ℚ → QTriangleSet)
    (normalized : QVector2D → QVector2D) (fuel : Nat) :
    removeOverlappingTriangles qTriangulate normalized (fuel + 7) lostInput
      = some (removeOverlappingTriangles.retriangulate qTriangulate
          [⟨0, 0⟩, ⟨10, 0⟩, ⟨0, 10⟩]) := by
  have hov : findOverlappingTriangles lostInput = [(0, 2), (1, 2)] := by decide!
  have hcl : removeOverlappingTriangles.clusterLoop 2 [(0, 2), (1, 2)] [] []
      = ([[0, 1, 2]], [0, 1, 2]) := by decide!
  have h0 : removeOverlappingTriangles.triangleAt lostInput 0 = [⟨1, 1⟩, ⟨3, 1⟩, ⟨1, 3⟩] := by
    decide!
  have h1 : removeOverlappingTriangles.triangleAt lostInput 1 = [⟨6, -2⟩, ⟨9, -2⟩, ⟨7, 3⟩] := by
    decide!
  have h2 : removeOverlappingTriangles.triangleAt lostInput 2 = [⟨0, 0⟩, ⟨10, 0⟩, ⟨0, 10⟩] := by
    decide!
  have out1 : ∀ q ∈ [(⟨1, 1⟩ : QVector2D), ⟨3, 1⟩, ⟨1, 3⟩],
      isInsidePolygon [⟨6, -2⟩, ⟨9, -2⟩, ⟨7, 3⟩] q = false := by decide!
  have in2 : ∀ q ∈ [(⟨1, 1⟩ : QVector2D), ⟨3, 1⟩, ⟨1, 3⟩],
      isInsidePolygon [⟨0, 0⟩, ⟨10, 0⟩, ⟨0, 10⟩] q = true := by decide!
  have out2 : ∀ q ∈ [(⟨0, 0⟩ : QVector2D), ⟨10, 0⟩, ⟨0, 10⟩],
      isInsidePolygon [⟨1, 1⟩, ⟨3, 1⟩, ⟨1, 3⟩] q = false := by decide!
  have x1 : ∀ e ∈ [((⟨1, 1⟩, ⟨3, 1⟩) : QVector2D × QVector2D), (⟨3, 1⟩, ⟨1, 3⟩),
        (⟨1, 3⟩, ⟨1, 1⟩)],
      concaveHull.intersections [⟨6, -2⟩, ⟨9, -2⟩, ⟨7, 3⟩] e.1 e.2 = [] := by decide!
  have x2 : ∀ e ∈ [((⟨0, 0⟩, ⟨10, 0⟩) : QVector2D × QVector2D), (⟨10, 0⟩, ⟨0, 10⟩),
        (⟨0, 10⟩, ⟨0, 0⟩)],
      concaveHull.intersections [⟨1, 1⟩, ⟨3, 1⟩, ⟨1, 3⟩] e.1 e.2 = [] := by decide!
  have far1 : ¬ (|(1 : ℚ) - 3| < 0.001 ∧ |(1 : ℚ) - 1| < 0.001) := by norm_num
  have far2 : ¬ (|(1 : ℚ) - 1| < 0.001 ∧ |(1 : ℚ) - 3| < 0.001) := by norm_num
  have far3 : ¬ (|(0 : ℚ) - 10| < 0.001 ∧ |(0 : ℚ) - 0| < 0.001) := by norm_num
  have far4 : ¬ (|(0 : ℚ) - 0| < 0.001 ∧ |(0 : ℚ) - 10| < 0.001) := by norm_num
  have m1 : concaveHull normalized (fuel + 7) [⟨1, 1⟩, ⟨3, 1⟩, ⟨1, 3⟩]
      [⟨6, -2⟩, ⟨9, -2⟩, ⟨7, 3⟩] [] 0 = some [⟨1, 1⟩, ⟨3, 1⟩, ⟨1, 3⟩] :=
    concaveHull_first_alone normalized (fuel + 3) _ _ _ _
      (out1 _ (by simp)) (out1 _ (by simp)) (out1 _ (by simp))
      (x1 (_, _) (by simp)) (x1 (_, _) (by simp)) (x1 (_, _) (by simp)) far1 far2
  have m2 : concaveHull normalized (fuel + 7) [⟨1, 1⟩, ⟨3, 1⟩, ⟨1, 3⟩]
      [⟨0, 0⟩, ⟨10, 0⟩, ⟨0, 10⟩] [] 0 = some [⟨0, 0⟩, ⟨10, 0⟩, ⟨0, 10⟩] :=
    concaveHull_second_alone normalized fuel _ _ _ _ _ _
      (in2 _ (by simp)) (in2 _ (by simp)) (in2 _ (by simp))
      (out2 _ (by simp)) (out2 _ (by simp)) (out2 _ (by simp))
      (x2 (_, _) (by simp)) (x2 (_, _) (by simp)) (x2 (_, _) (by simp)) far3 far4
  have hh : removeOverlappingTriangles.clusterHull normalized (fuel + 7) lostInput [0, 1, 2]
      = some [⟨0, 0⟩, ⟨10, 0⟩, ⟨0, 10⟩] := by
    simp only [removeOverlappingTriangles.clusterHull, List.tail_cons, List.headD_cons,
      List.foldlM_cons, List.foldlM_nil, h0, h1, h2, m1, m2, Option.bind_eq_bind,
      Option.some_bind, Option.pure_def]
  have hp : ∀ acc, removeOverlappingTriangles.passThrough lostInput [0, 1, 2] lostInput.length
      0 acc = acc := by
    intro acc
    have := passThrough_eq lostInput [0, 1, 2] 3 rfl lostInput.length 0 acc (by decide)
    rw [this]
    simp [List.range', List.flatMap]
  simp only [removeOverlappingTriangles, hov, List.isEmpty_cons, Bool.false_eq_true, if_false,
    List.length_cons, List.length_nil, hcl, List.foldlM_cons, List.foldlM_nil, hh,
    Option.map_some', Option.bind_eq_bind, Option.some_bind, Option.pure_def, List.nil_append]
  exact congrArg some (hp _)

theorem fanTriangulate_exactOnTriangles : ExactOnTriangles fanTriangulate := by
  intro a b c p _
  have : removeOverlappingTriangles.retriangulate fanTriangulate [a, b, c] = [a, b, c] := by
    simp [removeOverlappingTriangles.retriangulate, fanTriangulate, QVector.at, List.range,
      List.range.loop]
  rw [this]
  constructor
  · rintro ⟨k, hk, h⟩
    have hk0 : k = 0 := by simp at hk; omega
    subst hk0
    simpa [QVector.at] using h
  · intro h
    exact ⟨0, by simp, by simpa [QVector.at] using h⟩

/-- C2 (refuted on the code): the output of `removeOverlappingTriangles` does not always
cover the region of its input. For the nine points of `lostInput` and every triangulator
that covers exactly each triangle of non-zero area it is given (the fan triangulator is
one), the resolver
returns a list that does not cover the point `(7, -1)` of the second input triangle: that
triangle is merged with the first one, which it does not overlap, and contributes nothing
to the hull of the cluster. -/
theorem removeOverlappingTriangles_loses_area :
    lostInput.length % 3 = 0 ∧ coveredBy lostInput ⟨7, -1⟩ ∧ ExactOnTriangles fanTriangulate
      ∧ ∀ (qTriangulate : List ℚ → QTriangleSet) (normalized : QVector2D → QVector2D)
          (fuel : Nat), ExactOnTriangles qTriangulate →
          ∃ out, removeOverlappingTriangles qTriangulate normalized (fuel + 7) lostInput
              = some out ∧ ¬ coveredBy out ⟨7, -1⟩ := by
  refine ⟨rfl, ⟨1, by decide, ?_⟩, fanTriangulate_exactOnTriangles, ?_⟩
  · left
    simp only [lostInput, QVector.at, Det2D]
    norm_num
  · intro qTriangulate normalized fuel hq
    refine ⟨_, removeOverlappingTriangles_lostInput qTriangulate normalized fuel, ?_⟩
    rw [hq _ _ _ _ (by simp only [Det2D]; norm_num)]
    simp only [pointInTriangle, Det2D]
    norm_num

/-- C3 (refuted on the code): the hull walk does not always terminate. The triangles
`(0,3) (5,3) (5,5)` and `(3,4) (0,2) (4,3)` are both counter-clockwise for the entry
assertions of `concaveHull` and are reported as overlapping, yet for every `normalized` and
every bound on the number of calls `concaveHull` started on them with an empty result and
index 0 does not return within the bound. -/
theorem concaveHull_never_returns :
    concaveHull.orientation ⟨0, 3⟩ ⟨5, 3⟩ ⟨5, 5⟩ = 2
      ∧ concaveHull.orientation ⟨3, 4⟩ ⟨0, 2⟩ ⟨4, 3⟩ = 2
      ∧ doTrianglesOverlap ⟨0, 3⟩ ⟨5, 3⟩ ⟨5, 5⟩ ⟨3, 4⟩ ⟨0, 2⟩ ⟨4, 3⟩ = true
      ∧ ∀ (normalized : QVector2D → QVector2D) (fuel : Nat),
          concaveHull normalized fuel [⟨0, 3⟩, ⟨5, 3⟩, ⟨5, 5⟩] [⟨3, 4⟩, ⟨0, 2⟩, ⟨4, 3⟩] [] 0
            = none :=
  ⟨by decide!, by decide!, by decide!,
    fun normalized fuel => concaveHull_loopA_loopB_none normalized fuel⟩

/-- C8: for a point list of length `3 * n`, `findOverlappingTriangles` returns the pairs
`(i, j)` with `i < j < n` whose triangles overlap, each once and in lexicographic order: it
is the lexicographic enumeration of the index square `[0, n) × [0, n)` filtered by `i < j`
and `doTrianglesOverlap`. For fewer than 6 points the result is empty. -/
theorem findOverlappingTriangles_spec (t : List QVector2D) (n : Nat)
    (h : t.length = 3 * n) :
    findOverlappingTriangles t
        = (List.product (List.range n) (List.range n)).filter
            (fun ij => decide (ij.1 < ij.2) && overlapAt t ij.1 ij.2)
      ∧ (t.length < 6 → findOverlappingTriangles t = []) :=
  ⟨findOverlappingTriangles_eq t n h, fun h6 => by simp [findOverlappingTriangles, h6]⟩

theorem findOverlappingTriangles_spec_witness :
    testInput.length = 3 * 3
      ∧ findOverlappingTriangles testInput = [(0, 1)]
      ∧ findOverlappingTriangles testInput
        = (List.product (List.range 3) (List.range 3)).filter
            (fun ij => decide (ij.1 < ij.2) && overlapAt testInput ij.1 ij.2) :=
  ⟨rfl, by decide!, (findOverlappingTriangles_spec testInput 3 rfl).1⟩

theorem removeOverlappingTriangles_unchanged_witness :
    findOverlappingTriangles [⟨1, 1⟩, ⟨10, 1⟩, ⟨5, 10⟩, ⟨15, 15⟩, ⟨20, 25⟩, ⟨25, 15⟩] = []
      ∧ removeOverlappingTriangles fanTriangulate id 0
          [⟨1, 1⟩, ⟨10, 1⟩, ⟨5, 10⟩, ⟨15, 15⟩, ⟨20, 25⟩, ⟨25, 15⟩]
        = some [⟨1, 1⟩, ⟨10, 1⟩, ⟨5, 10⟩, ⟨15, 15⟩, ⟨20, 25⟩, ⟨25, 15⟩] :=
  ⟨by decide!, removeOverlappingTriangles_unchanged fanTriangulate id 0 _ (by decide!)⟩

theorem removeOverlappingTriangles_keeps_untouched_witness :
    frameInput.length % 3 = 0
      ∧ removeOverlappingTriangles fanTriangulate id 7 frameInput
        = some [⟨0, 0⟩, ⟨10, 0⟩, ⟨0, 10⟩, ⟨20, 20⟩, ⟨30, 20⟩, ⟨20, 30⟩]
      ∧ clustersOf frameInput = [[0, 1]]
      ∧ untouchedTriangles frameInput = [⟨20, 20⟩, ⟨30, 20⟩, ⟨20, 30⟩]
      ∧ ∃ newTriangles, [⟨0, 0⟩, ⟨10, 0⟩, ⟨0, 10⟩, ⟨20, 20⟩, ⟨30, 20⟩, ⟨20, 30⟩]
          = newTriangles ++ untouchedTriangles frameInput :=
  ⟨rfl, by decide!, by decide!, by decide!,
    removeOverlappingTriangles_keeps_untouched fanTriangulate id 7 frameInput _ rfl
      (by decide!)⟩

/-! ### Scenario B: two overlapping triangles -/

theorem at_append_last (l : List QVector2D) (c : QVector2D) :
    QVector.at (l ++ [c]) ((l ++ [c]).length - 1) = c := by
  simp [QVector.at, List.getD_eq_getElem?_getD]

/-- A call whose current corner is outside the other polygon, is not the first recorded
point, and whose edge to the next corner meets two edges of the other polygon, the nearer
meeting point `q` not being recorded yet, records the corner and `q` and continues on the
other polygon at the corner found by the angle search. -/
theorem concaveHull_clip_two (normalized : QVector2D → QVector2D) (fuel : Nat)
    (t1 t2 result : List QVector2D) (i : Nat) (cur next q1 q2 q : QVector2D) (j : Nat)
    (hcur : QVector.at t1 (i % t1.length) = cur)
    (hnext : QVector.at t1 ((i % t1.length + 1) % t1.length) = next)
    (hin : isInsidePolygon t2 cur = false)
    (hg : (!result.isEmpty && decide (|(QVector.at result 0).x - cur.x| < 0.001)
        && decide (|(QVector.at result 0).y - cur.y| < 0.001)) = false)
    (hx : concaveHull.intersections t2 cur next = [q1, q2])
    (hsel : (if (cur - q1).x * (cur - q1).x + (cur - q1).y * (cur - q1).y
          < (cur - q2).x * (cur - q2).x + (cur - q2).y * (cur - q2).y then q1 else q2) = q)
    (hq : (result ++ [cur]).contains q = false)
    (hj : (concaveHull.minAngleLoop normalized t1 t2 cur q).1 = (j : Int)) :
    concaveHull normalized (fuel + 1) t1 t2 result i
      = concaveHull normalized fuel t2 t1 (result ++ [cur] ++ [q]) j := by
  conv_lhs => unfold concaveHull
  simp only [hcur, hnext, hin, Bool.false_eq_true, if_false, hg, hx, List.length_cons,
    List.length_nil, at_append_last]
  have hq0 : QVector.at [q1, q2] 0 = q1 := rfl
  have hq1 : QVector.at [q1, q2] 1 = q2 := rfl
  simp only [hq0, hq1, Nat.zero_add, Nat.reduceAdd, if_true]
  have hsel2 : (if (cur - q1).x * (cur - q1).x + (cur - q1).y * (cur - q1).y
          < (cur - q2).x * (cur - q2).x + (cur - q2).y * (cur - q2).y then some q1
        else some q2) = some q := by
    rw [← hsel]
    split <;> rfl
  simp only [hsel2, hq, Bool.false_eq_true, if_false, hj]
  have hne : ¬ ((j : Int) = -1) := by omega
  simp only [hne, if_false, Int.toNat_ofNat]

theorem angle_of_keepsDirection (normalized : QVector2D → QVector2D)
    (hk : KeepsDirection normalized) (p1 p2 p3 : QVector2D)
    (h1 : 1 ≤ (p2 - p1).lengthSquared) (h2 : 1 ≤ (p3 - p2).lengthSquared) :
    ∃ k : ℚ, 0 < k
      ∧ concaveHull.angle normalized p1 p2 p3 = k * crossProduct (p2 - p1) (p3 - p2) := by
  obtain ⟨k1, hk1, e1⟩ := hk _ h1
  obtain ⟨k2, hk2, e2⟩ := hk _ h2
  refine ⟨k1 * k2, mul_pos hk1 hk2, ?_⟩
  simp only [concaveHull.angle, e1, e2, crossProduct]
  ring

/-- The angle search over three corners outside the walked polygon picks the one corner
that lies to the right of the direction of travel, when the other two lie to the left. -/
theorem minAngleLoop_of_cross (normalized : QVector2D → QVector2D)
    (hk : KeepsDirection normalized) (t1 : List QVector2D) (q0 q1 q2 cur next : QVector2D)
    (j : Nat) (hj : j < 3)
    (hout : ∀ q ∈ [q0, q1, q2], isInsidePolygon t1 q = false)
    (hlen1 : 1 ≤ (next - cur).lengthSquared)
    (hlen2 : ∀ q ∈ [q0, q1, q2], 1 ≤ (q - next).lengthSquared)
    (hneg : crossProduct (next - cur) (QVector.at [q0, q1, q2] j - next) < 0)
    (hpos : ∀ i < 3, i ≠ j → 0 < crossProduct (next - cur) (QVector.at [q0, q1, q2] i - next)) :
    (concaveHull.minAngleLoop normalized t1 [q0, q1, q2] cur next).1 = (j : Int) := by
  obtain ⟨k0, hk0, e0⟩ := angle_of_keepsDirection normalized hk cur next q0 hlen1
    (hlen2 q0 (by simp))
  obtain ⟨k1, hk1, e1⟩ := angle_of_keepsDirection normalized hk cur next q1 hlen1
    (hlen2 q1 (by simp))
  obtain ⟨k2, hk2, e2⟩ := angle_of_keepsDirection normalized hk cur next q2 hlen1
    (hlen2 q2 (by simp))
  have o0 := hout q0 (by simp)
  have o1 := hout q1 (by simp)
  have o2 := hout q2 (by simp)
  have a0 : QVector.at [q0, q1, q2] 0 = q0 := rfl
  have a1 : QVector.at [q0, q1, q2] 1 = q1 := rfl
  have a2 : QVector.at [q0, q1, q2] 2 = q2 := rfl
  have hr : List.range 3 = [0, 1, 2] := rfl
  simp only [concaveHull.minAngleLoop, List.length_cons, List.length_nil, Nat.zero_add,
    Nat.reduceAdd, hr, List.foldl_cons, List.foldl_nil, a0, a1, a2, o0, o1, o2,
    Bool.false_eq_true, if_false, e0, e1, e2]
  interval_cases j
  · have n0 := mul_neg_of_pos_of_neg hk0 (by simpa [a0] using hneg)
    have p1 := mul_pos hk1 (by simpa [a1] using hpos 1 (by omega) (by omega))
    have p2 := mul_pos hk2 (by simpa [a2] using hpos 2 (by omega) (by omega))
    have c1 : ¬ k1 * crossProduct (next - cur) (q1 - next)
        < k0 * crossProduct (next - cur) (q0 - next) := by linarith
    have c2 : ¬ k2 * crossProduct (next - cur) (q2 - next)
        < k0 * crossProduct (next - cur) (q0 - next) := by linarith
    simp [c1, c2]
  · have p0 := mul_pos hk0 (by simpa [a0] using hpos 0 (by omega) (by omega))
    have n1 := mul_neg_of_pos_of_neg hk1 (by simpa [a1] using hneg)
    have p2 := mul_pos hk2 (by simpa [a2] using hpos 2 (by omega) (by omega))
    have c1 : k1 * crossProduct (next - cur) (q1 - next)
        < k0 * crossProduct (next - cur) (q0 - next) := by linarith
    have c2 : ¬ k2 * crossProduct (next - cur) (q2 - next)
        < k1 * crossProduct (next - cur) (q1 - next) := by linarith
    simp [c1, c2]
  · have p0 := mul_pos hk0 (by simpa [a0] using hpos 0 (by omega) (by omega))
    have p1 := mul_pos hk1 (by simpa [a1] using hpos 1 (by omega) (by omega))
    have n2 := mul_neg_of_pos_of_neg hk2 (by simpa [a2] using hneg)
    have c1 : k2 * crossProduct (next - cur) (q2 - next)
        < k0 * crossProduct (next - cur) (q0 - next) := by linarith
    have c2 : k2 * crossProduct (next - cur) (q2 - next)
        < k1 * crossProduct (next - cur) (q1 - next) := by linarith
    by_cases c : k1 * crossProduct (next - cur) (q1 - next)
        < k0 * crossProduct (next - cur) (q0 - next)
    · simp [c, c2]
    · simp [c, c1]

/-- The walk on the two triangles of `starInput` returns the outline `starHull`: each of its
six steps records a corner and the nearer of the two crossings of the edge that leaves it,
and the seventh call is back at the first recorded point. -/
theorem concaveHull_star (normalized : QVector2D → QVector2D)
    (hk : KeepsDirection normalized) (fuel : Nat) :
    concaveHull normalized (fuel + 7) starA starB [] 0 = some starHull := by
  have hA : ∀ q ∈ starB, isInsidePolygon starA q = false := by decide!
  have hB : ∀ q ∈ starA, isInsidePolygon starB q = false := by decide!
  have hA3 : ∀ q ∈ [(⟨5, 0⟩ : QVector2D), ⟨9, 9⟩, ⟨1, 9⟩], isInsidePolygon starA q = false := hA
  have hB3 : ∀ q ∈ [(⟨1, 1⟩ : QVector2D), ⟨10, 1⟩, ⟨5, 10⟩], isInsidePolygon starB q = false :=
    hB
  -- step 1: from (1, 1) along the lower edge of the first triangle
  have m1 : (concaveHull.minAngleLoop normalized starA starB ⟨1, 1⟩ ⟨41 / 9, 1⟩).1
      = ((0 : Nat) : Int) :=
    minAngleLoop_of_cross normalized hk starA _ _ _ _ _ 0 (by decide) hA3 (by decide!)
      (by decide!) (by decide!) (by decide!)
  have s1 : concaveHull normalized (fuel + 7) starA starB [] 0
      = concaveHull normalized (fuel + 6) starB starA [⟨1, 1⟩, ⟨41 / 9, 1⟩] 0 :=
    concaveHull_clip_two normalized (fuel + 6) starA starB [] 0 ⟨1, 1⟩ ⟨10, 1⟩ ⟨49 / 9, 1⟩
      ⟨41 / 9, 1⟩ ⟨41 / 9, 1⟩ 0 rfl rfl (by decide!) rfl (by decide!) (by decide!)
      (by decide!) m1
  -- step 2: from (5, 0) along the right edge of the second triangle
  have m2 : (concaveHull.minAngleLoop normalized starB starA ⟨5, 0⟩ ⟨49 / 9, 1⟩).1
      = ((1 : Nat) : Int) :=
    minAngleLoop_of_cross normalized hk starB _ _ _ _ _ 1 (by decide) hB3 (by decide!)
      (by decide!) (by decide!) (by decide!)
  have s2 : concaveHull normalized (fuel + 6) starB starA [⟨1, 1⟩, ⟨41 / 9, 1⟩] 0
      = concaveHull normalized (fuel + 5) starA starB
          [⟨1, 1⟩, ⟨41 / 9, 1⟩, ⟨5, 0⟩, ⟨49 / 9, 1⟩] 1 :=
    concaveHull_clip_two normalized (fuel + 5) starB starA _ 0 ⟨5, 0⟩ ⟨9, 9⟩ ⟨49 / 9, 1⟩
      ⟨605 / 81, 50 / 9⟩ ⟨49 / 9, 1⟩ 1 rfl rfl (by decide!) (by decide!) (by decide!)
      (by decide!) (by decide!) m2
  -- step 3: from (10, 1) along the right edge of the first triangle
  have m3 : (concaveHull.minAngleLoop normalized starA starB ⟨10, 1⟩ ⟨605 / 81, 50 / 9⟩).1
      = ((1 : Nat) : Int) :=
    minAngleLoop_of_cross normalized hk starA _ _ _ _ _ 1 (by decide) hA3 (by decide!)
      (by decide!) (by decide!) (by decide!)
  have s3 : concaveHull normalized (fuel + 5) starA starB
        [⟨1, 1⟩, ⟨41 / 9, 1⟩, ⟨5, 0⟩, ⟨49 / 9, 1⟩] 1
      = concaveHull normalized (fuel + 4) starB starA
          [⟨1, 1⟩, ⟨41 / 9, 1⟩, ⟨5, 0⟩, ⟨49 / 9, 1⟩, ⟨10, 1⟩, ⟨605 / 81, 50 / 9⟩] 1 :=
    concaveHull_clip_two normalized (fuel + 4) starA starB _ 1 ⟨10, 1⟩ ⟨5, 10⟩
      ⟨605 / 81, 50 / 9⟩ ⟨50 / 9, 9⟩ ⟨605 / 81, 50 / 9⟩ 1 rfl rfl (by decide!) (by decide!)
      (by decide!) (by decide!) (by decide!) m3
  -- step 4: from (9, 9) along the upper edge of the second triangle
  have m4 : (concaveHull.minAngleLoop normalized starB starA ⟨9, 9⟩ ⟨50 / 9, 9⟩).1
      = ((2 : Nat) : Int) :=
    minAngleLoop_of_cross normalized hk starB _ _ _ _ _ 2 (by decide) hB3 (by decide!)
      (by decide!) (by decide!) (by decide!)
  have s4 : concaveHull normalized (fuel + 4) starB starA
        [⟨1, 1⟩, ⟨41 / 9, 1⟩, ⟨5, 0⟩, ⟨49 / 9, 1⟩, ⟨10, 1⟩, ⟨605 / 81, 50 / 9⟩] 1
      = concaveHull normalized (fuel + 3) starA starB
          [⟨1, 1⟩, ⟨41 / 9, 1⟩, ⟨5, 0⟩, ⟨49 / 9, 1⟩, ⟨10, 1⟩, ⟨605 / 81, 50 / 9⟩, ⟨9, 9⟩,
            ⟨50 / 9, 9⟩] 2 :=
    concaveHull_clip_two normalized (fuel + 3) starB starA _ 1 ⟨9, 9⟩ ⟨1, 9⟩ ⟨50 / 9, 9⟩
      ⟨41 / 9, 9⟩ ⟨50 / 9, 9⟩ 2 rfl rfl (by decide!) (by decide!) (by decide!) (by decide!)
      (by decide!) m4
  -- step 5: from (5, 10) along the left edge of the first triangle
  have m5 : (concaveHull.minAngleLoop normalized starA starB ⟨5, 10⟩ ⟨41 / 9, 9⟩).1
      = ((2 : Nat) : Int) :=
    minAngleLoop_of_cross normalized hk starA _ _ _ _ _ 2 (by decide) hA3 (by decide!)
      (by decide!) (by decide!) (by decide!)
  have s5 : concaveHull normalized (fuel + 3) starA starB
        [⟨1, 1⟩, ⟨41 / 9, 1⟩, ⟨5, 0⟩, ⟨49 / 9, 1⟩, ⟨10, 1⟩, ⟨605 / 81, 50 / 9⟩, ⟨9, 9⟩,
          ⟨50 / 9, 9⟩] 2
      = concaveHull normalized (fuel + 2) starB starA
          [⟨1, 1⟩, ⟨41 / 9, 1⟩, ⟨5, 0⟩, ⟨49 / 9, 1⟩, ⟨10, 1⟩, ⟨605 / 81, 50 / 9⟩, ⟨9, 9⟩,
            ⟨50 / 9, 9⟩, ⟨5, 10⟩, ⟨41 / 9, 9⟩] 2 :=
    concaveHull_clip_two normalized (fuel + 2) starA starB _ 2 ⟨5, 10⟩ ⟨1, 1⟩ ⟨41 / 9, 9⟩
      ⟨25 / 9, 5⟩ ⟨41 / 9, 9⟩ 2 rfl rfl (by decide!) (by decide!) (by decide!) (by decide!)
      (by decide!) m5
  -- step 6: from (1, 9) along the left edge of the second triangle
  have m6 : (concaveHull.minAngleLoop normalized starB starA ⟨1, 9⟩ ⟨25 / 9, 5⟩).1
      = ((0 : Nat) : Int) :=
    minAngleLoop_of_cross normalized hk starB _ _ _ _ _ 0 (by decide) hB3 (by decide!)
      (by decide!) (by decide!) (by decide!)
  have s6 : concaveHull normalized (fuel + 2) starB starA
        [⟨1, 1⟩, ⟨41 / 9, 1⟩, ⟨5, 0⟩, ⟨49 / 9, 1⟩, ⟨10, 1⟩, ⟨605 / 81, 50 / 9⟩, ⟨9, 9⟩,
          ⟨50 / 9, 9⟩, ⟨5, 10⟩, ⟨41 / 9, 9⟩] 2
      = concaveHull normalized (fuel + 1) starA starB starHull 0 :=
    concaveHull_clip_two normalized (fuel + 1) starB starA _ 2 ⟨1, 9⟩ ⟨5, 0⟩ ⟨41 / 9, 1⟩
      ⟨25 / 9, 5⟩ ⟨25 / 9, 5⟩ 0 rfl rfl (by decide!) (by decide!) (by decide!) (by decide!)
      (by decide!) m6
  have s7 : concaveHull normalized (fuel + 1) starA starB starHull 0 = some starHull :=
    concaveHull_closes normalized fuel starA starB starHull 0 (by decide!) (by decide!)
  rw [s1, s2, s3, s4, s5, s6, s7]

theorem removeOverlappingTriangles_starInput (qTriangulate : List ℚ → QTriangleSet)
    (normalized : QVector2D → QVector2D) (hk : KeepsDirection normalized) (fuel : Nat) :
    removeOverlappingTriangles qTriangulate normalized (fuel + 7) starInput
      = some (removeOverlappingTriangles.retriangulate qTriangulate starHull) := by
  have hov : findOverlappingTriangles starInput = [(0, 1)] := by decide!
  have hcl : removeOverlappingTriangles.clusterLoop 1 [(0, 1)] [] [] = ([[0, 1]], [0, 1]) := by
    decide!
  have h0 : removeOverlappingTriangles.triangleAt starInput 0 = starA := by decide!
  have h1 : removeOverlappingTriangles.triangleAt starInput 1 = starB := by decide!
  have hh : removeOverlappingTriangles.clusterHull normalized (fuel + 7) starInput [0, 1]
      = some starHull := by
    simp only [removeOverlappingTriangles.clusterHull, List.tail_cons, List.headD_cons,
      List.foldlM_cons, List.foldlM_nil, h0, h1, concaveHull_star normalized hk fuel,
      Option.bind_eq_bind, Option.some_bind, Option.pure_def]
  have hp : ∀ acc, removeOverlappingTriangles.passThrough starInput [0, 1] starInput.length
      0 acc = acc := by
    intro acc
    have := passThrough_eq starInput [0, 1] 2 rfl starInput.length 0 acc (by decide)
    rw [this]
    simp [List.range', List.flatMap]
  simp only [removeOverlappingTriangles, hov, List.isEmpty_cons, Bool.false_eq_true, if_false,
    List.length_cons, List.length_nil, hcl, List.foldlM_cons, List.foldlM_nil, hh,
    Option.map_some', Option.bind_eq_bind, Option.some_bind, Option.pure_def, List.nil_append]
  exact congrArg some (hp _)

theorem findOverlappingTriangles_of_triangulation (polygon out : List QVector2D)
    (h : IsTriangulationOf polygon out) : findOverlappingTriangles out = [] := by
  obtain ⟨h3, _, hdet, hdis⟩ := h
  have hlen : out.length = 3 * (out.length / 3) := by omega
  rw [findOverlappingTriangles_eq out (out.length / 3) hlen, List.filter_eq_nil_iff]
  rintro ⟨i, j⟩ hmem
  have hj : j < out.length / 3 := by
    have := (List.pair_mem_product.mp hmem).2
    exact List.mem_range.mp this
  simp only [Bool.and_eq_true, decide_eq_true_eq, not_and, Bool.not_eq_true]
  intro hij
  by_contra hov
  have hov2 : overlapAt out i j = true := by simpa using hov
  exact hdis i j hij (by omega)
    (common_interior_of_doTrianglesOverlap _ _ _ _ _ _ (hdet i (by omega)) (hdet j (by omega))
      hov2)

theorem length_ge_of_triangulation (polygon out : List QVector2D) (hn : polygon.Nodup)
    (h : IsTriangulationOf polygon out) : polygon.length ≤ out.length :=
  (hn.subperm h.2.1).length_le

/-- C11: scenario B. For the two overlapping triangles `(1,1) (10,1) (5,10)` and
`(5,0) (1,9) (9,9)`, with a `normalized` that keeps directions and a triangulator that
returns a triangulation of the outline of their union, `removeOverlappingTriangles` returns
within 7 hull calls; the returned list has at least 12 points, so its length differs from
the 6 points of the input, and `findOverlappingTriangles` finds no overlapping pair in
it. -/
theorem removeOverlappingTriangles_star_resolved (qTriangulate : List ℚ → QTriangleSet)
    (normalized : QVector2D → QVector2D) (fuel : Nat) (hk : KeepsDirection normalized)
    (ht : IsTriangulationOf starHull
      (removeOverlappingTriangles.retriangulate qTriangulate starHull)) :
    ∃ out, removeOverlappingTriangles qTriangulate normalized (fuel + 7) starInput = some out
      ∧ 12 ≤ out.length ∧ out.length ≠ starInput.length
      ∧ findOverlappingTriangles out = [] := by
  have hn : starHull.Nodup := by decide!
  have hl := length_ge_of_triangulation _ _ hn ht
  have h12 : starHull.length = 12 := rfl
  have h6 : starInput.length = 6 := rfl
  exact ⟨_, removeOverlappingTriangles_starInput qTriangulate normalized hk fuel, by omega,
    by omega, findOverlappingTriangles_of_triangulation _ _ ht⟩

theorem keepsDirection_id : KeepsDirection id := fun v _ => ⟨1, by norm_num, by simp⟩

theorem starTriangulate_triangulation :
    IsTriangulationOf starHull
      (removeOverlappingTriangles.retriangulate starTriangulate starHull) := by
  have hout : removeOverlappingTriangles.retriangulate starTriangulate starHull
      = [⟨1, 1⟩, ⟨10, 1⟩, ⟨5, 10⟩, ⟨41 / 9, 1⟩, ⟨5, 0⟩, ⟨49 / 9, 1⟩, ⟨605 / 81, 50 / 9⟩,
          ⟨9, 9⟩, ⟨50 / 9, 9⟩, ⟨41 / 9, 9⟩, ⟨1, 9⟩, ⟨25 / 9, 5⟩] := by decide!
  rw [hout]
  refine ⟨rfl, by decide!, ?_, ?_⟩
  · intro i hi
    simp only [List.length_cons, List.length_nil] at hi
    have hi4 : i < 4 := by omega
    interval_cases i <;>
      simp only [Nat.reduceMul, Nat.reduceAdd, QVector.at, List.getD_cons_succ,
        List.getD_cons_zero, Det2D] <;>
      norm_num
  · intro i j hij hj
    simp only [List.length_cons, List.length_nil] at hj
    have hj4 : j < 4 := by omega
    rintro ⟨p, hp, hq⟩
    unfold strictlyInside insideBy at hp hq
    interval_cases j <;> interval_cases i <;>
      simp only [Nat.reduceMul, Nat.reduceAdd, QVector.at, List.getD_cons_succ,
        List.getD_cons_zero, Det2D] at hp hq <;>
      rcases hp with ⟨a1, a2, a3⟩ | ⟨a1, a2, a3⟩ <;>
      rcases hq with ⟨b1, b2, b3⟩ | ⟨b1, b2, b3⟩ <;> linarith

theorem removeOverlappingTriangles_star_resolved_witness :
    KeepsDirection id
      ∧ IsTriangulationOf starHull
          (removeOverlappingTriangles.retriangulate starTriangulate starHull)
      ∧ removeOverlappingTriangles starTriangulate id 7 starInput
        = some [⟨1, 1⟩, ⟨10, 1⟩, ⟨5, 10⟩, ⟨41 / 9, 1⟩, ⟨5, 0⟩, ⟨49 / 9, 1⟩, ⟨605 / 81, 50 / 9⟩,
            ⟨9, 9⟩, ⟨50 / 9, 9⟩, ⟨41 / 9, 9⟩, ⟨1, 9⟩, ⟨25 / 9, 5⟩]
      ∧ ∃ out, removeOverlappingTriangles starTriangulate id (0 + 7) starInput = some out
          ∧ 12 ≤ out.length ∧ out.length ≠ starInput.length
          ∧ findOverlappingTriangles out = [] :=
  ⟨keepsDirection_id, starTriangulate_triangulation, by decide!,
    removeOverlappingTriangles_star_resolved starTriangulate id 0 keepsDirection_id
      starTriangulate_triangulation⟩

/-! ### The stroke generator -/

theorem appendTriangle_length_mod (l : List QVector2D) (p1 p2 p3 : QVector2D) :
    (updatePathOutlineVertices.appendTriangle l p1 p2 p3).length % 3 = l.length % 3 := by
  unfold updatePathOutlineVertices.appendTriangle
  split
  · rfl
  · simp

theorem fan_length (centerPoint : QVector2D) (cPhi sPhi : ℚ) : ∀ (k : Nat) (o : QVector2D),
    (updatePathOutlineVertices.fan centerPoint cPhi sPhi k o).length = 3 * k := by
  intro k
  induction k with
  | zero => intro o; rfl
  | succ k ih =>
    intro o
    simp only [updatePathOutlineVertices.fan, List.length_append, ih, List.length_cons,
      List.length_nil]
    omega

theorem cap_length_mod (libm : LibM) (pen : QPen) (n : Nat) (pathData : List PathDataPoint)
    (i nextI : Nat) (p1 p2 offset offset2 : QVector2D) (l : List QVector2D) :
    (updatePathOutlineVertices.cap libm pen n pathData i nextI p1 p2 offset offset2 l).length % 3
      = l.length % 3 := by
  unfold updatePathOutlineVertices.cap
  cases pen.capStyle
  · rfl
  · dsimp only
    split
    · rfl
    · split <;> simp
  · dsimp only
    split <;> simp only [List.length_append, fan_length] <;> omega
  · rfl

theorem join_length_mod (normalized : QVector2D → QVector2D) (libm : LibM) (pen : QPen)
    (n : Nat) (p1 p2 p3 normal offset : QVector2D) (l : List QVector2D) :
    (updatePathOutlineVertices.join normalized libm pen n p1 p2 p3 normal offset l).length % 3
      = l.length % 3 := by
  unfold updatePathOutlineVertices.join
  cases pen.joinStyle <;> dsimp only
  · repeat' split
    all_goals simp only [appendTriangle_length_mod]
  · split <;> rw [appendTriangle_length_mod]
  all_goals simp only [List.length_append, fan_length]
  all_goals omega

theorem segment_length_mod (normalized : QVector2D → QVector2D) (libm : LibM) (pen : QPen)
    (n : Nat) (pathData : List PathDataPoint) (closed : Bool) (endIndex : Nat)
    (l : List QVector2D) (i : Nat) :
    (updatePathOutlineVertices.segment normalized libm pen n pathData closed endIndex l i).length
        % 3
      = l.length % 3 := by
  unfold updatePathOutlineVertices.segment
  dsimp only
  split_ifs <;> simp only [cap_length_mod, join_length_mod, appendTriangle_length_mod]

theorem foldl_segment_length_mod (normalized : QVector2D → QVector2D) (libm : LibM)
    (pen : QPen) (n : Nat) (pathData : List PathDataPoint) (closed : Bool) (endIndex : Nat) :
    ∀ (is : List Nat) (l : List QVector2D),
      (is.foldl (updatePathOutlineVertices.segment normalized libm pen n pathData closed
        endIndex) l).length % 3 = l.length % 3 := by
  intro is
  induction is with
  | nil => intro l; rfl
  | cons i is ih =>
    intro l
    rw [List.foldl_cons, ih, segment_length_mod]

/-- C12: for every subpath record, every pen (any width, join style, cap style), every
segment count and whatever `normalized` and the math library return, the stroke point list
built by `updatePathOutlineVertices` for the subpath, before overlap resolution, has a
length divisible by 3. -/
theorem lineDataSegment_length_divisible (normalized : QVector2D → QVector2D) (libm : LibM)
    (pen : QPen) (m_segmentCount : Nat) (pathData : List PathDataPoint) :
    (updatePathOutlineVertices.lineDataSegment normalized libm pen m_segmentCount
      pathData).length % 3 = 0 := by
  unfold updatePathOutlineVertices.lineDataSegment
  dsimp only
  rw [foldl_segment_length_mod]
  rfl

end RiveQtPath

theorem QVector2D.mk_add (a b c d : ℚ) : (⟨a, b⟩ : QVector2D) + ⟨c, d⟩ = ⟨a + c, b + d⟩ := rfl

theorem QVector2D.mk_sub (a b c d : ℚ) : (⟨a, b⟩ : QVector2D) - ⟨c, d⟩ = ⟨a - c, b - d⟩ := rfl

theorem QVector2D.mk_mul (a b f : ℚ) : (⟨a, b⟩ : QVector2D).mul f = ⟨a * f, b * f⟩ := rfl

theorem QVector2D.mk_div (a b f : ℚ) : (⟨a, b⟩ : QVector2D).div f = ⟨a / f, b / f⟩ := rfl

namespace RiveQtPath

theorem rectangle_records (normalized : QVector2D → QVector2D) (s : RiveQtPath)
    (hs : s.m_qPainterPath.elements = rectangleElements) :
    (updatePathSegmentsOutlineData normalized s).m_pathSegmentsOutlineData
      = [rectangleRecords] := by
  simp [updatePathSegmentsOutlineData, QPainterPath.isEmpty, hs, rectangleElements,
    QPainterPath.elementCount, QPainterPath.elementAt, QVector.at,
    updatePathSegmentsOutlineData.loop, rectangleRecords]

theorem rectangle_segment0 (normalized : QVector2D → QVector2D) (libm : LibM)
    (capStyle : PenCapStyle) (n : Nat) (l : List QVector2D)
    (h1 : normalized ⟨0, 10⟩ = ⟨0, 1⟩) (h2 : normalized ⟨-10, 0⟩ = ⟨-1, 0⟩) :
    updatePathOutlineVertices.segment normalized libm ⟨2, PenJoinStyle.BevelJoin, capStyle⟩ n
        rectangleRecords true 5 l 0
      = l ++ [⟨0, 1⟩, ⟨0, -1⟩, ⟨10, 1⟩, ⟨10, 1⟩, ⟨10, -1⟩, ⟨0, -1⟩]
          ++ [⟨0, -1⟩, ⟨10, 0⟩, ⟨11, 0⟩] := by
  simp [updatePathOutlineVertices.segment, rectangleRecords, QVector.at, QVector2D.isNull,
    QVector2D.mk_add, QVector2D.mk_sub, QVector2D.mk_mul, QVector2D.mk_div, h1, h2,
    updatePathOutlineVertices.join, updatePathOutlineVertices.appendTriangle]
  norm_num

theorem rectangle_segment1 (normalized : QVector2D → QVector2D) (libm : LibM)
    (capStyle : PenCapStyle) (n : Nat) (l : List QVector2D)
    (h2 : normalized ⟨-10, 0⟩ = ⟨-1, 0⟩) (h3 : normalized ⟨0, -10⟩ = ⟨0, -1⟩) :
    updatePathOutlineVertices.segment normalized libm ⟨2, PenJoinStyle.BevelJoin, capStyle⟩ n
        rectangleRecords true 5 l 1
      = l ++ [⟨9, 0⟩, ⟨11, 0⟩, ⟨9, 10⟩, ⟨9, 10⟩, ⟨11, 10⟩, ⟨11, 0⟩]
          ++ [⟨11, 0⟩, ⟨10, 10⟩, ⟨10, 11⟩] := by
  simp [updatePathOutlineVertices.segment, rectangleRecords, QVector.at, QVector2D.isNull,
    QVector2D.mk_add, QVector2D.mk_sub, QVector2D.mk_mul, QVector2D.mk_div, h2, h3,
    updatePathOutlineVertices.join, updatePathOutlineVertices.appendTriangle]
  norm_num

theorem rectangle_segment2 (normalized : QVector2D → QVector2D) (libm : LibM)
    (capStyle : PenCapStyle) (n : Nat) (l : List QVector2D)
    (h3 : normalized ⟨0, -10⟩ = ⟨0, -1⟩) (h4 : normalized ⟨10, 0⟩ = ⟨1, 0⟩) :
    updatePathOutlineVertices.segment normalized libm ⟨2, PenJoinStyle.BevelJoin, capStyle⟩ n
        rectangleRecords true 5 l 2
      = l ++ [⟨10, 9⟩, ⟨10, 11⟩, ⟨0, 9⟩, ⟨0, 9⟩, ⟨0, 11⟩, ⟨10, 11⟩]
          ++ [⟨10, 11⟩, ⟨0, 10⟩, ⟨-1, 10⟩] := by
  simp [updatePathOutlineVertices.segment, rectangleRecords, QVector.at, QVector2D.isNull,
    QVector2D.mk_add, QVector2D.mk_sub, QVector2D.mk_mul, QVector2D.mk_div, h3, h4,
    updatePathOutlineVertices.join, updatePathOutlineVertices.appendTriangle]
  norm_num

theorem rectangle_segment3 (normalized : QVector2D → QVector2D) (libm : LibM)
    (capStyle : PenCapStyle) (n : Nat) (l : List QVector2D)
    (h4 : normalized ⟨10, 0⟩ = ⟨1, 0⟩) (h1 : normalized ⟨0, 10⟩ = ⟨0, 1⟩) :
    updatePathOutlineVertices.segment normalized libm ⟨2, PenJoinStyle.BevelJoin, capStyle⟩ n
        rectangleRecords true 5 l 3
      = l ++ [⟨1, 10⟩, ⟨-1, 10⟩, ⟨1, 0⟩, ⟨1, 0⟩, ⟨-1, 0⟩, ⟨-1, 10⟩]
          ++ [⟨-1, 10⟩, ⟨0, 0⟩, ⟨0, -1⟩] := by
  simp [updatePathOutlineVertices.segment, rectangleRecords, QVector.at, QVector2D.isNull,
    QVector2D.mk_add, QVector2D.mk_sub, QVector2D.mk_mul, QVector2D.mk_div, h4, h1,
    updatePathOutlineVertices.join, updatePathOutlineVertices.appendTriangle]
  norm_num

theorem rectangle_segment4 (normalized : QVector2D → QVector2D) (libm : LibM)
    (capStyle : PenCapStyle) (n : Nat) (l : List QVector2D) :
    updatePathOutlineVertices.segment normalized libm ⟨2, PenJoinStyle.BevelJoin, capStyle⟩ n
        rectangleRecords true 5 l 4
      = l := by
  simp [updatePathOutlineVertices.segment, rectangleRecords, QVector.at, QVector2D.isNull,
    updatePathOutlineVertices.appendTriangle]

/-- C13: for a path whose elements are those of the closed rectangle `(0, 0)`, `(10, 0)`,
`(10, 10)`, `(0, 10)`, with `normalized` exact on the four side normals, the flattening
yields the one record list of the rectangle, and for width 2 and bevel join the stroke list
of that record list, before overlap resolution, is for each side in turn its two quad-strip
triangles followed by the bevel triangle at its end corner: 8 quad-strip triangles and 4
bevel triangles, 12 triangles in all. No cap triangle is added, whatever the cap style. -/
theorem rectangle_stroke_twelve_triangles (normalized : QVector2D → QVector2D) (libm : LibM)
    (capStyle : PenCapStyle) (s : RiveQtPath)
    (hs : s.m_qPainterPath.elements = rectangleElements)
    (h1 : normalized ⟨0, 10⟩ = ⟨0, 1⟩) (h2 : normalized ⟨-10, 0⟩ = ⟨-1, 0⟩)
    (h3 : normalized ⟨0, -10⟩ = ⟨0, -1⟩) (h4 : normalized ⟨10, 0⟩ = ⟨1, 0⟩) :
    (updatePathSegmentsOutlineData normalized s).m_pathSegmentsOutlineData = [rectangleRecords]
      ∧ updatePathOutlineVertices.lineDataSegment normalized libm
          ⟨2, PenJoinStyle.BevelJoin, capStyle⟩ s.m_segmentCount rectangleRecords
        = (List.zipWith (fun quads bevel => quads ++ bevel) rectangleQuads
            rectangleBevels).flatten
      ∧ (updatePathOutlineVertices.lineDataSegment normalized libm
          ⟨2, PenJoinStyle.BevelJoin, capStyle⟩ s.m_segmentCount rectangleRecords).length
        = 3 * 12
      ∧ rectangleQuads.flatten.length = 3 * 8
      ∧ rectangleBevels.flatten.length = 3 * 4 := by
  have hr : List.range 5 = [0, 1, 2, 3, 4] := rfl
  have hc : decide ((QVector.at rectangleRecords 0).point
      = (QVector.at rectangleRecords (5 - 1)).point) = true := by
    decide!
  have hlen : rectangleRecords.length = 5 := rfl
  have hlist : updatePathOutlineVertices.lineDataSegment normalized libm
          ⟨2, PenJoinStyle.BevelJoin, capStyle⟩ s.m_segmentCount rectangleRecords
        = (List.zipWith (fun quads bevel => quads ++ bevel) rectangleQuads
            rectangleBevels).flatten := by
    unfold updatePathOutlineVertices.lineDataSegment
    simp only [hlen, hc, if_true, hr, List.foldl_cons, List.foldl_nil]
    rw [rectangle_segment0 normalized libm capStyle _ _ h1 h2,
      rectangle_segment1 normalized libm capStyle _ _ h2 h3,
      rectangle_segment2 normalized libm capStyle _ _ h3 h4,
      rectangle_segment3 normalized libm capStyle _ _ h4 h1,
      rectangle_segment4 normalized libm capStyle]
    simp [rectangleQuads, rectangleBevels]
  refine ⟨rectangle_records normalized s hs, hlist, ?_, rfl, rfl⟩
  rw [hlist]
  rfl

theorem rectangle_stroke_twelve_triangles_witness :
    (rectanglePath referenceOps 10).m_qPainterPath.elements = rectangleElements
      ∧ referenceNormalized ⟨0, 10⟩ = ⟨0, 1⟩ ∧ referenceNormalized ⟨-10, 0⟩ = ⟨-1, 0⟩
      ∧ referenceNormalized ⟨0, -10⟩ = ⟨0, -1⟩ ∧ referenceNormalized ⟨10, 0⟩ = ⟨1, 0⟩
      ∧ (updatePathOutlineVertices.lineDataSegment referenceNormalized referenceLibM
          ⟨2, PenJoinStyle.BevelJoin, PenCapStyle.FlatCap⟩
          (rectanglePath referenceOps 10).m_segmentCount rectangleRecords).length = 3 * 12 :=
  have hs : (rectanglePath referenceOps 10).m_qPainterPath.elements = rectangleElements := by
    decide!
  have h1 : referenceNormalized ⟨0, 10⟩ = ⟨0, 1⟩ := by decide!
  have h2 : referenceNormalized ⟨-10, 0⟩ = ⟨-1, 0⟩ := by decide!
  have h3 : referenceNormalized ⟨0, -10⟩ = ⟨0, -1⟩ := by decide!
  have h4 : referenceNormalized ⟨10, 0⟩ = ⟨1, 0⟩ := by decide!
  ⟨hs, h1, h2, h3, h4,
    (rectangle_stroke_twelve_triangles referenceNormalized referenceLibM PenCapStyle.FlatCap
      (rectanglePath referenceOps 10) hs h1 h2 h3 h4).2.2.1⟩

theorem segmentPath_records (normalized : QVector2D → QVector2D) (n : Nat) :
    (updatePathSegmentsOutlineData normalized (segmentPath n)).m_pathSegmentsOutlineData
      = [segmentRecords] := by
  simp [updatePathSegmentsOutlineData, segmentPath, initial, QPainterPath.isEmpty,
    QPainterPath.elementCount, QPainterPath.elementAt, QVector.at,
    updatePathSegmentsOutlineData.loop, segmentRecords]

theorem appendTriangle_length_le (l : List QVector2D) (p1 p2 p3 : QVector2D) :
    (updatePathOutlineVertices.appendTriangle l p1 p2 p3).length ≤ l.length + 3 := by
  unfold updatePathOutlineVertices.appendTriangle
  split <;> simp

/-- C14: for the open segment from `(0, 0)` to `(10, 0)`, width 4 and round cap, the stroke
list is one fan of `n` triangles, built around the start point `(0, 0)` and put in front,
followed by the at most two body triangles: the only loop iteration is the one for `i = 0`,
which takes the start-cap branch, so no fan is built around the end point `(10, 0)`. The
list has at most `n + 2` triangles, fewer than `2 * n + 2` for every `n ≥ 1`. -/
theorem roundCap_single_segment_one_fan (normalized : QVector2D → QVector2D) (libm : LibM)
    (joinStyle : PenJoinStyle) (n : Nat) :
    (updatePathSegmentsOutlineData normalized (segmentPath n)).m_pathSegmentsOutlineData
        = [segmentRecords]
      ∧ updatePathOutlineVertices.lineDataSegment normalized libm
          ⟨4, joinStyle, PenCapStyle.RoundCap⟩ n segmentRecords
        = updatePathOutlineVertices.fan ⟨0, 0⟩ (libm.cos (libm.M_PI / n))
            (libm.sin (libm.M_PI / n)) n ((normalized ⟨0, 10⟩).mul (4 / 2))
          ++ updatePathOutlineVertices.appendTriangle
              (updatePathOutlineVertices.appendTriangle []
                ((⟨0, 0⟩ : QVector2D) + (normalized ⟨0, 10⟩).mul (4 / 2))
                ((⟨0, 0⟩ : QVector2D) - (normalized ⟨0, 10⟩).mul (4 / 2))
                ((⟨10, 0⟩ : QVector2D) + (normalized ⟨0, 10⟩).mul (4 / 2)))
              ((⟨10, 0⟩ : QVector2D) + (normalized ⟨0, 10⟩).mul (4 / 2))
              ((⟨10, 0⟩ : QVector2D) - (normalized ⟨0, 10⟩).mul (4 / 2))
              ((⟨0, 0⟩ : QVector2D) - (normalized ⟨0, 10⟩).mul (4 / 2))
      ∧ (updatePathOutlineVertices.lineDataSegment normalized libm
          ⟨4, joinStyle, PenCapStyle.RoundCap⟩ n segmentRecords).length ≤ 3 * (n + 2)
      ∧ ((updatePathOutlineVertices.lineDataSegment normalized libm
            ⟨4, joinStyle, PenCapStyle.RoundCap⟩ n segmentRecords).length
          < 3 * (2 * n + 2) ∨ n = 0)
      ∧ (normalized ⟨0, 10⟩ ≠ ⟨0, 1⟩
          ∨ (updatePathOutlineVertices.lineDataSegment normalized libm
              ⟨4, joinStyle, PenCapStyle.RoundCap⟩ n segmentRecords).length
            = 3 * (n + 2)) := by
  have hlist : updatePathOutlineVertices.lineDataSegment normalized libm
          ⟨4, joinStyle, PenCapStyle.RoundCap⟩ n segmentRecords
        = updatePathOutlineVertices.fan ⟨0, 0⟩ (libm.cos (libm.M_PI / n))
            (libm.sin (libm.M_PI / n)) n ((normalized ⟨0, 10⟩).mul (4 / 2))
          ++ updatePathOutlineVertices.appendTriangle
              (updatePathOutlineVertices.appendTriangle []
                ((⟨0, 0⟩ : QVector2D) + (normalized ⟨0, 10⟩).mul (4 / 2))
                ((⟨0, 0⟩ : QVector2D) - (normalized ⟨0, 10⟩).mul (4 / 2))
                ((⟨10, 0⟩ : QVector2D) + (normalized ⟨0, 10⟩).mul (4 / 2)))
              ((⟨10, 0⟩ : QVector2D) + (normalized ⟨0, 10⟩).mul (4 / 2))
              ((⟨10, 0⟩ : QVector2D) - (normalized ⟨0, 10⟩).mul (4 / 2))
              ((⟨0, 0⟩ : QVector2D) - (normalized ⟨0, 10⟩).mul (4 / 2)) := by
    have hr : List.range 1 = [0] := rfl
    have hsub : (⟨10, 0⟩ : QVector2D) - ⟨0, 0⟩ = ⟨10, 0⟩ := by
      show QVector2D.sub _ _ = _
      simp [QVector2D.sub]
    simp [updatePathOutlineVertices.lineDataSegment, segmentRecords, QVector.at, hr,
      updatePathOutlineVertices.segment, updatePathOutlineVertices.cap, QVector2D.isNull, hsub]
  have hlen : (updatePathOutlineVertices.lineDataSegment normalized libm
          ⟨4, joinStyle, PenCapStyle.RoundCap⟩ n segmentRecords).length ≤ 3 * (n + 2) := by
    rw [hlist, List.length_append, fan_length]
    have h1 := appendTriangle_length_le
      (updatePathOutlineVertices.appendTriangle []
        ((⟨0, 0⟩ : QVector2D) + (normalized ⟨0, 10⟩).mul (4 / 2))
        ((⟨0, 0⟩ : QVector2D) - (normalized ⟨0, 10⟩).mul (4 / 2))
        ((⟨10, 0⟩ : QVector2D) + (normalized ⟨0, 10⟩).mul (4 / 2)))
      ((⟨10, 0⟩ : QVector2D) + (normalized ⟨0, 10⟩).mul (4 / 2))
      ((⟨10, 0⟩ : QVector2D) - (normalized ⟨0, 10⟩).mul (4 / 2))
      ((⟨0, 0⟩ : QVector2D) - (normalized ⟨0, 10⟩).mul (4 / 2))
    have h2 := appendTriangle_length_le []
      ((⟨0, 0⟩ : QVector2D) + (normalized ⟨0, 10⟩).mul (4 / 2))
      ((⟨0, 0⟩ : QVector2D) - (normalized ⟨0, 10⟩).mul (4 / 2))
      ((⟨10, 0⟩ : QVector2D) + (normalized ⟨0, 10⟩).mul (4 / 2))
    simp only [List.length_nil] at h2
    omega
  refine ⟨segmentPath_records normalized n, hlist, hlen, by omega, ?_⟩
  by_cases h : normalized ⟨0, 10⟩ = ⟨0, 1⟩
  · right
    have e1 : (⟨0, 0⟩ : QVector2D) + (⟨0, 1⟩ : QVector2D).mul (4 / 2) = ⟨0, 2⟩ := by decide!
    have e2 : (⟨0, 0⟩ : QVector2D) - (⟨0, 1⟩ : QVector2D).mul (4 / 2) = ⟨0, -2⟩ := by decide!
    have e3 : (⟨10, 0⟩ : QVector2D) + (⟨0, 1⟩ : QVector2D).mul (4 / 2) = ⟨10, 2⟩ := by decide!
    have e4 : (⟨10, 0⟩ : QVector2D) - (⟨0, 1⟩ : QVector2D).mul (4 / 2) = ⟨10, -2⟩ := by
      decide!
    have e5 : updatePathOutlineVertices.appendTriangle
        (updatePathOutlineVertices.appendTriangle [] ⟨0, 2⟩ ⟨0, -2⟩ ⟨10, 2⟩)
        ⟨10, 2⟩ ⟨10, -2⟩ ⟨0, -2⟩
        = [⟨0, 2⟩, ⟨0, -2⟩, ⟨10, 2⟩, ⟨10, 2⟩, ⟨10, -2⟩, ⟨0, -2⟩] := by decide!
    rw [hlist, h, e1, e2, e3, e4, e5, List.length_append, fan_length]
    simp only [List.length_cons, List.length_nil]
    omega
  · exact Or.inl h

/-! ### Flattening -/

theorem samples_length (normalized : QVector2D → QVector2D) (p0 c1 c2 p3 : QVector2D)
    (n step : Nat) : ∀ (k j : Nat),
    (updatePathSegmentsOutlineData.samples normalized p0 c1 c2 p3 n step k j).length = k := by
  intro k
  induction k with
  | zero => intro j; rfl
  | succ k ih => intro j; simp [updatePathSegmentsOutlineData.samples, ih]

theorem getLast?_cons_of_ne_nil {α : Type} (a : α) (l : List α) (h : l ≠ []) :
    (a :: l).getLast? = l.getLast? := by
  cases l with
  | nil => exact absurd rfl h
  | cons b l => rw [List.getLast?_cons_cons]

/-- The last of `k + 1` samples that start at `j` is the sample for `t = (j + k) / n`. -/
theorem samples_getLast (normalized : QVector2D → QVector2D) (p0 c1 c2 p3 : QVector2D)
    (n step : Nat) : ∀ (k j : Nat),
    ((updatePathSegmentsOutlineData.samples normalized p0 c1 c2 p3 n step (k + 1) j).getLast?).map
        (fun d => d.point)
      = some (cubicBezier p0 c1 c2 p3 (((j + k : Nat) : ℚ) / (n : ℚ))) := by
  intro k
  induction k with
  | zero => intro j; simp [updatePathSegmentsOutlineData.samples]
  | succ k ih =>
    intro j
    have h := ih (j + 1)
    have hne : updatePathSegmentsOutlineData.samples normalized p0 c1 c2 p3 n step (k + 1)
        (j + 1) ≠ [] := by
      intro h0
      have := samples_length normalized p0 c1 c2 p3 n step (k + 1) (j + 1)
      rw [h0] at this
      simp at this
    rw [updatePathSegmentsOutlineData.samples, getLast?_cons_of_ne_nil _ _ hne, h]
    have e : j + 1 + k = j + (k + 1) := by omega
    rw [e]

theorem cubicBezier_at_one (p0 c1 c2 p3 : QVector2D) : cubicBezier p0 c1 c2 p3 1 = p3 := by
  simp [cubicBezier, QVector2D.add, QVector2D.mul]

theorem setLastTangent_length (pathDataEnhanced : List PathDataPoint) (tangent : QVector2D) :
    (updatePathSegmentsOutlineData.setLastTangent pathDataEnhanced tangent).length
      = pathDataEnhanced.length := by
  simp [updatePathSegmentsOutlineData.setLastTangent]

/-- C15: at a `CurveToElement` the flattening loop goes on, three elements further, with a
record list that has exactly `n` more records than before (`n` the segment count, at least
1), the last of which carries the end point of the cubic; and `cubicBezier` at `t = 1` is
the end point. -/
theorem cubic_flattening_ends_at_end_point (normalized : QVector2D → QVector2D)
    (path : QPainterPath) (n fuel i : Nat) (outline : List (List PathDataPoint))
    (pathDataEnhanced : List PathDataPoint) (currentStepIndex : Nat) (hn : 1 ≤ n)
    (hi : i < path.elementCount)
    (ht : (path.elementAt i).type = ElementType.CurveToElement) :
    ∃ records,
      updatePathSegmentsOutlineData.loop normalized path n (fuel + 1) i outline pathDataEnhanced
          currentStepIndex
        = updatePathSegmentsOutlineData.loop normalized path n fuel (i + 3) outline records
            (currentStepIndex + 1)
      ∧ records.length = pathDataEnhanced.length + n
      ∧ records.getLast?.map (fun d => d.point)
        = some ⟨(path.elementAt (i + 2)).x, (path.elementAt (i + 2)).y⟩
      ∧ ∀ p0 c1 c2 p3 : QVector2D, cubicBezier p0 c1 c2 p3 1 = p3 := by
  obtain ⟨m, rfl⟩ : ∃ m, n = m + 1 := ⟨n - 1, by omega⟩
  refine ⟨updatePathSegmentsOutlineData.setLastTangent pathDataEnhanced
      (cubicBezierTangent normalized
        (QVector.at pathDataEnhanced (pathDataEnhanced.length - 1)).point
        ⟨(path.elementAt i).x, (path.elementAt i).y⟩
        ⟨(path.elementAt (i + 1)).x, (path.elementAt (i + 1)).y⟩
        ⟨(path.elementAt (i + 2)).x, (path.elementAt (i + 2)).y⟩ 0)
      ++ updatePathSegmentsOutlineData.samples normalized
        (QVector.at pathDataEnhanced (pathDataEnhanced.length - 1)).point
        ⟨(path.elementAt i).x, (path.elementAt i).y⟩
        ⟨(path.elementAt (i + 1)).x, (path.elementAt (i + 1)).y⟩
        ⟨(path.elementAt (i + 2)).x, (path.elementAt (i + 2)).y⟩ (m + 1) currentStepIndex
        (m + 1) 1, ?_, ?_, ?_, cubicBezier_at_one⟩
  · conv_lhs => unfold updatePathSegmentsOutlineData.loop
    simp only [hi, if_true, ht]
  · rw [List.length_append, setLastTangent_length, samples_length]
  · rw [List.getLast?_append]
    have h := samples_getLast normalized
      (QVector.at pathDataEnhanced (pathDataEnhanced.length - 1)).point
      ⟨(path.elementAt i).x, (path.elementAt i).y⟩
      ⟨(path.elementAt (i + 1)).x, (path.elementAt (i + 1)).y⟩
      ⟨(path.elementAt (i + 2)).x, (path.elementAt (i + 2)).y⟩ (m + 1) currentStepIndex m 1
    have hone : (((1 + m : Nat) : ℚ) / ((m + 1 : Nat) : ℚ)) = 1 := by
      have : ((m + 1 : Nat) : ℚ) ≠ 0 := by positivity
      rw [Nat.add_comm 1 m]
      exact div_self this
    rw [hone, cubicBezier_at_one] at h
    cases hl : (updatePathSegmentsOutlineData.samples normalized
      (QVector.at pathDataEnhanced (pathDataEnhanced.length - 1)).point
      ⟨(path.elementAt i).x, (path.elementAt i).y⟩
      ⟨(path.elementAt (i + 1)).x, (path.elementAt (i + 1)).y⟩
      ⟨(path.elementAt (i + 2)).x, (path.elementAt (i + 2)).y⟩ (m + 1) currentStepIndex
      (m + 1) 1).getLast? with
    | none => rw [hl] at h; simp at h
    | some d =>
      rw [hl] at h
      simpa using h

theorem cubic_flattening_ends_at_end_point_witness :
    1 ≤ 4 ∧ 1 < cubicPath.elementCount
      ∧ (cubicPath.elementAt 1).type = ElementType.CurveToElement
      ∧ ((updatePathSegmentsOutlineData referenceNormalized
            { initial with m_qPainterPath := cubicPath, m_segmentCount := 4 }
          ).m_pathSegmentsOutlineData.map fun records => records.map fun d => d.point)
        = [[⟨0, 0⟩, ⟨29 / 32, 9 / 8⟩, ⟨2, 3 / 2⟩, ⟨99 / 32, 9 / 8⟩, ⟨4, 0⟩]]
      ∧ ∃ records,
          updatePathSegmentsOutlineData.loop referenceNormalized cubicPath 4 (3 + 1) 1 []
              [⟨⟨0, 0⟩, ⟨0, 0⟩, 0⟩] 0
            = updatePathSegmentsOutlineData.loop referenceNormalized cubicPath 4 3 (1 + 3) []
                records (0 + 1)
          ∧ records.length = [(⟨⟨0, 0⟩, ⟨0, 0⟩, 0⟩ : PathDataPoint)].length + 4
          ∧ records.getLast?.map (fun d => d.point)
            = some ⟨(cubicPath.elementAt (1 + 2)).x, (cubicPath.elementAt (1 + 2)).y⟩
          ∧ ∀ p0 c1 c2 p3 : QVector2D, cubicBezier p0 c1 c2 p3 1 = p3 :=
  have h1 : 1 ≤ 4 := by decide
  have h2 : 1 < cubicPath.elementCount := by decide
  have h3 : (cubicPath.elementAt 1).type = ElementType.CurveToElement := rfl
  ⟨h1, h2, h3, by decide!,
    cubic_flattening_ends_at_end_point referenceNormalized cubicPath 4 3 1 []
      [⟨⟨0, 0⟩, ⟨0, 0⟩, 0⟩] 0 h1 h2 h3⟩

/-! ### Segment count and mesh caches -/

/-- C16: for every `n`, `setSegmentCount n` stores `min (max n 1) 100`: `0` gives `1`, a
value above `100` gives `100`, a value in `[1, 100]` is stored unchanged. -/
theorem setSegmentCount_clamps (s : RiveQtPath) (n : Nat) :
    (setSegmentCount s n).m_segmentCount = min (max n 1) 100
      ∧ (setSegmentCount s 0).m_segmentCount = 1
      ∧ (100 < n → (setSegmentCount s n).m_segmentCount = 100)
      ∧ (1 ≤ n → n ≤ 100 → (setSegmentCount s n).m_segmentCount = n) := by
  refine ⟨?_, rfl, ?_, ?_⟩
  · unfold setSegmentCount
    split
    · rename_i h; subst h; rfl
    · split
      · rename_i h0 h1
        simp only []
        omega
      · rename_i h0 h1
        simp only []
        omega
  · intro h
    unfold setSegmentCount
    rw [if_neg (by omega), if_pos h]
  · intro h1 h2
    unfold setSegmentCount
    rw [if_neg (by omega), if_neg (by omega)]

theorem setSegmentCount_valid (s : RiveQtPath) (n : Nat) :
    segmentCountValid (setSegmentCount s n) := by
  unfold segmentCountValid setSegmentCount
  split
  · exact ⟨le_refl _, by norm_num⟩
  · split
    · exact ⟨by norm_num, le_refl _⟩
    · rename_i h0 h1
      exact ⟨by show 1 ≤ n; omega, by show n ≤ 100; omega⟩

theorem toVerticesLine_segmentCount (qTriangulate : List ℚ → QTriangleSet)
    (normalized : QVector2D → QVector2D) (libm : LibM) (fuel : Nat) (s : RiveQtPath)
    (pen : QPen) (r : List (List QVector2D)) (s1 : RiveQtPath)
    (h : toVerticesLine qTriangulate normalized libm fuel s pen = some (r, s1)) :
    s1.m_segmentCount = s.m_segmentCount := by
  unfold toVerticesLine at h
  have hu : (updatePathSegmentsOutlineData normalized s).m_segmentCount = s.m_segmentCount := by
    unfold updatePathSegmentsOutlineData
    split <;> rfl
  split at h
  · simp only [Option.some.injEq, Prod.mk.injEq] at h
    rw [← h.2]
  · dsimp only at h
    split at h
    · simp only [Option.some.injEq, Prod.mk.injEq] at h
      rw [← h.2]
      exact hu
    · simp only [Option.map_eq_some', Prod.mk.injEq] at h
      obtain ⟨v, _, _, h2⟩ := h
      rw [← h2]
      exact hu

theorem toVertices_segmentCount (qTriangulatePath : QPainterPath → QTriangleSet)
    (s : RiveQtPath) : (toVertices qTriangulatePath s).2.m_segmentCount = s.m_segmentCount := by
  unfold toVertices updatePathSegmentsData
  split
  · split <;> rfl
  · rfl

/-- C17: the segment count of a `RiveQtPath` is always in `[1, 100]`: it is after the
constructor from a segment count and after the constructor from a raw path, the copy of a
path with a valid count has a valid count, and `setSegmentCount`, `rewind`, `addRenderPath`,
`fillRule`, `toVertices` and `toVerticesLine` (when it returns) keep a valid count valid. -/
theorem segmentCount_always_valid (s : RiveQtPath) (h : segmentCountValid s) :
    (∀ ops n, segmentCountValid (new ops n))
      ∧ (∀ ops rawPath rule n, segmentCountValid (fromRawPath ops rawPath rule n))
      ∧ segmentCountValid (copy s)
      ∧ (∀ n, segmentCountValid (setSegmentCount s n))
      ∧ (∀ ops, segmentCountValid (rewind ops s))
      ∧ (∀ ops path transform, segmentCountValid (addRenderPath ops s path transform))
      ∧ (∀ ops value, segmentCountValid (fillRule ops s value))
      ∧ (∀ qTriangulatePath, segmentCountValid (toVertices qTriangulatePath s).2)
      ∧ (∀ qTriangulate normalized libm fuel pen r s1,
          toVerticesLine qTriangulate normalized libm fuel s pen = some (r, s1) →
            segmentCountValid s1) := by
  refine ⟨?_, ?_, h, ?_, ?_, ?_, ?_, ?_, ?_⟩
  · intro ops n
    exact setSegmentCount_valid _ n
  · intro ops rawPath rule n
    exact setSegmentCount_valid _ n
  · intro n
    exact setSegmentCount_valid s n
  · intro ops
    exact h
  · intro ops path transform
    cases path with
    | none => exact h
    | some p => exact h
  · intro ops value
    cases value <;> exact h
  · intro qTriangulatePath
    unfold segmentCountValid
    rw [toVertices_segmentCount]
    exact h
  · intro qTriangulate normalized libm fuel pen r s1 hr
    unfold segmentCountValid
    rw [toVerticesLine_segmentCount _ _ _ _ _ _ _ _ hr]
    exact h

theorem segmentCount_always_valid_witness :
    segmentCountValid (new referenceOps 250)
      ∧ (new referenceOps 250).m_segmentCount = 100
      ∧ segmentCountValid (rewind referenceOps (copy (new referenceOps 250)))
      ∧ segmentCountValid (setSegmentCount (new referenceOps 250) 0) :=
  have h : segmentCountValid (new referenceOps 250) := ⟨by decide, by decide⟩
  have t := segmentCount_always_valid (copy (new referenceOps 250)) h
  ⟨h, rfl, t.2.2.2.2.1 referenceOps,
    (segmentCount_always_valid (new referenceOps 250) h).2.2.2.1 0⟩

/-- A successful `toVerticesLine` leaves the stroke cache clean and holding what it
returned. -/
theorem toVerticesLine_clean (qTriangulate : List ℚ → QTriangleSet)
    (normalized : QVector2D → QVector2D) (libm : LibM) (fuel : Nat) (s : RiveQtPath)
    (pen : QPen) (r : List (List QVector2D)) (s1 : RiveQtPath)
    (h : toVerticesLine qTriangulate normalized libm fuel s pen = some (r, s1)) :
    s1.m_pathSegmentOutlineDataDirty = false ∧ s1.m_pathOutlineVertices = r := by
  unfold toVerticesLine at h
  have hu : (updatePathSegmentsOutlineData normalized s).m_pathSegmentOutlineDataDirty
      = false := by
    unfold updatePathSegmentsOutlineData
    split <;> rfl
  split at h
  · rename_i hd
    simp only [Option.some.injEq, Prod.mk.injEq] at h
    rw [← h.2]
    exact ⟨by simpa using hd, h.1⟩
  · dsimp only at h
    split at h
    · simp only [Option.some.injEq, Prod.mk.injEq] at h
      rw [← h.2, ← h.1]
      exact ⟨hu, rfl⟩
    · simp only [Option.map_eq_some', Prod.mk.injEq] at h
      obtain ⟨v, _, h1, h2⟩ := h
      rw [← h2, ← h1]
      exact ⟨rfl, rfl⟩

/-- A call of `toVerticesLine` on a clean stroke cache returns the cache, whatever the
pen. -/
theorem toVerticesLine_of_clean (qTriangulate : List ℚ → QTriangleSet)
    (normalized : QVector2D → QVector2D) (libm : LibM) (fuel : Nat) (s : RiveQtPath)
    (pen : QPen) (h : s.m_pathSegmentOutlineDataDirty = false) :
    toVerticesLine qTriangulate normalized libm fuel s pen
      = some (s.m_pathOutlineVertices, s) := by
  unfold toVerticesLine
  simp [h]

/-- C18 (refuted on the code): `moveTo`, `lineTo`, `cubicTo` and `close` change the painter
path only; both dirty flags and both cached meshes stay as they were. For the object built
by `RiveQtPath(10)`, after `toVertices()` and `toVerticesLine(pen)` the commands
`moveTo(0, 0)`, `lineTo(10, 0)` leave both caches clean, the next `toVertices()` and
`toVerticesLine(pen)` return the empty meshes cached for the empty path, while a copy of
the object (whose flags are dirty) returns the mesh of the segment. -/
theorem path_commands_leave_caches_clean :
    (∀ (ops : QPainterPathOps) (s : RiveQtPath) (x y ox oy ix iy : ℚ),
        ∀ s1 ∈ [moveTo ops s x y, lineTo ops s x y, cubicTo ops s ox oy ix iy x y, close ops s],
          s1.m_pathSegmentDataDirty = s.m_pathSegmentDataDirty
            ∧ s1.m_pathSegmentOutlineDataDirty = s.m_pathSegmentOutlineDataDirty
            ∧ s1.m_pathVertices = s.m_pathVertices
            ∧ s1.m_pathOutlineVertices = s.m_pathOutlineVertices)
      ∧ ∃ s3, mutatedAfterCaching = some s3
          ∧ s3.m_qPainterPath.elements
            = [⟨0, 0, ElementType.MoveToElement⟩, ⟨10, 0, ElementType.LineToElement⟩]
          ∧ s3.m_pathSegmentDataDirty = false
          ∧ s3.m_pathSegmentOutlineDataDirty = false
          ∧ (toVertices referencePathTriangulate s3).1 = []
          ∧ (toVerticesLine fanTriangulate referenceNormalized referenceLibM 0 s3
              ⟨2, PenJoinStyle.BevelJoin, PenCapStyle.FlatCap⟩).map Prod.fst = some []
          ∧ (toVerticesLine fanTriangulate referenceNormalized referenceLibM 0 (copy s3)
              ⟨2, PenJoinStyle.BevelJoin, PenCapStyle.FlatCap⟩).map Prod.fst
            = some segmentMesh2 := by
  refine ⟨?_, ?_⟩
  · intro ops s x y ox oy ix iy s1 hs1
    simp only [List.mem_cons, List.mem_singleton, List.not_mem_nil, or_false] at hs1
    rcases hs1 with rfl | rfl | rfl | rfl <;> exact ⟨rfl, rfl, rfl, rfl⟩
  · refine ⟨{ new referenceOps 10 with
        m_qPainterPath :=
          ⟨[⟨0, 0, ElementType.MoveToElement⟩, ⟨10, 0, ElementType.LineToElement⟩],
            QtFillRule.WindingFill⟩
        m_pathSegmentDataDirty := false
        m_pathSegmentOutlineDataDirty := false }, ?_, ?_, ?_, ?_, ?_, ?_, ?_⟩ <;> decide!

/-- C20: `rewind` clears the geometry and invalidates both caches, provided `clear`
leaves the painter path empty: after `rewind()` both dirty flags are set, and the next
`toVertices()` and the next `toVerticesLine(pen)`, in either order and for any pen, return
an empty list, whatever the object held before. -/
theorem rewind_empties_both_meshes (ops : QPainterPathOps)
    (hclear : ∀ p, (ops.clear p).isEmpty = true)
    (qTriangulatePath : QPainterPath → QTriangleSet) (qTriangulate : List ℚ → QTriangleSet)
    (normalized : QVector2D → QVector2D) (libm : LibM) (fuel : Nat) (s : RiveQtPath)
    (pen : QPen) :
    (rewind ops s).m_pathSegmentDataDirty = true
      ∧ (rewind ops s).m_pathSegmentOutlineDataDirty = true
      ∧ (toVertices qTriangulatePath (rewind ops s)).1 = []
      ∧ (toVerticesLine qTriangulate normalized libm fuel (rewind ops s) pen).map Prod.fst
        = some []
      ∧ (toVerticesLine qTriangulate normalized libm fuel
          (toVertices qTriangulatePath (rewind ops s)).2 pen).map Prod.fst = some []
      ∧ (toVerticesLine qTriangulate normalized libm fuel (rewind ops s) pen).map
          (fun rs => (toVertices qTriangulatePath rs.2).1) = some [] := by
  have h := hclear s.m_qPainterPath
  refine ⟨rfl, rfl, ?_, ?_, ?_, ?_⟩
  · simp [toVertices, updatePathSegmentsData, rewind, h]
  · simp [toVerticesLine, updatePathSegmentsOutlineData, rewind, h]
  · simp [toVerticesLine, updatePathSegmentsOutlineData, toVertices, updatePathSegmentsData,
      rewind, h]
  · simp [toVerticesLine, updatePathSegmentsOutlineData, toVertices, updatePathSegmentsData,
      rewind, h]

theorem rewind_empties_both_meshes_witness :
    (∀ p, (referenceOps.clear p).isEmpty = true)
      ∧ (toVertices referencePathTriangulate (rewind referenceOps (segmentPath 10))).1 = []
      ∧ (toVerticesLine fanTriangulate referenceNormalized referenceLibM 0
          (rewind referenceOps (segmentPath 10))
          ⟨2, PenJoinStyle.BevelJoin, PenCapStyle.FlatCap⟩).map Prod.fst = some [] :=
  have h : ∀ p, (referenceOps.clear p).isEmpty = true := fun _ => rfl
  have t := rewind_empties_both_meshes referenceOps h referencePathTriangulate fanTriangulate
    referenceNormalized referenceLibM 0 (segmentPath 10)
    ⟨2, PenJoinStyle.BevelJoin, PenCapStyle.FlatCap⟩
  ⟨h, t.2.2.1, t.2.2.2.1⟩

/-! ### Empty paths and the fill mesh -/

/-- For an object whose path is empty and whose fill cache is to be computed (or holds
no mesh), `toVertices()` returns the empty list and leaves the fill cache marked clean; when
its stroke cache is to be computed (or holds no mesh), `toVerticesLine(pen)` returns the
empty list, for every pen, and leaves the stroke cache marked clean. No triangulator and no
hull walk is called. -/
theorem empty_path_gives_empty_meshes (qTriangulatePath : QPainterPath → QTriangleSet)
    (qTriangulate : List ℚ → QTriangleSet) (normalized : QVector2D → QVector2D) (libm : LibM)
    (fuel : Nat) (s : RiveQtPath) (pen : QPen)
    (hempty : s.m_qPainterPath.isEmpty = true)
    (hfill : s.m_pathSegmentDataDirty = true ∨ s.m_pathVertices = [])
    (hstroke : s.m_pathSegmentOutlineDataDirty = true ∨ s.m_pathOutlineVertices = []) :
    (toVertices qTriangulatePath s).1 = []
      ∧ (toVertices qTriangulatePath s).2.m_pathSegmentDataDirty = false
      ∧ ∃ s1, toVerticesLine qTriangulate normalized libm fuel s pen = some ([], s1)
          ∧ s1.m_pathSegmentOutlineDataDirty = false := by
  refine ⟨?_, ?_, ?_⟩
  · unfold toVertices updatePathSegmentsData
    cases hd : s.m_pathSegmentDataDirty
    · rcases hfill with h | h
      · rw [hd] at h; cases h
      · simpa using h
    · simp [hempty]
  · unfold toVertices updatePathSegmentsData
    cases hd : s.m_pathSegmentDataDirty
    · simpa using hd
    · simp [hempty]
  · unfold toVerticesLine updatePathSegmentsOutlineData
    cases hd : s.m_pathSegmentOutlineDataDirty
    · rcases hstroke with h | h
      · rw [hd] at h; cases h
      · exact ⟨s, by simp [h], hd⟩
    · simp [hempty]

theorem empty_path_gives_empty_meshes_witness :
    (new referenceOps 10).m_qPainterPath.isEmpty = true
      ∧ ((new referenceOps 10).m_pathSegmentDataDirty = true
          ∨ (new referenceOps 10).m_pathVertices = [])
      ∧ ((new referenceOps 10).m_pathSegmentOutlineDataDirty = true
          ∨ (new referenceOps 10).m_pathOutlineVertices = [])
      ∧ (toVertices referencePathTriangulate (new referenceOps 10)).1 = []
      ∧ (toVertices referencePathTriangulate (new referenceOps 10)).2.m_pathSegmentDataDirty
        = false
      ∧ ∃ s1, toVerticesLine fanTriangulate referenceNormalized referenceLibM 0
            (new referenceOps 10) ⟨2, PenJoinStyle.RoundJoin, PenCapStyle.RoundCap⟩
          = some ([], s1)
          ∧ s1.m_pathSegmentOutlineDataDirty = false :=
  have he : (new referenceOps 10).m_qPainterPath.isEmpty = true := rfl
  have hf : (new referenceOps 10).m_pathSegmentDataDirty = true
      ∨ (new referenceOps 10).m_pathVertices = [] := Or.inl rfl
  have hs : (new referenceOps 10).m_pathSegmentOutlineDataDirty = true
      ∨ (new referenceOps 10).m_pathOutlineVertices = [] := Or.inl rfl
  ⟨he, hf, hs,
    empty_path_gives_empty_meshes referencePathTriangulate fanTriangulate referenceNormalized
      referenceLibM 0 (new referenceOps 10)
      ⟨2, PenJoinStyle.RoundJoin, PenCapStyle.RoundCap⟩ he hf hs⟩

/-- C22 (counterexample): for the path of two disjoint rectangles, whose stroke outline has
two subpaths, `toVertices()` returns an outer list with one entry, for every
triangulator. -/
theorem toVertices_two_rectangles_one_entry :
    (pathOf twoRectanglesElements).m_qPainterPath.isEmpty = false
      ∧ (∀ normalized, (updatePathSegmentsOutlineData normalized
          (pathOf twoRectanglesElements)).m_pathSegmentsOutlineData.length = 2)
      ∧ (∀ qTriangulatePath : QPainterPath → QTriangleSet,
          (toVertices qTriangulatePath (pathOf twoRectanglesElements)).1.length = 1)
      ∧ (toVertices referencePathTriangulate (pathOf twoRectanglesElements)).1.length ≠ 2 :=
  ⟨rfl,
    fun normalized => by
      simp [updatePathSegmentsOutlineData, pathOf, initial, QPainterPath.isEmpty,
        twoRectanglesElements, QPainterPath.elementCount, QPainterPath.elementAt, QVector.at,
        updatePathSegmentsOutlineData.loop],
    fun qTriangulatePath => by
      simp [toVertices, updatePathSegmentsData, pathOf, initial, QPainterPath.isEmpty,
        twoRectanglesElements],
    by
      simp [toVertices, updatePathSegmentsData, pathOf, initial, QPainterPath.isEmpty,
        twoRectanglesElements]⟩

/-- C22 (amended): `toVertices()` returns one triangle list for the whole path. When the fill cache
is to be computed, the returned outer list has exactly one entry for every non-empty path,
whatever its subpaths are, and this entry is the index buffer of the triangulator of the
whole path, unpacked; for an empty path it has no entry. -/
theorem toVertices_single_entry (qTriangulatePath : QPainterPath → QTriangleSet)
    (s : RiveQtPath) (hd : s.m_pathSegmentDataDirty = true) :
    (s.m_qPainterPath.isEmpty = false →
      (toVertices qTriangulatePath s).1
          = [(qTriangulatePath s.m_qPainterPath).indices.map fun index =>
              ⟨QVector.at (qTriangulatePath s.m_qPainterPath).vertices (2 * index),
                QVector.at (qTriangulatePath s.m_qPainterPath).vertices (2 * index + 1)⟩]
        ∧ (toVertices qTriangulatePath s).1.length = 1)
    ∧ (s.m_qPainterPath.isEmpty = true → (toVertices qTriangulatePath s).1 = []) := by
  constructor
  · intro hne
    simp [toVertices, updatePathSegmentsData, hne, hd]
  · intro he
    simp [toVertices, updatePathSegmentsData, he, hd]

theorem toVertices_single_entry_witness :
    (pathOf twoRectanglesElements).m_qPainterPath.isEmpty = false
      ∧ (pathOf twoRectanglesElements).m_pathSegmentDataDirty = true
      ∧ (toVertices referencePathTriangulate (pathOf twoRectanglesElements)).1.length = 1
      ∧ (new referenceOps 10).m_qPainterPath.isEmpty = true
      ∧ (new referenceOps 10).m_pathSegmentDataDirty = true
      ∧ (toVertices referencePathTriangulate (new referenceOps 10)).1 = [] :=
  ⟨rfl, rfl,
    ((toVertices_single_entry referencePathTriangulate (pathOf twoRectanglesElements) rfl).1
      rfl).2,
    rfl, rfl,
    (toVertices_single_entry referencePathTriangulate (new referenceOps 10) rfl).2 rfl⟩

/-! ### Clusters -/

/-- C23 (refuted on the code): the clusters do not cover the overlapping indices. For the
four triangles of `chainInput` the overlapping pairs are `(0,3), (1,2), (2,3)`; the pass
for the seed `(0,3)` meets `(1,2)` before index 2 has joined the cluster and leaves it out,
adds 2 through `(2,3)`, and all three pairs are erased afterwards. The only cluster is
`{0, 2, 3}`: index 1 occurs in an overlapping pair and belongs to no cluster, so triangle 1
is passed through unmerged. -/
theorem clusters_miss_overlapping_index :
    chainInput.length = 3 * 4
      ∧ findOverlappingTriangles chainInput = [(0, 3), (1, 2), (2, 3)]
      ∧ removeOverlappingTriangles.clusterLoop 3 [(0, 3), (1, 2), (2, 3)] [] []
        = ([[0, 2, 3]], [0, 2, 3])
      ∧ clustersOf chainInput = [[0, 2, 3]]
      ∧ (1, 2) ∈ findOverlappingTriangles chainInput
      ∧ (∀ c ∈ clustersOf chainInput, 1 ∉ c)
      ∧ untouchedTriangles chainInput = [⟨10, -1⟩, ⟨14, -1⟩, ⟨10, 3⟩] := by
  have hov : findOverlappingTriangles chainInput = [(0, 3), (1, 2), (2, 3)] := by decide!
  have hcl : removeOverlappingTriangles.clusterLoop 3 [(0, 3), (1, 2), (2, 3)] [] []
      = ([[0, 2, 3]], [0, 2, 3]) := by decide!
  have hc : clustersOf chainInput = [[0, 2, 3]] := by
    unfold clustersOf
    rw [hov]
    exact congrArg Prod.fst hcl
  refine ⟨rfl, hov, hcl, hc, ?_, ?_, ?_⟩
  · rw [hov]; decide
  · rw [hc]; decide
  · unfold untouchedTriangles
    rw [hc]
    decide!

theorem overlapAt_comm (t : List QVector2D) (i j : Nat) : overlapAt t i j = overlapAt t j i := by
  unfold overlapAt doTrianglesOverlap
  exact TriTri2D_comm _ _ _ _

theorem mem_findOverlappingTriangles (t : List QVector2D) (n : Nat) (h : t.length = 3 * n)
    (i j : Nat) (hm : (i, j) ∈ findOverlappingTriangles t) :
    i < j ∧ overlapAt t i j = true := by
  rw [findOverlappingTriangles_eq t n h, List.mem_filter] at hm
  simpa using hm.2

theorem linkedBy_insert (pairs : List (Nat × Nat)) (c : List Nat) (p : Nat × Nat)
    (hp : p ∈ pairs) (h : LinkedBy pairs c) :
    LinkedBy pairs (StdSet.insert p.2 (StdSet.insert p.1 c)) := by
  intro i hi
  simp only [StdSet.mem_insert] at hi
  rcases hi with rfl | rfl | hi
  · exact ⟨p.1, by simp [StdSet.mem_insert], Or.inr hp⟩
  · exact ⟨p.2, by simp [StdSet.mem_insert], Or.inl hp⟩
  · obtain ⟨j, hj, hij⟩ := h i hi
    exact ⟨j, by simp [StdSet.mem_insert, hj], hij⟩

theorem absorb_linkedBy (all : List (Nat × Nat)) (pairs : List (Nat × Nat)) :
    ∀ (cluster ix : List Nat), (∀ p ∈ pairs, p ∈ all) → LinkedBy all cluster →
      LinkedBy all (removeOverlappingTriangles.absorb pairs cluster ix).1 := by
  induction pairs with
  | nil => intro cluster ix _ h; simpa [removeOverlappingTriangles.absorb] using h
  | cons p pairs ih =>
    intro cluster ix hsub h
    simp only [removeOverlappingTriangles.absorb, List.foldl_cons]
    split
    · exact ih _ _ (fun q hq => hsub q (List.mem_cons_of_mem _ hq))
        (linkedBy_insert all cluster p (hsub p (List.mem_cons_self _ _)) h)
    · exact ih _ _ (fun q hq => hsub q (List.mem_cons_of_mem _ hq)) h

theorem clusterLoop_linkedBy (all : List (Nat × Nat)) :
    ∀ (fuel : Nat) (pairs : List (Nat × Nat)) (clusters : List (List Nat)) (ix : List Nat),
      (∀ p ∈ pairs, p ∈ all) → (∀ c ∈ clusters, LinkedBy all c) →
      ∀ c ∈ (removeOverlappingTriangles.clusterLoop fuel pairs clusters ix).1,
        LinkedBy all c := by
  intro fuel
  induction fuel with
  | zero => intro pairs clusters ix _ h; simpa [removeOverlappingTriangles.clusterLoop] using h
  | succ fuel ih =>
    intro pairs clusters ix hsub h
    cases pairs with
    | nil => simpa [removeOverlappingTriangles.clusterLoop] using h
    | cons p0 rest =>
      simp only [removeOverlappingTriangles.clusterLoop]
      apply ih
      · intro p hp
        exact hsub p (List.mem_filter.mp hp).1
      · intro c hc
        rw [List.mem_append, List.mem_singleton] at hc
        rcases hc with hc | rfl
        · exact h c hc
        · apply absorb_linkedBy all (p0 :: rest) _ _ hsub
          have := linkedBy_insert all [] p0 (hsub p0 (List.mem_cons_self _ _))
            (fun i hi => by cases hi)
          exact this

/-- C24 (counterexample): in the cluster `{0, 2, 3}` built for `chainInput` the members 0
and 2 do not overlap. -/
theorem cluster_members_not_pairwise_overlapping :
    clustersOf chainInput = [[0, 2, 3]] ∧ overlapAt chainInput 0 2 = false
      ∧ overlapAt chainInput 2 0 = false := by
  refine ⟨?_, by decide!, by decide!⟩
  have hov : findOverlappingTriangles chainInput = [(0, 3), (1, 2), (2, 3)] := by decide!
  unfold clustersOf
  rw [hov]
  decide!

/-- C24 (amended): within every cluster built by `removeOverlappingTriangles` for a list of
whole triangles, every member overlaps at least one other member of the same cluster
(`doTrianglesOverlap` holds for the two). -/
theorem cluster_member_overlaps_another (triangles : List QVector2D) (n : Nat)
    (h : triangles.length = 3 * n) :
    ∀ c ∈ clustersOf triangles, ∀ i ∈ c, ∃ j ∈ c, j ≠ i ∧ overlapAt triangles i j = true := by
  intro c hc i hi
  have hl := clusterLoop_linkedBy (findOverlappingTriangles triangles)
    (findOverlappingTriangles triangles).length (findOverlappingTriangles triangles) [] []
    (fun _ hp => hp) (fun c hc => by cases hc) c hc
  obtain ⟨j, hj, hij | hji⟩ := hl i hi
  · have := mem_findOverlappingTriangles triangles n h i j hij
    exact ⟨j, hj, by omega, this.2⟩
  · have := mem_findOverlappingTriangles triangles n h j i hji
    exact ⟨j, hj, by omega, by rw [overlapAt_comm]; exact this.2⟩

theorem cluster_member_overlaps_another_witness :
    chainInput.length = 3 * 4
      ∧ ∀ c ∈ clustersOf chainInput, ∀ i ∈ c, ∃ j ∈ c,
          j ≠ i ∧ overlapAt chainInput i j = true :=
  ⟨rfl, cluster_member_overlaps_another chainInput 4 rfl⟩

/-! ### Repeated points in the hull walk -/

/-- A call whose current corner is outside the other polygon, is not the first recorded
point, and whose edge to the next corner meets exactly one edge of the other polygon, at a
point that is recorded already, records the corner and returns. -/
theorem concaveHull_clip_one_seen (normalized : QVector2D → QVector2D) (fuel : Nat)
    (t1 t2 result : List QVector2D) (i : Nat) (q : QVector2D)
    (hin : isInsidePolygon t2 (QVector.at t1 (i % t1.length)) = false)
    (hg : (!result.isEmpty
        && decide (|(QVector.at result 0).x - (QVector.at t1 (i % t1.length)).x| < 0.001)
        && decide (|(QVector.at result 0).y - (QVector.at t1 (i % t1.length)).y| < 0.001))
      = false)
    (hx : concaveHull.intersections t2 (QVector.at t1 (i % t1.length))
        (QVector.at t1 ((i % t1.length + 1) % t1.length)) = [q])
    (hq : (result ++ [QVector.at t1 (i % t1.length)]).contains q = true) :
    concaveHull normalized (fuel + 1) t1 t2 result i
      = some (result ++ [QVector.at t1 (i % t1.length)]) := by
  conv_lhs => unfold concaveHull
  simp only [hin, Bool.false_eq_true, if_false, hg, hx, List.length_singleton]
  simp only [show ((1 : ℕ) = 2) = False from by simp, if_false, if_true]
  have hq0 : QVector.at [q] 0 = q := rfl
  simp only [hq0, hq, if_true]

theorem concaveHull_twice (normalized : QVector2D → QVector2D)
    (hk : KeepsDirection normalized) (fuel : Nat) :
    concaveHull normalized (fuel + 6) twiceA twiceB [] 0
      = some [⟨5, 4⟩, ⟨1, 2⟩, ⟨2, 1⟩, ⟨3, 2⟩, ⟨5, 2⟩, ⟨5, 6⟩, ⟨1, 2⟩] := by
  have hB3 : ∀ q ∈ [(⟨5, 2⟩ : QVector2D), ⟨5, 6⟩, ⟨1, 2⟩], isInsidePolygon twiceA q = false := by
    decide!
  have s1 : concaveHull normalized (fuel + 6) twiceA twiceB [] 0
      = concaveHull normalized (fuel + 5) twiceA twiceB [⟨5, 4⟩] 1 :=
    concaveHull_no_clip normalized (fuel + 5) twiceA twiceB [] 0 (by decide!) rfl (by decide!)
  have s2 : concaveHull normalized (fuel + 5) twiceA twiceB [⟨5, 4⟩] 1
      = concaveHull normalized (fuel + 4) twiceA twiceB [⟨5, 4⟩, ⟨1, 2⟩] 2 :=
    concaveHull_no_clip normalized (fuel + 4) twiceA twiceB _ 1 (by decide!) (by decide!)
      (by decide!)
  have m3 : (concaveHull.minAngleLoop normalized twiceA twiceB ⟨2, 1⟩ ⟨3, 2⟩).1
      = ((0 : Nat) : Int) :=
    minAngleLoop_of_cross normalized hk twiceA _ _ _ _ _ 0 (by decide) hB3 (by decide!)
      (by decide!) (by decide!) (by decide!)
  have s3 : concaveHull normalized (fuel + 4) twiceA twiceB [⟨5, 4⟩, ⟨1, 2⟩] 2
      = concaveHull normalized (fuel + 3) twiceB twiceA [⟨5, 4⟩, ⟨1, 2⟩, ⟨2, 1⟩, ⟨3, 2⟩] 0 := by
    have h := concaveHull_clip_one normalized (fuel + 3) twiceA twiceB [⟨5, 4⟩, ⟨1, 2⟩] 2
      ⟨3, 2⟩ (by decide!) (by decide!) (by decide!) (by decide!)
    have hc : QVector.at twiceA (2 % twiceA.length) = ⟨2, 1⟩ := rfl
    rw [hc, m3] at h
    simpa using h
  have s4 : concaveHull normalized (fuel + 3) twiceB twiceA [⟨5, 4⟩, ⟨1, 2⟩, ⟨2, 1⟩, ⟨3, 2⟩] 0
      = concaveHull normalized (fuel + 2) twiceB twiceA
          [⟨5, 4⟩, ⟨1, 2⟩, ⟨2, 1⟩, ⟨3, 2⟩, ⟨5, 2⟩] 1 :=
    concaveHull_no_clip normalized (fuel + 2) twiceB twiceA _ 0 (by decide!) (by decide!)
      (by decide!)
  have s5 : concaveHull normalized (fuel + 2) twiceB twiceA
        [⟨5, 4⟩, ⟨1, 2⟩, ⟨2, 1⟩, ⟨3, 2⟩, ⟨5, 2⟩] 1
      = concaveHull normalized (fuel + 1) twiceB twiceA
          [⟨5, 4⟩, ⟨1, 2⟩, ⟨2, 1⟩, ⟨3, 2⟩, ⟨5, 2⟩, ⟨5, 6⟩] 2 :=
    concaveHull_no_clip normalized (fuel + 1) twiceB twiceA _ 1 (by decide!) (by decide!)
      (by decide!)
  have s6 : concaveHull normalized (fuel + 1) twiceB twiceA
        [⟨5, 4⟩, ⟨1, 2⟩, ⟨2, 1⟩, ⟨3, 2⟩, ⟨5, 2⟩, ⟨5, 6⟩] 2
      = some [⟨5, 4⟩, ⟨1, 2⟩, ⟨2, 1⟩, ⟨3, 2⟩, ⟨5, 2⟩, ⟨5, 6⟩, ⟨1, 2⟩] :=
    concaveHull_clip_one_seen normalized fuel twiceB twiceA _ 2 ⟨3, 2⟩ (by decide!)
      (by decide!) (by decide!) (by decide!)
  rw [s1, s2, s3, s4, s5, s6]

/-- C25 (refuted on the code): the walk records the same point twice. The triangles
`(5,4) (1,2) (2,1)` and `(5,2) (5,6) (1,2)` are counter-clockwise for the entry assertions
and overlap; for every `normalized` that keeps directions the walk returns within 6 calls
with the corner `(1, 2)` recorded twice: the check against the recorded points is applied to
the crossing `(3, 2)` only, a corner is appended after the comparison with the first
recorded point alone. -/
theorem concaveHull_records_corner_twice :
    concaveHull.orientation ⟨5, 4⟩ ⟨1, 2⟩ ⟨2, 1⟩ = 2
      ∧ concaveHull.orientation ⟨5, 2⟩ ⟨5, 6⟩ ⟨1, 2⟩ = 2
      ∧ doTrianglesOverlap ⟨5, 4⟩ ⟨1, 2⟩ ⟨2, 1⟩ ⟨5, 2⟩ ⟨5, 6⟩ ⟨1, 2⟩ = true
      ∧ KeepsDirection id
      ∧ ∀ (normalized : QVector2D → QVector2D) (fuel : Nat), KeepsDirection normalized →
          ∃ result, concaveHull normalized (fuel + 6) twiceA twiceB [] 0 = some result
            ∧ result = [⟨5, 4⟩, ⟨1, 2⟩, ⟨2, 1⟩, ⟨3, 2⟩, ⟨5, 2⟩, ⟨5, 6⟩, ⟨1, 2⟩]
            ∧ result.count ⟨1, 2⟩ = 2 ∧ ¬ result.Nodup :=
  ⟨by decide!, by decide!, by decide!, keepsDirection_id,
    fun normalized fuel hk =>
      ⟨_, concaveHull_twice normalized hk fuel, rfl, by decide!, by decide!⟩⟩

/-! ### Joins, caps and offsets -/

theorem segment_eq_quadAndCap (normalized : QVector2D → QVector2D) (libm : LibM) (pen : QPen)
    (m_segmentCount : Nat) (pathData : List PathDataPoint) (closed : Bool) (endIndex : Nat)
    (l : List QVector2D) (i : Nat) :
    updatePathOutlineVertices.segment normalized libm pen m_segmentCount pathData closed
        endIndex l i
      = if i < endIndex - 1
          ∧ (QVector.at pathData ((i + 1) % pathData.length)).stepIndex
            ≠ (QVector.at pathData
                (updatePathOutlineVertices.thirdIndex pathData closed i)).stepIndex then
          updatePathOutlineVertices.join normalized libm pen m_segmentCount
            (QVector.at pathData i).point (QVector.at pathData ((i + 1) % pathData.length)).point
            (QVector.at pathData (updatePathOutlineVertices.thirdIndex pathData closed i)).point
            (updatePathOutlineVertices.normals normalized pathData i).1
            (updatePathOutlineVertices.offsets normalized pen pathData i).1
            (updatePathOutlineVertices.quadAndCap normalized libm pen m_segmentCount pathData
              closed endIndex l i)
        else updatePathOutlineVertices.quadAndCap normalized libm pen m_segmentCount pathData
          closed endIndex l i := by
  unfold updatePathOutlineVertices.segment updatePathOutlineVertices.quadAndCap
    updatePathOutlineVertices.offsets updatePathOutlineVertices.normals
    updatePathOutlineVertices.thirdIndex
  dsimp only
  by_cases h1 : i < endIndex - 1
  · by_cases h2 : (QVector.at pathData ((i + 1) % pathData.length)).stepIndex
        = (QVector.at pathData
            (if (closed && decide (i + 2 = pathData.length)) = true then
              (i + 3) % pathData.length else (i + 2) % pathData.length)).stepIndex
    · simp only [h1, h2, if_true, ne_eq, not_true_eq_false, and_false, if_false, decide_False,
        Bool.not_false]
    · simp only [h1, h2, if_true, ne_eq, not_false_eq_true, and_self, decide_True,
        Bool.not_true, Bool.false_eq_true, if_false]
  · simp only [h1, if_false, false_and]

theorem samples_stepIndex (normalized : QVector2D → QVector2D) (p0 c1 c2 p3 : QVector2D)
    (n step : Nat) : ∀ (k j : Nat),
    ∀ d ∈ updatePathSegmentsOutlineData.samples normalized p0 c1 c2 p3 n step k j,
      d.stepIndex = step := by
  intro k
  induction k with
  | zero => intro j d hd; simp [updatePathSegmentsOutlineData.samples] at hd
  | succ k ih =>
    intro j d hd
    simp only [updatePathSegmentsOutlineData.samples, List.mem_cons] at hd
    rcases hd with rfl | hd
    · rfl
    · exact ih _ d hd

theorem at_mem_middle (pre mid post : List PathDataPoint) (j : Nat) (h1 : pre.length ≤ j)
    (h2 : j < pre.length + mid.length) : QVector.at (pre ++ mid ++ post) j ∈ mid := by
  unfold QVector.at
  have hj : j < (pre ++ mid ++ post).length := by simp; omega
  rw [List.getD_eq_getElem _ _ hj, List.getElem_append_left (by simp; omega),
    List.getElem_append_right (by omega)]
  exact List.getElem_mem _

theorem quadAndCap_joinStyle (normalized : QVector2D → QVector2D) (libm : LibM) (w : ℚ)
    (j1 j2 : PenJoinStyle) (capStyle : PenCapStyle) (n : Nat) (pathData : List PathDataPoint)
    (closed : Bool) (endIndex : Nat) (l : List QVector2D) (i : Nat) :
    updatePathOutlineVertices.quadAndCap normalized libm ⟨w, j1, capStyle⟩ n pathData closed
        endIndex l i
      = updatePathOutlineVertices.quadAndCap normalized libm ⟨w, j2, capStyle⟩ n pathData
          closed endIndex l i := rfl

/-- C30: in an iteration of the segment loop whose point `p2` and point `p3` carry the same
`stepIndex`, no join is emitted: the list is the one left by the quad and the cap, whatever
the join style. In particular this is so when `p2` and `p3` are both samples of one
flattened cubic, that is at every sample of the cubic but its last. -/
theorem no_join_within_step (normalized : QVector2D → QVector2D) (libm : LibM) (w : ℚ)
    (joinStyle : PenJoinStyle) (capStyle : PenCapStyle) (n : Nat)
    (pathData : List PathDataPoint) (closed : Bool) (endIndex : Nat) (l : List QVector2D)
    (i : Nat)
    (h : (QVector.at pathData ((i + 1) % pathData.length)).stepIndex
      = (QVector.at pathData (updatePathOutlineVertices.thirdIndex pathData closed i)).stepIndex) :
    updatePathOutlineVertices.segment normalized libm ⟨w, joinStyle, capStyle⟩ n pathData
        closed endIndex l i
      = updatePathOutlineVertices.quadAndCap normalized libm
          ⟨w, PenJoinStyle.BevelJoin, capStyle⟩ n pathData closed endIndex l i
    ∧ ∀ (pre post : List PathDataPoint) (start c1 c2 e : QVector2D) (step m k : Nat),
        pathData = pre
            ++ updatePathSegmentsOutlineData.samples normalized start c1 c2 e m step m 1
            ++ post →
          pre.length ≤ k + 1 → k + 2 < pre.length + m →
          updatePathOutlineVertices.segment normalized libm ⟨w, joinStyle, capStyle⟩ n
              pathData closed endIndex l k
            = updatePathOutlineVertices.quadAndCap normalized libm
                ⟨w, PenJoinStyle.BevelJoin, capStyle⟩ n pathData closed endIndex l k := by
  constructor
  · rw [segment_eq_quadAndCap, if_neg (by simp [h])]
    rfl
  · intro pre post start c1 c2 e step m k hp h1 h2
    have hlen : (updatePathSegmentsOutlineData.samples normalized start c1 c2 e m step m
        1).length = m := samples_length _ _ _ _ _ _ _ _ _
    have hl : pathData.length = pre.length + m + post.length := by
      rw [hp]; simp [hlen]; omega
    have hn : (k + 1) % pathData.length = k + 1 := Nat.mod_eq_of_lt (by omega)
    have ht : updatePathOutlineVertices.thirdIndex pathData closed k = k + 2 := by
      unfold updatePathOutlineVertices.thirdIndex
      have : ¬ (k + 2 = pathData.length) := by omega
      simp only [this, decide_False, Bool.and_false, Bool.false_eq_true, if_false]
      exact Nat.mod_eq_of_lt (by omega)
    have e1 : (QVector.at pathData (k + 1)).stepIndex = step := by
      rw [hp]
      exact samples_stepIndex _ _ _ _ _ _ _ _ _ _
        (at_mem_middle _ _ _ _ h1 (by rw [hlen]; omega))
    have e2 : (QVector.at pathData (k + 2)).stepIndex = step := by
      rw [hp]
      exact samples_stepIndex _ _ _ _ _ _ _ _ _ _
        (at_mem_middle _ _ _ _ (by omega) (by rw [hlen]; omega))
    rw [segment_eq_quadAndCap, if_neg (by rw [hn, ht, e1, e2]; simp)]
    rfl

theorem no_join_within_step_witness :
    (QVector.at ([(⟨⟨0, 0⟩, ⟨0, 0⟩, 0⟩ : PathDataPoint)]
          ++ updatePathSegmentsOutlineData.samples referenceNormalized ⟨0, 0⟩ ⟨1, 2⟩ ⟨3, 2⟩
            ⟨4, 0⟩ 4 0 4 1 ++ [])
        ((1 + 1) % ([(⟨⟨0, 0⟩, ⟨0, 0⟩, 0⟩ : PathDataPoint)]
          ++ updatePathSegmentsOutlineData.samples referenceNormalized ⟨0, 0⟩ ⟨1, 2⟩ ⟨3, 2⟩
            ⟨4, 0⟩ 4 0 4 1 ++ []).length)).stepIndex
      = (QVector.at ([(⟨⟨0, 0⟩, ⟨0, 0⟩, 0⟩ : PathDataPoint)]
          ++ updatePathSegmentsOutlineData.samples referenceNormalized ⟨0, 0⟩ ⟨1, 2⟩ ⟨3, 2⟩
            ⟨4, 0⟩ 4 0 4 1 ++ [])
        (updatePathOutlineVertices.thirdIndex ([(⟨⟨0, 0⟩, ⟨0, 0⟩, 0⟩ : PathDataPoint)]
          ++ updatePathSegmentsOutlineData.samples referenceNormalized ⟨0, 0⟩ ⟨1, 2⟩ ⟨3, 2⟩
            ⟨4, 0⟩ 4 0 4 1 ++ []) false 1)).stepIndex
      ∧ updatePathOutlineVertices.segment referenceNormalized referenceLibM
          ⟨2, PenJoinStyle.RoundJoin, PenCapStyle.FlatCap⟩ 4
          ([(⟨⟨0, 0⟩, ⟨0, 0⟩, 0⟩ : PathDataPoint)]
            ++ updatePathSegmentsOutlineData.samples referenceNormalized ⟨0, 0⟩ ⟨1, 2⟩ ⟨3, 2⟩
              ⟨4, 0⟩ 4 0 4 1 ++ []) false 4 [] 1
        = updatePathOutlineVertices.quadAndCap referenceNormalized referenceLibM
          ⟨2, PenJoinStyle.BevelJoin, PenCapStyle.FlatCap⟩ 4
          ([(⟨⟨0, 0⟩, ⟨0, 0⟩, 0⟩ : PathDataPoint)]
            ++ updatePathSegmentsOutlineData.samples referenceNormalized ⟨0, 0⟩ ⟨1, 2⟩ ⟨3, 2⟩
              ⟨4, 0⟩ 4 0 4 1 ++ []) false 4 [] 1 :=
  have h : (QVector.at ([(⟨⟨0, 0⟩, ⟨0, 0⟩, 0⟩ : PathDataPoint)]
          ++ updatePathSegmentsOutlineData.samples referenceNormalized ⟨0, 0⟩ ⟨1, 2⟩ ⟨3, 2⟩
            ⟨4, 0⟩ 4 0 4 1 ++ [])
        ((1 + 1) % ([(⟨⟨0, 0⟩, ⟨0, 0⟩, 0⟩ : PathDataPoint)]
          ++ updatePathSegmentsOutlineData.samples referenceNormalized ⟨0, 0⟩ ⟨1, 2⟩ ⟨3, 2⟩
            ⟨4, 0⟩ 4 0 4 1 ++ []).length)).stepIndex
      = (QVector.at ([(⟨⟨0, 0⟩, ⟨0, 0⟩, 0⟩ : PathDataPoint)]
          ++ updatePathSegmentsOutlineData.samples referenceNormalized ⟨0, 0⟩ ⟨1, 2⟩ ⟨3, 2⟩
            ⟨4, 0⟩ 4 0 4 1 ++ [])
        (updatePathOutlineVertices.thirdIndex ([(⟨⟨0, 0⟩, ⟨0, 0⟩, 0⟩ : PathDataPoint)]
          ++ updatePathSegmentsOutlineData.samples referenceNormalized ⟨0, 0⟩ ⟨1, 2⟩ ⟨3, 2⟩
            ⟨4, 0⟩ 4 0 4 1 ++ []) false 1)).stepIndex := by decide!
  ⟨h, (no_join_within_step referenceNormalized referenceLibM 2 PenJoinStyle.RoundJoin
    PenCapStyle.FlatCap 4 _ false 4 [] 1 h).1⟩

/-- C26 (refuted on the code): the bevel triangle starts at the far end of the first
segment. For every input the bevel join appends (when its three points differ) the
triangle `(p1 - offset, p2, p2 - offset2)` for a left turn and `(p1 + offset, p2,
p2 + offset2)` for a right turn, with `p1` where the claim has `p2`. At the first corner of
the rectangle of scenario A (`p1 = (0, 0)`, `p2 = (10, 0)`, `p3 = (10, 10)`, width 2) the
triangle is `(0, -1) (10, 0) (11, 0)`, not the triangle `(10, -1) (10, 0) (11, 0)` between
the two outer corners at `p2`. -/
theorem bevel_join_starts_at_p1 :
    (∀ (normalized : QVector2D → QVector2D) (libm : LibM) (w : ℚ) (capStyle : PenCapStyle)
        (n : Nat) (p1 p2 p3 normal offset : QVector2D) (l : List QVector2D),
        updatePathOutlineVertices.join normalized libm ⟨w, PenJoinStyle.BevelJoin, capStyle⟩
            n p1 p2 p3 normal offset l
          = if 0 < normal.x * (normalized ⟨-(p3 - p2).y, (p3 - p2).x⟩).y
                - normal.y * (normalized ⟨-(p3 - p2).y, (p3 - p2).x⟩).x then
              updatePathOutlineVertices.appendTriangle l (p1 - offset) p2
                (p2 - ((normalized ⟨-(p3 - p2).y, (p3 - p2).x⟩).mul w).div 2)
            else
              updatePathOutlineVertices.appendTriangle l (p1 + offset) p2
                (p2 + ((normalized ⟨-(p3 - p2).y, (p3 - p2).x⟩).mul w).div 2))
      ∧ updatePathOutlineVertices.normals referenceNormalized rectangleRecords 0
        = (⟨0, 1⟩, ⟨0, 1⟩)
      ∧ updatePathOutlineVertices.offsets referenceNormalized
          ⟨2, PenJoinStyle.BevelJoin, PenCapStyle.FlatCap⟩ rectangleRecords 0
        = (⟨0, 1⟩, ⟨0, 1⟩)
      ∧ updatePathOutlineVertices.offsets referenceNormalized
          ⟨2, PenJoinStyle.BevelJoin, PenCapStyle.FlatCap⟩ rectangleRecords 1
        = (⟨-1, 0⟩, ⟨-1, 0⟩)
      ∧ updatePathOutlineVertices.join referenceNormalized referenceLibM
          ⟨2, PenJoinStyle.BevelJoin, PenCapStyle.FlatCap⟩ 10 ⟨0, 0⟩ ⟨10, 0⟩ ⟨10, 10⟩ ⟨0, 1⟩
          ⟨0, 1⟩ []
        = [⟨0, -1⟩, ⟨10, 0⟩, ⟨11, 0⟩]
      ∧ [(⟨10, 0⟩ : QVector2D) - ⟨0, 1⟩, ⟨10, 0⟩, (⟨10, 0⟩ : QVector2D) - ⟨-1, 0⟩]
        = [⟨10, -1⟩, ⟨10, 0⟩, ⟨11, 0⟩]
      ∧ ([⟨0, -1⟩, ⟨10, 0⟩, ⟨11, 0⟩] : List QVector2D) ≠ [⟨10, -1⟩, ⟨10, 0⟩, ⟨11, 0⟩] := by
  refine ⟨?_, by decide!, by decide!, by decide!, by decide!, by decide!, by decide!⟩
  intro normalized libm w capStyle n p1 p2 p3 normal offset l
  unfold updatePathOutlineVertices.join
  simp only [gt_iff_lt, decide_eq_true_eq]

theorem QVector2D_sub_null (v : QVector2D) : v - ⟨0, 0⟩ = v := by
  cases v
  show QVector2D.sub _ _ = _
  simp [QVector2D.sub]

theorem QVector2D_add_null (v : QVector2D) : v + ⟨0, 0⟩ = v := by
  cases v
  show QVector2D.add _ _ = _
  simp [QVector2D.add]

theorem set_at_self (l : List QVector2D) : ∀ k : Nat, l.set k (QVector.at l k) = l := by
  induction l with
  | nil => intro k; rfl
  | cons a l ih =>
    intro k
    cases k with
    | zero => rfl
    | succ k =>
      have h := ih k
      simp only [QVector.at] at h
      simp only [QVector.at, List.getD_cons_succ, List.set_cons_succ, h]

theorem at_tangent_null (pathData : List PathDataPoint)
    (h : ∀ d ∈ pathData, d.tangent = ⟨0, 0⟩) (i : Nat) :
    (QVector.at pathData i).tangent = ⟨0, 0⟩ := by
  unfold QVector.at
  by_cases hi : i < pathData.length
  · rw [List.getD_eq_getElem _ _ hi]
    exact h _ (List.getElem_mem _)
  · rw [List.getD_eq_default _ _ (by omega)]
    rfl

/-- With a null direction the square cap leaves the list as it is. -/
theorem cap_square_null (libm : LibM) (w : ℚ) (joinStyle : PenJoinStyle) (n : Nat)
    (pathData : List PathDataPoint) (h : ∀ d ∈ pathData, d.tangent = ⟨0, 0⟩)
    (i nextI : Nat) (p1 p2 offset offset2 : QVector2D) (l : List QVector2D) :
    updatePathOutlineVertices.cap libm ⟨w, joinStyle, PenCapStyle.SquareCap⟩ n pathData i nextI
      p1 p2 offset offset2 l = l := by
  have hz : ((⟨0, 0⟩ : QVector2D).mul w).div 2 = ⟨0, 0⟩ := by
    simp [QVector2D.mul, QVector2D.div]
  unfold updatePathOutlineVertices.cap
  simp only [at_tangent_null pathData h, ite_self, hz, QVector2D_sub_null, QVector2D_add_null,
    set_at_self]

theorem segment_square_eq_flat (normalized : QVector2D → QVector2D) (libm : LibM) (w : ℚ)
    (joinStyle : PenJoinStyle) (n : Nat) (pathData : List PathDataPoint)
    (h : ∀ d ∈ pathData, d.tangent = ⟨0, 0⟩) (closed : Bool) (endIndex : Nat)
    (l : List QVector2D) (i : Nat) :
    updatePathOutlineVertices.segment normalized libm ⟨w, joinStyle, PenCapStyle.SquareCap⟩ n
        pathData closed endIndex l i
      = updatePathOutlineVertices.segment normalized libm ⟨w, joinStyle, PenCapStyle.FlatCap⟩ n
          pathData closed endIndex l i := by
  have hflat : ∀ (i nextI : Nat) (p1 p2 offset offset2 : QVector2D) (l : List QVector2D),
      updatePathOutlineVertices.cap libm ⟨w, joinStyle, PenCapStyle.FlatCap⟩ n pathData i nextI
        p1 p2 offset offset2 l = l := fun _ _ _ _ _ _ _ => rfl
  have hjoin : ∀ (p1 p2 p3 normal offset : QVector2D) (l : List QVector2D),
      updatePathOutlineVertices.join normalized libm ⟨w, joinStyle, PenCapStyle.SquareCap⟩ n
          p1 p2 p3 normal offset l
        = updatePathOutlineVertices.join normalized libm ⟨w, joinStyle, PenCapStyle.FlatCap⟩ n
          p1 p2 p3 normal offset l := fun _ _ _ _ _ _ => rfl
  unfold updatePathOutlineVertices.segment
  simp only [cap_square_null libm w joinStyle n pathData h, hflat, hjoin]

/-- C27 (refuted on the code): the square cap moves the end corners along the stored
tangent, and the records of straight line segments store the null tangent. For every
record list whose tangents are all null (every path made of lines only) the stroke list for
a square cap is the stroke list for a flat cap. For the open polyline `(0, 0)`, `(10, 0)`,
`(10, 10)` and width 2 the corners at the free ends stay at `(0, 1)`, `(0, -1)` and at
`(9, 10)`, `(11, 10)`; they are not moved to `(-1, 1)`, `(-1, -1)` and `(9, 11)`,
`(11, 11)`. -/
theorem square_cap_ignored_on_polylines :
    (∀ (normalized : QVector2D → QVector2D) (libm : LibM) (w : ℚ) (joinStyle : PenJoinStyle)
        (n : Nat) (pathData : List PathDataPoint), (∀ d ∈ pathData, d.tangent = ⟨0, 0⟩) →
        updatePathOutlineVertices.lineDataSegment normalized libm
            ⟨w, joinStyle, PenCapStyle.SquareCap⟩ n pathData
          = updatePathOutlineVertices.lineDataSegment normalized libm
            ⟨w, joinStyle, PenCapStyle.FlatCap⟩ n pathData)
      ∧ (∀ normalized, (updatePathSegmentsOutlineData normalized
          (pathOf cornerElements)).m_pathSegmentsOutlineData = [cornerRecords])
      ∧ (∀ d ∈ cornerRecords, d.tangent = ⟨0, 0⟩)
      ∧ updatePathOutlineVertices.lineDataSegment referenceNormalized referenceLibM
          ⟨2, PenJoinStyle.BevelJoin, PenCapStyle.SquareCap⟩ 10 cornerRecords
        = [⟨0, 1⟩, ⟨0, -1⟩, ⟨10, 1⟩, ⟨10, 1⟩, ⟨10, -1⟩, ⟨0, -1⟩, ⟨0, -1⟩, ⟨10, 0⟩, ⟨11, 0⟩,
            ⟨9, 0⟩, ⟨11, 0⟩, ⟨9, 10⟩, ⟨9, 10⟩, ⟨11, 10⟩, ⟨11, 0⟩] := by
  refine ⟨?_, ?_, by decide, by decide!⟩
  · intro normalized libm w joinStyle n pathData h
    unfold updatePathOutlineVertices.lineDataSegment
    dsimp only
    congr 1
    funext l i
    exact segment_square_eq_flat normalized libm w joinStyle n pathData h _ _ l i
  · intro normalized
    simp [updatePathSegmentsOutlineData, pathOf, initial, QPainterPath.isEmpty, cornerElements,
      QPainterPath.elementCount, QPainterPath.elementAt, QVector.at,
      updatePathSegmentsOutlineData.loop, cornerRecords]

/-- C28 (refuted on the code): the offset at a point without tangent is the offset of the
segment's first point, which is perpendicular to the chord only when the first point has no
tangent either. In every iteration whose second point has the null tangent, `offset2` equals
`offset`. For the cubic from `(0, 0)` to `(3, 0)` along the x axis followed by the line to
`(3, 4)`, width 2: on the line segment both offsets are `(0, 1)`, parallel to the chord
`(0, 4)` and not perpendicular to it, and the four corners of its quad all lie on the line
`x = 3`. -/
theorem offset_at_point_without_tangent_follows_first_point :
    (∀ (normalized : QVector2D → QVector2D) (pen : QPen) (pathData : List PathDataPoint)
        (i : Nat), (QVector.at pathData ((i + 1) % pathData.length)).tangent.isNull = true →
        (updatePathOutlineVertices.offsets normalized pen pathData i).2
          = (updatePathOutlineVertices.offsets normalized pen pathData i).1)
      ∧ (updatePathSegmentsOutlineData referenceNormalized
          { pathOf curveThenLineElements with m_segmentCount := 1 }).m_pathSegmentsOutlineData
        = [curveThenLineRecords]
      ∧ (QVector.at curveThenLineRecords 2).tangent.isNull = true
      ∧ (QVector.at curveThenLineRecords 2).point - (QVector.at curveThenLineRecords 1).point
        = ⟨0, 4⟩
      ∧ updatePathOutlineVertices.offsets referenceNormalized
          ⟨2, PenJoinStyle.BevelJoin, PenCapStyle.FlatCap⟩ curveThenLineRecords 1
        = (⟨0, 1⟩, ⟨0, 1⟩)
      ∧ (0 : ℚ) * 0 + 1 * 4 ≠ 0
      ∧ updatePathOutlineVertices.quadAndCap referenceNormalized referenceLibM
          ⟨2, PenJoinStyle.BevelJoin, PenCapStyle.FlatCap⟩ 1 curveThenLineRecords false 2 [] 1
        = [⟨3, 1⟩, ⟨3, -1⟩, ⟨3, 5⟩, ⟨3, 5⟩, ⟨3, 3⟩, ⟨3, -1⟩] := by
  refine ⟨?_, by decide!, by decide!, by decide!, by decide!, by norm_num, by decide!⟩
  intro normalized pen pathData i h
  unfold updatePathOutlineVertices.offsets updatePathOutlineVertices.normals
  simp only [h, if_true]

theorem fan_null (centerPoint : QVector2D) (cPhi sPhi : ℚ) : ∀ k : Nat,
    updatePathOutlineVertices.fan centerPoint cPhi sPhi k ⟨0, 0⟩
      = List.replicate (3 * k) centerPoint := by
  intro k
  induction k with
  | zero => rfl
  | succ k ih =>
    have hr : (⟨cPhi * 0 + -sPhi * 0, sPhi * 0 + cPhi * 0⟩ : QVector2D) = ⟨0, 0⟩ := by simp
    simp only [updatePathOutlineVertices.fan, hr, ih, QVector2D_add_null]
    have : 3 * (k + 1) = 3 * k + 1 + 1 + 1 := by ring
    rw [this, List.replicate_succ, List.replicate_succ, List.replicate_succ]
    rfl

/-- C29 (refuted on the code): the fan of a round cap is appended without the test for
coincident vertices. For the open segment from `(0, 0)` to `(10, 0)`, width 0 and round
cap, the two body triangles are dropped and the stroke list consists of the `n` fan
triangles, each with its three vertices at `(0, 0)`. -/
theorem round_cap_fan_emits_degenerate_triangles (normalized : QVector2D → QVector2D)
    (libm : LibM) (joinStyle : PenJoinStyle) (n : Nat) :
    updatePathOutlineVertices.lineDataSegment normalized libm
        ⟨0, joinStyle, PenCapStyle.RoundCap⟩ n segmentRecords
      = List.replicate (3 * n) ⟨0, 0⟩ := by
  have hr : List.range 1 = [0] := rfl
  have hsub : (⟨10, 0⟩ : QVector2D) - ⟨0, 0⟩ = ⟨10, 0⟩ := QVector2D_sub_null _
  have hm : ∀ v : QVector2D, v.mul 0 = ⟨0, 0⟩ := by
    intro v
    simp [QVector2D.mul]
  simp [updatePathOutlineVertices.lineDataSegment, segmentRecords, QVector.at, hr,
    updatePathOutlineVertices.segment, updatePathOutlineVertices.cap, QVector2D.isNull, hsub,
    hm, QVector2D_add_null, QVector2D_sub_null, updatePathOutlineVertices.appendTriangle,
    fan_null]

end RiveQtPath

/-! ### Miter and bevel joins -/

namespace RiveQtPath

theorem appendTriangle_eq_append (l : List QVector2D) (a b c : QVector2D) :
    updatePathOutlineVertices.appendTriangle l a b c
      = l ++ updatePathOutlineVertices.appendTriangle [] a b c := by
  unfold updatePathOutlineVertices.appendTriangle
  split <;> simp

theorem appendTriangle_nil_length (a b c : QVector2D) :
    updatePathOutlineVertices.appendTriangle [] a b c = []
      ∨ updatePathOutlineVertices.appendTriangle [] a b c = [a, b, c] := by
  unfold updatePathOutlineVertices.appendTriangle
  split <;> simp

theorem join_bevel_eq_append (normalized : QVector2D → QVector2D) (libm : LibM) (w : ℚ)
    (cap : PenCapStyle) (m_segmentCount : Nat) (p1 p2 p3 normal offset : QVector2D)
    (l : List QVector2D) :
    updatePathOutlineVertices.join normalized libm ⟨w, PenJoinStyle.BevelJoin, cap⟩
        m_segmentCount p1 p2 p3 normal offset l
      = l ++ updatePathOutlineVertices.join normalized libm ⟨w, PenJoinStyle.BevelJoin, cap⟩
          m_segmentCount p1 p2 p3 normal offset [] := by
  simp only [updatePathOutlineVertices.join]
  split
  · exact appendTriangle_eq_append _ _ _ _
  · exact appendTriangle_eq_append _ _ _ _

theorem join_miter_eq_bevel_after (normalized : QVector2D → QVector2D) (libm : LibM) (w : ℚ)
    (cap : PenCapStyle) (m_segmentCount : Nat) (p1 p2 p3 normal offset : QVector2D)
    (l : List QVector2D) :
    updatePathOutlineVertices.join normalized libm ⟨w, PenJoinStyle.MiterJoin, cap⟩
        m_segmentCount p1 p2 p3 normal offset l
      = updatePathOutlineVertices.join normalized libm ⟨w, PenJoinStyle.BevelJoin, cap⟩
          m_segmentCount p1 p2 p3 normal offset
          (if !offset.isNull
              && !((((normalized ⟨-(p3 - p2).y, (p3 - p2).x⟩).mul w).div 2).isNull) then
            if normal.x * (normalized ⟨-(p3 - p2).y, (p3 - p2).x⟩).y
                - normal.y * (normalized ⟨-(p3 - p2).y, (p3 - p2).x⟩).x > 0 then
              match calculateIntersection (p1 - offset) (p2 - offset)
                  (p3 - ((normalized ⟨-(p3 - p2).y, (p3 - p2).x⟩).mul w).div 2)
                  (p2 - ((normalized ⟨-(p3 - p2).y, (p3 - p2).x⟩).mul w).div 2) with
              | some pM =>
                updatePathOutlineVertices.appendTriangle l (p1 - offset) pM
                  (p2 - ((normalized ⟨-(p3 - p2).y, (p3 - p2).x⟩).mul w).div 2)
              | none => l
            else
              match calculateIntersection (p1 + offset) (p2 + offset)
                  (p3 + ((normalized ⟨-(p3 - p2).y, (p3 - p2).x⟩).mul w).div 2)
                  (p2 + ((normalized ⟨-(p3 - p2).y, (p3 - p2).x⟩).mul w).div 2) with
              | some pM =>
                updatePathOutlineVertices.appendTriangle l (p1 + offset) pM
                  (p2 + ((normalized ⟨-(p3 - p2).y, (p3 - p2).x⟩).mul w).div 2)
              | none => l
          else l) := by
  simp only [updatePathOutlineVertices.join, decide_eq_true_eq]

theorem appendTriangle_eq_triangle (l : List QVector2D) (a b c : QVector2D) :
    updatePathOutlineVertices.appendTriangle l a b c = l ++ triangleUnlessDegenerate a b c := by
  unfold updatePathOutlineVertices.appendTriangle triangleUnlessDegenerate
  split <;> simp

theorem triangleUnlessDegenerate_length (a b c : QVector2D) :
    triangleUnlessDegenerate a b c = [] ∨ (triangleUnlessDegenerate a b c).length = 3 := by
  unfold triangleUnlessDegenerate
  split
  · exact Or.inl rfl
  · exact Or.inr rfl

theorem join_bevel_eq_part (normalized : QVector2D → QVector2D) (libm : LibM) (w : ℚ)
    (cap : PenCapStyle) (m_segmentCount : Nat) (p1 p2 p3 normal offset : QVector2D)
    (l : List QVector2D) :
    updatePathOutlineVertices.join normalized libm ⟨w, PenJoinStyle.BevelJoin, cap⟩
        m_segmentCount p1 p2 p3 normal offset l
      = l ++ updatePathOutlineVertices.bevelPart p1 p2 offset
          (((normalized ⟨-(p3 - p2).y, (p3 - p2).x⟩).mul w).div 2)
          (decide (normal.x * (normalized ⟨-(p3 - p2).y, (p3 - p2).x⟩).y
            - normal.y * (normalized ⟨-(p3 - p2).y, (p3 - p2).x⟩).x > 0)) := by
  have h : updatePathOutlineVertices.join normalized libm ⟨w, PenJoinStyle.BevelJoin, cap⟩
        m_segmentCount p1 p2 p3 normal offset []
      = updatePathOutlineVertices.bevelPart p1 p2 offset
          (((normalized ⟨-(p3 - p2).y, (p3 - p2).x⟩).mul w).div 2)
          (decide (normal.x * (normalized ⟨-(p3 - p2).y, (p3 - p2).x⟩).y
            - normal.y * (normalized ⟨-(p3 - p2).y, (p3 - p2).x⟩).x > 0)) := rfl
  rw [join_bevel_eq_append, h]

theorem miterApexPart_eq (p1 p2 p3 offset offset2 : QVector2D) (c : Prop) [Decidable c]
    (l : List QVector2D) :
    (if !offset.isNull && !offset2.isNull then
        if c then
          match calculateIntersection (p1 - offset) (p2 - offset) (p3 - offset2)
              (p2 - offset2) with
          | some pM =>
            updatePathOutlineVertices.appendTriangle l (p1 - offset) pM (p2 - offset2)
          | none => l
        else
          match calculateIntersection (p1 + offset) (p2 + offset) (p3 + offset2)
              (p2 + offset2) with
          | some pM =>
            updatePathOutlineVertices.appendTriangle l (p1 + offset) pM (p2 + offset2)
          | none => l
      else l)
      = l ++ updatePathOutlineVertices.miterApexPart p1 p2 p3 offset offset2 (decide c) := by
  unfold updatePathOutlineVertices.miterApexPart
  by_cases hc : c <;> cases h1 : offset.isNull <;> cases h2 : offset2.isNull <;>
    simp only [hc, decide_True, decide_False, Bool.not_false, Bool.not_true, Bool.and_true,
      Bool.and_false, Bool.and_self, Bool.or_false, Bool.or_true, Bool.or_self,
      Bool.false_eq_true, if_true, if_false, List.append_nil]
  · cases calculateIntersection (p1 - offset) (p2 - offset) (p3 - offset2) (p2 - offset2) with
    | none => simp
    | some pM => simp [appendTriangle_eq_triangle]
  · cases calculateIntersection (p1 + offset) (p2 + offset) (p3 + offset2) (p2 + offset2) with
    | none => simp
    | some pM => simp [appendTriangle_eq_triangle]

/-- C31: for every corner, pen width, cap style and list `l` built so far, the bevel join
gives `l` followed by the bevel triangle (`p1` moved by the offset of the incoming segment,
`p2`, `p2` moved by the offset of the outgoing segment; nothing when two of these
coincide), and the miter join gives `l`, then the apex part, which is empty or one
triangle, then that same bevel triangle. When an offset is the zero
vector, or `calculateIntersection` returns no point for the two outer offset lines of the
turning side, the apex part is empty and the miter join gives exactly the list of the bevel
join. At the corner `(0,0) (10,0) (10,10)` with width 2 the bevel join emits the triangle
`(0,-1) (10,0) (11,0)` and the miter join the apex triangle `(0,-1) (11,-1) (11,0)`
followed by it. -/
theorem miter_join_is_bevel_after_apex (normalized : QVector2D → QVector2D) (libm : LibM)
    (w : ℚ) (cap : PenCapStyle) (m_segmentCount : Nat) (p1 p2 p3 normal offset : QVector2D)
    (l : List QVector2D) :
    updatePathOutlineVertices.join normalized libm ⟨w, PenJoinStyle.BevelJoin, cap⟩
        m_segmentCount p1 p2 p3 normal offset l
      = l ++ updatePathOutlineVertices.bevelPart p1 p2 offset
          (((normalized ⟨-(p3 - p2).y, (p3 - p2).x⟩).mul w).div 2)
          (decide (normal.x * (normalized ⟨-(p3 - p2).y, (p3 - p2).x⟩).y
            - normal.y * (normalized ⟨-(p3 - p2).y, (p3 - p2).x⟩).x > 0))
    ∧ updatePathOutlineVertices.join normalized libm ⟨w, PenJoinStyle.MiterJoin, cap⟩
        m_segmentCount p1 p2 p3 normal offset l
      = l ++ updatePathOutlineVertices.miterApexPart p1 p2 p3 offset
            (((normalized ⟨-(p3 - p2).y, (p3 - p2).x⟩).mul w).div 2)
            (decide (normal.x * (normalized ⟨-(p3 - p2).y, (p3 - p2).x⟩).y
              - normal.y * (normalized ⟨-(p3 - p2).y, (p3 - p2).x⟩).x > 0))
          ++ updatePathOutlineVertices.bevelPart p1 p2 offset
            (((normalized ⟨-(p3 - p2).y, (p3 - p2).x⟩).mul w).div 2)
            (decide (normal.x * (normalized ⟨-(p3 - p2).y, (p3 - p2).x⟩).y
              - normal.y * (normalized ⟨-(p3 - p2).y, (p3 - p2).x⟩).x > 0))
    ∧ (∀ (a b c d e : QVector2D) (t : Bool),
        (updatePathOutlineVertices.miterApexPart a b c d e t = []
            ∨ (updatePathOutlineVertices.miterApexPart a b c d e t).length = 3)
          ∧ (updatePathOutlineVertices.bevelPart a b d e t = []
            ∨ (updatePathOutlineVertices.bevelPart a b d e t).length = 3))
    ∧ (offset.isNull = true
        ∨ ((((normalized ⟨-(p3 - p2).y, (p3 - p2).x⟩).mul w).div 2).isNull) = true
        ∨ (if normal.x * (normalized ⟨-(p3 - p2).y, (p3 - p2).x⟩).y
              - normal.y * (normalized ⟨-(p3 - p2).y, (p3 - p2).x⟩).x > 0 then
            calculateIntersection (p1 - offset) (p2 - offset)
              (p3 - ((normalized ⟨-(p3 - p2).y, (p3 - p2).x⟩).mul w).div 2)
              (p2 - ((normalized ⟨-(p3 - p2).y, (p3 - p2).x⟩).mul w).div 2)
          else
            calculateIntersection (p1 + offset) (p2 + offset)
              (p3 + ((normalized ⟨-(p3 - p2).y, (p3 - p2).x⟩).mul w).div 2)
              (p2 + ((normalized ⟨-(p3 - p2).y, (p3 - p2).x⟩).mul w).div 2)) = none →
      updatePathOutlineVertices.join normalized libm ⟨w, PenJoinStyle.MiterJoin, cap⟩
          m_segmentCount p1 p2 p3 normal offset l
        = updatePathOutlineVertices.join normalized libm ⟨w, PenJoinStyle.BevelJoin, cap⟩
          m_segmentCount p1 p2 p3 normal offset l)
    ∧ updatePathOutlineVertices.join referenceNormalized referenceLibM
        ⟨2, PenJoinStyle.BevelJoin, PenCapStyle.FlatCap⟩ 10 ⟨0, 0⟩ ⟨10, 0⟩ ⟨10, 10⟩ ⟨0, 1⟩
        ⟨0, 1⟩ [] = [⟨0, -1⟩, ⟨10, 0⟩, ⟨11, 0⟩]
    ∧ updatePathOutlineVertices.join referenceNormalized referenceLibM
        ⟨2, PenJoinStyle.MiterJoin, PenCapStyle.FlatCap⟩ 10 ⟨0, 0⟩ ⟨10, 0⟩ ⟨10, 10⟩ ⟨0, 1⟩
        ⟨0, 1⟩ [] = [⟨0, -1⟩, ⟨11, -1⟩, ⟨11, 0⟩, ⟨0, -1⟩, ⟨10, 0⟩, ⟨11, 0⟩] := by
  have hb := join_bevel_eq_part normalized libm w cap m_segmentCount p1 p2 p3 normal offset
  refine ⟨hb l, ?_, ?_, ?_, by decide!, by decide!⟩
  · rw [join_miter_eq_bevel_after, hb]
    exact congrArg (· ++ updatePathOutlineVertices.bevelPart p1 p2 offset
        (((normalized ⟨-(p3 - p2).y, (p3 - p2).x⟩).mul w).div 2)
        (decide (normal.x * (normalized ⟨-(p3 - p2).y, (p3 - p2).x⟩).y
          - normal.y * (normalized ⟨-(p3 - p2).y, (p3 - p2).x⟩).x > 0)))
      (miterApexPart_eq p1 p2 p3 offset
        (((normalized ⟨-(p3 - p2).y, (p3 - p2).x⟩).mul w).div 2)
        (normal.x * (normalized ⟨-(p3 - p2).y, (p3 - p2).x⟩).y
          - normal.y * (normalized ⟨-(p3 - p2).y, (p3 - p2).x⟩).x > 0) l)
  · intro a b c d e t
    constructor
    · unfold updatePathOutlineVertices.miterApexPart
      split
      · exact Or.inl rfl
      · split
        · split
          · exact triangleUnlessDegenerate_length _ _ _
          · exact Or.inl rfl
        · split
          · exact triangleUnlessDegenerate_length _ _ _
          · exact Or.inl rfl
    · unfold updatePathOutlineVertices.bevelPart
      split <;> exact triangleUnlessDegenerate_length _ _ _
  · intro h
    rw [join_miter_eq_bevel_after]
    congr 1
    rcases h with h | h | h
    · simp [h]
    · simp [h]
    · split
      · split
        · rename_i ht
          rw [if_pos ht] at h
          rw [h]
        · rename_i ht
          rw [if_neg ht] at h
          rw [h]
      · rfl

end RiveQtPath

/-! ### The fan of the round join -/

namespace RiveQtPath

theorem turnedBy_linear (c s : ℚ) : ∀ (k : Nat) (v : QVector2D),
    turnedBy c s k v
      = ⟨(turnedBy c s k ⟨1, 0⟩).x * v.x - (turnedBy c s k ⟨1, 0⟩).y * v.y,
          (turnedBy c s k ⟨1, 0⟩).y * v.x + (turnedBy c s k ⟨1, 0⟩).x * v.y⟩ := by
  intro k
  induction k with
  | zero => intro v; simp [turnedBy]
  | succ k ih =>
    intro v
    have h1 := ih ⟨c * v.x + -s * v.y, s * v.x + c * v.y⟩
    have h2 := ih ⟨c * 1 + -s * 0, s * 1 + c * 0⟩
    simp only [turnedBy]
    rw [h1, h2]
    congr 1 <;> ring

theorem turnedBy_succ (c s : ℚ) : ∀ (k : Nat) (v : QVector2D),
    turnedBy c s (k + 1) v
      = ⟨c * (turnedBy c s k v).x + -s * (turnedBy c s k v).y,
          s * (turnedBy c s k v).x + c * (turnedBy c s k v).y⟩ := by
  intro k
  induction k with
  | zero => intro v; rfl
  | succ k ih =>
    intro v
    have h := ih ⟨c * v.x + -s * v.y, s * v.x + c * v.y⟩
    simp only [turnedBy] at h ⊢
    exact h

/-- Triangle number `j` of the fan: the centre plus the offset turned `j` times, the
centre, and the centre plus the offset turned `j + 1` times. -/
theorem fan_at (centerPoint : QVector2D) (cPhi sPhi : ℚ) : ∀ (k : Nat) (o : QVector2D) (j : Nat),
    j < k →
    QVector.at (updatePathOutlineVertices.fan centerPoint cPhi sPhi k o) (3 * j)
        = centerPoint + turnedBy cPhi sPhi j o
      ∧ QVector.at (updatePathOutlineVertices.fan centerPoint cPhi sPhi k o) (3 * j + 1)
        = centerPoint
      ∧ QVector.at (updatePathOutlineVertices.fan centerPoint cPhi sPhi k o) (3 * j + 2)
        = centerPoint + turnedBy cPhi sPhi (j + 1) o := by
  intro k
  induction k with
  | zero => intro o j hj; omega
  | succ k ih =>
    intro o j hj
    cases j with
    | zero =>
      simp only [updatePathOutlineVertices.fan, QVector.at]
      exact ⟨rfl, rfl, rfl⟩
    | succ j =>
      have h := ih ⟨cPhi * o.x + -sPhi * o.y, sPhi * o.x + cPhi * o.y⟩ j (by omega)
      have e0 : 3 * (j + 1) = 3 * j + 3 := by ring
      simp only [updatePathOutlineVertices.fan, QVector.at, e0] at h ⊢
      simp only [List.cons_append, List.nil_append, List.getD_cons_succ]
      exact h

theorem join_round_eq (normalized : QVector2D → QVector2D) (libm : LibM) (w : ℚ)
    (cap : PenCapStyle) (n : Nat) (p1 p2 p3 normal offset : QVector2D) (l : List QVector2D) :
    updatePathOutlineVertices.join normalized libm ⟨w, PenJoinStyle.RoundJoin, cap⟩ n p1 p2 p3
        normal offset l
      = l ++ updatePathOutlineVertices.fan p2
          (libm.cos (if normal.x * (normalized ⟨-(p3 - p2).y, (p3 - p2).x⟩).y
                - normal.y * (normalized ⟨-(p3 - p2).y, (p3 - p2).x⟩).x > 0 then
              libm.acos (normal.x * (normalized ⟨-(p3 - p2).y, (p3 - p2).x⟩).x
                + normal.y * (normalized ⟨-(p3 - p2).y, (p3 - p2).x⟩).y) / n
            else -(libm.acos (normal.x * (normalized ⟨-(p3 - p2).y, (p3 - p2).x⟩).x
                + normal.y * (normalized ⟨-(p3 - p2).y, (p3 - p2).x⟩).y) / n)))
          (libm.sin (if normal.x * (normalized ⟨-(p3 - p2).y, (p3 - p2).x⟩).y
                - normal.y * (normalized ⟨-(p3 - p2).y, (p3 - p2).x⟩).x > 0 then
              libm.acos (normal.x * (normalized ⟨-(p3 - p2).y, (p3 - p2).x⟩).x
                + normal.y * (normalized ⟨-(p3 - p2).y, (p3 - p2).x⟩).y) / n
            else -(libm.acos (normal.x * (normalized ⟨-(p3 - p2).y, (p3 - p2).x⟩).x
                + normal.y * (normalized ⟨-(p3 - p2).y, (p3 - p2).x⟩).y) / n)))
          n
          (if normal.x * (normalized ⟨-(p3 - p2).y, (p3 - p2).x⟩).y
              - normal.y * (normalized ⟨-(p3 - p2).y, (p3 - p2).x⟩).x > 0 then -offset
            else offset) := by
  simp only [updatePathOutlineVertices.join, decide_eq_true_eq]

end RiveQtPath

/-! ### Tangents of a cubic -/

namespace RiveQtPath

theorem cubicBezier_hasDerivAt_x (p0 c1 c2 p3 : QVector2D) (t : ℚ) :
    HasDerivAt (fun s : ℚ => (cubicBezier p0 c1 c2 p3 s).x)
      (cubicBezierDerivative p0 c1 c2 p3 t).x t := by
  have h : (fun s : ℚ => (cubicBezier p0 c1 c2 p3 s).x)
      = fun s : ℚ => p0.x * ((1 - s) * (1 - s) * (1 - s)) + c1.x * (3 * ((1 - s) * (1 - s)) * s)
          + c2.x * (3 * (1 - s) * (s * s)) + p3.x * (s * s * s) := by
    funext s
    simp [cubicBezier, QVector2D.add, QVector2D.mul]
  rw [h]
  have hs : HasDerivAt (fun s : ℚ => s) 1 t := hasDerivAt_id t
  have h1 : HasDerivAt (fun s : ℚ => 1 - s) (-1) t := by
    simpa using (hasDerivAt_const t (1 : ℚ)).sub hs
  have hA := (((h1.mul h1).mul h1).const_mul p0.x)
  have hB := ((((h1.mul h1).const_mul 3).mul hs).const_mul c1.x)
  have hC := (((h1.const_mul 3).mul (hs.mul hs)).const_mul c2.x)
  have hD := (((hs.mul hs).mul hs).const_mul p3.x)
  have hsum := ((hA.add hB).add hC).add hD
  convert hsum using 1
  simp only [cubicBezierDerivative]
  ring

theorem cubicBezier_hasDerivAt_y (p0 c1 c2 p3 : QVector2D) (t : ℚ) :
    HasDerivAt (fun s : ℚ => (cubicBezier p0 c1 c2 p3 s).y)
      (cubicBezierDerivative p0 c1 c2 p3 t).y t := by
  have h : (fun s : ℚ => (cubicBezier p0 c1 c2 p3 s).y)
      = fun s : ℚ => p0.y * ((1 - s) * (1 - s) * (1 - s)) + c1.y * (3 * ((1 - s) * (1 - s)) * s)
          + c2.y * (3 * (1 - s) * (s * s)) + p3.y * (s * s * s) := by
    funext s
    simp [cubicBezier, QVector2D.add, QVector2D.mul]
  rw [h]
  have hs : HasDerivAt (fun s : ℚ => s) 1 t := hasDerivAt_id t
  have h1 : HasDerivAt (fun s : ℚ => 1 - s) (-1) t := by
    simpa using (hasDerivAt_const t (1 : ℚ)).sub hs
  have hA := (((h1.mul h1).mul h1).const_mul p0.y)
  have hB := ((((h1.mul h1).const_mul 3).mul hs).const_mul c1.y)
  have hC := (((h1.const_mul 3).mul (hs.mul hs)).const_mul c2.y)
  have hD := (((hs.mul hs).mul hs).const_mul p3.y)
  have hsum := ((hA.add hB).add hC).add hD
  convert hsum using 1
  simp only [cubicBezierDerivative]
  ring

theorem cubicBezierTangent_eq (normalized : QVector2D → QVector2D) (p0 c1 c2 p3 : QVector2D)
    (t : ℚ) :
    cubicBezierTangent normalized p0 c1 c2 p3 t
      = normalized (cubicBezierDerivative p0 c1 c2 p3 t) := by
  simp only [cubicBezierTangent, cubicBezierDerivative, QVector2D.add, QVector2D.mul]
  congr 2
  · show (c1 - p0).x * _ + (c2 - c1).x * _ + (p3 - c2).x * _ = _
    show (c1.x - p0.x) * _ + (c2.x - c1.x) * _ + (p3.x - c2.x) * _ = _
    ring
  · show (c1.y - p0.y) * _ + (c2.y - c1.y) * _ + (p3.y - c2.y) * _ = _
    ring

theorem samples_at (normalized : QVector2D → QVector2D) (p0 c1 c2 p3 : QVector2D)
    (n step : Nat) : ∀ (k j m : Nat), m < k →
    QVector.at (updatePathSegmentsOutlineData.samples normalized p0 c1 c2 p3 n step k j) m
      = ⟨cubicBezier p0 c1 c2 p3 (((j + m : Nat) : ℚ) / (n : ℚ)),
          cubicBezierTangent normalized p0 c1 c2 p3 (((j + m : Nat) : ℚ) / (n : ℚ)), step⟩ := by
  intro k
  induction k with
  | zero => intro j m hm; omega
  | succ k ih =>
    intro j m hm
    cases m with
    | zero => simp [updatePathSegmentsOutlineData.samples, QVector.at]
    | succ m =>
      have h := ih (j + 1) m (by omega)
      simp only [QVector.at] at h
      simp only [updatePathSegmentsOutlineData.samples, QVector.at, List.getD_cons_succ, h]
      have : j + 1 + m = j + (m + 1) := by omega
      rw [this]

theorem setLastTangent_at_last (pathDataEnhanced : List PathDataPoint) (tangent : QVector2D)
    (h : pathDataEnhanced ≠ []) :
    QVector.at (updatePathSegmentsOutlineData.setLastTangent pathDataEnhanced tangent)
        (pathDataEnhanced.length - 1)
      = { QVector.at pathDataEnhanced (pathDataEnhanced.length - 1) with tangent := tangent } := by
  have hl : 0 < pathDataEnhanced.length := List.length_pos.mpr h
  simp only [updatePathSegmentsOutlineData.setLastTangent, QVector.at]
  rw [List.getD_eq_getElem _ _ (by simp; omega)]
  simp

/-- One pass of the flattening loop. For every cubic and every `t`, both coordinates of
`cubicBezier` have the
coordinates of `cubicBezierDerivative` as their derivative at `t`, and
`cubicBezierTangent` is `normalized` applied to that derivative, hence of unit length in
its direction (the zero vector when it vanishes) wherever `normalized` keeps its contract.
At a `CurveToElement`, with a non-empty record list and segment count `n`, the
flattening loop goes on with records in which the start point of the segment (the last
record before) carries the tangent at `t = 0` and the sample number `j` (`1 ≤ j ≤ n`)
carries the point and the tangent at `t = j/n`. -/
theorem flattener_stores_normalized_derivative (normalized : QVector2D → QVector2D)
    (path : QPainterPath) (n fuel i : Nat) (outline : List (List PathDataPoint))
    (pathDataEnhanced : List PathDataPoint) (currentStepIndex : Nat)
    (hi : i < path.elementCount)
    (ht : (path.elementAt i).type = ElementType.CurveToElement)
    (hne : pathDataEnhanced ≠ []) :
    (∀ (p0 c1 c2 p3 : QVector2D) (t : ℚ),
      HasDerivAt (fun s : ℚ => (cubicBezier p0 c1 c2 p3 s).x)
          (cubicBezierDerivative p0 c1 c2 p3 t).x t
        ∧ HasDerivAt (fun s : ℚ => (cubicBezier p0 c1 c2 p3 s).y)
          (cubicBezierDerivative p0 c1 c2 p3 t).y t
        ∧ cubicBezierTangent normalized p0 c1 c2 p3 t
          = normalized (cubicBezierDerivative p0 c1 c2 p3 t)
        ∧ (IsUnitVectorOf (cubicBezierDerivative p0 c1 c2 p3 t)
              (normalized (cubicBezierDerivative p0 c1 c2 p3 t)) →
            IsUnitVectorOf (cubicBezierDerivative p0 c1 c2 p3 t)
              (cubicBezierTangent normalized p0 c1 c2 p3 t)))
    ∧ ∃ records,
      updatePathSegmentsOutlineData.loop normalized path n (fuel + 1) i outline pathDataEnhanced
          currentStepIndex
        = updatePathSegmentsOutlineData.loop normalized path n fuel (i + 3) outline records
            (currentStepIndex + 1)
      ∧ records.length = pathDataEnhanced.length + n
      ∧ (QVector.at records (pathDataEnhanced.length - 1)).point
        = (QVector.at pathDataEnhanced (pathDataEnhanced.length - 1)).point
      ∧ (QVector.at records (pathDataEnhanced.length - 1)).tangent
        = cubicBezierTangent normalized
            (QVector.at pathDataEnhanced (pathDataEnhanced.length - 1)).point
            ⟨(path.elementAt i).x, (path.elementAt i).y⟩
            ⟨(path.elementAt (i + 1)).x, (path.elementAt (i + 1)).y⟩
            ⟨(path.elementAt (i + 2)).x, (path.elementAt (i + 2)).y⟩ 0
      ∧ ∀ j : Nat, 1 ≤ j → j ≤ n →
          (QVector.at records (pathDataEnhanced.length - 1 + j)).point
            = cubicBezier (QVector.at pathDataEnhanced (pathDataEnhanced.length - 1)).point
                ⟨(path.elementAt i).x, (path.elementAt i).y⟩
                ⟨(path.elementAt (i + 1)).x, (path.elementAt (i + 1)).y⟩
                ⟨(path.elementAt (i + 2)).x, (path.elementAt (i + 2)).y⟩ ((j : ℚ) / (n : ℚ))
          ∧ (QVector.at records (pathDataEnhanced.length - 1 + j)).tangent
            = cubicBezierTangent normalized
                (QVector.at pathDataEnhanced (pathDataEnhanced.length - 1)).point
                ⟨(path.elementAt i).x, (path.elementAt i).y⟩
                ⟨(path.elementAt (i + 1)).x, (path.elementAt (i + 1)).y⟩
                ⟨(path.elementAt (i + 2)).x, (path.elementAt (i + 2)).y⟩
                ((j : ℚ) / (n : ℚ)) := by
  have hl : 0 < pathDataEnhanced.length := List.length_pos.mpr hne
  refine ⟨fun p0 c1 c2 p3 t => ⟨cubicBezier_hasDerivAt_x p0 c1 c2 p3 t,
      cubicBezier_hasDerivAt_y p0 c1 c2 p3 t, cubicBezierTangent_eq normalized p0 c1 c2 p3 t,
      fun h => by rw [cubicBezierTangent_eq]; exact h⟩, ?_⟩
  refine ⟨updatePathSegmentsOutlineData.setLastTangent pathDataEnhanced
      (cubicBezierTangent normalized
        (QVector.at pathDataEnhanced (pathDataEnhanced.length - 1)).point
        ⟨(path.elementAt i).x, (path.elementAt i).y⟩
        ⟨(path.elementAt (i + 1)).x, (path.elementAt (i + 1)).y⟩
        ⟨(path.elementAt (i + 2)).x, (path.elementAt (i + 2)).y⟩ 0)
      ++ updatePathSegmentsOutlineData.samples normalized
        (QVector.at pathDataEnhanced (pathDataEnhanced.length - 1)).point
        ⟨(path.elementAt i).x, (path.elementAt i).y⟩
        ⟨(path.elementAt (i + 1)).x, (path.elementAt (i + 1)).y⟩
        ⟨(path.elementAt (i + 2)).x, (path.elementAt (i + 2)).y⟩ n currentStepIndex
        n 1, ?_, ?_, ?_, ?_, ?_⟩
  · conv_lhs => unfold updatePathSegmentsOutlineData.loop
    simp only [hi, if_true, ht]
  · rw [List.length_append, setLastTangent_length, samples_length]
  · have h := setLastTangent_at_last pathDataEnhanced
      (cubicBezierTangent normalized
        (QVector.at pathDataEnhanced (pathDataEnhanced.length - 1)).point
        ⟨(path.elementAt i).x, (path.elementAt i).y⟩
        ⟨(path.elementAt (i + 1)).x, (path.elementAt (i + 1)).y⟩
        ⟨(path.elementAt (i + 2)).x, (path.elementAt (i + 2)).y⟩ 0) hne
    simp only [QVector.at] at h ⊢
    rw [List.getD_append _ _ _ _ (by rw [setLastTangent_length]; omega), h]
  · have h := setLastTangent_at_last pathDataEnhanced
      (cubicBezierTangent normalized
        (QVector.at pathDataEnhanced (pathDataEnhanced.length - 1)).point
        ⟨(path.elementAt i).x, (path.elementAt i).y⟩
        ⟨(path.elementAt (i + 1)).x, (path.elementAt (i + 1)).y⟩
        ⟨(path.elementAt (i + 2)).x, (path.elementAt (i + 2)).y⟩ 0) hne
    simp only [QVector.at] at h ⊢
    rw [List.getD_append _ _ _ _ (by rw [setLastTangent_length]; omega), h]
  · intro j hj1 hj2
    have h := samples_at normalized
      (QVector.at pathDataEnhanced (pathDataEnhanced.length - 1)).point
      ⟨(path.elementAt i).x, (path.elementAt i).y⟩
      ⟨(path.elementAt (i + 1)).x, (path.elementAt (i + 1)).y⟩
      ⟨(path.elementAt (i + 2)).x, (path.elementAt (i + 2)).y⟩ n currentStepIndex n 1 (j - 1)
      (by omega)
    have hj : 1 + (j - 1) = j := by omega
    rw [hj] at h
    have hat : QVector.at (updatePathSegmentsOutlineData.setLastTangent pathDataEnhanced
        (cubicBezierTangent normalized
          (QVector.at pathDataEnhanced (pathDataEnhanced.length - 1)).point
          ⟨(path.elementAt i).x, (path.elementAt i).y⟩
          ⟨(path.elementAt (i + 1)).x, (path.elementAt (i + 1)).y⟩
          ⟨(path.elementAt (i + 2)).x, (path.elementAt (i + 2)).y⟩ 0)
        ++ updatePathSegmentsOutlineData.samples normalized
          (QVector.at pathDataEnhanced (pathDataEnhanced.length - 1)).point
          ⟨(path.elementAt i).x, (path.elementAt i).y⟩
          ⟨(path.elementAt (i + 1)).x, (path.elementAt (i + 1)).y⟩
          ⟨(path.elementAt (i + 2)).x, (path.elementAt (i + 2)).y⟩ n currentStepIndex
          n 1) (pathDataEnhanced.length - 1 + j)
        = QVector.at (updatePathSegmentsOutlineData.samples normalized
          (QVector.at pathDataEnhanced (pathDataEnhanced.length - 1)).point
          ⟨(path.elementAt i).x, (path.elementAt i).y⟩
          ⟨(path.elementAt (i + 1)).x, (path.elementAt (i + 1)).y⟩
          ⟨(path.elementAt (i + 2)).x, (path.elementAt (i + 2)).y⟩ n currentStepIndex
          n 1) (j - 1) := by
      simp only [QVector.at]
      rw [List.getD_append_right _ _ _ _ (by rw [setLastTangent_length]; omega),
        setLastTangent_length]
      congr 1
      omega
    rw [hat, h]
    exact ⟨rfl, rfl⟩

theorem flattener_stores_normalized_derivative_witness :
    1 < cubicPath.elementCount
      ∧ (cubicPath.elementAt 1).type = ElementType.CurveToElement
      ∧ [(⟨⟨0, 0⟩, ⟨0, 0⟩, 0⟩ : PathDataPoint)] ≠ []
      ∧ ((updatePathSegmentsOutlineData referenceNormalized
            { initial with m_qPainterPath := cubicPath, m_segmentCount := 4 }
          ).m_pathSegmentsOutlineData.map fun records => records.map fun d => d.tangent)
        = [[⟨3, 6⟩, ⟨33 / 8, 3⟩, ⟨1, 0⟩, ⟨33 / 8, -3⟩, ⟨3, -6⟩]]
      ∧ ∃ records,
          updatePathSegmentsOutlineData.loop referenceNormalized cubicPath 4 (3 + 1) 1 []
              [⟨⟨0, 0⟩, ⟨0, 0⟩, 0⟩] 0
            = updatePathSegmentsOutlineData.loop referenceNormalized cubicPath 4 3 (1 + 3) []
                records (0 + 1)
          ∧ (QVector.at records 0).tangent = ⟨3, 6⟩ :=
  have h2 : 1 < cubicPath.elementCount := by decide
  have h3 : (cubicPath.elementAt 1).type = ElementType.CurveToElement := rfl
  have h4 : [(⟨⟨0, 0⟩, ⟨0, 0⟩, 0⟩ : PathDataPoint)] ≠ [] := by decide
  ⟨h2, h3, h4, by decide!,
    (flattener_stores_normalized_derivative referenceNormalized cubicPath 4 3 1 []
      [⟨⟨0, 0⟩, ⟨0, 0⟩, 0⟩] 0 h2 h3 h4).2.imp
      fun _ h => ⟨h.1, h.2.2.2.1.trans (by decide!)⟩⟩

end RiveQtPath

/-! ### Records of one point -/

namespace RiveQtPath

theorem outlineLoop_records (normalized : QVector2D → QVector2D) (path : QPainterPath)
    (n : Nat) : ∀ (fuel i : Nat) (outline : List (List PathDataPoint))
      (pathDataEnhanced : List PathDataPoint) (currentStepIndex : Nat),
    (∀ r ∈ outline, 2 ≤ r.length) → 1 ≤ pathDataEnhanced.length →
    (∀ r ∈ (updatePathSegmentsOutlineData.loop normalized path n fuel i outline
          pathDataEnhanced currentStepIndex).1, 2 ≤ r.length)
      ∧ 1 ≤ (updatePathSegmentsOutlineData.loop normalized path n fuel i outline
          pathDataEnhanced currentStepIndex).2.length := by
  intro fuel
  induction fuel with
  | zero =>
    intro i outline pde step ho hp
    exact ⟨ho, hp⟩
  | succ fuel ih =>
    intro i outline pde step ho hp
    unfold updatePathSegmentsOutlineData.loop
    split
    · dsimp only
      split
      · apply ih
        · split
          · rename_i hlen
            intro r hr
            rcases List.mem_append.mp hr with h | h
            · exact ho r h
            · rw [List.mem_singleton.mp h]
              omega
          · exact ho
        · simp
      · apply ih _ _ _ _ ho
        simp
      · apply ih _ _ _ _ ho
        rw [List.length_append, setLastTangent_length]
        omega
      · exact ih _ _ _ _ ho hp
    · exact ⟨ho, hp⟩

theorem outlineVertices_skip (qTriangulate : List ℚ → QTriangleSet)
    (normalized : QVector2D → QVector2D) (libm : LibM) (fuel : Nat) (pen : QPen) (n : Nat) :
    ∀ (data : List (List PathDataPoint)) (vertices : List (List QVector2D)),
    updatePathOutlineVertices qTriangulate normalized libm fuel pen n data vertices
      = updatePathOutlineVertices qTriangulate normalized libm fuel pen n
          (data.filter fun r => decide (2 ≤ r.length)) vertices := by
  intro data
  induction data with
  | nil => intro vertices; rfl
  | cons r data ih =>
    intro vertices
    by_cases h : r.length ≤ 1
    · have hf : decide (2 ≤ r.length) = false := by simp; omega
      rw [List.filter_cons_of_neg (by simp; omega), ← ih vertices]
      simp only [updatePathOutlineVertices, List.foldlM_cons, if_pos h, Option.some_bind,
        Option.bind_eq_bind]
    · rw [List.filter_cons_of_pos (by simp; omega)]
      simp only [updatePathOutlineVertices, List.foldlM_cons, if_neg h, Option.bind_eq_bind]
      cases hr : removeOverlappingTriangles qTriangulate normalized fuel
          (updatePathOutlineVertices.lineDataSegment normalized libm pen n r) with
      | none => rfl
      | some seg =>
        simp only [Option.map_some', Option.some_bind]
        exact ih _

/-- C34 (counterexample): for the path "move to (0,0), line to (1,1), move to (5,5)" the
outline data ends with a record of one point. -/
theorem trailing_move_stores_single_point_record :
    (updatePathSegmentsOutlineData referenceNormalized
        (pathOf trailingMoveElements)).m_pathSegmentsOutlineData
      = [[⟨⟨0, 0⟩, ⟨0, 0⟩, 0⟩, ⟨⟨1, 1⟩, ⟨0, 0⟩, 0⟩], [⟨⟨5, 5⟩, ⟨0, 0⟩, 0⟩]]
    ∧ ¬ ∀ r ∈ (updatePathSegmentsOutlineData referenceNormalized
        (pathOf trailingMoveElements)).m_pathSegmentsOutlineData, 2 ≤ r.length := by
  have h : (updatePathSegmentsOutlineData referenceNormalized
        (pathOf trailingMoveElements)).m_pathSegmentsOutlineData
      = [[⟨⟨0, 0⟩, ⟨0, 0⟩, 0⟩, ⟨⟨1, 1⟩, ⟨0, 0⟩, 0⟩], [⟨⟨5, 5⟩, ⟨0, 0⟩, 0⟩]] := by decide!
  refine ⟨h, ?_⟩
  rw [h]
  intro hall
  have := hall [⟨⟨5, 5⟩, ⟨0, 0⟩, 0⟩] (by simp)
  simp at this

/-- C34: for every non-empty path, the outline data stored by
`updatePathSegmentsOutlineData` is a list of records of at least two points followed by one
last record of at least one point; and `updatePathOutlineVertices` gives the same result on
any outline data as on the data without the records of at most one point, so a subpath
with at most one recorded point contributes no outline triangles. -/
theorem outline_records_two_points_but_last (normalized : QVector2D → QVector2D)
    (s : RiveQtPath) (h : s.m_qPainterPath.isEmpty = false) :
    (∃ (init : List (List PathDataPoint)) (last : List PathDataPoint),
      (updatePathSegmentsOutlineData normalized s).m_pathSegmentsOutlineData = init ++ [last]
        ∧ (∀ r ∈ init, 2 ≤ r.length) ∧ 1 ≤ last.length)
    ∧ ∀ (qTriangulate : List ℚ → QTriangleSet) (libm : LibM) (fuel : Nat) (pen : QPen)
        (n : Nat) (data : List (List PathDataPoint)) (vertices : List (List QVector2D)),
      updatePathOutlineVertices qTriangulate normalized libm fuel pen n data vertices
        = updatePathOutlineVertices qTriangulate normalized libm fuel pen n
            (data.filter fun r => decide (2 ≤ r.length)) vertices := by
  refine ⟨?_, fun qTriangulate libm fuel pen n data vertices =>
    outlineVertices_skip qTriangulate normalized libm fuel pen n data vertices⟩
  have hl := outlineLoop_records normalized s.m_qPainterPath s.m_segmentCount
    s.m_qPainterPath.elementCount 1 []
    [⟨⟨(s.m_qPainterPath.elementAt 0).x, (s.m_qPainterPath.elementAt 0).y⟩, ⟨0, 0⟩, 0⟩] 0
    (by simp) (by simp)
  refine ⟨_, _, ?_, hl.1, hl.2⟩
  unfold updatePathSegmentsOutlineData
  simp only [h, Bool.false_eq_true, if_false]

theorem outline_records_two_points_but_last_witness :
    (pathOf trailingMoveElements).m_qPainterPath.isEmpty = false
      ∧ ∃ (init : List (List PathDataPoint)) (last : List PathDataPoint),
        (updatePathSegmentsOutlineData referenceNormalized
            (pathOf trailingMoveElements)).m_pathSegmentsOutlineData = init ++ [last]
          ∧ (∀ r ∈ init, 2 ≤ r.length) ∧ 1 ≤ last.length :=
  ⟨by decide, (outline_records_two_points_but_last referenceNormalized
    (pathOf trailingMoveElements) (by decide)).1⟩

end RiveQtPath

/-! ### The entry assertions of the hull walk -/

namespace RiveQtPath

/-- C35: two inputs of `removeOverlappingTriangles` on which a call of `concaveHull` breaks
the entry assertions. For `sliverInput` the only cluster is `[0, 1]` and the first polygon
of the only call, the triangle of area `1/4000`, has orientation 0. For `threeInput` the
only cluster is `[0, 1, 2]`; the first call merges `starA` and `starB` into `starHull` (for
every `normalized` that keeps directions), and the second call gets `starHull` as first
polygon, whose first three corners are clockwise (orientation 1). -/
theorem concaveHull_entry_assertions_fail :
    (clustersOf sliverInput = [[0, 1]]
      ∧ concaveHull.entryAssertions (removeOverlappingTriangles.triangleAt sliverInput 0)
          (removeOverlappingTriangles.triangleAt sliverInput 1) = false
      ∧ concaveHull.orientation ⟨0, 0⟩ ⟨10, 0⟩ ⟨5, 1 / 20000⟩ = 0)
    ∧ (clustersOf threeInput = [[0, 1, 2]]
      ∧ removeOverlappingTriangles.triangleAt threeInput 0 = starA
      ∧ removeOverlappingTriangles.triangleAt threeInput 1 = starB
      ∧ (∀ (normalized : QVector2D → QVector2D) (fuel : Nat), KeepsDirection normalized →
          concaveHull normalized (fuel + 7) starA starB [] 0 = some starHull)
      ∧ concaveHull.entryAssertions starHull
          (removeOverlappingTriangles.triangleAt threeInput 2) = false
      ∧ concaveHull.orientation (QVector.at starHull 0) (QVector.at starHull 1)
          (QVector.at starHull 2) = 1) := by
  refine ⟨⟨by decide!, by decide!, by decide!⟩, by decide!, by decide!, by decide!, ?_,
    by decide!, by decide!⟩
  intro normalized fuel hk
  exact concaveHull_star normalized hk fuel

end RiveQtPath

/-! ### A walk that meets nothing -/

namespace RiveQtPath

/-- C36 (counterexample): `thinTriangle` is counter-clockwise, none of its corners is inside
`farTriangle` and none of its edges meets an edge of `farTriangle`, yet the walk returns
only its first corner: the closing test fires at the second corner. -/
theorem concaveHull_thin_triangle_cut_short :
    concaveHull.orientation (QVector.at thinTriangle 0) (QVector.at thinTriangle 1)
        (QVector.at thinTriangle 2) = 2
      ∧ (∀ p ∈ thinTriangle, isInsidePolygon farTriangle p = false)
      ∧ concaveHull.intersections farTriangle ⟨0, 0⟩ ⟨1 / 2000, 0⟩ = []
      ∧ concaveHull.intersections farTriangle ⟨1 / 2000, 0⟩ ⟨0, 10⟩ = []
      ∧ concaveHull.intersections farTriangle ⟨0, 10⟩ ⟨0, 0⟩ = []
      ∧ concaveHull referenceNormalized 10 thinTriangle farTriangle [] 0 = some [⟨0, 0⟩]
      ∧ concaveHull referenceNormalized 10 thinTriangle farTriangle [] 0
        ≠ some thinTriangle := by
  refine ⟨by decide!, by decide!, by decide!, by decide!, by decide!, by decide!, by decide!⟩

/-- C36: if no corner of the triangle `[a, b, c]` is inside `t2`, none of its edges has a
detected intersection with an edge of `t2`, and neither `b` nor `c` is within `0.001` of `a`
in both coordinates, then the walk from `[a, b, c]` with an empty result returns exactly
`[a, b, c]`, whatever `normalized` is, for every call bound of at least four. -/
theorem concaveHull_returns_first_triangle (normalized : QVector2D → QVector2D) (fuel : Nat)
    (a b c : QVector2D) (t2 : List QVector2D)
    (ha : isInsidePolygon t2 a = false) (hb : isInsidePolygon t2 b = false)
    (hc : isInsidePolygon t2 c = false)
    (hab : concaveHull.intersections t2 a b = []) (hbc : concaveHull.intersections t2 b c = [])
    (hca : concaveHull.intersections t2 c a = [])
    (hb0 : ¬ (|a.x - b.x| < 0.001 ∧ |a.y - b.y| < 0.001))
    (hc0 : ¬ (|a.x - c.x| < 0.001 ∧ |a.y - c.y| < 0.001)) :
    concaveHull normalized (fuel + 4) [a, b, c] t2 [] 0 = some [a, b, c] :=
  concaveHull_first_alone normalized fuel a b c t2 ha hb hc hab hbc hca hb0 hc0

theorem concaveHull_returns_first_triangle_witness :
    isInsidePolygon farTriangle ⟨1, 1⟩ = false
      ∧ concaveHull.intersections farTriangle ⟨1, 1⟩ ⟨3, 1⟩ = []
      ∧ concaveHull referenceNormalized (0 + 4) [⟨1, 1⟩, ⟨3, 1⟩, ⟨1, 3⟩] farTriangle [] 0
        = some [⟨1, 1⟩, ⟨3, 1⟩, ⟨1, 3⟩] :=
  ⟨by decide!, by decide!,
    concaveHull_returns_first_triangle referenceNormalized 0 ⟨1, 1⟩ ⟨3, 1⟩ ⟨1, 3⟩ farTriangle
      (by decide!) (by decide!) (by decide!) (by decide!) (by decide!) (by decide!)
      (by norm_num) (by norm_num)⟩

end RiveQtPath

/-! ### Clusters -/

namespace RiveQtPath

theorem chainedIn_mono (pairs : List (Nat × Nat)) (c d : List Nat) (h : ∀ k ∈ c, k ∈ d)
    (a b : Nat) (hab : ChainedIn pairs c a b) : ChainedIn pairs d a b :=
  Relation.ReflTransGen.mono (fun u v huv => ⟨h u huv.1, h v huv.2.1, huv.2.2⟩) hab

theorem chainedIn_symm (pairs : List (Nat × Nat)) (c : List Nat) (a b : Nat)
    (hab : ChainedIn pairs c a b) : ChainedIn pairs c b a := by
  induction hab with
  | refl => exact Relation.ReflTransGen.refl
  | tail _ huv ih =>
    exact Relation.ReflTransGen.head ⟨huv.2.1, huv.1, huv.2.2.symm⟩ ih

theorem chainedIn_trans (pairs : List (Nat × Nat)) (c : List Nat) (a b d : Nat)
    (hab : ChainedIn pairs c a b) (hbd : ChainedIn pairs c b d) : ChainedIn pairs c a d :=
  Relation.ReflTransGen.trans hab hbd

/-- Inserting the two indices of a listed pair that touches a connected cluster (or starts
an empty one) leaves it connected. -/
theorem chainedIn_insert (pairs : List (Nat × Nat)) (c : List Nat) (p : Nat × Nat)
    (hp : p ∈ pairs) (htouch : c = [] ∨ p.1 ∈ c ∨ p.2 ∈ c)
    (h : ∀ a ∈ c, ∀ b ∈ c, ChainedIn pairs c a b) :
    ∀ a ∈ StdSet.insert p.2 (StdSet.insert p.1 c),
      ∀ b ∈ StdSet.insert p.2 (StdSet.insert p.1 c),
        ChainedIn pairs (StdSet.insert p.2 (StdSet.insert p.1 c)) a b := by
  have hsub : ∀ k ∈ c, k ∈ StdSet.insert p.2 (StdSet.insert p.1 c) := by
    intro k hk
    simp [StdSet.mem_insert, hk]
  have h1 : p.1 ∈ StdSet.insert p.2 (StdSet.insert p.1 c) := by simp [StdSet.mem_insert]
  have h2 : p.2 ∈ StdSet.insert p.2 (StdSet.insert p.1 c) := by simp [StdSet.mem_insert]
  have step21 : ChainedIn pairs (StdSet.insert p.2 (StdSet.insert p.1 c)) p.2 p.1 :=
    Relation.ReflTransGen.single ⟨h2, h1, Or.inr hp⟩
  have hub : ∀ a ∈ StdSet.insert p.2 (StdSet.insert p.1 c),
      ChainedIn pairs (StdSet.insert p.2 (StdSet.insert p.1 c)) a p.1 := by
    intro a ha
    simp only [StdSet.mem_insert] at ha
    rcases ha with rfl | rfl | ha
    · exact step21
    · exact Relation.ReflTransGen.refl
    · rcases htouch with hnil | ht | ht
      · rw [hnil] at ha; cases ha
      · exact chainedIn_mono pairs c _ hsub a p.1 (h a ha p.1 ht)
      · exact chainedIn_trans pairs _ a p.2 p.1
          (chainedIn_mono pairs c _ hsub a p.2 (h a ha p.2 ht)) step21
  intro a ha b hb
  exact chainedIn_trans pairs _ a p.1 b (hub a ha) (chainedIn_symm pairs _ b p.1 (hub b hb))

theorem absorb_chainedIn (all : List (Nat × Nat)) (pairs : List (Nat × Nat)) :
    ∀ (cluster ix : List Nat), (∀ p ∈ pairs, p ∈ all) →
      (∀ a ∈ cluster, ∀ b ∈ cluster, ChainedIn all cluster a b) →
      ∀ a ∈ (removeOverlappingTriangles.absorb pairs cluster ix).1,
        ∀ b ∈ (removeOverlappingTriangles.absorb pairs cluster ix).1,
          ChainedIn all (removeOverlappingTriangles.absorb pairs cluster ix).1 a b := by
  induction pairs with
  | nil => intro cluster ix _ h; simpa [removeOverlappingTriangles.absorb] using h
  | cons p pairs ih =>
    intro cluster ix hsub h
    simp only [removeOverlappingTriangles.absorb, List.foldl_cons]
    split
    · rename_i hc
      apply ih _ _ (fun q hq => hsub q (List.mem_cons_of_mem _ hq))
      apply chainedIn_insert all cluster p (hsub p (List.mem_cons_self _ _)) _ h
      right
      simpa using hc
    · exact ih _ _ (fun q hq => hsub q (List.mem_cons_of_mem _ hq)) h

/-- The cluster only grows during the pass. -/
theorem absorb_superset (pairs : List (Nat × Nat)) :
    ∀ (cluster ix : List Nat), ∀ k ∈ cluster,
      k ∈ (removeOverlappingTriangles.absorb pairs cluster ix).1 := by
  induction pairs with
  | nil => intro cluster ix k hk; simpa [removeOverlappingTriangles.absorb] using hk
  | cons p pairs ih =>
    intro cluster ix k hk
    simp only [removeOverlappingTriangles.absorb, List.foldl_cons]
    split
    · apply ih
      simp [StdSet.mem_insert, hk]
    · exact ih _ _ k hk

/-- Every member of the cluster after the pass was in it before or is an index of one of
the pairs. -/
theorem absorb_subset (pairs : List (Nat × Nat)) :
    ∀ (cluster ix : List Nat), ∀ k ∈ (removeOverlappingTriangles.absorb pairs cluster ix).1,
      k ∈ cluster ∨ ∃ p ∈ pairs, k = p.1 ∨ k = p.2 := by
  induction pairs with
  | nil => intro cluster ix k hk; left; simpa [removeOverlappingTriangles.absorb] using hk
  | cons p pairs ih =>
    intro cluster ix k hk
    simp only [removeOverlappingTriangles.absorb, List.foldl_cons] at hk
    split at hk
    · rcases ih _ _ k hk with h | ⟨q, hq, hk⟩
      · simp only [StdSet.mem_insert] at h
        rcases h with h | h | h
        · exact Or.inr ⟨p, List.mem_cons_self _ _, Or.inr h⟩
        · exact Or.inr ⟨p, List.mem_cons_self _ _, Or.inl h⟩
        · exact Or.inl h
      · exact Or.inr ⟨q, List.mem_cons_of_mem _ hq, hk⟩
    · rcases ih _ _ k hk with h | ⟨q, hq, hk⟩
      · exact Or.inl h
      · exact Or.inr ⟨q, List.mem_cons_of_mem _ hq, hk⟩

theorem clusterLoop_chainedIn (all : List (Nat × Nat)) :
    ∀ (fuel : Nat) (pairs : List (Nat × Nat)) (clusters : List (List Nat)) (ix : List Nat),
      (∀ p ∈ pairs, p ∈ all) →
      (∀ c ∈ clusters, ∀ a ∈ c, ∀ b ∈ c, ChainedIn all c a b) →
      ∀ c ∈ (removeOverlappingTriangles.clusterLoop fuel pairs clusters ix).1,
        ∀ a ∈ c, ∀ b ∈ c, ChainedIn all c a b := by
  intro fuel
  induction fuel with
  | zero => intro pairs clusters ix _ h; simpa [removeOverlappingTriangles.clusterLoop] using h
  | succ fuel ih =>
    intro pairs clusters ix hsub h
    cases pairs with
    | nil => simpa [removeOverlappingTriangles.clusterLoop] using h
    | cons p0 rest =>
      simp only [removeOverlappingTriangles.clusterLoop]
      apply ih
      · intro p hp
        exact hsub p (List.mem_filter.mp hp).1
      · intro c hc
        rw [List.mem_append, List.mem_singleton] at hc
        rcases hc with hc | rfl
        · exact h c hc
        · apply absorb_chainedIn all (p0 :: rest) _ _ hsub
          exact chainedIn_insert all [] p0 (hsub p0 (List.mem_cons_self _ _)) (Or.inl rfl)
            (fun a ha => by cases ha)

theorem clusterLoop_two_members (all : List (Nat × Nat)) (hall : ∀ p ∈ all, p.1 < p.2) :
    ∀ (fuel : Nat) (pairs : List (Nat × Nat)) (clusters : List (List Nat)) (ix : List Nat),
      (∀ p ∈ pairs, p ∈ all) →
      (∀ c ∈ clusters, ∃ a ∈ c, ∃ b ∈ c, a < b) →
      ∀ c ∈ (removeOverlappingTriangles.clusterLoop fuel pairs clusters ix).1,
        ∃ a ∈ c, ∃ b ∈ c, a < b := by
  intro fuel
  induction fuel with
  | zero => intro pairs clusters ix _ h; simpa [removeOverlappingTriangles.clusterLoop] using h
  | succ fuel ih =>
    intro pairs clusters ix hsub h
    cases pairs with
    | nil => simpa [removeOverlappingTriangles.clusterLoop] using h
    | cons p0 rest =>
      simp only [removeOverlappingTriangles.clusterLoop]
      apply ih
      · intro p hp
        exact hsub p (List.mem_filter.mp hp).1
      · intro c hc
        rw [List.mem_append, List.mem_singleton] at hc
        rcases hc with hc | rfl
        · exact h c hc
        · exact ⟨p0.1, absorb_superset _ _ _ _ (by simp [StdSet.mem_insert]),
            p0.2, absorb_superset _ _ _ _ (by simp [StdSet.mem_insert]),
            hall p0 (hsub p0 (List.mem_cons_self _ _))⟩

theorem clusterLoop_disjoint :
    ∀ (fuel : Nat) (pairs : List (Nat × Nat)) (clusters : List (List Nat)) (ix : List Nat),
      (∀ p ∈ pairs, ∀ c ∈ clusters, p.1 ∉ c ∧ p.2 ∉ c) →
      clusters.Pairwise (fun c d => ∀ k ∈ c, k ∉ d) →
      (removeOverlappingTriangles.clusterLoop fuel pairs clusters ix).1.Pairwise
        (fun c d => ∀ k ∈ c, k ∉ d) := by
  intro fuel
  induction fuel with
  | zero => intro pairs clusters ix _ h; simpa [removeOverlappingTriangles.clusterLoop] using h
  | succ fuel ih =>
    intro pairs clusters ix hinv h
    cases pairs with
    | nil => simpa [removeOverlappingTriangles.clusterLoop] using h
    | cons p0 rest =>
      simp only [removeOverlappingTriangles.clusterLoop]
      have hnew : ∀ c ∈ clusters, ∀ k ∈ c,
          k ∉ (removeOverlappingTriangles.absorb (p0 :: rest)
            (StdSet.insert p0.2 (StdSet.insert p0.1 [])) ix).1 := by
        intro c hc k hk hkn
        rcases absorb_subset _ _ _ k hkn with hs | ⟨q, hq, hkq⟩
        · simp only [StdSet.mem_insert, List.not_mem_nil, or_false] at hs
          rcases hs with rfl | rfl
          · exact (hinv p0 (List.mem_cons_self _ _) c hc).2 hk
          · exact (hinv p0 (List.mem_cons_self _ _) c hc).1 hk
        · rcases hkq with rfl | rfl
          · exact (hinv q hq c hc).1 hk
          · exact (hinv q hq c hc).2 hk
      apply ih
      · intro p hp c hc
        rw [List.mem_filter] at hp
        rw [List.mem_append, List.mem_singleton] at hc
        rcases hc with hc | rfl
        · exact hinv p hp.1 c hc
        · have := hp.2
          simp only [Bool.not_eq_true', Bool.or_eq_false_iff, List.contains_eq_any_beq,
            List.any_eq_false, beq_iff_eq] at this
          exact ⟨fun hm => this.1 p.1 hm rfl, fun hm => this.2 p.2 hm rfl⟩
      · rw [List.pairwise_append]
        refine ⟨h, List.pairwise_singleton _ _, ?_⟩
        intro c hc d hd
        rw [List.mem_singleton] at hd
        subst hd
        exact hnew c hc

theorem clusterLoop_fuel :
    ∀ (fuel : Nat) (pairs : List (Nat × Nat)) (clusters : List (List Nat)) (ix : List Nat),
      pairs.length ≤ fuel →
      removeOverlappingTriangles.clusterLoop (fuel + 1) pairs clusters ix
        = removeOverlappingTriangles.clusterLoop fuel pairs clusters ix := by
  intro fuel
  induction fuel with
  | zero =>
    intro pairs clusters ix h
    cases pairs with
    | nil => rfl
    | cons p0 rest => simp at h
  | succ fuel ih =>
    intro pairs clusters ix h
    cases pairs with
    | nil => rfl
    | cons p0 rest =>
      rw [removeOverlappingTriangles.clusterLoop]
      conv_rhs => rw [removeOverlappingTriangles.clusterLoop]
      apply ih
      have hseed : p0.1 ∈ (removeOverlappingTriangles.absorb (p0 :: rest)
          (StdSet.insert p0.2 (StdSet.insert p0.1 [])) ix).1 :=
        absorb_superset _ _ _ _ (by simp [StdSet.mem_insert])
      rw [List.filter_cons_of_neg (by simp [hseed])]
      have := List.length_filter_le
        (fun e : Nat × Nat =>
          !((removeOverlappingTriangles.absorb (p0 :: rest)
              (StdSet.insert p0.2 (StdSet.insert p0.1 [])) ix).1.contains e.1
            || (removeOverlappingTriangles.absorb (p0 :: rest)
              (StdSet.insert p0.2 (StdSet.insert p0.1 [])) ix).1.contains e.2)) rest
      simp only [List.length_cons] at h
      omega

theorem clusterLoop_fuel_ge (pairs : List (Nat × Nat)) (clusters : List (List Nat))
    (ix : List Nat) : ∀ extra : Nat,
    removeOverlappingTriangles.clusterLoop (pairs.length + extra) pairs clusters ix
      = removeOverlappingTriangles.clusterLoop pairs.length pairs clusters ix := by
  intro extra
  induction extra with
  | zero => rfl
  | succ extra ih =>
    rw [← ih, ← Nat.add_assoc]
    exact clusterLoop_fuel _ _ _ _ (by omega)

/-- C37: for every list of pairs `(i, j)` with `i < j`, the clusters built by the
clustering loop (run with the bound used by `removeOverlappingTriangles`, which any larger
bound does not change) are pairwise disjoint, each has two different members and hence at
least two, any two members of a cluster are joined by a chain of listed pairs inside the
cluster, and an index is in the set excluded from pass-through exactly when it is in one
of the clusters. -/
theorem clusters_disjoint_connected (pairs : List (Nat × Nat))
    (h : ∀ p ∈ pairs, p.1 < p.2) :
    (removeOverlappingTriangles.clusterLoop pairs.length pairs [] []).1.Pairwise
        (fun c d => ∀ k ∈ c, k ∉ d)
      ∧ (∀ c ∈ (removeOverlappingTriangles.clusterLoop pairs.length pairs [] []).1,
          2 ≤ c.length ∧ ∃ a ∈ c, ∃ b ∈ c, a ≠ b)
      ∧ (∀ c ∈ (removeOverlappingTriangles.clusterLoop pairs.length pairs [] []).1,
          ∀ a ∈ c, ∀ b ∈ c, ChainedIn pairs c a b)
      ∧ (∀ k, k ∈ (removeOverlappingTriangles.clusterLoop pairs.length pairs [] []).2
          ↔ ∃ c ∈ (removeOverlappingTriangles.clusterLoop pairs.length pairs [] []).1, k ∈ c)
      ∧ ∀ extra : Nat,
          removeOverlappingTriangles.clusterLoop (pairs.length + extra) pairs [] []
            = removeOverlappingTriangles.clusterLoop pairs.length pairs [] [] := by
  refine ⟨?_, ?_, ?_, ?_, clusterLoop_fuel_ge pairs [] []⟩
  · exact clusterLoop_disjoint pairs.length pairs [] []
      (fun p _ c hc => by cases hc) List.Pairwise.nil
  · intro c hc
    obtain ⟨a, ha, b, hb, hab⟩ := clusterLoop_two_members pairs h pairs.length pairs [] []
      (fun p hp => hp) (fun c hc => by cases hc) c hc
    refine ⟨?_, a, ha, b, hb, Nat.ne_of_lt hab⟩
    match c, ha, hb with
    | [], ha, _ => cases ha
    | [x], ha, hb =>
      rw [List.mem_singleton] at ha hb
      omega
    | _ :: _ :: _, _, _ => simp
  · exact clusterLoop_chainedIn pairs pairs.length pairs [] [] (fun p hp => hp)
      (fun c hc => by cases hc)
  · exact clusterLoop_mem pairs.length pairs [] [] (fun k => by simp)

theorem clusters_disjoint_connected_witness :
    (∀ p ∈ [((0 : Nat), (3 : Nat)), (1, 2), (2, 3), (4, 5)], p.1 < p.2)
      ∧ removeOverlappingTriangles.clusterLoop 4 [(0, 3), (1, 2), (2, 3), (4, 5)] [] []
        = ([[0, 2, 3], [4, 5]], [0, 2, 3, 4, 5])
      ∧ (removeOverlappingTriangles.clusterLoop
            [((0 : Nat), (3 : Nat)), (1, 2), (2, 3), (4, 5)].length
            [(0, 3), (1, 2), (2, 3), (4, 5)] [] []).1.Pairwise
          (fun c d => ∀ k ∈ c, k ∉ d) :=
  ⟨by decide, by decide,
    (clusters_disjoint_connected [(0, 3), (1, 2), (2, 3), (4, 5)] (by decide)).1⟩

end RiveQtPath

/-! ### The point-in-polygon test on a triangle -/

namespace RiveQtPath

theorem oddOfThree_rotate (P Q R : Prop) : oddOfThree P Q R ↔ oddOfThree Q R P := by
  unfold oddOfThree
  tauto

theorem rayTestAgrees_rotate (a1 a2 b1 b2 c1 c2 : ℚ) (h : rayTestAgrees b1 b2 c1 c2 a1 a2) :
    rayTestAgrees a1 a2 b1 b2 c1 c2 := by
  unfold rayTestAgrees at h ⊢
  constructor
  · rintro ⟨h1, h2, h3, ho⟩
    rcases h.mp ⟨h2, h3, h1, (oddOfThree_rotate _ _ _).mp ho⟩ with ⟨p2, p3, p1⟩ | ⟨n2, n3, n1⟩
    · exact Or.inl ⟨p1, p2, p3⟩
    · exact Or.inr ⟨n1, n2, n3⟩
  · rintro (⟨p1, p2, p3⟩ | ⟨n1, n2, n3⟩)
    · obtain ⟨h2, h3, h1, ho⟩ := h.mpr (Or.inl ⟨p2, p3, p1⟩)
      exact ⟨h1, h2, h3, (oddOfThree_rotate _ _ _).mpr ho⟩
    · obtain ⟨h2, h3, h1, ho⟩ := h.mpr (Or.inr ⟨n2, n3, n1⟩)
      exact ⟨h1, h2, h3, (oddOfThree_rotate _ _ _).mpr ho⟩

/-- A point on the line of an edge whose end points are on different sides of the
horizontal through the point hits the edge, seen from the upper end. -/
theorem hitsEdge_of_upper (u1 u2 v1 v2 : ℚ) (hu : 0 < u2) (hv : v2 ≤ 0)
    (hd : u1 * v2 - u2 * v1 = 0) : hitsEdge u1 u2 v1 v2 := by
  refine ⟨hd, ?_⟩
  have h1 : v1 * u2 = u1 * v2 := by linarith
  have key : u2 * u2 * ((v1 - u1) * (v1 - u1) + (v2 - u2) * (v2 - u2) - (u1 * u1 + u2 * u2))
      = (u1 * u1 + u2 * u2) * (v2 * v2 - 2 * v2 * u2) := by
    have e1 : u2 * u2 * (v1 * v1) = (v1 * u2) * (v1 * u2) := by ring
    have e2 : u2 * u2 * (v1 * u1) = (v1 * u2) * (u1 * u2) := by ring
    have : u2 * u2 * ((v1 - u1) * (v1 - u1) + (v2 - u2) * (v2 - u2) - (u1 * u1 + u2 * u2))
        = u2 * u2 * (v1 * v1) - 2 * (u2 * u2 * (v1 * u1)) + u2 * u2 * (v2 * v2)
          - 2 * (u2 * u2 * (v2 * u2)) := by ring
    rw [this, e1, e2, h1]
    ring
  have hpos : 0 ≤ (u1 * u1 + u2 * u2) * (v2 * v2 - 2 * v2 * u2) := by
    apply mul_nonneg
    · nlinarith [mul_self_nonneg u1, mul_self_nonneg u2]
    · nlinarith [mul_self_nonneg v2, mul_nonneg (neg_nonneg.mpr hv) hu.le]
  rw [← key] at hpos
  have hu2 : 0 < u2 * u2 := mul_pos hu hu
  have := nonneg_of_mul_nonneg_right hpos hu2
  linarith

/-- The same, seen from the lower end. -/
theorem hitsEdge_of_lower (u1 u2 v1 v2 : ℚ) (hu : u2 ≤ 0) (hv : 0 < v2)
    (hd : u1 * v2 - u2 * v1 = 0) : hitsEdge u1 u2 v1 v2 := by
  refine ⟨hd, ?_⟩
  have h1 : u1 * v2 = u2 * v1 := by linarith
  have key : v2 * v2 * ((v1 - u1) * (v1 - u1) + (v2 - u2) * (v2 - u2) - (u1 * u1 + u2 * u2))
      = (v1 * v1 + v2 * v2) * (v2 * v2 - 2 * v2 * u2) := by
    have e2 : v2 * v2 * (v1 * u1) = (u1 * v2) * (v1 * v2) := by ring
    have : v2 * v2 * ((v1 - u1) * (v1 - u1) + (v2 - u2) * (v2 - u2) - (u1 * u1 + u2 * u2))
        = v2 * v2 * (v1 * v1) - 2 * (v2 * v2 * (v1 * u1)) + v2 * v2 * (v2 * v2)
          - 2 * (v2 * v2 * (v2 * u2)) := by ring
    rw [this, e2, h1]
    ring
  have hpos : 0 ≤ (v1 * v1 + v2 * v2) * (v2 * v2 - 2 * v2 * u2) := by
    apply mul_nonneg
    · nlinarith [mul_self_nonneg v1, mul_self_nonneg v2]
    · nlinarith [mul_self_nonneg v2, mul_nonneg (neg_nonneg.mpr hu) hv.le]
  rw [← key] at hpos
  have hv2 : 0 < v2 * v2 := mul_pos hv hv
  have := nonneg_of_mul_nonneg_right hpos hv2
  linarith

theorem hitsEdge_det (u1 u2 v1 v2 : ℚ) (h : hitsEdge u1 u2 v1 v2) : u1 * v2 - u2 * v1 = 0 :=
  h.1

/-- A point strictly between the end points of a horizontal edge at its height hits it. -/
theorem hitsEdge_of_level (u1 v1 : ℚ) (h : (0 < u1 ∧ v1 < 0) ∨ (u1 < 0 ∧ 0 < v1)) :
    hitsEdge u1 0 v1 0 := by
  refine ⟨by ring, ?_⟩
  rcases h with ⟨h1, h2⟩ | ⟨h1, h2⟩
  · nlinarith [mul_pos h1 (neg_pos.mpr h2), mul_self_nonneg v1]
  · nlinarith [mul_pos (neg_pos.mpr h1) h2, mul_self_nonneg v1]

/-- The corner `a` above the point, `b` and `c` not above. -/
theorem rayTestAgrees_one_above (a1 a2 b1 b2 c1 c2 : ℚ) (ha : 0 < a2) (hb : b2 ≤ 0)
    (hc : c2 ≤ 0) : rayTestAgrees a1 a2 b1 b2 c1 c2 := by
  have hid : a2 * (b1 * c2 - b2 * c1) + b2 * (c1 * a2 - c2 * a1) + c2 * (a1 * b2 - a2 * b1) = 0 := by
    ring
  have hC2 : ¬ crossesEdge b1 b2 c1 c2 := by
    rintro (⟨_, h, _⟩ | ⟨_, h, _⟩) <;> linarith
  have hC1 : crossesEdge a1 a2 b1 b2 ↔ a1 * b2 - a2 * b1 < 0 := by
    constructor
    · rintro (⟨h, _, _⟩ | ⟨_, _, h⟩)
      · linarith
      · exact h
    · intro h; exact Or.inr ⟨hb, ha, h⟩
  have hC3 : crossesEdge c1 c2 a1 a2 ↔ 0 < c1 * a2 - c2 * a1 := by
    constructor
    · rintro (⟨_, _, h⟩ | ⟨h, _, _⟩)
      · exact h
      · linarith
    · intro h; exact Or.inl ⟨hc, ha, h⟩
  unfold rayTestAgrees
  constructor
  · rintro ⟨nh1, nh2, nh3, ho⟩
    have hD1 : a1 * b2 - a2 * b1 ≠ 0 := fun h0 => nh1 (hitsEdge_of_upper a1 a2 b1 b2 ha hb h0)
    have hD3 : c1 * a2 - c2 * a1 ≠ 0 := fun h0 => nh3 (hitsEdge_of_lower c1 c2 a1 a2 hc ha h0)
    unfold oddOfThree at ho
    rw [hC1, hC3] at ho
    have hcases : (a1 * b2 - a2 * b1 < 0 ∧ c1 * a2 - c2 * a1 < 0)
        ∨ (0 < a1 * b2 - a2 * b1 ∧ 0 < c1 * a2 - c2 * a1) := by
      rcases ho with ⟨h1, _, h3⟩ | ⟨_, h2, _⟩ | ⟨h1, _, h3⟩ | ⟨_, h2, _⟩
      · exact Or.inl ⟨h1, lt_of_le_of_ne (not_lt.mp h3) hD3⟩
      · exact absurd h2 hC2
      · exact Or.inr ⟨lt_of_le_of_ne (not_lt.mp h1) (Ne.symm hD1), h3⟩
      · exact absurd h2 hC2
    rcases hcases with ⟨n1, n3⟩ | ⟨p1, p3⟩
    · right
      refine ⟨n1, ?_, n3⟩
      by_contra hn
      have h2 : 0 ≤ b1 * c2 - b2 * c1 := not_lt.mp hn
      have e1 : 0 ≤ a2 * (b1 * c2 - b2 * c1) := mul_nonneg ha.le h2
      have e2 : 0 ≤ b2 * (c1 * a2 - c2 * a1) := mul_nonneg_of_nonpos_of_nonpos hb n3.le
      have e3 : 0 ≤ c2 * (a1 * b2 - a2 * b1) := mul_nonneg_of_nonpos_of_nonpos hc n1.le
      have z2 : b2 * (c1 * a2 - c2 * a1) = 0 := by linarith
      have z3 : c2 * (a1 * b2 - a2 * b1) = 0 := by linarith
      have hb0 : b2 = 0 := by
        rcases mul_eq_zero.mp z2 with h | h
        · exact h
        · exact absurd h hD3
      have hc0 : c2 = 0 := by
        rcases mul_eq_zero.mp z3 with h | h
        · exact h
        · exact absurd h hD1
      subst hb0 hc0
      apply nh2
      apply hitsEdge_of_level
      left
      constructor
      · by_contra hneg
        have : b1 ≤ 0 := not_lt.mp hneg
        nlinarith [mul_nonneg ha.le (neg_nonneg.mpr this)]
      · by_contra hneg
        have : 0 ≤ c1 := not_lt.mp hneg
        nlinarith [mul_nonneg ha.le this]
    · left
      refine ⟨p1, ?_, p3⟩
      by_contra hn
      have h2 : b1 * c2 - b2 * c1 ≤ 0 := not_lt.mp hn
      have e1 : a2 * (b1 * c2 - b2 * c1) ≤ 0 := mul_nonpos_of_nonneg_of_nonpos ha.le h2
      have e2 : b2 * (c1 * a2 - c2 * a1) ≤ 0 := mul_nonpos_of_nonpos_of_nonneg hb p3.le
      have e3 : c2 * (a1 * b2 - a2 * b1) ≤ 0 := mul_nonpos_of_nonpos_of_nonneg hc p1.le
      have z2 : b2 * (c1 * a2 - c2 * a1) = 0 := by linarith
      have z3 : c2 * (a1 * b2 - a2 * b1) = 0 := by linarith
      have hb0 : b2 = 0 := by
        rcases mul_eq_zero.mp z2 with h | h
        · exact h
        · exact absurd h hD3
      have hc0 : c2 = 0 := by
        rcases mul_eq_zero.mp z3 with h | h
        · exact h
        · exact absurd h hD1
      subst hb0 hc0
      apply nh2
      apply hitsEdge_of_level
      right
      constructor
      · by_contra hneg
        have : 0 ≤ b1 := not_lt.mp hneg
        nlinarith [mul_nonneg ha.le this]
      · by_contra hneg
        have : c1 ≤ 0 := not_lt.mp hneg
        nlinarith [mul_nonneg ha.le (neg_nonneg.mpr this)]
  · intro h
    have hne : a1 * b2 - a2 * b1 ≠ 0 ∧ b1 * c2 - b2 * c1 ≠ 0 ∧ c1 * a2 - c2 * a1 ≠ 0 := by
      rcases h with ⟨p1, p2, p3⟩ | ⟨n1, n2, n3⟩
      · exact ⟨ne_of_gt p1, ne_of_gt p2, ne_of_gt p3⟩
      · exact ⟨ne_of_lt n1, ne_of_lt n2, ne_of_lt n3⟩
    refine ⟨fun hh => hne.1 hh.1, fun hh => hne.2.1 hh.1, fun hh => hne.2.2 hh.1, ?_⟩
    unfold oddOfThree
    rw [hC1, hC3]
    rcases h with ⟨p1, _, p3⟩ | ⟨n1, _, n3⟩
    · exact Or.inr (Or.inr (Or.inl ⟨not_lt.mpr p1.le, hC2, p3⟩))
    · exact Or.inl ⟨n1, hC2, not_lt.mpr n3.le⟩

/-- The corner `a` not above the point, `b` and `c` above. -/
theorem rayTestAgrees_two_above (a1 a2 b1 b2 c1 c2 : ℚ) (ha : a2 ≤ 0) (hb : 0 < b2)
    (hc : 0 < c2) : rayTestAgrees a1 a2 b1 b2 c1 c2 := by
  have hid : a2 * (b1 * c2 - b2 * c1) + b2 * (c1 * a2 - c2 * a1) + c2 * (a1 * b2 - a2 * b1) = 0 := by
    ring
  have hC2 : ¬ crossesEdge b1 b2 c1 c2 := by
    rintro (⟨h, _, _⟩ | ⟨h, _, _⟩) <;> linarith
  have hC1 : crossesEdge a1 a2 b1 b2 ↔ 0 < a1 * b2 - a2 * b1 := by
    constructor
    · rintro (⟨_, _, h⟩ | ⟨h, _, _⟩)
      · exact h
      · linarith
    · intro h; exact Or.inl ⟨ha, hb, h⟩
  have hC3 : crossesEdge c1 c2 a1 a2 ↔ c1 * a2 - c2 * a1 < 0 := by
    constructor
    · rintro (⟨h, _, _⟩ | ⟨_, _, h⟩)
      · linarith
      · exact h
    · intro h; exact Or.inr ⟨ha, hc, h⟩
  unfold rayTestAgrees
  constructor
  · rintro ⟨nh1, nh2, nh3, ho⟩
    have hD1 : a1 * b2 - a2 * b1 ≠ 0 := fun h0 => nh1 (hitsEdge_of_lower a1 a2 b1 b2 ha hb h0)
    have hD3 : c1 * a2 - c2 * a1 ≠ 0 := fun h0 => nh3 (hitsEdge_of_upper c1 c2 a1 a2 hc ha h0)
    unfold oddOfThree at ho
    rw [hC1, hC3] at ho
    have hcases : (0 < a1 * b2 - a2 * b1 ∧ 0 < c1 * a2 - c2 * a1)
        ∨ (a1 * b2 - a2 * b1 < 0 ∧ c1 * a2 - c2 * a1 < 0) := by
      rcases ho with ⟨h1, _, h3⟩ | ⟨_, h2, _⟩ | ⟨h1, _, h3⟩ | ⟨_, h2, _⟩
      · exact Or.inl ⟨h1, lt_of_le_of_ne (not_lt.mp h3) (Ne.symm hD3)⟩
      · exact absurd h2 hC2
      · exact Or.inr ⟨lt_of_le_of_ne (not_lt.mp h1) hD1, h3⟩
      · exact absurd h2 hC2
    rcases hcases with ⟨p1, p3⟩ | ⟨n1, n3⟩
    · left
      refine ⟨p1, ?_, p3⟩
      have e2 : 0 < b2 * (c1 * a2 - c2 * a1) := mul_pos hb p3
      have e3 : 0 < c2 * (a1 * b2 - a2 * b1) := mul_pos hc p1
      have e1 : a2 * (b1 * c2 - b2 * c1) < 0 := by linarith
      by_contra hn
      have h2 : b1 * c2 - b2 * c1 ≤ 0 := not_lt.mp hn
      have := mul_nonneg_of_nonpos_of_nonpos ha h2
      linarith
    · right
      refine ⟨n1, ?_, n3⟩
      have e2 : b2 * (c1 * a2 - c2 * a1) < 0 := mul_neg_of_pos_of_neg hb n3
      have e3 : c2 * (a1 * b2 - a2 * b1) < 0 := mul_neg_of_pos_of_neg hc n1
      have e1 : 0 < a2 * (b1 * c2 - b2 * c1) := by linarith
      by_contra hn
      have h2 : 0 ≤ b1 * c2 - b2 * c1 := not_lt.mp hn
      have := mul_nonpos_of_nonpos_of_nonneg ha h2
      linarith
  · intro h
    have hne : a1 * b2 - a2 * b1 ≠ 0 ∧ b1 * c2 - b2 * c1 ≠ 0 ∧ c1 * a2 - c2 * a1 ≠ 0 := by
      rcases h with ⟨p1, p2, p3⟩ | ⟨n1, n2, n3⟩
      · exact ⟨ne_of_gt p1, ne_of_gt p2, ne_of_gt p3⟩
      · exact ⟨ne_of_lt n1, ne_of_lt n2, ne_of_lt n3⟩
    refine ⟨fun hh => hne.1 hh.1, fun hh => hne.2.1 hh.1, fun hh => hne.2.2 hh.1, ?_⟩
    unfold oddOfThree
    rw [hC1, hC3]
    rcases h with ⟨p1, _, p3⟩ | ⟨n1, _, n3⟩
    · exact Or.inl ⟨p1, hC2, not_lt.mpr p3.le⟩
    · exact Or.inr (Or.inr (Or.inl ⟨not_lt.mpr n1.le, hC2, n3⟩))

/-- All corners above the point, or none: no edge is crossed and the point is not inside. -/
theorem rayTestAgrees_same_side (a1 a2 b1 b2 c1 c2 : ℚ)
    (h : (0 < a2 ∧ 0 < b2 ∧ 0 < c2) ∨ (a2 ≤ 0 ∧ b2 ≤ 0 ∧ c2 ≤ 0)) :
    rayTestAgrees a1 a2 b1 b2 c1 c2 := by
  have hid : a2 * (b1 * c2 - b2 * c1) + b2 * (c1 * a2 - c2 * a1) + c2 * (a1 * b2 - a2 * b1) = 0 := by
    ring
  have hC1 : ¬ crossesEdge a1 a2 b1 b2 := by
    rcases h with ⟨ha, hb, hc⟩ | ⟨ha, hb, hc⟩ <;> rintro (⟨h1, h2, _⟩ | ⟨h1, h2, _⟩) <;> linarith
  have hC2 : ¬ crossesEdge b1 b2 c1 c2 := by
    rcases h with ⟨ha, hb, hc⟩ | ⟨ha, hb, hc⟩ <;> rintro (⟨h1, h2, _⟩ | ⟨h1, h2, _⟩) <;> linarith
  have hC3 : ¬ crossesEdge c1 c2 a1 a2 := by
    rcases h with ⟨ha, hb, hc⟩ | ⟨ha, hb, hc⟩ <;> rintro (⟨h1, h2, _⟩ | ⟨h1, h2, _⟩) <;> linarith
  unfold rayTestAgrees
  constructor
  · rintro ⟨_, _, _, ho⟩
    unfold oddOfThree at ho
    rcases ho with ⟨h1, _, _⟩ | ⟨_, h2, _⟩ | ⟨_, _, h3⟩ | ⟨h1, _, _⟩
    · exact absurd h1 hC1
    · exact absurd h2 hC2
    · exact absurd h3 hC3
    · exact absurd h1 hC1
  · intro hs
    exfalso
    rcases h with ⟨ha, hb, hc⟩ | ⟨ha, hb, hc⟩
    · rcases hs with ⟨p1, p2, p3⟩ | ⟨n1, n2, n3⟩
      · nlinarith [mul_pos ha p2, mul_pos hb p3, mul_pos hc p1]
      · nlinarith [mul_pos ha (neg_pos.mpr n2), mul_pos hb (neg_pos.mpr n3),
          mul_pos hc (neg_pos.mpr n1)]
    · rcases hs with ⟨p1, p2, p3⟩ | ⟨n1, n2, n3⟩
      · have e1 := mul_nonpos_of_nonpos_of_nonneg ha p2.le
        have e2 := mul_nonpos_of_nonpos_of_nonneg hb p3.le
        have e3 := mul_nonpos_of_nonpos_of_nonneg hc p1.le
        have z1 : a2 * (b1 * c2 - b2 * c1) = 0 := by linarith
        have z2 : b2 * (c1 * a2 - c2 * a1) = 0 := by linarith
        have ha0 : a2 = 0 := by
          rcases mul_eq_zero.mp z1 with h | h
          · exact h
          · exact absurd h (ne_of_gt p2)
        have hb0 : b2 = 0 := by
          rcases mul_eq_zero.mp z2 with h | h
          · exact h
          · exact absurd h (ne_of_gt p3)
        rw [ha0, hb0] at p1
        simp at p1
      · have e1 := mul_nonneg_of_nonpos_of_nonpos ha n2.le
        have e2 := mul_nonneg_of_nonpos_of_nonpos hb n3.le
        have e3 := mul_nonneg_of_nonpos_of_nonpos hc n1.le
        have z1 : a2 * (b1 * c2 - b2 * c1) = 0 := by linarith
        have z2 : b2 * (c1 * a2 - c2 * a1) = 0 := by linarith
        have ha0 : a2 = 0 := by
          rcases mul_eq_zero.mp z1 with h | h
          · exact h
          · exact absurd h (ne_of_lt n2)
        have hb0 : b2 = 0 := by
          rcases mul_eq_zero.mp z2 with h | h
          · exact h
          · exact absurd h (ne_of_lt n3)
        rw [ha0, hb0] at n1
        simp at n1

/-- The ray test agrees with the strict side test for every triangle and every point. -/
theorem rayTestAgrees_all (a1 a2 b1 b2 c1 c2 : ℚ) : rayTestAgrees a1 a2 b1 b2 c1 c2 := by
  by_cases ha : 0 < a2 <;> by_cases hb : 0 < b2 <;> by_cases hc : 0 < c2
  · exact rayTestAgrees_same_side _ _ _ _ _ _ (Or.inl ⟨ha, hb, hc⟩)
  · exact rayTestAgrees_rotate _ _ _ _ _ _ (rayTestAgrees_rotate _ _ _ _ _ _
      (rayTestAgrees_two_above c1 c2 a1 a2 b1 b2 (not_lt.mp hc) ha hb))
  · exact rayTestAgrees_rotate _ _ _ _ _ _
      (rayTestAgrees_two_above b1 b2 c1 c2 a1 a2 (not_lt.mp hb) hc ha)
  · exact rayTestAgrees_one_above a1 a2 b1 b2 c1 c2 ha (not_lt.mp hb) (not_lt.mp hc)
  · exact rayTestAgrees_two_above a1 a2 b1 b2 c1 c2 (not_lt.mp ha) hb hc
  · exact rayTestAgrees_rotate _ _ _ _ _ _
      (rayTestAgrees_one_above b1 b2 c1 c2 a1 a2 hb (not_lt.mp hc) (not_lt.mp ha))
  · exact rayTestAgrees_rotate _ _ _ _ _ _ (rayTestAgrees_rotate _ _ _ _ _ _
      (rayTestAgrees_one_above c1 c2 a1 a2 b1 b2 hc (not_lt.mp ha) (not_lt.mp hb)))
  · exact rayTestAgrees_same_side _ _ _ _ _ _
      (Or.inr ⟨not_lt.mp ha, not_lt.mp hb, not_lt.mp hc⟩)

theorem qFuzzyCompare_zero (x : ℚ) : qFuzzyCompare x 0 = decide (x = 0) := by
  unfold qFuzzyCompare
  by_cases h : x = 0
  · subst h; simp
  · have hx : 0 < |x| := abs_pos.mpr h
    have hm : min |x| |(0 : ℚ)| = 0 := by
      rw [abs_zero]
      exact min_eq_right hx.le
    rw [hm, sub_zero]
    simp only [h, decide_False, decide_eq_false_iff_not, not_le]
    positivity

theorem onEdge_iff (u v p : QVector2D) :
    isInsidePolygon.onEdge u v p = true
      ↔ hitsEdge (u.x - p.x) (u.y - p.y) (v.x - p.x) (v.y - p.y) := by
  unfold isInsidePolygon.onEdge hitsEdge
  rw [qFuzzyCompare_zero]
  have hc : crossProduct (v - u) (p - u)
      = (u.x - p.x) * (v.y - p.y) - (u.y - p.y) * (v.x - p.x) := by
    show (v.x - u.x) * (p.y - u.y) - (v.y - u.y) * (p.x - u.x) = _
    ring
  have h1 : (p - u).lengthSquared = (u.x - p.x) * (u.x - p.x) + (u.y - p.y) * (u.y - p.y) := by
    show (p.x - u.x) * (p.x - u.x) + (p.y - u.y) * (p.y - u.y) = _
    ring
  have h2 : (v - u).lengthSquared
      = (v.x - p.x - (u.x - p.x)) * (v.x - p.x - (u.x - p.x))
        + (v.y - p.y - (u.y - p.y)) * (v.y - p.y - (u.y - p.y)) := by
    show (v.x - u.x) * (v.x - u.x) + (v.y - u.y) * (v.y - u.y) = _
    ring
  rw [hc, h1, h2]
  simp only [Bool.and_eq_true, decide_eq_true_eq]

theorem crosses_iff (u v p : QVector2D) :
    isInsidePolygon.crosses u v p = true
      ↔ crossesEdge (u.x - p.x) (u.y - p.y) (v.x - p.x) (v.y - p.y) := by
  unfold isInsidePolygon.crosses crossesEdge
  simp only [Bool.and_eq_true, bne_iff_ne, ne_eq, decide_eq_decide, decide_eq_true_eq, gt_iff_lt]
  by_cases hu : p.y < u.y <;> by_cases hv : p.y < v.y
  · constructor
    · rintro ⟨h, _⟩
      exact absurd (iff_of_true hu hv) h
    · rintro (⟨h, _, _⟩ | ⟨h, _, _⟩) <;> linarith
  · have hd : v.y - u.y < 0 := by linarith
    have hx : p.x < (v.x - u.x) * (p.y - u.y) / (v.y - u.y) + u.x
        ↔ (u.x - p.x) * (v.y - p.y) - (u.y - p.y) * (v.x - p.x) < 0 := by
      rw [← sub_lt_iff_lt_add, lt_div_iff_of_neg hd]
      constructor <;> intro h <;> nlinarith
    constructor
    · rintro ⟨_, h⟩
      exact Or.inr ⟨by linarith, by linarith, hx.mp h⟩
    · rintro (⟨h, _, _⟩ | ⟨_, _, h⟩)
      · linarith
      · exact ⟨fun hiff => hv (hiff.mp hu), hx.mpr h⟩
  · have hd : 0 < v.y - u.y := by linarith
    have hx : p.x < (v.x - u.x) * (p.y - u.y) / (v.y - u.y) + u.x
        ↔ 0 < (u.x - p.x) * (v.y - p.y) - (u.y - p.y) * (v.x - p.x) := by
      rw [← sub_lt_iff_lt_add, lt_div_iff₀ hd]
      constructor <;> intro h <;> nlinarith
    constructor
    · rintro ⟨_, h⟩
      exact Or.inl ⟨by linarith, by linarith, hx.mp h⟩
    · rintro (⟨_, _, h⟩ | ⟨_, h, _⟩)
      · exact ⟨fun hiff => hu (hiff.mpr hv), hx.mpr h⟩
      · linarith
  · constructor
    · rintro ⟨h, _⟩
      exact absurd (iff_of_false hu hv) h
    · rintro (⟨_, h, _⟩ | ⟨_, h, _⟩) <;> linarith

theorem isInsidePolygon_triangle (a b c p : QVector2D) :
    isInsidePolygon [a, b, c] p
      = (!isInsidePolygon.onEdge a b p && !isInsidePolygon.onEdge b c p
        && !isInsidePolygon.onEdge c a p
        && xor (xor (isInsidePolygon.crosses a b p) (isInsidePolygon.crosses b c p))
          (isInsidePolygon.crosses c a p)) := by
  have e0 : QVector.at [a, b, c] 0 = a := rfl
  have e1 : QVector.at [a, b, c] 1 = b := rfl
  have e2 : QVector.at [a, b, c] 2 = c := rfl
  have hA : (qFuzzyCompare (crossProduct (b - a) (p - a)) 0
      && decide ((p - a).lengthSquared ≤ (b - a).lengthSquared))
      = isInsidePolygon.onEdge a b p := rfl
  have hB : (qFuzzyCompare (crossProduct (c - b) (p - b)) 0
      && decide ((p - b).lengthSquared ≤ (c - b).lengthSquared))
      = isInsidePolygon.onEdge b c p := rfl
  have hC : (qFuzzyCompare (crossProduct (a - c) (p - c)) 0
      && decide ((p - c).lengthSquared ≤ (a - c).lengthSquared))
      = isInsidePolygon.onEdge c a p := rfl
  have cA : ((decide (a.y > p.y) != decide (b.y > p.y))
      && decide (p.x < (b.x - a.x) * (p.y - a.y) / (b.y - a.y) + a.x))
      = isInsidePolygon.crosses a b p := rfl
  have cB : ((decide (b.y > p.y) != decide (c.y > p.y))
      && decide (p.x < (c.x - b.x) * (p.y - b.y) / (c.y - b.y) + b.x))
      = isInsidePolygon.crosses b c p := rfl
  have cC : ((decide (c.y > p.y) != decide (a.y > p.y))
      && decide (p.x < (a.x - c.x) * (p.y - c.y) / (a.y - c.y) + c.x))
      = isInsidePolygon.crosses c a p := rfl
  simp only [isInsidePolygon, isInsidePolygon.loop, List.length_cons, List.length_nil,
    Nat.reduceAdd, Nat.reduceMod, Nat.reduceLT, if_true, e0, e1, e2, hA, hB, hC, cA, cB, cC]
  cases isInsidePolygon.onEdge a b p <;> cases isInsidePolygon.onEdge b c p
    <;> cases isInsidePolygon.onEdge c a p <;> cases isInsidePolygon.crosses a b p
    <;> cases isInsidePolygon.crosses b c p <;> cases isInsidePolygon.crosses c a p <;> rfl

/-- In exact arithmetic, for every triangle `a b c` (degenerate or not) and every point `p`,
`isInsidePolygon` answers true exactly when `p` lies strictly inside the triangle, that is
on the same strict side of its three edges; for a point on the line of an edge (so for every
point on an edge or at a corner) and for every other point not strictly inside it answers
false. Whenever the first operand of the ray-crossing test holds for an edge of a polygon,
the two end points differ in `y`, so the divisor of the second operand is not zero. -/
theorem isInsidePolygon_triangle_iff_strictlyInside (a b c p : QVector2D) :
    (isInsidePolygon [a, b, c] p = true ↔ strictlyInside a b c p)
      ∧ (Det2D a b p = 0 ∨ Det2D b c p = 0 ∨ Det2D c a p = 0 →
          isInsidePolygon [a, b, c] p = false)
      ∧ (¬ strictlyInside a b c p → isInsidePolygon [a, b, c] p = false)
      ∧ ∀ (polygon : List QVector2D) (i : Nat),
          (decide ((QVector.at polygon i).y > p.y)
              != decide ((QVector.at polygon ((i + 1) % polygon.length)).y > p.y)) = true →
            (QVector.at polygon ((i + 1) % polygon.length)).y - (QVector.at polygon i).y
              ≠ 0 := by
  have hiff : isInsidePolygon [a, b, c] p = true ↔ strictlyInside a b c p := by
    rw [isInsidePolygon_triangle]
    have h := rayTestAgrees_all (a.x - p.x) (a.y - p.y) (b.x - p.x) (b.y - p.y) (c.x - p.x)
      (c.y - p.y)
    unfold rayTestAgrees at h
    have d1 : Det2D a b p = (a.x - p.x) * (b.y - p.y) - (a.y - p.y) * (b.x - p.x) := by
      unfold Det2D; ring
    have d2 : Det2D b c p = (b.x - p.x) * (c.y - p.y) - (b.y - p.y) * (c.x - p.x) := by
      unfold Det2D; ring
    have d3 : Det2D c a p = (c.x - p.x) * (a.y - p.y) - (c.y - p.y) * (a.x - p.x) := by
      unfold Det2D; ring
    unfold strictlyInside insideBy
    rw [d1, d2, d3, neg_zero, ← h, ← onEdge_iff, ← onEdge_iff, ← onEdge_iff, ← crosses_iff,
      ← crosses_iff, ← crosses_iff]
    unfold oddOfThree
    cases isInsidePolygon.onEdge a b p <;> cases isInsidePolygon.onEdge b c p
      <;> cases isInsidePolygon.onEdge c a p <;> cases isInsidePolygon.crosses a b p
      <;> cases isInsidePolygon.crosses b c p <;> cases isInsidePolygon.crosses c a p
      <;> simp
  refine ⟨hiff, ?_, ?_, ?_⟩
  · intro h0
    rw [← Bool.not_eq_true, hiff]
    unfold strictlyInside insideBy
    rintro (⟨h1, h2, h3⟩ | ⟨h1, h2, h3⟩) <;> rcases h0 with h | h | h <;> linarith
  · intro hn
    rw [← Bool.not_eq_true, hiff]
    exact hn
  · intro polygon i h hz
    have hy : (QVector.at polygon ((i + 1) % polygon.length)).y = (QVector.at polygon i).y := by
      linarith
    rw [hy] at h
    simp at h

end RiveQtPath

/-! ### Segment intersection -/

theorem onClosedSegment_of_box (u v q : QVector2D) (t : ℚ)
    (hq : q = ⟨u.x + t * (v.x - u.x), u.y + t * (v.y - u.y)⟩) (hne : u.x ≠ v.x ∨ u.y ≠ v.y)
    (hx1 : min u.x v.x ≤ q.x) (hx2 : q.x ≤ max u.x v.x)
    (hy1 : min u.y v.y ≤ q.y) (hy2 : q.y ≤ max u.y v.y) : onClosedSegment u v q := by
  refine ⟨t, ?_, ?_, hq⟩
  · subst hq
    simp only at hx1 hx2 hy1 hy2
    rcases hne with h | h
    · rcases lt_or_gt_of_ne h with h | h
      · rw [min_eq_left h.le] at hx1
        by_contra hc
        nlinarith
      · rw [max_eq_left h.le] at hx2
        by_contra hc
        nlinarith
    · rcases lt_or_gt_of_ne h with h | h
      · rw [min_eq_left h.le] at hy1
        by_contra hc
        nlinarith
      · rw [max_eq_left h.le] at hy2
        by_contra hc
        nlinarith
  · subst hq
    simp only at hx1 hx2 hy1 hy2
    rcases hne with h | h
    · rcases lt_or_gt_of_ne h with h | h
      · rw [max_eq_right h.le] at hx2
        by_contra hc
        nlinarith
      · rw [min_eq_right h.le] at hx1
        by_contra hc
        nlinarith
    · rcases lt_or_gt_of_ne h with h | h
      · rw [max_eq_right h.le] at hy2
        by_contra hc
        nlinarith
      · rw [min_eq_right h.le] at hy1
        by_contra hc
        nlinarith

namespace RiveQtPath

theorem calculateIntersection_some (p1 p2 p3 p4 q : QVector2D)
    (h : calculateIntersection p1 p2 p3 p4 = some q) :
    (0.01 : ℚ) ≤ |(p1.x - p2.x) * (p3.y - p4.y) - (p1.y - p2.y) * (p3.x - p4.x)|
      ∧ q.x = ((p1.x * p2.y - p1.y * p2.x) * (p3.x - p4.x)
            - (p1.x - p2.x) * (p3.x * p4.y - p3.y * p4.x))
          / ((p1.x - p2.x) * (p3.y - p4.y) - (p1.y - p2.y) * (p3.x - p4.x))
      ∧ q.y = ((p1.x * p2.y - p1.y * p2.x) * (p3.y - p4.y)
            - (p1.y - p2.y) * (p3.x * p4.y - p3.y * p4.x))
          / ((p1.x - p2.x) * (p3.y - p4.y) - (p1.y - p2.y) * (p3.x - p4.x)) := by
  unfold calculateIntersection at h
  dsimp only at h
  split at h
  · cases h
  · rename_i hd
    simp only [Option.some.injEq] at h
    subst h
    exact ⟨not_lt.mp hd, rfl, rfl⟩

theorem calculateLineIntersection_some (p1 p2 p3 p4 q : QVector2D)
    (h : calculateLineIntersection p1 p2 p3 p4 = some q) :
    ∃ i, calculateIntersection p1 p2 p3 p4 = some i ∧ q = ⟨i.x, i.y⟩
      ∧ min p1.x p2.x ≤ i.x ∧ i.x ≤ max p1.x p2.x ∧ min p1.y p2.y ≤ i.y ∧ i.y ≤ max p1.y p2.y
      ∧ min p3.x p4.x ≤ i.x ∧ i.x ≤ max p3.x p4.x ∧ min p3.y p4.y ≤ i.y
      ∧ i.y ≤ max p3.y p4.y := by
  unfold calculateLineIntersection at h
  split at h
  · cases h
  · cases hi : calculateIntersection p1 p2 p3 p4 with
    | none => rw [hi] at h; cases h
    | some i =>
      rw [hi] at h
      dsimp only at h
      split at h
      · rename_i hb
        simp only [Option.some.injEq] at h
        exact ⟨i, rfl, h.symm, hb⟩
      · cases h

end RiveQtPath

/-! ### Corner order of the overlap test -/

theorem edgeLoop_sameCyclicOrder (chkEdge : TriPoint → TriPoint → TriPoint → ℚ → Bool)
    (s s' o o' : Tri) (eps : ℚ) (hs : sameCyclicOrder s' s) (ho : sameCyclicOrder o' o) :
    TriTri2D.edgeLoop chkEdge s' o' eps = TriTri2D.edgeLoop chkEdge s o eps := by
  have hr : List.range 3 = [0, 1, 2] := rfl
  obtain ⟨a, b, c⟩ := s
  obtain ⟨d, e, f⟩ := o
  rcases hs with rfl | rfl | rfl <;> rcases ho with rfl | rfl | rfl <;>
    simp only [TriTri2D.edgeLoop, hr, List.any_cons, List.any_nil, Tri.get, Bool.or_false] <;>
    generalize chkEdge a b d eps = x1 <;> generalize chkEdge a b e eps = x2 <;>
    generalize chkEdge a b f eps = x3 <;> generalize chkEdge b c d eps = y1 <;>
    generalize chkEdge b c e eps = y2 <;> generalize chkEdge b c f eps = y3 <;>
    generalize chkEdge c a d eps = z1 <;> generalize chkEdge c a e eps = z2 <;>
    generalize chkEdge c a f eps = z3 <;>
    cases x1 <;> cases x2 <;> cases x3 <;> cases y1 <;> cases y2 <;> cases y3 <;>
    cases z1 <;> cases z2 <;> cases z3 <;> rfl

theorem checkTriWinding_sameCorners (p1 p2 p3 a b c : QVector2D)
    (hc : sameCorners p1 p2 p3 a b c) (h : Det2D a b c ≠ 0) :
    sameCyclicOrder (CheckTriWinding ⟨p1, p2, p3⟩) (CheckTriWinding ⟨a, b, c⟩) := by
  have e1 : Det2D b c a = Det2D a b c := by simp only [Det2D]; ring
  have e2 : Det2D c a b = Det2D a b c := by simp only [Det2D]; ring
  have e3 : Det2D a c b = -Det2D a b c := by simp only [Det2D]; ring
  have e4 : Det2D c b a = -Det2D a b c := by simp only [Det2D]; ring
  have e5 : Det2D b a c = -Det2D a b c := by simp only [Det2D]; ring
  rcases lt_or_gt_of_ne h with hneg | hpos
  · have n1 : ¬ (-Det2D a b c < 0) := by linarith
    obtain hc | hc | hc | hc | hc | hc := hc <;> obtain ⟨rfl, rfl, rfl⟩ := hc <;>
      simp only [CheckTriWinding, e1, e2, e3, e4, e5, hneg, n1, if_true, if_false, sameCyclicOrder,
        Tri.mk.injEq, true_and, and_true, and_self, or_true, true_or]
  · have n0 : ¬ (Det2D a b c < 0) := by linarith
    have n1 : -Det2D a b c < 0 := by linarith
    obtain hc | hc | hc | hc | hc | hc := hc <;> obtain ⟨rfl, rfl, rfl⟩ := hc <;>
      simp only [CheckTriWinding, e1, e2, e3, e4, e5, n0, n1, if_true, if_false, sameCyclicOrder,
        Tri.mk.injEq, true_and, and_true, and_self, or_true, true_or]

namespace RiveQtPath

/-- In exact arithmetic, for triangles of non-zero area `doTrianglesOverlap` does not depend on
the order or winding in which the corners of each triangle are given: when `p1 p2 p3` are
the corners `a b c` in some order and `p4 p5 p6` are the corners `d e f` in some order,
`doTrianglesOverlap p1 p2 p3 p4 p5 p6 = doTrianglesOverlap a b c d e f`. -/
theorem doTrianglesOverlap_corner_order (p1 p2 p3 p4 p5 p6 a b c d e f : QVector2D)
    (h1 : sameCorners p1 p2 p3 a b c) (h2 : sameCorners p4 p5 p6 d e f)
    (hd1 : Det2D a b c ≠ 0) (hd2 : Det2D d e f ≠ 0) :
    doTrianglesOverlap p1 p2 p3 p4 p5 p6 = doTrianglesOverlap a b c d e f := by
  have r1 := checkTriWinding_sameCorners p1 p2 p3 a b c h1 hd1
  have r2 := checkTriWinding_sameCorners p4 p5 p6 d e f h2 hd2
  unfold doTrianglesOverlap TriTri2D
  simp only [Bool.false_eq_true, if_false]
  rw [edgeLoop_sameCyclicOrder _ _ _ _ _ _ r1 r2, edgeLoop_sameCyclicOrder _ _ _ _ _ _ r2 r1]

theorem doTrianglesOverlap_corner_order_witness :
    sameCorners ⟨5, 10⟩ ⟨10, 1⟩ ⟨1, 1⟩ ⟨1, 1⟩ ⟨10, 1⟩ ⟨5, 10⟩
      ∧ sameCorners ⟨9, 9⟩ ⟨5, 0⟩ ⟨1, 9⟩ ⟨5, 0⟩ ⟨1, 9⟩ ⟨9, 9⟩
      ∧ Det2D ⟨1, 1⟩ ⟨10, 1⟩ ⟨5, 10⟩ ≠ 0 ∧ Det2D ⟨5, 0⟩ ⟨1, 9⟩ ⟨9, 9⟩ ≠ 0
      ∧ doTrianglesOverlap ⟨1, 1⟩ ⟨10, 1⟩ ⟨5, 10⟩ ⟨5, 0⟩ ⟨1, 9⟩ ⟨9, 9⟩ = true
      ∧ doTrianglesOverlap ⟨5, 10⟩ ⟨10, 1⟩ ⟨1, 1⟩ ⟨9, 9⟩ ⟨5, 0⟩ ⟨1, 9⟩
        = doTrianglesOverlap ⟨1, 1⟩ ⟨10, 1⟩ ⟨5, 10⟩ ⟨5, 0⟩ ⟨1, 9⟩ ⟨9, 9⟩ :=
  have h1 : sameCorners ⟨5, 10⟩ ⟨10, 1⟩ ⟨1, 1⟩ ⟨1, 1⟩ ⟨10, 1⟩ ⟨5, 10⟩ :=
    Or.inr (Or.inr (Or.inr (Or.inr (Or.inl ⟨rfl, rfl, rfl⟩))))
  have h2 : sameCorners ⟨9, 9⟩ ⟨5, 0⟩ ⟨1, 9⟩ ⟨5, 0⟩ ⟨1, 9⟩ ⟨9, 9⟩ :=
    Or.inr (Or.inr (Or.inl ⟨rfl, rfl, rfl⟩))
  have d1 : Det2D ⟨1, 1⟩ ⟨10, 1⟩ ⟨5, 10⟩ ≠ 0 := by decide!
  have d2 : Det2D ⟨5, 0⟩ ⟨1, 9⟩ ⟨9, 9⟩ ≠ 0 := by decide!
  ⟨h1, h2, d1, d2, by decide!, doTrianglesOverlap_corner_order _ _ _ _ _ _ _ _ _ _ _ _ h1 h2 d1 d2⟩

end RiveQtPath

/-! ### The overlap test in binary32 -/

/-- The rounding at a few values: a value that needs no rounding, the nearest `float` below
one third, and two ties, both rounded to the even neighbour. -/
theorem Binary32.round_examples :
    Binary32.round (-919.875) = -919.875
      ∧ Binary32.round (1 / 3) = 11184811 / 33554432
      ∧ Binary32.round 16777217 = 16777216 ∧ Binary32.round 16777219 = 16777220 := by
  refine ⟨by decide!, by decide!, by decide!, by decide!⟩

theorem edgeLoop_congr (chk1 chk2 : TriPoint → TriPoint → TriPoint → ℚ → Bool) (s o : Tri)
    (eps : ℚ)
    (h : ∀ i j k : Nat, chk1 (s.get i) (s.get j) (o.get k) eps
      = chk2 (s.get i) (s.get j) (o.get k) eps) :
    TriTri2D.edgeLoop chk1 s o eps = TriTri2D.edgeLoop chk2 s o eps := by
  unfold TriTri2D.edgeLoop
  simp only [h]

theorem Tri.get_mem (t : Tri) (i : Nat) : t.get i ∈ [t.p0, t.p1, t.p2] := by
  unfold Tri.get
  split <;> simp

theorem binary32_checkTriWinding_eq (t : Tri)
    (h : Binary32.Det2D t.p0 t.p1 t.p2 = Det2D t.p0 t.p1 t.p2) :
    Binary32.CheckTriWinding t = CheckTriWinding t := by
  unfold Binary32.CheckTriWinding CheckTriWinding
  rw [h]

theorem checkTriWinding_corners (t : Tri) (q : QVector2D)
    (hq : q ∈ [(CheckTriWinding t).p0, (CheckTriWinding t).p1, (CheckTriWinding t).p2]) :
    q ∈ [t.p0, t.p1, t.p2] := by
  unfold CheckTriWinding at hq
  by_cases hd : Det2D t.p0 t.p1 t.p2 < 0
  · simp only [hd, if_true, List.mem_cons, List.mem_singleton, List.not_mem_nil,
      or_false] at hq ⊢
    tauto
  · simpa only [hd, if_false] using hq

/-- When every determinant of three of the six corners is computed without rounding error,
the test in `float` operations gives the answer of the test in exact arithmetic. -/
theorem binary32_doTrianglesOverlap_eq (a b c d e f : QVector2D)
    (h : DetExact32 [a, b, c, d, e, f]) :
    Binary32.doTrianglesOverlap a b c d e f = RiveQtPath.doTrianglesOverlap a b c d e f := by
  have hsub1 : ∀ q ∈ [a, b, c], q ∈ [a, b, c, d, e, f] := by
    intro q hq
    simp only [List.mem_cons, List.mem_singleton, List.not_mem_nil, or_false] at hq ⊢
    tauto
  have hsub2 : ∀ q ∈ [d, e, f], q ∈ [a, b, c, d, e, f] := by
    intro q hq
    simp only [List.mem_cons, List.mem_singleton, List.not_mem_nil, or_false] at hq ⊢
    tauto
  have w1 : Binary32.CheckTriWinding ⟨a, b, c⟩ = CheckTriWinding ⟨a, b, c⟩ :=
    binary32_checkTriWinding_eq _ (h a (by simp) b (by simp) c (by simp))
  have w2 : Binary32.CheckTriWinding ⟨d, e, f⟩ = CheckTriWinding ⟨d, e, f⟩ :=
    binary32_checkTriWinding_eq _ (h d (by simp) e (by simp) f (by simp))
  have m1 : ∀ i, (CheckTriWinding ⟨a, b, c⟩).get i ∈ [a, b, c, d, e, f] := fun i =>
    hsub1 _ (checkTriWinding_corners ⟨a, b, c⟩ _ (Tri.get_mem _ i))
  have m2 : ∀ i, (CheckTriWinding ⟨d, e, f⟩).get i ∈ [a, b, c, d, e, f] := fun i =>
    hsub2 _ (checkTriWinding_corners ⟨d, e, f⟩ _ (Tri.get_mem _ i))
  have e1 : TriTri2D.edgeLoop Binary32.BoundaryDoesntCollideChk (CheckTriWinding ⟨a, b, c⟩)
      (CheckTriWinding ⟨d, e, f⟩) 0.001
      = TriTri2D.edgeLoop BoundaryDoesntCollideChk (CheckTriWinding ⟨a, b, c⟩)
        (CheckTriWinding ⟨d, e, f⟩) 0.001 := by
    apply edgeLoop_congr
    intro i j k
    unfold Binary32.BoundaryDoesntCollideChk BoundaryDoesntCollideChk
    rw [h _ (m1 i) _ (m1 j) _ (m2 k)]
  have e2 : TriTri2D.edgeLoop Binary32.BoundaryDoesntCollideChk (CheckTriWinding ⟨d, e, f⟩)
      (CheckTriWinding ⟨a, b, c⟩) 0.001
      = TriTri2D.edgeLoop BoundaryDoesntCollideChk (CheckTriWinding ⟨d, e, f⟩)
        (CheckTriWinding ⟨a, b, c⟩) 0.001 := by
    apply edgeLoop_congr
    intro i j k
    unfold Binary32.BoundaryDoesntCollideChk BoundaryDoesntCollideChk
    rw [h _ (m2 i) _ (m2 j) _ (m1 k)]
  simp only [Binary32.doTrianglesOverlap, Binary32.TriTri2D, RiveQtPath.doTrianglesOverlap,
    TriTri2D, w1, w2, Bool.false_eq_true, if_false, e1, e2]

/-- A triangle whose corners all lie on the outer side of an edge of a counter-clockwise
triangle, or on its line, has no interior point in common with it. -/
theorem no_common_interior_of_separating_edge (a b c d e f : QVector2D)
    (hpos : 0 < Det2D a b c) (hd : Det2D a b d ≤ 0) (he : Det2D a b e ≤ 0)
    (hf : Det2D a b f ≤ 0) :
    ¬ ∃ p, strictlyInside a b c p ∧ strictlyInside d e f p := by
  rintro ⟨p, h1, h2⟩
  have s := strictlyInside_side a b c p h1
  have hp : 0 < Det2D a b p := by
    by_contra hn
    have : Det2D a b p ≤ 0 := not_lt.mp hn
    nlinarith [mul_nonneg (neg_nonneg.mpr this) hpos.le]
  have bary := Det2D_barycentric a b d e f p
  have hs := Det2D_split d e f p
  rcases h2 with ⟨g1, g2, g3⟩ | ⟨g1, g2, g3⟩
  · have hT : 0 < Det2D d e f := by linarith
    have l := mul_pos hT hp
    have r1 := mul_nonpos_of_nonneg_of_nonpos g2.le hd
    have r2 := mul_nonpos_of_nonneg_of_nonpos g3.le he
    have r3 := mul_nonpos_of_nonneg_of_nonpos g1.le hf
    linarith
  · have hT : Det2D d e f < 0 := by linarith
    have l := mul_neg_of_neg_of_pos hT hp
    have r1 := mul_nonneg_of_nonpos_of_nonpos (by linarith : Det2D e f p ≤ 0) hd
    have r2 := mul_nonneg_of_nonpos_of_nonpos (by linarith : Det2D f d p ≤ 0) he
    have r3 := mul_nonneg_of_nonpos_of_nonpos (by linarith : Det2D d e p ≤ 0) hf
    linarith

theorem detExact32_of_sameCorners (p1 p2 p3 p4 p5 p6 a b c d e f : QVector2D)
    (h1 : sameCorners p1 p2 p3 a b c) (h2 : sameCorners p4 p5 p6 d e f)
    (h : DetExact32 [a, b, c, d, e, f]) : DetExact32 [p1, p2, p3, p4, p5, p6] := by
  have hm : ∀ q ∈ [p1, p2, p3, p4, p5, p6], q ∈ [a, b, c, d, e, f] := by
    intro q hq
    simp only [List.mem_cons, List.mem_singleton, List.not_mem_nil, or_false] at hq ⊢
    unfold sameCorners at h1 h2
    rcases h1 with ⟨r1, r2, r3⟩ | ⟨r1, r2, r3⟩ | ⟨r1, r2, r3⟩ | ⟨r1, r2, r3⟩ | ⟨r1, r2, r3⟩
      | ⟨r1, r2, r3⟩ <;>
    rcases h2 with ⟨s1, s2, s3⟩ | ⟨s1, s2, s3⟩ | ⟨s1, s2, s3⟩ | ⟨s1, s2, s3⟩ | ⟨s1, s2, s3⟩
      | ⟨s1, s2, s3⟩ <;>
    subst r1 r2 r3 s1 s2 s3 <;> tauto
  intro u hu v hv w hw
  exact h u (hm u hu) v (hm v hv) w (hm w hw)

namespace RiveQtPath

end RiveQtPath

namespace RiveQtPath

/-- C5: two triangles of non-zero area that touch in one point and have no interior point
in common, for which the program answers true. The corner `(819.8359375, -257)` of the
second triangle lies on the edge from `(919.875, -282.375)` to `(-680.75, 123.625)` of the
first, one sixteenth of the way along, and its other two corners lie on the outer side of
that edge. The determinant of the touching corner against the edge is `0`; in `float`
operations it comes out as `1/32`, above the threshold `0.001`, so the edge does not
separate and no other edge does. In exact arithmetic the test answers false, and so does
the test in `float` operations for all triangles of non-zero area without a common
interior point whose determinants are computed without rounding error. -/
theorem binary32_touching_triangles_reported_overlapping :
    (AreFloats32 [⟨919.875, -282.375⟩, ⟨-680.75, 123.625⟩, ⟨122.875, -731.75⟩,
          ⟨819.8359375, -257⟩, ⟨-970.875, 637.0625⟩, ⟨988.375, 487.5625⟩]
      ∧ 0 < Det2D ⟨919.875, -282.375⟩ ⟨-680.75, 123.625⟩ ⟨122.875, -731.75⟩
      ∧ Det2D ⟨819.8359375, -257⟩ ⟨-970.875, 637.0625⟩ ⟨988.375, 487.5625⟩ ≠ 0
      ∧ Det2D ⟨919.875, -282.375⟩ ⟨-680.75, 123.625⟩ ⟨819.8359375, -257⟩ = 0
      ∧ Det2D ⟨919.875, -282.375⟩ ⟨-680.75, 123.625⟩ ⟨-970.875, 637.0625⟩ < 0
      ∧ Det2D ⟨919.875, -282.375⟩ ⟨-680.75, 123.625⟩ ⟨988.375, 487.5625⟩ < 0
      ∧ (¬ ∃ p, strictlyInside ⟨919.875, -282.375⟩ ⟨-680.75, 123.625⟩ ⟨122.875, -731.75⟩ p
          ∧ strictlyInside ⟨819.8359375, -257⟩ ⟨-970.875, 637.0625⟩ ⟨988.375, 487.5625⟩ p)
      ∧ doTrianglesOverlap ⟨919.875, -282.375⟩ ⟨-680.75, 123.625⟩ ⟨122.875, -731.75⟩
          ⟨819.8359375, -257⟩ ⟨-970.875, 637.0625⟩ ⟨988.375, 487.5625⟩ = false
      ∧ Binary32.Det2D ⟨919.875, -282.375⟩ ⟨-680.75, 123.625⟩ ⟨819.8359375, -257⟩ = 1 / 32
      ∧ Binary32.doTrianglesOverlap ⟨919.875, -282.375⟩ ⟨-680.75, 123.625⟩
          ⟨122.875, -731.75⟩ ⟨819.8359375, -257⟩ ⟨-970.875, 637.0625⟩ ⟨988.375, 487.5625⟩
        = true)
    ∧ ∀ a b c d e f : QVector2D, DetExact32 [a, b, c, d, e, f] → Det2D a b c ≠ 0 →
        Det2D d e f ≠ 0 → (¬ ∃ p, strictlyInside a b c p ∧ strictlyInside d e f p) →
        Binary32.doTrianglesOverlap a b c d e f = false := by
  have h1 : 0 < Det2D ⟨919.875, -282.375⟩ ⟨-680.75, 123.625⟩ ⟨122.875, -731.75⟩ := by
    simp only [Det2D]; norm_num
  have h2 : Det2D ⟨919.875, -282.375⟩ ⟨-680.75, 123.625⟩ ⟨819.8359375, -257⟩ = 0 := by
    simp only [Det2D]; norm_num
  have h3 : Det2D ⟨919.875, -282.375⟩ ⟨-680.75, 123.625⟩ ⟨-970.875, 637.0625⟩ < 0 := by
    simp only [Det2D]; norm_num
  have h4 : Det2D ⟨919.875, -282.375⟩ ⟨-680.75, 123.625⟩ ⟨988.375, 487.5625⟩ < 0 := by
    simp only [Det2D]; norm_num
  refine ⟨⟨by decide!, h1, ?_, h2, h3, h4,
    no_common_interior_of_separating_edge _ _ _ _ _ _ h1 h2.le h3.le h4.le, by decide!,
    by decide!, by decide!⟩, ?_⟩
  · simp only [Det2D]; norm_num
  · intro a b c d e f hexact hd1 hd2 hno
    rw [binary32_doTrianglesOverlap_eq a b c d e f hexact]
    exact doTrianglesOverlap_false_of_disjoint_interiors a b c d e f hd1 hd2 hno

/-- C6: two triangles of non-zero area that share the edge `a b` and lie on opposite sides
of it, for which the program answers true. With `a = (332.3388671875, 852.568359375)`,
`b = (-909.4150390625, -83.5380859375)`, `c = (-298.1435546875, -283.5087890625)` and
`d = (-736.822265625, 46.572414398193359375)`, the determinant of `a b c` is positive and
that of `a b d` is negative (about `-0.0144`), but in `float` operations the determinant
of `a b d` comes out as `1/16`: the second triangle is not brought to counter-clockwise
order and no edge separates. In exact arithmetic the test answers false, and so does the
test in `float` operations for all such pairs, in every order of the corners, whose
determinants are computed without rounding error. -/
theorem binary32_shared_edge_reported_overlapping :
    (AreFloats32 [⟨332.3388671875, 852.568359375⟩, ⟨-909.4150390625, -83.5380859375⟩,
          ⟨-298.1435546875, -283.5087890625⟩, ⟨-736.822265625, 46.572414398193359375⟩]
      ∧ 0 < Det2D ⟨332.3388671875, 852.568359375⟩ ⟨-909.4150390625, -83.5380859375⟩
          ⟨-298.1435546875, -283.5087890625⟩
      ∧ Det2D ⟨332.3388671875, 852.568359375⟩ ⟨-909.4150390625, -83.5380859375⟩
          ⟨-736.822265625, 46.572414398193359375⟩ < 0
      ∧ doTrianglesOverlap ⟨332.3388671875, 852.568359375⟩ ⟨-909.4150390625, -83.5380859375⟩
          ⟨-298.1435546875, -283.5087890625⟩ ⟨332.3388671875, 852.568359375⟩
          ⟨-909.4150390625, -83.5380859375⟩ ⟨-736.822265625, 46.572414398193359375⟩ = false
      ∧ Binary32.Det2D ⟨332.3388671875, 852.568359375⟩ ⟨-909.4150390625, -83.5380859375⟩
          ⟨-736.822265625, 46.572414398193359375⟩ = 1 / 16
      ∧ Binary32.doTrianglesOverlap ⟨332.3388671875, 852.568359375⟩
          ⟨-909.4150390625, -83.5380859375⟩ ⟨-298.1435546875, -283.5087890625⟩
          ⟨332.3388671875, 852.568359375⟩ ⟨-909.4150390625, -83.5380859375⟩
          ⟨-736.822265625, 46.572414398193359375⟩ = true)
    ∧ ∀ a b c d p1 p2 p3 p4 p5 p6 : QVector2D, sameCorners p1 p2 p3 a b c →
        sameCorners p4 p5 p6 a b d → Det2D a b c * Det2D a b d < 0 →
        DetExact32 [p1, p2, p3, p4, p5, p6] →
        Binary32.doTrianglesOverlap p1 p2 p3 p4 p5 p6 = false := by
  refine ⟨⟨by decide!, ?_, ?_, by decide!, by decide!, by decide!⟩, ?_⟩
  · simp only [Det2D]; norm_num
  · simp only [Det2D]; norm_num
  · intro a b c d p1 p2 p3 p4 p5 p6 hc1 hc2 hopp hexact
    rw [binary32_doTrianglesOverlap_eq p1 p2 p3 p4 p5 p6 hexact]
    exact doTrianglesOverlap_false_of_shared_edge a b c d p1 p2 p3 p4 p5 p6 hc1 hc2 hopp

/-- C40: two triangles of non-zero area for which the answer of the program depends on the
order of the corners of the first: as given the answer is true, with its first two corners
exchanged it is false. The first triangle is a needle (determinant about `-0.0103`) whose
determinant comes out as `0` in `float` operations in both orders, so `CheckTriWinding`
exchanges no corners in either order and the edge loop runs on a clockwise triangle in one
of them. In exact arithmetic both answers are true, and for triangles of non-zero area whose
determinants are computed without rounding error the answer in `float` operations does
not depend on the order of the corners of either triangle. -/
theorem binary32_overlap_depends_on_corner_order :
    (AreFloats32 [⟨-375.0634765625, 577.1416015625⟩, ⟨-923.7587890625, -837.5986328125⟩,
          ⟨-311.158721923828125, 741.91180419921875⟩,
          ⟨-689.42718505859375, -233.4046783447265625⟩, ⟨-68.77734375, -129.9658203125⟩,
          ⟨441.388671875, -421.423828125⟩]
      ∧ Det2D ⟨-375.0634765625, 577.1416015625⟩ ⟨-923.7587890625, -837.5986328125⟩
          ⟨-311.158721923828125, 741.91180419921875⟩ ≠ 0
      ∧ Det2D ⟨-689.42718505859375, -233.4046783447265625⟩ ⟨-68.77734375, -129.9658203125⟩
          ⟨441.388671875, -421.423828125⟩ ≠ 0
      ∧ Binary32.Det2D ⟨-375.0634765625, 577.1416015625⟩ ⟨-923.7587890625, -837.5986328125⟩
          ⟨-311.158721923828125, 741.91180419921875⟩ = 0
      ∧ Binary32.Det2D ⟨-923.7587890625, -837.5986328125⟩ ⟨-375.0634765625, 577.1416015625⟩
          ⟨-311.158721923828125, 741.91180419921875⟩ = 0
      ∧ Binary32.doTrianglesOverlap ⟨-375.0634765625, 577.1416015625⟩
          ⟨-923.7587890625, -837.5986328125⟩ ⟨-311.158721923828125, 741.91180419921875⟩
          ⟨-689.42718505859375, -233.4046783447265625⟩ ⟨-68.77734375, -129.9658203125⟩
          ⟨441.388671875, -421.423828125⟩ = true
      ∧ Binary32.doTrianglesOverlap ⟨-923.7587890625, -837.5986328125⟩
          ⟨-375.0634765625, 577.1416015625⟩ ⟨-311.158721923828125, 741.91180419921875⟩
          ⟨-689.42718505859375, -233.4046783447265625⟩ ⟨-68.77734375, -129.9658203125⟩
          ⟨441.388671875, -421.423828125⟩ = false
      ∧ doTrianglesOverlap ⟨-375.0634765625, 577.1416015625⟩
          ⟨-923.7587890625, -837.5986328125⟩ ⟨-311.158721923828125, 741.91180419921875⟩
          ⟨-689.42718505859375, -233.4046783447265625⟩ ⟨-68.77734375, -129.9658203125⟩
          ⟨441.388671875, -421.423828125⟩ = true
      ∧ doTrianglesOverlap ⟨-923.7587890625, -837.5986328125⟩
          ⟨-375.0634765625, 577.1416015625⟩ ⟨-311.158721923828125, 741.91180419921875⟩
          ⟨-689.42718505859375, -233.4046783447265625⟩ ⟨-68.77734375, -129.9658203125⟩
          ⟨441.388671875, -421.423828125⟩ = true)
    ∧ ∀ p1 p2 p3 p4 p5 p6 a b c d e f : QVector2D, sameCorners p1 p2 p3 a b c →
        sameCorners p4 p5 p6 d e f → Det2D a b c ≠ 0 → Det2D d e f ≠ 0 →
        DetExact32 [a, b, c, d, e, f] →
        Binary32.doTrianglesOverlap p1 p2 p3 p4 p5 p6
          = Binary32.doTrianglesOverlap a b c d e f := by
  refine ⟨⟨by decide!, ?_, ?_, by decide!, by decide!, by decide!, by decide!, by decide!,
    by decide!⟩, ?_⟩
  · simp only [Det2D]; norm_num
  · simp only [Det2D]; norm_num
  · intro p1 p2 p3 p4 p5 p6 a b c d e f h1 h2 hd1 hd2 hexact
    rw [binary32_doTrianglesOverlap_eq a b c d e f hexact,
      binary32_doTrianglesOverlap_eq p1 p2 p3 p4 p5 p6
        (detExact32_of_sameCorners p1 p2 p3 p4 p5 p6 a b c d e f h1 h2 hexact)]
    exact doTrianglesOverlap_corner_order p1 p2 p3 p4 p5 p6 a b c d e f h1 h2 hd1 hd2

end RiveQtPath

/-! ### The point-in-polygon test in binary32 -/

namespace RiveQtPath

/-- C38: a triangle of non-zero area and a point on one of its edges for which the program
answers true. The point `p = (-893.614013671875, 227.98455810546875)` lies on the edge from
`a = (-606.3603515625, -796.38671875)` to `b = (-959.9033203125, 464.3779296875)`,
thirteen sixteenths of the way along, so it is not strictly inside and the cross product
of the edge test is `0`. In `float` operations the cross product comes out as `-1/32`, the
edge test does not fire, the ray test counts one crossing and the answer is true. In exact
arithmetic the answer is false, as it is for every point that is not strictly inside a
triangle. -/
theorem binary32_isInsidePolygon_true_on_edge :
    AreFloats32 [⟨-606.3603515625, -796.38671875⟩, ⟨-959.9033203125, 464.3779296875⟩,
        ⟨-435.7607421875, -621.66015625⟩, ⟨-893.614013671875, 227.98455810546875⟩]
      ∧ Det2D ⟨-606.3603515625, -796.38671875⟩ ⟨-959.9033203125, 464.3779296875⟩
          ⟨-435.7607421875, -621.66015625⟩ ≠ 0
      ∧ onClosedSegment ⟨-606.3603515625, -796.38671875⟩ ⟨-959.9033203125, 464.3779296875⟩
          ⟨-893.614013671875, 227.98455810546875⟩
      ∧ ¬ strictlyInside ⟨-606.3603515625, -796.38671875⟩ ⟨-959.9033203125, 464.3779296875⟩
          ⟨-435.7607421875, -621.66015625⟩ ⟨-893.614013671875, 227.98455810546875⟩
      ∧ crossProduct
          ((⟨-959.9033203125, 464.3779296875⟩ : QVector2D) - ⟨-606.3603515625, -796.38671875⟩)
          ((⟨-893.614013671875, 227.98455810546875⟩ : QVector2D)
            - ⟨-606.3603515625, -796.38671875⟩) = 0
      ∧ isInsidePolygon [⟨-606.3603515625, -796.38671875⟩, ⟨-959.9033203125, 464.3779296875⟩,
          ⟨-435.7607421875, -621.66015625⟩] ⟨-893.614013671875, 227.98455810546875⟩ = false
      ∧ Binary32.crossProduct
          (Binary32.sub ⟨-959.9033203125, 464.3779296875⟩ ⟨-606.3603515625, -796.38671875⟩)
          (Binary32.sub ⟨-893.614013671875, 227.98455810546875⟩
            ⟨-606.3603515625, -796.38671875⟩) = -1 / 32
      ∧ Binary32.isInsidePolygon [⟨-606.3603515625, -796.38671875⟩,
          ⟨-959.9033203125, 464.3779296875⟩, ⟨-435.7607421875, -621.66015625⟩]
          ⟨-893.614013671875, 227.98455810546875⟩ = true
      ∧ ∀ a b c p : QVector2D, isInsidePolygon [a, b, c] p = true ↔ strictlyInside a b c p := by
  have hex : isInsidePolygon [⟨-606.3603515625, -796.38671875⟩,
      ⟨-959.9033203125, 464.3779296875⟩, ⟨-435.7607421875, -621.66015625⟩]
      ⟨-893.614013671875, 227.98455810546875⟩ = false := by decide!
  refine ⟨by decide!, ?_, ⟨13 / 16, by norm_num, by norm_num, by decide!⟩, ?_, by decide!, hex,
    by decide!, by decide!, fun a b c p => (isInsidePolygon_triangle_iff_strictlyInside a b c p).1⟩
  · simp only [Det2D]; norm_num
  · intro hs
    rw [← (isInsidePolygon_triangle_iff_strictlyInside _ _ _ _).1, hex] at hs
    cases hs

end RiveQtPath

/-! ### A path set over clean caches -/

namespace RiveQtPath

/-- C21: an object with an empty path for which `toVertices()` and `toVerticesLine(pen)`
return a mesh that is not empty. The rectangle is built on a new path and a mesh is
requested, which marks the cache clean; then `setQPainterPath` is called with a
default-constructed (empty) path. `setQPainterPath` sets neither flag, so the next request
returns the mesh of the rectangle again, for the fill and for the stroke (whatever the
pen). For every object with a clean cache, the request after `setQPainterPath` returns the
cached mesh whatever the new path is. -/
theorem setQPainterPath_empty_returns_stale_meshes :
    ((setQPainterPath (toVertices referencePathTriangulate (rectanglePath referenceOps 10)).2
          QPainterPath.defaultConstructed).m_qPainterPath.isEmpty = true
      ∧ (toVertices referencePathTriangulate (rectanglePath referenceOps 10)).1
        = [[⟨0, 0⟩, ⟨10, 0⟩, ⟨10, 10⟩, ⟨0, 0⟩, ⟨10, 10⟩, ⟨0, 10⟩, ⟨0, 0⟩, ⟨0, 10⟩, ⟨0, 0⟩]]
      ∧ (toVertices referencePathTriangulate
          (setQPainterPath (toVertices referencePathTriangulate (rectanglePath referenceOps 10)).2
            QPainterPath.defaultConstructed)).1
        = (toVertices referencePathTriangulate (rectanglePath referenceOps 10)).1)
    ∧ (∃ (mesh : List (List QVector2D)) (s1 : RiveQtPath),
        toVerticesLine fanTriangulate referenceNormalized referenceLibM 20
            (rectanglePath referenceOps 10) ⟨2, PenJoinStyle.BevelJoin, PenCapStyle.FlatCap⟩
          = some (mesh, s1)
        ∧ mesh ≠ []
        ∧ (setQPainterPath s1 QPainterPath.defaultConstructed).m_qPainterPath.isEmpty = true
        ∧ toVerticesLine fanTriangulate referenceNormalized referenceLibM 20
            (setQPainterPath s1 QPainterPath.defaultConstructed)
            ⟨5, PenJoinStyle.RoundJoin, PenCapStyle.RoundCap⟩
          = some (mesh, setQPainterPath s1 QPainterPath.defaultConstructed))
    ∧ (∀ (qTriangulatePath : QPainterPath → QTriangleSet) (s : RiveQtPath)
        (path : QPainterPath), s.m_pathSegmentDataDirty = false →
        (toVertices qTriangulatePath (setQPainterPath s path)).1 = s.m_pathVertices)
    ∧ ∀ (qTriangulate : List ℚ → QTriangleSet) (normalized : QVector2D → QVector2D)
        (libm : LibM) (fuel : Nat) (s : RiveQtPath) (path : QPainterPath) (pen : QPen),
        s.m_pathSegmentOutlineDataDirty = false →
        toVerticesLine qTriangulate normalized libm fuel (setQPainterPath s path) pen
          = some (s.m_pathOutlineVertices, setQPainterPath s path) := by
  refine ⟨⟨by decide!, by decide!, by decide!⟩, ?_, ?_, ?_⟩
  · have hne : (toVerticesLine fanTriangulate referenceNormalized referenceLibM 20
        (rectanglePath referenceOps 10)
        ⟨2, PenJoinStyle.BevelJoin, PenCapStyle.FlatCap⟩).map (fun r => r.1.isEmpty)
        = some false := by decide!
    cases hr : toVerticesLine fanTriangulate referenceNormalized referenceLibM 20
        (rectanglePath referenceOps 10) ⟨2, PenJoinStyle.BevelJoin, PenCapStyle.FlatCap⟩ with
    | none => rw [hr] at hne; cases hne
    | some r =>
      obtain ⟨mesh, s1⟩ := r
      rw [hr] at hne
      have hc := toVerticesLine_clean _ _ _ _ _ _ mesh s1 hr
      refine ⟨mesh, s1, rfl, ?_, rfl, ?_⟩
      · intro h0
        rw [h0] at hne
        simp at hne
      · have := toVerticesLine_of_clean fanTriangulate referenceNormalized referenceLibM 20
          (setQPainterPath s1 QPainterPath.defaultConstructed)
          ⟨5, PenJoinStyle.RoundJoin, PenCapStyle.RoundCap⟩ hc.1
        rw [this]
        have hm : (setQPainterPath s1 QPainterPath.defaultConstructed).m_pathOutlineVertices
            = mesh := hc.2
        rw [hm]
  · intro qTriangulatePath s path h
    unfold toVertices setQPainterPath
    simp [h]
  · intro qTriangulate normalized libm fuel s path pen h
    exact toVerticesLine_of_clean qTriangulate normalized libm fuel (setQPainterPath s path) pen h

end RiveQtPath

/-! ### Tangents in the stored outline data -/

namespace RiveQtPath

theorem setLastTangent_append (pre : List PathDataPoint) (x : PathDataPoint)
    (tangent : QVector2D) :
    updatePathSegmentsOutlineData.setLastTangent (pre ++ [x]) tangent
      = pre ++ [{ x with tangent := tangent }] := by
  unfold updatePathSegmentsOutlineData.setLastTangent
  have hl : (pre ++ [x]).length - 1 = pre.length := by simp
  rw [hl]
  have hx : QVector.at (pre ++ [x]) pre.length = x := by
    simp [QVector.at, List.getD_eq_getElem?_getD]
  rw [hx]
  simp

theorem at_last_append (pre : List PathDataPoint) (x : PathDataPoint) :
    QVector.at (pre ++ [x]) ((pre ++ [x]).length - 1) = x := by
  simp [QVector.at, List.getD_eq_getElem?_getD]

theorem outlineLoop_outline_grows (normalized : QVector2D → QVector2D) (path : QPainterPath)
    (n : Nat) : ∀ (fuel i : Nat) (outline : List (List PathDataPoint))
      (pathDataEnhanced : List PathDataPoint) (currentStepIndex : Nat),
    ∃ more, (updatePathSegmentsOutlineData.loop normalized path n fuel i outline
      pathDataEnhanced currentStepIndex).1 = outline ++ more := by
  intro fuel
  induction fuel with
  | zero => intro i outline pde step; exact ⟨[], by simp [updatePathSegmentsOutlineData.loop]⟩
  | succ fuel ih =>
    intro i outline pde step
    unfold updatePathSegmentsOutlineData.loop
    split
    · dsimp only
      split
      · split
        · obtain ⟨more, hm⟩ := ih (i + 1) (outline ++ [pde])
            [⟨⟨(path.elementAt i).x, (path.elementAt i).y⟩, ⟨0, 0⟩, 0⟩] 1
          exact ⟨[pde] ++ more, by rw [hm, List.append_assoc]⟩
        · exact ih _ _ _ _
      · exact ih _ _ _ _
      · exact ih _ _ _ _
      · exact ih _ _ _ _
    · exact ⟨[], by simp⟩

/-- A record that is followed in the run by another element keeps its place, its point and
its step index in the stored data; its tangent is kept when the next element is a move or a
line (or there is none) and is replaced by the start tangent of the next cubic when the
next element is a `CurveToElement`. -/
theorem outlineLoop_keeps_records (normalized : QVector2D → QVector2D) (path : QPainterPath)
    (n : Nat) (hn : 1 ≤ n) : ∀ (fuel i : Nat) (outline : List (List PathDataPoint))
      (pre : List PathDataPoint) (x : PathDataPoint) (currentStepIndex : Nat), pre ≠ [] →
    ∃ (x' : PathDataPoint) (rest : List PathDataPoint),
      ((updatePathSegmentsOutlineData.loop normalized path n fuel i outline (pre ++ [x])
            currentStepIndex).1
          ++ [(updatePathSegmentsOutlineData.loop normalized path n fuel i outline (pre ++ [x])
            currentStepIndex).2]).flatten
        = outline.flatten ++ pre ++ [x'] ++ rest
      ∧ x'.point = x.point ∧ x'.stepIndex = x.stepIndex
      ∧ ((fuel = 0 ∨ ¬ i < path.elementCount
            ∨ (path.elementAt i).type = ElementType.MoveToElement
            ∨ (path.elementAt i).type = ElementType.LineToElement) → x' = x)
      ∧ ((0 < fuel ∧ i < path.elementCount
            ∧ (path.elementAt i).type = ElementType.CurveToElement) →
          x'.tangent = cubicBezierTangent normalized x.point
            ⟨(path.elementAt i).x, (path.elementAt i).y⟩
            ⟨(path.elementAt (i + 1)).x, (path.elementAt (i + 1)).y⟩
            ⟨(path.elementAt (i + 2)).x, (path.elementAt (i + 2)).y⟩ 0) := by
  intro fuel
  induction fuel with
  | zero =>
    intro i outline pre x step hpre
    refine ⟨x, [], ?_, rfl, rfl, fun _ => rfl, fun h => absurd h.1 (lt_irrefl 0)⟩
    simp [updatePathSegmentsOutlineData.loop]
  | succ fuel ih =>
    intro i outline pre x step hpre
    have hlen : 0 < pre.length := List.length_pos.mpr hpre
    by_cases hi : i < path.elementCount
    · cases hty : (path.elementAt i).type with
      | MoveToElement =>
        have hstep : updatePathSegmentsOutlineData.loop normalized path n (fuel + 1) i outline
            (pre ++ [x]) step
            = updatePathSegmentsOutlineData.loop normalized path n fuel (i + 1)
                (outline ++ [pre ++ [x]])
                [⟨⟨(path.elementAt i).x, (path.elementAt i).y⟩, ⟨0, 0⟩, 0⟩] 1 := by
          conv_lhs => unfold updatePathSegmentsOutlineData.loop
          have : (pre ++ [x]).length > 1 := by simp; omega
          simp only [hi, if_true, hty, this]
        obtain ⟨more, hm⟩ := outlineLoop_outline_grows normalized path n fuel (i + 1)
          (outline ++ [pre ++ [x]])
          [⟨⟨(path.elementAt i).x, (path.elementAt i).y⟩, ⟨0, 0⟩, 0⟩] 1
        refine ⟨x, more.flatten ++ (updatePathSegmentsOutlineData.loop normalized path n fuel
          (i + 1) (outline ++ [pre ++ [x]])
          [⟨⟨(path.elementAt i).x, (path.elementAt i).y⟩, ⟨0, 0⟩, 0⟩] 1).2, ?_, rfl, rfl,
          fun _ => rfl, fun h => ?_⟩
        · rw [hstep, hm]
          simp [List.flatten_append]
        · cases h.2.2
      | LineToElement =>
        have hstep : updatePathSegmentsOutlineData.loop normalized path n (fuel + 1) i outline
            (pre ++ [x]) step
            = updatePathSegmentsOutlineData.loop normalized path n fuel (i + 1) outline
                ((pre ++ [x])
                  ++ [⟨⟨(path.elementAt i).x, (path.elementAt i).y⟩, ⟨0, 0⟩, step⟩])
                (step + 1) := by
          conv_lhs => unfold updatePathSegmentsOutlineData.loop
          simp only [hi, if_true, hty]
        obtain ⟨y', rest, hflat, _, _, _, _⟩ := ih (i + 1) outline (pre ++ [x])
          ⟨⟨(path.elementAt i).x, (path.elementAt i).y⟩, ⟨0, 0⟩, step⟩ (step + 1) (by simp)
        refine ⟨x, [y'] ++ rest, ?_, rfl, rfl, fun _ => rfl, fun h => ?_⟩
        · rw [hstep, hflat]
          simp [List.append_assoc]
        · cases h.2.2
      | CurveToElement =>
        obtain ⟨m, rfl⟩ : ∃ m, n = m + 1 := ⟨n - 1, by omega⟩
        have hstep : updatePathSegmentsOutlineData.loop normalized path (m + 1) (fuel + 1) i
            outline (pre ++ [x]) step
            = updatePathSegmentsOutlineData.loop normalized path (m + 1) fuel (i + 2 + 1) outline
                (updatePathSegmentsOutlineData.setLastTangent (pre ++ [x])
                    (cubicBezierTangent normalized
                      (QVector.at (pre ++ [x]) ((pre ++ [x]).length - 1)).point
                      ⟨(path.elementAt i).x, (path.elementAt i).y⟩
                      ⟨(path.elementAt (i + 1)).x, (path.elementAt (i + 1)).y⟩
                      ⟨(path.elementAt (i + 2)).x, (path.elementAt (i + 2)).y⟩ 0)
                  ++ updatePathSegmentsOutlineData.samples normalized
                    (QVector.at (pre ++ [x]) ((pre ++ [x]).length - 1)).point
                    ⟨(path.elementAt i).x, (path.elementAt i).y⟩
                    ⟨(path.elementAt (i + 1)).x, (path.elementAt (i + 1)).y⟩
                    ⟨(path.elementAt (i + 2)).x, (path.elementAt (i + 2)).y⟩ (m + 1) step
                    (m + 1) 1)
                (step + 1) := by
          conv_lhs => unfold updatePathSegmentsOutlineData.loop
          simp only [hi, if_true, hty]
        rw [at_last_append, setLastTangent_append] at hstep
        have hS : updatePathSegmentsOutlineData.samples normalized x.point
            ⟨(path.elementAt i).x, (path.elementAt i).y⟩
            ⟨(path.elementAt (i + 1)).x, (path.elementAt (i + 1)).y⟩
            ⟨(path.elementAt (i + 2)).x, (path.elementAt (i + 2)).y⟩ (m + 1) step (m + 1) 1
            ≠ [] := by
          intro h0
          have := samples_length normalized x.point
            ⟨(path.elementAt i).x, (path.elementAt i).y⟩
            ⟨(path.elementAt (i + 1)).x, (path.elementAt (i + 1)).y⟩
            ⟨(path.elementAt (i + 2)).x, (path.elementAt (i + 2)).y⟩ (m + 1) step (m + 1) 1
          rw [h0] at this
          cases this
        obtain ⟨init, last, hinit⟩ := (List.eq_nil_or_concat _).resolve_left hS
        rw [List.concat_eq_append] at hinit
        rw [hinit] at hstep
        have hre : (pre ++ [{ x with tangent := (cubicBezierTangent normalized x.point
              ⟨(path.elementAt i).x, (path.elementAt i).y⟩
              ⟨(path.elementAt (i + 1)).x, (path.elementAt (i + 1)).y⟩
              ⟨(path.elementAt (i + 2)).x, (path.elementAt (i + 2)).y⟩ 0) }])
            ++ (init ++ [last])
            = (pre ++ [{ x with tangent := (cubicBezierTangent normalized x.point
              ⟨(path.elementAt i).x, (path.elementAt i).y⟩
              ⟨(path.elementAt (i + 1)).x, (path.elementAt (i + 1)).y⟩
              ⟨(path.elementAt (i + 2)).x, (path.elementAt (i + 2)).y⟩ 0) }] ++ init)
              ++ [last] := by simp [List.append_assoc]
        rw [hre] at hstep
        obtain ⟨y', rest, hflat, _, _, _, _⟩ := ih (i + 2 + 1) outline
          (pre ++ [{ x with tangent := (cubicBezierTangent normalized x.point
              ⟨(path.elementAt i).x, (path.elementAt i).y⟩
              ⟨(path.elementAt (i + 1)).x, (path.elementAt (i + 1)).y⟩
              ⟨(path.elementAt (i + 2)).x, (path.elementAt (i + 2)).y⟩ 0) }] ++ init)
          last (step + 1) (by simp)
        refine ⟨{ x with tangent := (cubicBezierTangent normalized x.point
              ⟨(path.elementAt i).x, (path.elementAt i).y⟩
              ⟨(path.elementAt (i + 1)).x, (path.elementAt (i + 1)).y⟩
              ⟨(path.elementAt (i + 2)).x, (path.elementAt (i + 2)).y⟩ 0) },
          init ++ [y'] ++ rest, ?_, rfl, rfl, fun h => ?_, fun _ => rfl⟩
        · rw [hstep, hflat]
          simp [List.append_assoc]
        · rcases h with h | h | h | h
          · cases h
          · exact absurd hi h
          · cases h
          · cases h
      | CurveToDataElement =>
        have hstep : updatePathSegmentsOutlineData.loop normalized path n (fuel + 1) i outline
            (pre ++ [x]) step
            = updatePathSegmentsOutlineData.loop normalized path n fuel (i + 1) outline
                (pre ++ [x]) step := by
          conv_lhs => unfold updatePathSegmentsOutlineData.loop
          simp only [hi, if_true, hty]
        obtain ⟨x', rest, hflat, hp, hsx, _, _⟩ := ih (i + 1) outline pre x step hpre
        refine ⟨x', rest, ?_, hp, hsx, fun h => ?_, fun h => ?_⟩
        · rw [hstep, hflat]
        · rcases h with h | h | h | h
          · cases h
          · exact absurd hi h
          · cases h
          · cases h
        · cases h.2.2
    · have hstep : updatePathSegmentsOutlineData.loop normalized path n (fuel + 1) i outline
          (pre ++ [x]) step = (outline, pre ++ [x]) := by
        conv_lhs => unfold updatePathSegmentsOutlineData.loop
        simp only [hi, if_false]
      refine ⟨x, [], ?_, rfl, rfl, fun _ => rfl, fun h => absurd h.2.1 hi⟩
      rw [hstep]
      simp [List.flatten_append]

end RiveQtPath

namespace RiveQtPath

theorem outlineLoop_iteration (normalized : QVector2D → QVector2D) (path : QPainterPath)
    (n fuel i : Nat) (outline : List (List PathDataPoint)) (pathDataEnhanced : List PathDataPoint)
    (currentStepIndex : Nat) :
    updatePathSegmentsOutlineData.loop normalized path n (fuel + 1) i outline pathDataEnhanced
        currentStepIndex
      = updatePathSegmentsOutlineData.loop normalized path n fuel
          (updatePathSegmentsOutlineData.iteration normalized path n
            (i, outline, pathDataEnhanced, currentStepIndex)).1
          (updatePathSegmentsOutlineData.iteration normalized path n
            (i, outline, pathDataEnhanced, currentStepIndex)).2.1
          (updatePathSegmentsOutlineData.iteration normalized path n
            (i, outline, pathDataEnhanced, currentStepIndex)).2.2.1
          (updatePathSegmentsOutlineData.iteration normalized path n
            (i, outline, pathDataEnhanced, currentStepIndex)).2.2.2 := by
  conv_lhs => unfold updatePathSegmentsOutlineData.loop
  unfold updatePathSegmentsOutlineData.iteration
  by_cases hi : i < path.elementCount
  · simp only [hi, if_true]
    cases (path.elementAt i).type <;> rfl
  · simp only [hi, if_false]
    cases fuel with
    | zero => rfl
    | succ fuel =>
      unfold updatePathSegmentsOutlineData.loop
      simp only [hi, if_false]

theorem outlineLoop_stateAfter (normalized : QVector2D → QVector2D) (path : QPainterPath)
    (n fuel : Nat) : ∀ k : Nat,
    updatePathSegmentsOutlineData.loop normalized path n (fuel + k) 1 []
        [⟨⟨(path.elementAt 0).x, (path.elementAt 0).y⟩, ⟨0, 0⟩, 0⟩] 0
      = updatePathSegmentsOutlineData.loop normalized path n fuel
          (updatePathSegmentsOutlineData.stateAfter normalized path n k).1
          (updatePathSegmentsOutlineData.stateAfter normalized path n k).2.1
          (updatePathSegmentsOutlineData.stateAfter normalized path n k).2.2.1
          (updatePathSegmentsOutlineData.stateAfter normalized path n k).2.2.2 := by
  intro k
  induction k generalizing fuel with
  | zero => rfl
  | succ k ih =>
    have e : fuel + (k + 1) = (fuel + 1) + k := by omega
    rw [e, ih (fuel + 1), outlineLoop_iteration]
    rfl

theorem iteration_invariant (normalized : QVector2D → QVector2D) (path : QPainterPath)
    (n : Nat) (st : Nat × List (List PathDataPoint) × List PathDataPoint × Nat)
    (h : st.2.2.1 ≠ []) :
    (updatePathSegmentsOutlineData.iteration normalized path n st).2.2.1 ≠ []
      ∧ (st.1 < path.elementCount →
        st.1 + 1 ≤ (updatePathSegmentsOutlineData.iteration normalized path n st).1) := by
  unfold updatePathSegmentsOutlineData.iteration
  by_cases hi : st.1 < path.elementCount
  · simp only [hi, if_true]
    cases (path.elementAt st.1).type
    · exact ⟨by simp, fun _ => le_refl _⟩
    · exact ⟨by simp, fun _ => le_refl _⟩
    · refine ⟨?_, fun _ => by show st.1 + 1 ≤ st.1 + 2 + 1; omega⟩
      intro h0
      have hl := congrArg List.length h0
      rw [List.length_append, setLastTangent_length] at hl
      have := List.length_pos.mpr h
      simp only [List.length_nil] at hl
      omega
    · exact ⟨h, fun _ => le_refl _⟩
  · simp only [hi, if_false]
    exact ⟨h, fun h' => h'.elim⟩

theorem stateAfter_invariant (normalized : QVector2D → QVector2D) (path : QPainterPath)
    (n : Nat) : ∀ k : Nat,
    (updatePathSegmentsOutlineData.stateAfter normalized path n k).2.2.1 ≠ []
      ∧ (k + 1 ≤ (updatePathSegmentsOutlineData.stateAfter normalized path n k).1
        ∨ path.elementCount ≤ (updatePathSegmentsOutlineData.stateAfter normalized path n k).1)
    := by
  intro k
  induction k with
  | zero => exact ⟨by simp [updatePathSegmentsOutlineData.stateAfter], Or.inl (le_refl _)⟩
  | succ k ih =>
    have hinv := iteration_invariant normalized path n
      (updatePathSegmentsOutlineData.stateAfter normalized path n k) ih.1
    refine ⟨hinv.1, ?_⟩
    by_cases hi : (updatePathSegmentsOutlineData.stateAfter normalized path n k).1
        < path.elementCount
    · left
      have h1 := hinv.2 hi
      rcases ih.2 with h2 | h2
      · show k + 1 + 1 ≤ (updatePathSegmentsOutlineData.iteration normalized path n
          (updatePathSegmentsOutlineData.stateAfter normalized path n k)).1
        omega
      · omega
    · right
      show path.elementCount ≤ (updatePathSegmentsOutlineData.iteration normalized path n
          (updatePathSegmentsOutlineData.stateAfter normalized path n k)).1
      unfold updatePathSegmentsOutlineData.iteration
      simp only [hi, if_false]
      omega

theorem outlineLoop_curve_step (normalized : QVector2D → QVector2D) (path : QPainterPath)
    (n fuel i : Nat) (outline : List (List PathDataPoint)) (pre : List PathDataPoint)
    (x : PathDataPoint) (currentStepIndex : Nat) (hi : i < path.elementCount)
    (ht : (path.elementAt i).type = ElementType.CurveToElement) :
    updatePathSegmentsOutlineData.loop normalized path n (fuel + 1) i outline (pre ++ [x])
        currentStepIndex
      = updatePathSegmentsOutlineData.loop normalized path n fuel (i + 3) outline
          (pre ++ [{ x with tangent := (cubicBezierTangent normalized x.point
              ⟨(path.elementAt i).x, (path.elementAt i).y⟩
              ⟨(path.elementAt (i + 1)).x, (path.elementAt (i + 1)).y⟩
              ⟨(path.elementAt (i + 2)).x, (path.elementAt (i + 2)).y⟩ 0) }]
            ++ updatePathSegmentsOutlineData.samples normalized x.point
              ⟨(path.elementAt i).x, (path.elementAt i).y⟩
              ⟨(path.elementAt (i + 1)).x, (path.elementAt (i + 1)).y⟩
              ⟨(path.elementAt (i + 2)).x, (path.elementAt (i + 2)).y⟩ n currentStepIndex n 1)
          (currentStepIndex + 1) := by
  conv_lhs => unfold updatePathSegmentsOutlineData.loop
  simp only [hi, if_true, ht]
  rw [at_last_append, setLastTangent_append]

theorem at_append_at_length (A B : List PathDataPoint) (x : PathDataPoint) :
    QVector.at (A ++ [x] ++ B) A.length = x := by
  simp only [QVector.at, List.getD_eq_getElem?_getD, List.append_assoc]
  rw [List.getElem?_append_right (le_refl _)]
  simp

theorem at_append_offset (A B C : List PathDataPoint) (m : Nat) (h : m < B.length) :
    QVector.at (A ++ B ++ C) (A.length + m) = QVector.at B m := by
  simp only [QVector.at, List.getD_eq_getElem?_getD, List.append_assoc]
  rw [List.getElem?_append_right (by omega)]
  simp only [Nat.add_sub_cancel_left]
  rw [List.getElem?_append_left h]

end RiveQtPath

namespace RiveQtPath

/-- On the path of two cubics with segment count 2, the record of the point `(4, 4)`, which
is the sample of the first cubic for `t = 2/2`, is stored with the tangent `(0, -1)`: the
tangent of the second cubic at `t = 0`, not the tangent `(1, 0)` of the first cubic at
`t = 2/2`. The stand-in for `normalized` keeps the contract of `QVector2D::normalized` at
both derivative vectors. -/
theorem flattener_last_sample_takes_next_tangent :
    ((updatePathSegmentsOutlineData referenceNormalized
          { initial with m_qPainterPath := twoCubicsPath, m_segmentCount := 2 }
        ).m_pathSegmentsOutlineData.map fun records => records.map fun d => (d.point, d.tangent))
      = [[(⟨0, 0⟩, ⟨0, 1⟩), (⟨5 / 4, 11 / 4⟩, ⟨9 / 2, 9 / 2⟩), (⟨4, 4⟩, ⟨0, -1⟩),
          (⟨21 / 4, 5 / 4⟩, ⟨9 / 2, -9 / 2⟩), (⟨8, 0⟩, ⟨1, 0⟩)]]
      ∧ cubicBezier ⟨0, 0⟩ ⟨0, 2⟩ ⟨2, 4⟩ ⟨4, 4⟩ ((2 : ℚ) / 2) = ⟨4, 4⟩
      ∧ cubicBezierTangent referenceNormalized ⟨0, 0⟩ ⟨0, 2⟩ ⟨2, 4⟩ ⟨4, 4⟩ ((2 : ℚ) / 2) = ⟨1, 0⟩
      ∧ cubicBezierTangent referenceNormalized ⟨4, 4⟩ ⟨4, 2⟩ ⟨6, 0⟩ ⟨8, 0⟩ 0 = ⟨0, -1⟩
      ∧ (QVector.at (updatePathSegmentsOutlineData referenceNormalized
            { initial with m_qPainterPath := twoCubicsPath, m_segmentCount := 2 }
          ).m_pathSegmentsOutlineData.flatten 2).tangent
        ≠ cubicBezierTangent referenceNormalized ⟨0, 0⟩ ⟨0, 2⟩ ⟨2, 4⟩ ⟨4, 4⟩ ((2 : ℚ) / 2)
      ∧ IsUnitVectorOf (cubicBezierDerivative ⟨0, 0⟩ ⟨0, 2⟩ ⟨2, 4⟩ ⟨4, 4⟩ ((2 : ℚ) / 2))
          (referenceNormalized (cubicBezierDerivative ⟨0, 0⟩ ⟨0, 2⟩ ⟨2, 4⟩ ⟨4, 4⟩ ((2 : ℚ) / 2)))
      ∧ IsUnitVectorOf (cubicBezierDerivative ⟨4, 4⟩ ⟨4, 2⟩ ⟨6, 0⟩ ⟨8, 0⟩ 0)
          (referenceNormalized (cubicBezierDerivative ⟨4, 4⟩ ⟨4, 2⟩ ⟨6, 0⟩ ⟨8, 0⟩ 0)) := by
  refine ⟨by decide!, by decide!, by decide!, by decide!, by decide!, ?_, ?_⟩
  · have hd : cubicBezierDerivative ⟨0, 0⟩ ⟨0, 2⟩ ⟨2, 4⟩ ⟨4, 4⟩ ((2 : ℚ) / 2) = ⟨6, 0⟩ := by
      decide!
    have hr : referenceNormalized ⟨6, 0⟩ = ⟨1, 0⟩ := by decide!
    rw [hd, hr]
    refine ⟨fun h => absurd h (by decide!), fun _ => ⟨by decide!, 1 / 6, by norm_num, ?_⟩⟩
    norm_num
  · have hd : cubicBezierDerivative ⟨4, 4⟩ ⟨4, 2⟩ ⟨6, 0⟩ ⟨8, 0⟩ 0 = ⟨0, -6⟩ := by decide!
    have hr : referenceNormalized ⟨0, -6⟩ = ⟨0, -1⟩ := by decide!
    rw [hd, hr]
    refine ⟨fun h => absurd h (by decide!), fun _ => ⟨by decide!, 1 / 6, by norm_num, ?_⟩⟩
    norm_num

/-- C33: for every cubic and every `t`, both coordinates of `cubicBezier` have the
coordinates of `cubicBezierDerivative` as their derivative at `t`, and
`cubicBezierTangent` is `normalized` applied to that derivative, hence of unit length in
its direction (the zero vector when it vanishes) wherever `normalized` keeps its contract.
When the element loop of `updatePathSegmentsOutlineData`, after any number `k` of passes,
stands at a `CurveToElement` with segment count `n ≥ 1`, the data stored at the end of the
function, read as one list of records, hold at the place of the last record before the
cubic its start point with the tangent at `t = 0`, at the `j`-th place after it
(`1 ≤ j < n`) the point and the tangent at `t = j/n`, and at the `n`-th place after it the
end point of the cubic; the tangent stored there is the tangent at `t = 1` when no element
follows the cubic or a move or a line follows it, and is the tangent of the next cubic at
its `t = 0` when another `CurveToElement` follows. -/
theorem flattener_stored_tangents (normalized : QVector2D → QVector2D) (s : RiveQtPath)
    (k i : Nat) (outline : List (List PathDataPoint)) (pathDataEnhanced : List PathDataPoint)
    (currentStepIndex : Nat)
    (hn : 1 ≤ s.m_segmentCount)
    (hst : updatePathSegmentsOutlineData.stateAfter normalized s.m_qPainterPath
        s.m_segmentCount k = (i, outline, pathDataEnhanced, currentStepIndex))
    (hi : i < s.m_qPainterPath.elementCount)
    (ht : (s.m_qPainterPath.elementAt i).type = ElementType.CurveToElement) :
    (∀ (p0 c1 c2 p3 : QVector2D) (t : ℚ),
      HasDerivAt (fun u : ℚ => (cubicBezier p0 c1 c2 p3 u).x)
          (cubicBezierDerivative p0 c1 c2 p3 t).x t
        ∧ HasDerivAt (fun u : ℚ => (cubicBezier p0 c1 c2 p3 u).y)
          (cubicBezierDerivative p0 c1 c2 p3 t).y t
        ∧ cubicBezierTangent normalized p0 c1 c2 p3 t
          = normalized (cubicBezierDerivative p0 c1 c2 p3 t)
        ∧ (IsUnitVectorOf (cubicBezierDerivative p0 c1 c2 p3 t)
              (normalized (cubicBezierDerivative p0 c1 c2 p3 t)) →
            IsUnitVectorOf (cubicBezierDerivative p0 c1 c2 p3 t)
              (cubicBezierTangent normalized p0 c1 c2 p3 t)))
    ∧ (QVector.at (updatePathSegmentsOutlineData normalized s).m_pathSegmentsOutlineData.flatten
          (outline.flatten.length + (pathDataEnhanced.length - 1))).point
        = (QVector.at pathDataEnhanced (pathDataEnhanced.length - 1)).point
    ∧ (QVector.at (updatePathSegmentsOutlineData normalized s).m_pathSegmentsOutlineData.flatten
          (outline.flatten.length + (pathDataEnhanced.length - 1))).tangent
        = cubicBezierTangent normalized
            (QVector.at pathDataEnhanced (pathDataEnhanced.length - 1)).point
            ⟨(s.m_qPainterPath.elementAt i).x, (s.m_qPainterPath.elementAt i).y⟩
            ⟨(s.m_qPainterPath.elementAt (i + 1)).x, (s.m_qPainterPath.elementAt (i + 1)).y⟩
            ⟨(s.m_qPainterPath.elementAt (i + 2)).x, (s.m_qPainterPath.elementAt (i + 2)).y⟩ 0
    ∧ (∀ j : Nat, 1 ≤ j → j < s.m_segmentCount →
        (QVector.at
            (updatePathSegmentsOutlineData normalized s).m_pathSegmentsOutlineData.flatten
            (outline.flatten.length + (pathDataEnhanced.length - 1) + j)).point
          = cubicBezier (QVector.at pathDataEnhanced (pathDataEnhanced.length - 1)).point
              ⟨(s.m_qPainterPath.elementAt i).x, (s.m_qPainterPath.elementAt i).y⟩
              ⟨(s.m_qPainterPath.elementAt (i + 1)).x, (s.m_qPainterPath.elementAt (i + 1)).y⟩
              ⟨(s.m_qPainterPath.elementAt (i + 2)).x, (s.m_qPainterPath.elementAt (i + 2)).y⟩
              ((j : ℚ) / (s.m_segmentCount : ℚ))
        ∧ (QVector.at
            (updatePathSegmentsOutlineData normalized s).m_pathSegmentsOutlineData.flatten
            (outline.flatten.length + (pathDataEnhanced.length - 1) + j)).tangent
          = cubicBezierTangent normalized
              (QVector.at pathDataEnhanced (pathDataEnhanced.length - 1)).point
              ⟨(s.m_qPainterPath.elementAt i).x, (s.m_qPainterPath.elementAt i).y⟩
              ⟨(s.m_qPainterPath.elementAt (i + 1)).x, (s.m_qPainterPath.elementAt (i + 1)).y⟩
              ⟨(s.m_qPainterPath.elementAt (i + 2)).x, (s.m_qPainterPath.elementAt (i + 2)).y⟩
              ((j : ℚ) / (s.m_segmentCount : ℚ)))
    ∧ (QVector.at (updatePathSegmentsOutlineData normalized s).m_pathSegmentsOutlineData.flatten
          (outline.flatten.length + (pathDataEnhanced.length - 1) + s.m_segmentCount)).point
        = ⟨(s.m_qPainterPath.elementAt (i + 2)).x, (s.m_qPainterPath.elementAt (i + 2)).y⟩
    ∧ ((¬ i + 3 < s.m_qPainterPath.elementCount
          ∨ (s.m_qPainterPath.elementAt (i + 3)).type = ElementType.MoveToElement
          ∨ (s.m_qPainterPath.elementAt (i + 3)).type = ElementType.LineToElement) →
        (QVector.at
            (updatePathSegmentsOutlineData normalized s).m_pathSegmentsOutlineData.flatten
            (outline.flatten.length + (pathDataEnhanced.length - 1) + s.m_segmentCount)).tangent
          = cubicBezierTangent normalized
              (QVector.at pathDataEnhanced (pathDataEnhanced.length - 1)).point
              ⟨(s.m_qPainterPath.elementAt i).x, (s.m_qPainterPath.elementAt i).y⟩
              ⟨(s.m_qPainterPath.elementAt (i + 1)).x, (s.m_qPainterPath.elementAt (i + 1)).y⟩
              ⟨(s.m_qPainterPath.elementAt (i + 2)).x, (s.m_qPainterPath.elementAt (i + 2)).y⟩
              1)
    ∧ ((i + 3 < s.m_qPainterPath.elementCount
          ∧ (s.m_qPainterPath.elementAt (i + 3)).type = ElementType.CurveToElement) →
        (QVector.at
            (updatePathSegmentsOutlineData normalized s).m_pathSegmentsOutlineData.flatten
            (outline.flatten.length + (pathDataEnhanced.length - 1) + s.m_segmentCount)).tangent
          = cubicBezierTangent normalized
              ⟨(s.m_qPainterPath.elementAt (i + 2)).x, (s.m_qPainterPath.elementAt (i + 2)).y⟩
              ⟨(s.m_qPainterPath.elementAt (i + 3)).x, (s.m_qPainterPath.elementAt (i + 3)).y⟩
              ⟨(s.m_qPainterPath.elementAt (i + 3 + 1)).x,
                (s.m_qPainterPath.elementAt (i + 3 + 1)).y⟩
              ⟨(s.m_qPainterPath.elementAt (i + 3 + 2)).x,
                (s.m_qPainterPath.elementAt (i + 3 + 2)).y⟩ 0) := by
  refine ⟨fun p0 c1 c2 p3 t => ⟨cubicBezier_hasDerivAt_x p0 c1 c2 p3 t,
      cubicBezier_hasDerivAt_y p0 c1 c2 p3 t, cubicBezierTangent_eq normalized p0 c1 c2 p3 t,
      fun h => by rw [cubicBezierTangent_eq]; exact h⟩, ?_⟩
  -- the state is one the run passes through
  have hinv := stateAfter_invariant normalized s.m_qPainterPath s.m_segmentCount k
  rw [hst] at hinv
  have hne : pathDataEnhanced ≠ [] := hinv.1
  have hki : k + 1 ≤ i := by
    rcases hinv.2 with h | h
    · exact h
    · exact absurd hi (by show ¬ i < s.m_qPainterPath.elementCount; omega)
  have hempty : s.m_qPainterPath.isEmpty = false := by
    have hc : 2 ≤ s.m_qPainterPath.elements.length := by
      have : s.m_qPainterPath.elementCount = s.m_qPainterPath.elements.length := rfl
      omega
    unfold QPainterPath.isEmpty
    match hm : s.m_qPainterPath.elements with
    | [] => rw [hm] at hc; simp at hc
    | [e] => rw [hm] at hc; simp at hc
    | _ :: _ :: _ => rfl
  obtain ⟨fuel, hfuel⟩ : ∃ fuel, s.m_qPainterPath.elementCount = fuel + 1 + k :=
    ⟨s.m_qPainterPath.elementCount - k - 1, by omega⟩
  have hrun := outlineLoop_stateAfter normalized s.m_qPainterPath s.m_segmentCount (fuel + 1) k
  rw [← hfuel, hst] at hrun
  have hF : (updatePathSegmentsOutlineData normalized s).m_pathSegmentsOutlineData
      = (updatePathSegmentsOutlineData.loop normalized s.m_qPainterPath s.m_segmentCount
            (fuel + 1) i outline pathDataEnhanced currentStepIndex).1
        ++ [(updatePathSegmentsOutlineData.loop normalized s.m_qPainterPath s.m_segmentCount
            (fuel + 1) i outline pathDataEnhanced currentStepIndex).2] := by
    unfold updatePathSegmentsOutlineData
    simp only [hempty]
    exact congrArg (fun st => st.1 ++ [st.2]) hrun
  rw [hF]
  -- the pass at the cubic
  obtain ⟨pre, x, rfl⟩ := (List.eq_nil_or_concat _).resolve_left hne
  rw [List.concat_eq_append] at hst hrun hF ⊢
  rw [at_last_append]
  have hbase : outline.flatten.length + ((pre ++ [x]).length - 1)
      = (outline.flatten ++ pre).length := by simp
  rw [hbase, outlineLoop_curve_step normalized s.m_qPainterPath s.m_segmentCount fuel i outline
    pre x currentStepIndex hi ht]
  generalize hT0 : cubicBezierTangent normalized x.point
      ⟨(s.m_qPainterPath.elementAt i).x, (s.m_qPainterPath.elementAt i).y⟩
      ⟨(s.m_qPainterPath.elementAt (i + 1)).x, (s.m_qPainterPath.elementAt (i + 1)).y⟩
      ⟨(s.m_qPainterPath.elementAt (i + 2)).x, (s.m_qPainterPath.elementAt (i + 2)).y⟩ 0 = T0
  have hSlen := samples_length normalized x.point
      ⟨(s.m_qPainterPath.elementAt i).x, (s.m_qPainterPath.elementAt i).y⟩
      ⟨(s.m_qPainterPath.elementAt (i + 1)).x, (s.m_qPainterPath.elementAt (i + 1)).y⟩
      ⟨(s.m_qPainterPath.elementAt (i + 2)).x, (s.m_qPainterPath.elementAt (i + 2)).y⟩
      s.m_segmentCount currentStepIndex s.m_segmentCount 1
  have hSat := samples_at normalized x.point
      ⟨(s.m_qPainterPath.elementAt i).x, (s.m_qPainterPath.elementAt i).y⟩
      ⟨(s.m_qPainterPath.elementAt (i + 1)).x, (s.m_qPainterPath.elementAt (i + 1)).y⟩
      ⟨(s.m_qPainterPath.elementAt (i + 2)).x, (s.m_qPainterPath.elementAt (i + 2)).y⟩
      s.m_segmentCount currentStepIndex s.m_segmentCount 1
  generalize updatePathSegmentsOutlineData.samples normalized x.point
      ⟨(s.m_qPainterPath.elementAt i).x, (s.m_qPainterPath.elementAt i).y⟩
      ⟨(s.m_qPainterPath.elementAt (i + 1)).x, (s.m_qPainterPath.elementAt (i + 1)).y⟩
      ⟨(s.m_qPainterPath.elementAt (i + 2)).x, (s.m_qPainterPath.elementAt (i + 2)).y⟩
      s.m_segmentCount currentStepIndex s.m_segmentCount 1 = S at hSlen hSat ⊢
  have hS : S ≠ [] := by
    intro h0
    rw [h0] at hSlen
    simp only [List.length_nil] at hSlen
    omega
  obtain ⟨init, last, rfl⟩ := (List.eq_nil_or_concat _).resolve_left hS
  rw [List.concat_eq_append] at hSlen hSat ⊢
  have hinit : init.length + 1 = s.m_segmentCount := by simpa using hSlen
  have hlast : last = ⟨cubicBezier x.point
        ⟨(s.m_qPainterPath.elementAt i).x, (s.m_qPainterPath.elementAt i).y⟩
        ⟨(s.m_qPainterPath.elementAt (i + 1)).x, (s.m_qPainterPath.elementAt (i + 1)).y⟩
        ⟨(s.m_qPainterPath.elementAt (i + 2)).x, (s.m_qPainterPath.elementAt (i + 2)).y⟩ 1,
      cubicBezierTangent normalized x.point
        ⟨(s.m_qPainterPath.elementAt i).x, (s.m_qPainterPath.elementAt i).y⟩
        ⟨(s.m_qPainterPath.elementAt (i + 1)).x, (s.m_qPainterPath.elementAt (i + 1)).y⟩
        ⟨(s.m_qPainterPath.elementAt (i + 2)).x, (s.m_qPainterPath.elementAt (i + 2)).y⟩ 1,
      currentStepIndex⟩ := by
    have h := hSat init.length (by omega)
    have hl : QVector.at (init ++ [last]) init.length = last := by
      simp [QVector.at, List.getD_eq_getElem?_getD]
    rw [hl] at h
    have hq : (((1 + init.length : Nat) : ℚ) / (s.m_segmentCount : ℚ)) = 1 := by
      have e : 1 + init.length = s.m_segmentCount := by omega
      rw [e]
      exact div_self (by exact_mod_cast (show s.m_segmentCount ≠ 0 by omega))
    rw [hq] at h
    exact h
  have hre : pre ++ [{ x with tangent := T0 }] ++ (init ++ [last])
      = (pre ++ [{ x with tangent := T0 }] ++ init) ++ [last] := by
    simp [List.append_assoc]
  rw [hre]
  obtain ⟨x', rest, hflat, hp, _, hkeep, hnext⟩ := outlineLoop_keeps_records normalized
    s.m_qPainterPath s.m_segmentCount hn fuel (i + 3) outline
    (pre ++ [{ x with tangent := T0 }] ++ init) last (currentStepIndex + 1) (by simp)
  rw [hflat]
  have hA : outline.flatten ++ (pre ++ [{ x with tangent := T0 }] ++ init) ++ [x'] ++ rest
      = (outline.flatten ++ pre) ++ [{ x with tangent := T0 }] ++ (init ++ [x'] ++ rest) := by
    simp [List.append_assoc]
  have hB : outline.flatten ++ (pre ++ [{ x with tangent := T0 }] ++ init) ++ [x'] ++ rest
      = (outline.flatten ++ pre ++ [{ x with tangent := T0 }]) ++ init ++ ([x'] ++ rest) := by
    simp [List.append_assoc]
  have hC : outline.flatten ++ (pre ++ [{ x with tangent := T0 }] ++ init) ++ [x'] ++ rest
      = (outline.flatten ++ pre ++ [{ x with tangent := T0 }] ++ init) ++ [x'] ++ rest := by
    simp [List.append_assoc]
  have hend : QVector.at
      (outline.flatten ++ (pre ++ [{ x with tangent := T0 }] ++ init) ++ [x'] ++ rest)
      ((outline.flatten ++ pre).length + s.m_segmentCount) = x' := by
    have hl : (outline.flatten ++ pre).length + s.m_segmentCount
        = (outline.flatten ++ pre ++ [{ x with tangent := T0 }] ++ init).length := by
      simp only [List.length_append, List.length_singleton]
      omega
    rw [hC, hl, at_append_at_length]
  have hfuelpos : i + 3 < s.m_qPainterPath.elementCount → 0 < fuel := by
    intro h; omega
  refine ⟨?_, ?_, ?_, ?_, ?_, ?_⟩
  · rw [hA, at_append_at_length]
  · rw [hA, at_append_at_length]
  · intro j hj1 hj2
    have hl : (outline.flatten ++ pre).length + j
        = (outline.flatten ++ pre ++ [{ x with tangent := T0 }]).length + (j - 1) := by
      simp only [List.length_append, List.length_singleton]
      omega
    have h := hSat (j - 1) (by omega)
    have hj : 1 + (j - 1) = j := by omega
    have hl2 : QVector.at (init ++ [last]) (j - 1) = QVector.at init (j - 1) := by
      simp only [QVector.at, List.getD_eq_getElem?_getD]
      rw [List.getElem?_append_left (by omega)]
    rw [hj, hl2] at h
    rw [hB, hl, at_append_offset _ _ _ _ (by omega), h]
    exact ⟨rfl, rfl⟩
  · rw [hend, hp, hlast]
    exact cubicBezier_at_one _ _ _ _
  · intro h
    rw [hend, hkeep (by
      rcases h with h | h | h
      · exact Or.inr (Or.inl h)
      · exact Or.inr (Or.inr (Or.inl h))
      · exact Or.inr (Or.inr (Or.inr h))), hlast]
  · intro h
    rw [hend, hnext ⟨hfuelpos h.1, h.1, h.2⟩, hlast]
    show cubicBezierTangent normalized (cubicBezier x.point _ _ _ 1) _ _ _ 0 = _
    rw [cubicBezier_at_one]

theorem flattener_stored_tangents_witness :
    1 ≤ ({ initial with m_qPainterPath := twoCubicsPath, m_segmentCount := 2 } : RiveQtPath
        ).m_segmentCount
      ∧ updatePathSegmentsOutlineData.stateAfter referenceNormalized twoCubicsPath 2 0
        = (1, [], [⟨⟨0, 0⟩, ⟨0, 0⟩, 0⟩], 0)
      ∧ 1 < twoCubicsPath.elementCount
      ∧ (twoCubicsPath.elementAt 1).type = ElementType.CurveToElement
      ∧ (QVector.at (updatePathSegmentsOutlineData referenceNormalized
            { initial with m_qPainterPath := twoCubicsPath, m_segmentCount := 2 }
          ).m_pathSegmentsOutlineData.flatten 0).tangent = ⟨0, 1⟩
      ∧ (QVector.at (updatePathSegmentsOutlineData referenceNormalized
            { initial with m_qPainterPath := twoCubicsPath, m_segmentCount := 2 }
          ).m_pathSegmentsOutlineData.flatten 1).point = ⟨5 / 4, 11 / 4⟩
      ∧ (QVector.at (updatePathSegmentsOutlineData referenceNormalized
            { initial with m_qPainterPath := twoCubicsPath, m_segmentCount := 2 }
          ).m_pathSegmentsOutlineData.flatten 2).point = ⟨4, 4⟩
      ∧ (QVector.at (updatePathSegmentsOutlineData referenceNormalized
            { initial with m_qPainterPath := twoCubicsPath, m_segmentCount := 2 }
          ).m_pathSegmentsOutlineData.flatten 2).tangent = ⟨0, -1⟩ :=
  have h1 : 1 ≤ ({ initial with m_qPainterPath := twoCubicsPath, m_segmentCount := 2 }
      : RiveQtPath).m_segmentCount := by decide
  have h2 : updatePathSegmentsOutlineData.stateAfter referenceNormalized twoCubicsPath 2 0
      = (1, [], [⟨⟨0, 0⟩, ⟨0, 0⟩, 0⟩], 0) := by decide!
  have h3 : 1 < twoCubicsPath.elementCount := by decide
  have h4 : (twoCubicsPath.elementAt 1).type = ElementType.CurveToElement := rfl
  have h := flattener_stored_tangents referenceNormalized
    { initial with m_qPainterPath := twoCubicsPath, m_segmentCount := 2 } 0 1 []
    [⟨⟨0, 0⟩, ⟨0, 0⟩, 0⟩] 0 h1 h2 h3 h4
  ⟨h1, h2, h3, h4, h.2.2.1.trans (by decide!), (h.2.2.2.1 1 (le_refl 1) (by decide)).1.trans
      (by decide!), h.2.2.2.2.1.trans (by decide!),
    (h.2.2.2.2.2.2 ⟨by decide, rfl⟩).trans (by decide!)⟩

end RiveQtPath
